import Mathlib

/-!
# Cooperative task scheduler (`task.c`) and its time base (`timing.c`)

A shallow embedding of the task management module and of the millisecond
clock it depends on, followed by theorems about them.

Conventions of the embedding

* The capacity `MAX_TASK_LENGTH` is a build-time constant (`#ifndef` in
  `task.h`, default 20); every operation takes it as its first argument `N`.
* `int16_t` values are `Int`, `uint32_t` (`tint_t`) values are `Nat`; arithmetic
  that can leave the range is wrapped explicitly (`wrap16`, `add32`, `sub32`).
* Function pointers are natural numbers; `DEFAULT_TASK` and
  `DEFAULT_INPUT_TASK` are `0` in their respective pointer types.
* The globals `tasks`, `ms_time`, `rollover_time`, `total_time` and the two
  `static` locals of `SystemTick` are the fields of `Machine`; `trace` is a
  ghost field recording every callback `SystemTick` invokes, oldest first.
* The release build is modelled (`DEBUGGING` undefined): `RETURN_OR_STOP` is a
  plain `return`, `RESET_OR_STOP` resets the device (`Fault.reset`).
* Callbacks are opaque: invoking one appends to `trace` and does not touch the
  scheduler. The clock is constant during one operation; the timer interrupt
  is a separate step (`TimingInterrupt`, or any assignment to `ms_time`).
-/

namespace TaskFx

/-! ## Constants and machine arithmetic -/

/-- Priority value of a free slot, also the list terminator (`#define TASK_DONE -1`). -/
def TASK_DONE : Int := -1

/-- Lowest named priority (`#define TASK_NO_PRIORITY 0`). -/
def TASK_NO_PRIORITY : Int := 0

/-- `next` value of a slot waiting to be linked into the queue. -/
def TASK_LINK_QUEUE : Int := -2

/-- `count` value of a slot waiting to be removed from the queue. -/
def TASK_UNLINK_QUEUE : Int := -6

/-- `next` value of a slot waiting to be linked into the schedule. -/
def TASK_LINK_SCHEDULE : Int := -3

/-- `count` value of a slot waiting to be removed from the schedule. -/
def TASK_UNLINK_SCHEDULE : Int := -5

/-- Function pointer stored in `void_fn` of a slot that has no nullary callback. -/
def DEFAULT_TASK : Nat := 0

/-- Function pointer stored in `fn` of a slot that has no input callback. -/
def DEFAULT_INPUT_TASK : Nat := 0

/-- Largest clock value (`#define TIME_MAX 0xFFFFFFFF`). -/
def TIME_MAX : Nat := 0xFFFFFFFF

/-- Waiting time after which the maintenance pass raises a priority. -/
def TASK_BUMP_PRIORITY_TIME : Nat := 500

/-- Period of the maintenance pass in milliseconds. -/
def SERVICE_TASKS_PERIOD : Nat := 100

/-- Two's-complement narrowing to `int16_t`. -/
def wrap16 (x : Int) : Int := (x + 32768) % 65536 - 32768

/-- Addition of `uint32_t`. -/
def add32 (a b : Nat) : Nat := (a + b) % 4294967296

/-- Subtraction of `uint32_t` (operands below `2^32`). -/
def sub32 (a b : Nat) : Nat := (a + 4294967296 - b) % 4294967296

/-! ## Data model -/

/-- One slot of the pool (`task_t`). -/
structure task_t where
  void_fn : Nat
  fn : Nat
  input : Nat
  next : Int
  previous : Int
  priority : Int
  time : Nat
  period : Nat
  count : Int
  deriving DecidableEq

/-- Accumulated time carried across forced rollovers (`timestruct_t`). -/
structure timestruct_t where
  ms : Nat
  sec : Nat
  min : Nat
  hr : Nat
  deriving DecidableEq

/-- A callback invocation observed during `SystemTick`. -/
inductive Call where
  | input (fn : Nat) (arg : Nat)
  | void (fn : Nat)
  deriving DecidableEq

/-- Ways in which an operation fails to return to its caller. -/
inductive Fault where
  | reset
  | hang
  | outOfBounds
  | fuel
  deriving DecidableEq

/-- The globals of `task.c` and `timing.c`. -/
structure Machine where
  task : Nat → task_t
  first : Int
  last : Int
  available : Int
  length : Int
  to_link : Int
  max_length : Int
  sch_first : Int
  sch_last : Int
  sch_length : Int
  sch_to_link : Int
  ms_time : Nat
  rollover_time : Nat
  total_time : timestruct_t
  last_time : Nat
  service_tasks_time : Nat
  trace : List Call

/-- Overwrite slot `i`. -/
def setTask (s : Machine) (i : Nat) (t : task_t) : Machine :=
  { s with task := fun j => if j = i then t else s.task j }

/-- Apply `f` to slot `i`. -/
def modTask (s : Machine) (i : Nat) (f : task_t → task_t) : Machine :=
  setTask s i (f (s.task i))

/-- The test `0 <= i && i < MAX_TASK_LENGTH` guarding an array access. -/
def validIdx (N : Nat) (i : Int) : Prop := 0 ≤ i ∧ i < (N : Int)

instance (N : Nat) (i : Int) : Decidable (validIdx N i) := by
  unfold validIdx; infer_instance

/-! ## Time base (`timing.c`) -/

/-- The timer interrupt: one millisecond has passed. -/
def TimingInterrupt (s : Machine) : Machine :=
  { s with ms_time := add32 s.ms_time 1 }

/-- `TimingInit`: set the rollover time and clear the accumulated time. -/
def TimingInit (s : Machine) : Machine :=
  { s with rollover_time := TIME_MAX, total_time := ⟨0, 0, 0, 0⟩ }

/-- `TimeNow`. -/
def TimeNow (s : Machine) : Nat := s.ms_time

/-- `TimeSince`. -/
def TimeSince (s : Machine) (time : Nat) : Nat :=
  if time ≤ s.ms_time then s.ms_time - time
  else add32 s.ms_time (add32 1 (sub32 s.rollover_time time))

/-- `TimerRoll`: fold the clock into the accumulated time and restart it. -/
def TimerRoll (s : Machine) : Machine :=
  let r := s.ms_time
  let hr := r / 3600000
  let mn := ((r - hr * 3600000) / 60000) % 256
  let sc := ((r - hr * 3600000 - mn * 60000) / 1000) % 256
  let ms := (r - hr * 3600000 - mn * 60000 - sc * 1000) % 65536
  let t := s.total_time
  let t := { t with ms := (t.ms + ms) % 65536 }
  let t := if 1000 ≤ t.ms then { t with ms := t.ms - 1000, sec := (t.sec + 1) % 256 } else t
  let t := { t with sec := (t.sec + sc) % 256 }
  let t := if 60 ≤ t.sec then { t with sec := t.sec - 60, min := (t.min + 1) % 256 } else t
  let t := { t with min := (t.min + mn) % 256 }
  let t := if 60 ≤ t.min then { t with min := t.min - 60, hr := add32 t.hr 1 } else t
  let t := { t with hr := add32 t.hr hr }
  { s with rollover_time := r, total_time := t, ms_time := 0 }

/-! ## Task pool (`task.c`) -/

/-- The fields written when a slot is cleared (`priority`, both callbacks, `input`). -/
def clearTask (t : task_t) : task_t :=
  { t with priority := TASK_DONE, void_fn := DEFAULT_TASK, fn := DEFAULT_INPUT_TASK, input := 0 }

/-- The loop of `TerminateAllTasks` over slots `i, i+1, ...` (`k` slots left). -/
def clearAll : Nat → Nat → Machine → Machine
  | 0, _, s => s
  | k + 1, i, s => clearAll k (i + 1) (modTask s i clearTask)

/-- `TerminateAllTasks`: empty both lists and clear every slot. -/
def TerminateAllTasks (N : Nat) (s : Machine) : Machine :=
  clearAll N 0 { s with first := -1, last := -1, sch_first := -1, sch_last := -1,
                        available := 0, length := 0, sch_length := 0, max_length := 0 }

/-- `TaskInit` (logging and permanent tasks are not configured). -/
def TaskInit (N : Nat) (s : Machine) : Machine := TerminateAllTasks N s

/-- The first loop of `GetAvailableTask`: lowest free slot among `i, ..., i+k-1`. -/
def firstFree (s : Machine) : Nat → Nat → Option Nat
  | 0, _ => none
  | k + 1, i => if (s.task i).priority = TASK_DONE then some i else firstFree s k (i + 1)

/-- `GetAvailableTask`. -/
def GetAvailableTask (N : Nat) (priority : Int) (s : Machine) : Machine :=
  match firstFree s N 0 with
  | some i => { s with available := (i : Int) }
  | none =>
    if validIdx N s.last then
      let l := s.last.toNat
      if (s.task l).priority < priority ∧ (s.task l).period = 0 then
        if s.first ≠ s.last then
          let s1 := { s with available := s.last }
          let s2 := { s1 with last := (s1.task l).previous }
          if validIdx N s2.last then modTask s2 l (fun t => { t with next := TASK_DONE })
          else s2
        else s
      else s
    else s

/-- Outcome of the tail-to-head scan of `QueueTask` and `ScheduleTask`. -/
inductive Scan where
  | front (i : Nat)
  | after (i : Nat)
  | reset
  | hang
  deriving DecidableEq

/-- The `while (1)` loop of `QueueTask`, which only reads until it breaks.
A loop that visits `N + 1` valid slots has visited one twice and never ends. -/
def QueueTask_scan (N : Nat) (s : Machine) (index : Nat) : Nat → Int → Scan
  | 0, _ => .hang
  | fuel + 1, i =>
    if validIdx N i then
      if (s.task index).priority > (s.task i.toNat).priority then
        if (s.task i.toNat).previous < 0 then .front i.toNat
        else QueueTask_scan N s index fuel (s.task i.toNat).previous
      else .after i.toNat
    else .reset

/-- The writes of the branch that makes `index` the new first element. -/
def linkFront (s : Machine) (index i : Nat) : Machine :=
  let s := modTask s i (fun t => { t with previous := (index : Int) })
  let s := modTask s index (fun t => { t with previous := -1 })
  modTask s index (fun t => { t with next := (i : Int) })

/-- The first three writes of the branch that inserts `index` after slot `i`. -/
def linkAfter (s : Machine) (index i : Nat) : Machine :=
  let s := modTask s index (fun t => { t with next := (s.task i).next })
  let s := modTask s index (fun t => { t with previous := (i : Int) })
  modTask s i (fun t => { t with next := (index : Int) })

/-- `QueueTask`. -/
def QueueTask (N : Nat) (index : Int) (s : Machine) : Except Fault Machine :=
  if validIdx N index then
    let x := index.toNat
    if (s.task x).priority = TASK_DONE then .ok s
    else
      let s := if (s.task x).next < -1 then modTask s x (fun t => { t with next := -1 }) else s
      if s.length = 0 ∨ s.first < 0 ∨ s.last < 0 then
        let s := { s with length := 0, first := index, last := index }
        let s := modTask s x (fun t => { t with next := -1, previous := -1 })
        .ok { s with length := wrap16 (s.length + 1) }
      else
        match QueueTask_scan N s x (N + 1) s.last with
        | .reset => .error .reset
        | .hang => .error .hang
        | .front i =>
          let s := linkFront { s with first := index } x i
          .ok { s with length := wrap16 (s.length + 1) }
        | .after i =>
          let s := linkAfter s x i
          let n := (s.task x).next
          let s :=
            if n < 0 then { s with last := index }
            else if n < (N : Int) then modTask s n.toNat (fun t => { t with previous := index })
            else s
          .ok { s with length := wrap16 (s.length + 1) }
  else .error .reset

/-- `UnQueueTask`. The range test admits `MAX_TASK_LENGTH` itself, for which
`tasks.task[this_task_i]` lies outside the array. -/
def UnQueueTask (N : Nat) (this_task_i : Int) (s : Machine) : Except Fault Machine :=
  if this_task_i < 0 ∨ this_task_i > (N : Int) then .ok s
  else if this_task_i = (N : Int) then .error .outOfBounds
  else
    let x := this_task_i.toNat
    if (s.task x).priority = TASK_DONE then .ok s
    else
      let p := (s.task x).previous
      let n := (s.task x).next
      let s := modTask s x (fun t => { clearTask t with count := TASK_DONE })
      let s := { s with length := wrap16 (s.length - 1) }
      let s :=
        if validIdx N p then
          let s := modTask s p.toNat (fun t => { t with next := n })
          if n < 0 then { s with last := p } else s
        else { s with first := n }
      let s :=
        if validIdx N n then
          let s := modTask s n.toNat (fun t => { t with previous := p })
          if p < 0 then { s with first := n } else s
        else { s with last := p }
      .ok s

/-- The loop of `RollTimer` over slots `i, i+1, ...` (`k` slots left). -/
def rollAll (now : Nat) : Nat → Nat → Machine → Machine
  | 0, _, s => s
  | k + 1, i, s =>
    rollAll now k (i + 1)
      (if (s.task i).priority ≠ TASK_DONE ∧ (s.task i).time > now
       then modTask s i (fun t => { t with time := t.time - now }) else s)

/-- `RollTimer`. -/
def RollTimer (N : Nat) (s : Machine) : Machine :=
  TimerRoll (rollAll (TimeNow s) N 0 s)

/-- The `while (1)` loop of `ScheduleTask`; same shape as `QueueTask_scan`,
comparing due times. -/
def ScheduleTask_scan (N : Nat) (s : Machine) (index : Nat) : Nat → Int → Scan
  | 0, _ => .hang
  | fuel + 1, i =>
    if validIdx N i then
      if (s.task index).time < (s.task i.toNat).time then
        if (s.task i.toNat).previous < 0 then .front i.toNat
        else ScheduleTask_scan N s index fuel (s.task i.toNat).previous
      else .after i.toNat
    else .reset

/-- The insertion part of `ScheduleTask`, after the rollover check: link slot
`index` into the schedule by due time. -/
def ScheduleTask_insert (N : Nat) (index : Int) (s : Machine) : Except Fault Machine :=
  let x := index.toNat
  if s.sch_length = 0 then
    let s := { s with sch_first := index, sch_last := index }
    let s := modTask s x (fun t => { t with next := -1, previous := -1 })
    .ok { s with sch_length := wrap16 (s.sch_length + 1) }
  else
    match ScheduleTask_scan N s x (N + 1) s.sch_last with
    | .reset => .error .reset
    | .hang => .error .hang
    | .front i =>
      let s := linkFront { s with sch_first := index } x i
      .ok { s with sch_length := wrap16 (s.sch_length + 1) }
    | .after i =>
      let s := linkAfter s x i
      let n := (s.task x).next
      let s :=
        if n < 0 then { s with sch_last := index }
        else if n < (N : Int) then modTask s n.toNat (fun t => { t with previous := index })
        else s
      .ok { s with sch_length := wrap16 (s.sch_length + 1) }

/-- `ScheduleTask`. -/
def ScheduleTask (N : Nat) (index : Int) (s : Machine) : Except Fault Machine :=
  if validIdx N index then
    let x := index.toNat
    if (s.task x).priority = TASK_DONE then .ok s
    else
      let s := if (s.task x).next < -1 then modTask s x (fun t => { t with next := -1 }) else s
      let s :=
        if (s.task x).time < TIME_MAX / 2 ∧ TimeNow s > TIME_MAX / 2 then
          RollTimer N (modTask s x (fun t => { t with time := add32 t.time (TIME_MAX - TimeNow s) }))
        else s
      ScheduleTask_insert N index s
  else .error .reset

/-- `UnScheduleTask`. -/
def UnScheduleTask (N : Nat) (this_task_i : Int) (s : Machine) : Machine :=
  if validIdx N this_task_i then
    let x := this_task_i.toNat
    if (s.task x).priority = TASK_DONE then s
    else
      let p := (s.task x).previous
      let n := (s.task x).next
      let s := modTask s x (fun t => { clearTask t with count := TASK_DONE })
      let s := { s with sch_length := wrap16 (s.sch_length - 1) }
      let s :=
        if validIdx N p then
          let s := modTask s p.toNat (fun t => { t with next := n })
          if n < 0 then { s with sch_last := p } else s
        else { s with sch_first := n }
      let s :=
        if validIdx N n then
          let s := modTask s n.toNat (fun t => { t with previous := p })
          if p < 0 then { s with sch_first := n } else s
        else { s with sch_last := p }
      s
  else s

/-- `TaskQueueAdd`. -/
def TaskQueueAdd (N : Nat) (fn : Nat) (priority : Int) (s : Machine) : Machine :=
  let s := if s.available < 0 then GetAvailableTask N priority s else s
  let i := s.available
  if validIdx N i then
    let s := { s with available := -1 }
    let s := modTask s i.toNat (fun t => { t with priority := priority })
    let s := modTask s i.toNat (fun t => { t with void_fn := fn, time := TimeNow s, period := 0 })
    let s := { s with to_link := if s.to_link = TASK_DONE then i else TASK_LINK_QUEUE }
    modTask s i.toNat (fun t => { t with next := TASK_LINK_QUEUE })
  else s

/-- `TaskInputQueueAdd`. -/
def TaskInputQueueAdd (N : Nat) (fn input : Nat) (priority : Int) (s : Machine) : Machine :=
  let s := if s.available < 0 then GetAvailableTask N priority s else s
  let i := s.available
  if validIdx N i then
    let s := { s with available := -1 }
    let s := modTask s i.toNat (fun t => { t with priority := priority })
    let s := modTask s i.toNat
      (fun t => { t with fn := fn, input := input, time := TimeNow s, period := 0 })
    let s := { s with to_link := if s.to_link = TASK_DONE then i else TASK_LINK_QUEUE }
    modTask s i.toNat (fun t => { t with next := TASK_LINK_QUEUE })
  else s

/-- `TaskScheduleAddCount`. -/
def TaskScheduleAddCount (N : Nat) (fn : Nat) (priority : Int) (delay period : Nat)
    (count : Int) (s : Machine) : Except Fault Machine :=
  let s := if s.available < 0 then GetAvailableTask N priority s else s
  if validIdx N s.available then
    let i := s.available.toNat
    let s := { s with sch_to_link :=
                if s.sch_to_link = TASK_DONE then s.available else TASK_LINK_SCHEDULE }
    let s := { s with available := -1 }
    let s := modTask s i (fun t => { t with priority := priority })
    let s := modTask s i
      (fun t => { t with void_fn := fn, time := add32 (TimeNow s) delay, period := period,
                         count := count, next := TASK_LINK_SCHEDULE })
    .ok (GetAvailableTask N TASK_NO_PRIORITY s)
  else .error .reset

/-- `TaskInputScheduleAddCount`. -/
def TaskInputScheduleAddCount (N : Nat) (fn input : Nat) (priority : Int) (delay period : Nat)
    (count : Int) (s : Machine) : Except Fault Machine :=
  let s := if s.available < 0 then GetAvailableTask N priority s else s
  if validIdx N s.available then
    let i := s.available.toNat
    let s := { s with sch_to_link :=
                if s.sch_to_link = TASK_DONE then s.available else TASK_LINK_SCHEDULE }
    let s := { s with available := -1 }
    let s := modTask s i (fun t => { t with priority := priority })
    let s := modTask s i
      (fun t => { t with fn := fn, input := input, time := add32 (TimeNow s) delay,
                         period := period, count := count, next := TASK_LINK_SCHEDULE })
    .ok (GetAvailableTask N TASK_NO_PRIORITY s)
  else .error .reset

/-- `TaskScheduleAdd`: repeat without bound. -/
def TaskScheduleAdd (N : Nat) (fn : Nat) (priority : Int) (delay period : Nat)
    (s : Machine) : Except Fault Machine :=
  TaskScheduleAddCount N fn priority delay period (-1) s

/-- The loop of `RemoveTaskFromQueue`. It changes no link, so a walk over
`N + 1` valid slots repeats one and never ends. -/
def RemoveTaskFromQueue_loop (N : Nat) (fn : Nat) : Nat → Int → Machine → Except Fault Machine
  | 0, _, _ => .error .hang
  | fuel + 1, i, s =>
    if validIdx N i then
      let n := (s.task i.toNat).next
      let s :=
        if (s.task i.toNat).void_fn = fn then
          let s := modTask s i.toNat (fun t => { t with count := TASK_UNLINK_QUEUE })
          { s with to_link := if s.to_link = TASK_DONE then i else TASK_LINK_QUEUE }
        else s
      RemoveTaskFromQueue_loop N fn fuel n s
    else .ok s

/-- `RemoveTaskFromQueue`. -/
def RemoveTaskFromQueue (N : Nat) (fn : Nat) (s : Machine) : Except Fault Machine :=
  RemoveTaskFromQueue_loop N fn (N + 1) s.first s

/-- The loop of `RemoveTaskFromSchedule`. -/
def RemoveTaskFromSchedule_loop (N : Nat) (fn : Nat) :
    Nat → Int → Machine → Except Fault Machine
  | 0, _, _ => .error .hang
  | fuel + 1, i, s =>
    if validIdx N i then
      let n := (s.task i.toNat).next
      let s :=
        if (s.task i.toNat).void_fn = fn then
          let s := modTask s i.toNat (fun t => { t with count := TASK_UNLINK_SCHEDULE })
          { s with sch_to_link := if s.sch_to_link = TASK_DONE then i else TASK_LINK_SCHEDULE }
        else s
      RemoveTaskFromSchedule_loop N fn fuel n s
    else .ok s

/-- `RemoveTaskFromSchedule`. -/
def RemoveTaskFromSchedule (N : Nat) (fn : Nat) (s : Machine) : Except Fault Machine :=
  RemoveTaskFromSchedule_loop N fn (N + 1) s.sch_first s

/-- The body of the `for` loop of `RemoveTask` for one slot. -/
def RemoveTask_slot (fn : Nat) (t : task_t) : task_t :=
  if t.void_fn = fn then
    let t := { t with void_fn := DEFAULT_TASK }
    if t.priority ≥ 0 then
      let t := if t.next = TASK_LINK_QUEUE then { t with count := TASK_UNLINK_QUEUE } else t
      if t.next = TASK_LINK_SCHEDULE then { t with count := TASK_UNLINK_SCHEDULE } else t
    else t
  else t

/-- The `for` loop of `RemoveTask` over slots `i, i+1, ...` (`k` slots left). -/
def RemoveTask_all (fn : Nat) : Nat → Nat → Machine → Machine
  | 0, _, s => s
  | k + 1, i, s => RemoveTask_all fn k (i + 1) (modTask s i (RemoveTask_slot fn))

/-- `RemoveTask`. -/
def RemoveTask (N : Nat) (fn : Nat) (s : Machine) : Except Fault Machine :=
  (RemoveTaskFromQueue N fn s).bind fun s =>
  (RemoveTaskFromSchedule N fn s).bind fun s => .ok (RemoveTask_all fn N 0 s)

/-- The `for` loop of `ChangePriority` over slots `i, i+1, ...` (`k` slots left). -/
def ChangePriority_all (fn : Nat) (priority : Int) : Nat → Nat → Machine → Machine
  | 0, _, s => s
  | k + 1, i, s =>
    ChangePriority_all fn priority k (i + 1)
      (if (s.task i).void_fn = fn then modTask s i (fun t => { t with priority := priority })
       else s)

/-- `ChangePriority`. -/
def ChangePriority (N : Nat) (fn : Nat) (priority : Int) (s : Machine) : Machine :=
  ChangePriority_all fn priority N 0 s

/-- One `while` loop of `IsTaskScheduled`; `k` is `MAX_TASK_LENGTH - j`. -/
def IsTaskScheduled_loop (N : Nat) (fn : Nat) (s : Machine) : Nat → Int → Except Fault Bool
  | 0, _ => .ok false
  | k + 1, i =>
    if validIdx N i then
      if (s.task i.toNat).void_fn = fn then .ok true
      else if k = 0 then .error .reset
      else IsTaskScheduled_loop N fn s k (s.task i.toNat).next
    else .ok false

/-- `IsTaskScheduled`: `1` when found in the schedule or in the queue, else `0`. -/
def IsTaskScheduled (N : Nat) (fn : Nat) (s : Machine) : Except Fault Nat :=
  match IsTaskScheduled_loop N fn s N s.sch_first with
  | .error e => .error e
  | .ok true => .ok 1
  | .ok false =>
    match IsTaskScheduled_loop N fn s N s.first with
    | .error e => .error e
    | .ok true => .ok 1
    | .ok false => .ok 0

/-- Resolve the queue-side flags of slot `i`: link it when `next` says so, then
unlink it when `count` says so. -/
def resolveQueue (N : Nat) (i : Nat) (s : Machine) : Except Fault Machine :=
  (if (s.task i).next = TASK_LINK_QUEUE then QueueTask N i s else .ok s).bind fun s =>
  if (s.task i).count = TASK_UNLINK_QUEUE then UnQueueTask N i s else .ok s

/-- The scan of the whole pool for queue-side flags (`k` slots left). -/
def resolveQueueAll (N : Nat) : Nat → Nat → Machine → Except Fault Machine
  | 0, _, s => .ok s
  | k + 1, i, s => (resolveQueue N i s).bind (resolveQueueAll N k (i + 1))

/-- First block of `SystemTick`: read and clear `to_link`, resolve what it names. -/
def tickLinkQueue (N : Nat) (s : Machine) : Except Fault Machine :=
  if s.to_link ≠ TASK_DONE then
    let i := s.to_link
    let s := { s with to_link := TASK_DONE }
    if validIdx N i then resolveQueue N i.toNat s
    else resolveQueueAll N N 0 s
  else .ok s

/-- What `SystemTick` does with the slot `i` of the task it has just run:
schedule it again when it is periodic with repetitions left, clear it otherwise. -/
def tickRun_dispose (N : Nat) (i : Int) (s : Machine) : Except Fault Machine :=
  let x := i.toNat
  if (s.task x).period > 0 ∧ (s.task x).count ≠ 0 then
    let s := if (s.task x).count > 0
             then modTask s x (fun t => { t with count := t.count - 1 }) else s
    if (s.task x).count < TASK_DONE then
      let s := modTask s x clearTask
      let s := { s with available := i }
      .ok (modTask s x (fun t => { t with count := TASK_DONE }))
    else
      ScheduleTask N i (modTask s x (fun t => { t with time := add32 t.time t.period }))
  else
    let s := modTask s x clearTask
    .ok { s with available := i }

/-- The bookkeeping that ends the run step: `max_length`, `length--`, and
`last` when the queue has become empty. -/
def tickRun_account (s : Machine) : Machine :=
  let s := if s.length + s.sch_length > s.max_length
           then { s with max_length := wrap16 (s.length + s.sch_length) } else s
  let s := { s with length := wrap16 (s.length - 1) }
  if s.length < 1 then { s with last := TASK_DONE } else s

/-- Second block of `SystemTick`: run the first task of the queue and either
re-schedule it or clear its slot. -/
def tickRun (N : Nat) (s : Machine) : Except Fault Machine :=
  let i := s.first
  if validIdx N i then
    let x := i.toNat
    let s := { s with trace := s.trace ++
                [Call.input (s.task x).fn (s.task x).input, Call.void (s.task x).void_fn] }
    let s := { s with first := (s.task x).next }
    let s := if validIdx N s.first
             then modTask s s.first.toNat (fun t => { t with previous := TASK_DONE }) else s
    match tickRun_dispose N i s with
    | .error e => .error e
    | .ok s => .ok (tickRun_account s)
  else .ok s

/-- Resolve the schedule-side flags of slot `i`. -/
def resolveSchedule (N : Nat) (i : Nat) (s : Machine) : Except Fault Machine :=
  (if (s.task i).next = TASK_LINK_SCHEDULE then ScheduleTask N i s else .ok s).bind fun s =>
  .ok (if (s.task i).count = TASK_UNLINK_SCHEDULE then UnScheduleTask N i s else s)

/-- The scan of the whole pool for schedule-side flags (`k` slots left). -/
def resolveScheduleAll (N : Nat) : Nat → Nat → Machine → Except Fault Machine
  | 0, _, s => .ok s
  | k + 1, i, s => (resolveSchedule N i s).bind (resolveScheduleAll N k (i + 1))

/-- Third block of `SystemTick`: read and clear `sch_to_link`, resolve what it names. -/
def tickLinkSchedule (N : Nat) (s : Machine) : Except Fault Machine :=
  if s.sch_to_link ≠ TASK_DONE then
    let i := s.sch_to_link
    let s := { s with sch_to_link := TASK_DONE }
    if validIdx N i then resolveSchedule N i.toNat s
    else resolveScheduleAll N N 0 s
  else .ok s

/-- One round of the promotion loop up to the call of `QueueTask`: unlink the
first scheduled slot `i` from the schedule. -/
def promote_pop (N : Nat) (i : Int) (s : Machine) : Machine :=
  let s := { s with sch_first := (s.task i.toNat).next }
  let s := if validIdx N s.sch_first
           then modTask s s.sch_first.toNat (fun t => { t with previous := TASK_DONE })
           else s
  let s := { s with sch_length := wrap16 (s.sch_length - 1) }
  if s.sch_length < 1 then { s with sch_last := TASK_DONE } else s

/-- The promotion loop of `SystemTick`: move the first scheduled task to the
queue while it is due. The first argument bounds the number of loop tests;
`Fault.fuel` reports that the bound was reached. -/
def promote (N : Nat) : Nat → Machine → Except Fault Machine
  | 0, _ => .error .fuel
  | fuel + 1, s =>
    if validIdx N s.sch_first then
      if (s.task s.sch_first.toNat).time > TimeNow s then .ok s
      else
        match QueueTask N s.sch_first (promote_pop N s.sch_first s) with
        | .error e => .error e
        | .ok s => promote N fuel s
    else .ok s

/-- The body of the first loop of `ServiceTasks` for slot `i`. -/
def ServiceTasks_slot (N : Nat) (i : Nat) (s : Machine) : Except Fault Machine :=
  if (s.task i).priority ≥ 0 then
    (if (s.task i).next = TASK_LINK_QUEUE then QueueTask N i s else .ok s).bind fun s =>
    (if (s.task i).next = TASK_LINK_SCHEDULE then ScheduleTask N i s else .ok s).bind fun s =>
    if (s.task i).period > 0 ∧ s.first ≠ (i : Int) ∧ s.sch_first ≠ (i : Int)
        ∧ (s.task i).next = TASK_DONE ∧ (s.task i).previous = TASK_DONE then
      ScheduleTask N i (modTask s i (fun t => { t with time := add32 (TimeNow s) t.period }))
    else .ok s
  else .ok s

/-- The first loop of `ServiceTasks` over slots `i, i+1, ...` (`k` slots left). -/
def ServiceTasks_all (N : Nat) : Nat → Nat → Machine → Except Fault Machine
  | 0, _, s => .ok s
  | k + 1, i, s => (ServiceTasks_slot N i s).bind (ServiceTasks_all N k (i + 1))

/-- The priority-raising loop of `ServiceTasks`, from the last queued task
backwards; it returns after `MAX_TASK_LENGTH + 1` rounds (`k` rounds left). -/
def ServiceTasks_bump (N : Nat) : Nat → Int → Machine → Machine
  | 0, _, s => s
  | k + 1, i, s =>
    if validIdx N i then
      let s := if TimeSince s (s.task i.toNat).time > TASK_BUMP_PRIORITY_TIME
               then modTask s i.toNat (fun t => { t with priority := wrap16 (t.priority + 1) })
               else s
      ServiceTasks_bump N k (s.task i.toNat).previous s
    else s

/-- `ServiceTasks` (with `TASK_BUMP_PRIORITY_TIME` defined, as in `task.h`). -/
def ServiceTasks (N : Nat) (s : Machine) : Except Fault Machine :=
  (ServiceTasks_all N N 0 s).bind fun s => .ok (ServiceTasks_bump N (N + 1) s.last s)

/-- Fourth block of `SystemTick`, entered when the clock has changed since the
last call: promote the due tasks, then run the maintenance pass when due. -/
def tickPromote (N : Nat) (s : Machine) : Except Fault Machine :=
  if TimeNow s ≠ s.last_time then
    (promote N (N + 1) { s with last_time := TimeNow s }).bind fun s =>
    if TimeSince s s.service_tasks_time > SERVICE_TASKS_PERIOD then
      ServiceTasks N { s with service_tasks_time := TimeNow s }
    else .ok s
  else .ok s

/-- `SystemTick`. -/
def SystemTick (N : Nat) (s : Machine) : Except Fault Machine :=
  (tickLinkQueue N s).bind fun s =>
  (tickRun N s).bind fun s =>
  (tickLinkSchedule N s).bind (tickPromote N)

/-- The memory image at power-up: every global is zero. -/
def boot : Machine :=
  { task := fun _ => ⟨0, 0, 0, 0, 0, 0, 0, 0, 0⟩
    first := 0, last := 0, available := 0, length := 0, to_link := 0, max_length := 0
    sch_first := 0, sch_last := 0, sch_length := 0, sch_to_link := 0
    ms_time := 0, rollover_time := 0, total_time := ⟨0, 0, 0, 0⟩
    last_time := 0, service_tasks_time := 0, trace := [] }

/-! ## Abstraction of the two linked lists -/

/-- The slots reached from `i` by following `next`, at most `fuel` of them. -/
def walk (N : Nat) (s : Machine) : Nat → Int → List Nat
  | 0, _ => []
  | fuel + 1, i =>
    if validIdx N i then i.toNat :: walk N s fuel (s.task i.toNat).next else []

/-- The members of the Ready Queue: the traversal from `tasks.first` along `next`. -/
def queueList (N : Nat) (s : Machine) : List Nat := walk N s (N + 1) s.first

/-- The members of the Schedule: the traversal from `tasks.sch_first` along `next`. -/
def scheduleList (N : Nat) (s : Machine) : List Nat := walk N s (N + 1) s.sch_first

/-- First element of `l` as a link value, `n` when `l` is empty. -/
def hd (l : List Nat) (n : Int) : Int :=
  match l with
  | [] => n
  | a :: _ => (a : Int)

/-- Last element of `l` as a link value, `p` when `l` is empty. -/
def lst : List Nat → Int → Int
  | [], p => p
  | a :: r, _ => lst r (a : Int)

/-- `Chain t p l n`: the slots of `l` are linked to each other in this order by
`next` and `previous`; the first one has `previous = p`, the last `next = n`. -/
def Chain (t : Nat → task_t) : Int → List Nat → Int → Prop
  | _, [], _ => True
  | p, a :: r, n => (t a).previous = p ∧ (t a).next = hd r n ∧ Chain t (a : Int) r n

instance Chain.decidable (t : Nat → task_t) : ∀ (p : Int) (l : List Nat) (n : Int),
    Decidable (Chain t p l n)
  | _, [], _ => isTrue trivial
  | _, a :: r, n =>
    have := Chain.decidable t (a : Int) r n
    by unfold Chain; infer_instance

/-- `IsList N t first last len l`: the list anchored at `first`/`last` with
recorded length `len` is the acyclic doubly-linked list of the slots `l`. -/
structure IsList (N : Nat) (t : Nat → task_t) (first last len : Int) (l : List Nat) : Prop where
  nodup : l.Nodup
  lt : ∀ i ∈ l, i < N
  chain : Chain t (-1) l (-1)
  first_eq : first = hd l (-1)
  last_eq : last = lst l (-1)
  len_eq : len = (l.length : Int)

/-- `Lists N s q sch`: the Ready Queue of `s` is `q`, its Schedule is `sch`,
no slot is in both and every member is in use. -/
structure Lists (N : Nat) (s : Machine) (q sch : List Nat) : Prop where
  queue : IsList N s.task s.first s.last s.length q
  sched : IsList N s.task s.sch_first s.sch_last s.sch_length sch
  disj : ∀ i ∈ q, i ∉ sch
  used : ∀ i, i ∈ q ∨ i ∈ sch → (s.task i).priority ≠ TASK_DONE

/-- The common shape of the two insertion scans: `before i` holds when the new
slot goes before slot `i`. -/
def scanBy (N : Nat) (s : Machine) (before : Nat → Prop) [DecidablePred before] :
    Nat → Int → Scan
  | 0, _ => .hang
  | fuel + 1, i =>
    if validIdx N i then
      if before i.toNat then
        if (s.task i.toNat).previous < 0 then .front i.toNat
        else scanBy N s before fuel (s.task i.toNat).previous
      else .after i.toNat
    else .reset

/-- The fields of a slot other than its two links agree. -/
def sameData (a b : task_t) : Prop :=
  a.void_fn = b.void_fn ∧ a.fn = b.fn ∧ a.input = b.input ∧ a.priority = b.priority ∧
    a.time = b.time ∧ a.period = b.period ∧ a.count = b.count

/-- The globals outside the slot array and the anchors of the two lists agree. -/
structure SameRest (s s' : Machine) : Prop where
  available : s'.available = s.available
  to_link : s'.to_link = s.to_link
  max_length : s'.max_length = s.max_length
  sch_to_link : s'.sch_to_link = s.sch_to_link
  ms_time : s'.ms_time = s.ms_time
  rollover_time : s'.rollover_time = s.rollover_time
  total_time : s'.total_time = s.total_time
  last_time : s'.last_time = s.last_time
  service_tasks_time : s'.service_tasks_time = s.service_tasks_time
  trace : s'.trace = s.trace

/-- The fields of a slot other than its links and its due time agree. -/
def sameIdent (a b : task_t) : Prop :=
  a.void_fn = b.void_fn ∧ a.fn = b.fn ∧ a.input = b.input ∧ a.priority = b.priority ∧
    a.period = b.period ∧ a.count = b.count

/-- The globals outside the slot array, the list anchors and the clock agree. -/
structure SameCtl (s s' : Machine) : Prop where
  available : s'.available = s.available
  to_link : s'.to_link = s.to_link
  max_length : s'.max_length = s.max_length
  sch_to_link : s'.sch_to_link = s.sch_to_link
  last_time : s'.last_time = s.last_time
  service_tasks_time : s'.service_tasks_time = s.service_tasks_time
  trace : s'.trace = s.trace

/-- What the run step does to the slot `h` it has run: clear it, or schedule it again. -/
def RunOutcome (s s' : Machine) (sch sch' : List Nat) (h : Nat) : Prop :=
  ((s'.task h).priority = TASK_DONE ∧ (s'.task h).void_fn = DEFAULT_TASK ∧
      (s'.task h).fn = DEFAULT_INPUT_TASK ∧ (s'.task h).input = 0 ∧ sch' = sch ∧
      s'.available = (h : Int) ∧ s'.ms_time = s.ms_time ∧
      (¬ ((s.task h).period > 0 ∧ (s.task h).count ≠ 0) ∨ (s.task h).count < TASK_DONE) ∧
      (∀ a, a ≠ h → sameData (s'.task a) (s.task a))) ∨
  ((∀ a, a ∈ sch' ↔ a = h ∨ a ∈ sch) ∧
      (s'.task h).priority = (s.task h).priority ∧ (s'.task h).void_fn = (s.task h).void_fn ∧
      (s'.task h).fn = (s.task h).fn ∧ (s'.task h).input = (s.task h).input ∧
      (s'.task h).period = (s.task h).period ∧ (s.task h).period > 0 ∧
      (s.task h).count ≠ 0 ∧ TASK_DONE ≤ (s.task h).count ∧
      (s'.task h).count
        = (if (s.task h).count > 0 then (s.task h).count - 1 else (s.task h).count) ∧
      s'.available = s.available ∧
      (¬ (add32 (s.task h).time (s.task h).period < TIME_MAX / 2 ∧ TimeNow s > TIME_MAX / 2) →
        (s'.task h).time = add32 (s.task h).time (s.task h).period ∧
        s'.ms_time = s.ms_time ∧ s'.rollover_time = s.rollover_time ∧
        s'.total_time = s.total_time ∧
        ∀ a, a ≠ h → (s'.task a).time = (s.task a).time))

/-- Slot `a` is left alone by a resolution step on the list `l`: its identity
fields are unchanged, it stays in or out of the list, and outside the list its
`next` (where a pending link is flagged) is unchanged. -/
def Kept (s s' : Machine) (l l' : List Nat) (a : Nat) : Prop :=
  sameIdent (s'.task a) (s.task a) ∧ (a ∈ l' ↔ a ∈ l) ∧
    (a ∉ l → (s'.task a).next = (s.task a).next)

/-- Slot `a` has been resolved with respect to the list `l`, for the flag values
`link` (in `next`) and `unlink` (in `count`): a free slot stays free, a slot
flagged for removal is now free, any other slot keeps its identity fields and is
a member exactly when it was one or was flagged for linking. -/
def Resolved (link unlink : Int) (s s' : Machine) (l l' : List Nat) (a : Nat) : Prop :=
  ((s.task a).priority = TASK_DONE → (s'.task a).priority = TASK_DONE) ∧
  ((s.task a).priority ≠ TASK_DONE → (s.task a).count = unlink →
    (s'.task a).priority = TASK_DONE) ∧
  ((s.task a).priority ≠ TASK_DONE → (s.task a).count ≠ unlink →
    sameIdent (s'.task a) (s.task a) ∧ (a ∈ l' ↔ a ∈ l ∨ (s.task a).next = link) ∧
    (a ∉ l → (s.task a).next ≠ link → (s'.task a).next = (s.task a).next))

/-- The removal and link flags of the list `l` are consistent: a slot in use
that is flagged for removal (`count = unlink`) is a member of `l` or is waiting
to be linked into it (`next = link`), and whenever a slot in use carries either
flag the marker is set and, when it names one slot, names that slot. -/
def FlagsOK (N : Nat) (link unlink marker : Int) (s : Machine) (l : List Nat) : Prop :=
  ∀ a, a < N → (s.task a).priority ≠ TASK_DONE →
    ((s.task a).count = unlink → a ∈ l ∨ (s.task a).next = link) ∧
    ((s.task a).next = link ∨ (s.task a).count = unlink →
      marker ≠ TASK_DONE ∧ (validIdx N marker → marker = (a : Int)))

/-- Every slot in use has a priority in `0 .. 32767`. -/
def PrioOK (N : Nat) (s : Machine) : Prop :=
  ∀ a, a < N → (s.task a).priority ≠ TASK_DONE →
    0 ≤ (s.task a).priority ∧ (s.task a).priority ≤ 32767

/-- A well-formed pool: the traversals from `first` and `sch_first` are two
disjoint, acyclic, correctly anchored doubly-linked lists of slots in use; the
priorities in use are non-negative `int16_t` values; every slot in use is in one
of the lists or waits to be linked into one; the flags of both lists are
consistent with their markers `to_link` and `sch_to_link`. -/
structure WellFormed (N : Nat) (s : Machine) : Prop where
  cap : N ≤ 32767
  lists : Lists N s (queueList N s) (scheduleList N s)
  prio : PrioOK N s
  owned : ∀ a, a < N → (s.task a).priority ≠ TASK_DONE →
    a ∈ queueList N s ∨ a ∈ scheduleList N s ∨
      (s.task a).next = TASK_LINK_QUEUE ∨ (s.task a).next = TASK_LINK_SCHEDULE
  queueFlags : FlagsOK N TASK_LINK_QUEUE TASK_UNLINK_QUEUE s.to_link s (queueList N s)
  schedFlags :
    FlagsOK N TASK_LINK_SCHEDULE TASK_UNLINK_SCHEDULE s.sch_to_link s (scheduleList N s)

/-- No slot has acquired a callback between `s` and `s'`: each slot holds the
nullary callback it held, or the default one; nothing has been invoked. -/
def voidMono (s s' : Machine) : Prop :=
  (∀ a, (s'.task a).void_fn = (s.task a).void_fn ∨ (s'.task a).void_fn = DEFAULT_TASK) ∧
    s'.trace = s.trace

/-- What can happen to the pool between two observations: a call of
`SystemTick`, a timer interrupt, or one of the calls of the interface that
takes a nullary callback. -/
inductive Event where
  | tick
  | interrupt
  | queueAdd (fn : Nat) (priority : Int)
  | scheduleAdd (fn : Nat) (priority : Int) (delay period : Nat) (count : Int)
  | remove (fn : Nat)
  | changePriority (fn : Nat) (priority : Int)

/-- The effect of one event. -/
def Event.step (N : Nat) : Event → Machine → Except Fault Machine
  | .tick, s => SystemTick N s
  | .interrupt, s => .ok (TimingInterrupt s)
  | .queueAdd g p, s => .ok (TaskQueueAdd N g p s)
  | .scheduleAdd g p d P c, s => TaskScheduleAddCount N g p d P c s
  | .remove g, s => RemoveTask N g s
  | .changePriority g p, s => .ok (ChangePriority N g p s)

/-- The effect of a sequence of events, stopping at the first fault. -/
def runEvents (N : Nat) : List Event → Machine → Except Fault Machine
  | [], s => .ok s
  | e :: r, s => (e.step N s).bind (runEvents N r)

/-- The state after `k` timer interrupts: the clock has advanced by `k` ms. -/
def advance : Nat → Machine → Machine
  | 0, s => s
  | k + 1, s => advance k (TimingInterrupt s)

/-- The pool is draining a queue of one-shot tasks: the Ready Queue is `q`,
its members have no period and no pending removal from the Schedule, every
other slot is free, the Schedule is empty and nothing waits to be linked. -/
structure Draining (N : Nat) (s : Machine) (q : List Nat) : Prop where
  queue : IsList N s.task s.first s.last s.length q
  free : ∀ a, a < N → a ∉ q → (s.task a).priority = TASK_DONE
  oneshot : ∀ a ∈ q, (s.task a).period = 0 ∧ (s.task a).count ≠ TASK_UNLINK_SCHEDULE
  sch_empty : s.sch_first = -1
  to_link : s.to_link = TASK_DONE
  sch_to_link : s.sch_to_link = TASK_DONE ∨ s.sch_to_link = 0

/-- One call of `TaskQueueAdd(fn, priority)`, made `wait` ms after the previous
event. -/
structure Registration where
  fn : Nat
  priority : Int
  wait : Nat

/-- The registrations of the list, made in order on the running clock. -/
def registerAll (N : Nat) : List Registration → Machine → Machine
  | [], s => s
  | r :: rs, s => registerAll N rs (TaskQueueAdd N r.fn r.priority (advance r.wait s))

/-- One call of `SystemTick` per entry of the list, each after the given wait in ms. -/
def tickAll (N : Nat) : List Nat → Machine → Except Fault Machine
  | [], s => .ok s
  | w :: ws, s => (SystemTick N (advance w s)).bind (tickAll N ws)

/-- What the trace records when the nullary callbacks `fns` are run in order,
one per tick: the default input callback, then the callback. -/
def callsOf : List Nat → List Call
  | [] => []
  | f :: r => Call.input DEFAULT_INPUT_TASK 0 :: Call.void f :: callsOf r

/-- Callback of the `i`-th registration. -/
def regFn (regs : List Registration) (i : Nat) : Nat := (regs.getD i ⟨0, 0, 0⟩).fn

/-- Priority of the `i`-th registration. -/
def regPriority (regs : List Registration) (i : Nat) : Int :=
  (regs.getD i ⟨0, 0, 0⟩).priority

/-- The pool after the registrations `regs` on a freshly initialised pool and
before the first tick: slot `i` holds the `i`-th registration and waits to be
linked, the other slots are free and both lists are empty. -/
structure Registered (N : Nat) (regs : List Registration) (s : Machine) : Prop where
  slot : ∀ i, i < regs.length →
    (s.task i).void_fn = regFn regs i ∧ (s.task i).priority = regPriority regs i ∧
    (s.task i).next = TASK_LINK_QUEUE ∧ (s.task i).period = 0 ∧ (s.task i).count = 0 ∧
    (s.task i).fn = DEFAULT_INPUT_TASK ∧ (s.task i).input = 0
  free : ∀ i, regs.length ≤ i → i < N →
    (s.task i).priority = TASK_DONE ∧ (s.task i).count = 0 ∧
    (s.task i).fn = DEFAULT_INPUT_TASK ∧ (s.task i).input = 0
  first : s.first = -1
  last : s.last = -1
  length : s.length = 0
  sch_first : s.sch_first = -1
  sch_last : s.sch_last = -1
  sch_length : s.sch_length = 0
  available : s.available = if regs.length = 0 then 0 else -1
  to_link : s.to_link = if regs.length = 0 then 0 else TASK_LINK_QUEUE
  sch_to_link : s.sch_to_link = 0
  trace : s.trace = []

/-- Registration `a` is to run before registration `b`: it has the higher
priority, or the same priority and was registered first. -/
def runsBefore (regs : List Registration) (a b : Nat) : Prop :=
  regPriority regs b < regPriority regs a ∨
    (regPriority regs a = regPriority regs b ∧ a < b)

/-- The accumulated time in milliseconds. -/
def totalMs (t : timestruct_t) : Nat := t.hr * 3600000 + t.min * 60000 + t.sec * 1000 + t.ms

/-- An accumulated time whose fields below the hour are in range. -/
def Normalised (t : timestruct_t) : Prop := t.ms < 1000 ∧ t.sec < 60 ∧ t.min < 60

instance (t : timestruct_t) : Decidable (Normalised t) := by
  unfold Normalised; infer_instance

/-- The slots handed to `QueueTask` by the promotion loop of `SystemTick`, in
the order of the calls (same loop as `promote`). -/
def promoted (N : Nat) : Nat → Machine → List Nat
  | 0, _ => []
  | fuel + 1, s =>
    if validIdx N s.sch_first then
      if (s.task s.sch_first.toNat).time > TimeNow s then []
      else
        s.sch_first.toNat ::
          match QueueTask N s.sch_first (promote_pop N s.sch_first s) with
          | .error _ => []
          | .ok s => promoted N fuel s
    else []

/-- Slot `c` has no higher priority than slot `p`, when `p` is one of `D`. -/
def NotAbove (s : Machine) (D : List Nat) (p c : Nat) : Prop :=
  p ∈ D → (s.task c).priority ≤ (s.task p).priority

/-- Nothing is registered: every slot of the pool is free with both callbacks
at their defaults and no input, and both lists are empty with length 0. -/
structure Idle (N : Nat) (s : Machine) : Prop where
  free : ∀ a, a < N → (s.task a).priority = TASK_DONE ∧ (s.task a).void_fn = DEFAULT_TASK ∧
    (s.task a).fn = DEFAULT_INPUT_TASK ∧ (s.task a).input = 0
  first : s.first = -1
  last : s.last = -1
  length : s.length = 0
  sch_first : s.sch_first = -1
  sch_last : s.sch_last = -1
  sch_length : s.sch_length = 0

/-- The step `total_time.ms += temp.ms` of `TimerRoll`, with its carry. -/
def addMs (t : timestruct_t) (ms : Nat) : timestruct_t :=
  let t := { t with ms := (t.ms + ms) % 65536 }
  if 1000 ≤ t.ms then { t with ms := t.ms - 1000, sec := (t.sec + 1) % 256 } else t

/-- The step `total_time.sec += temp.sec` of `TimerRoll`, with its carry. -/
def addSec (t : timestruct_t) (sc : Nat) : timestruct_t :=
  let t := { t with sec := (t.sec + sc) % 256 }
  if 60 ≤ t.sec then { t with sec := t.sec - 60, min := (t.min + 1) % 256 } else t

/-- The step `total_time.min += temp.min` of `TimerRoll`, with its carry. -/
def addMin (t : timestruct_t) (mn : Nat) : timestruct_t :=
  let t := { t with min := (t.min + mn) % 256 }
  if 60 ≤ t.min then { t with min := t.min - 60, hr := add32 t.hr 1 } else t

/-- The step `total_time.hr += temp.hr` of `TimerRoll`. -/
def addHr (t : timestruct_t) (hr : Nat) : timestruct_t :=
  { t with hr := add32 t.hr hr }

/-- The condition under which `GetAvailableTask(priority)` drops the last task
of the Ready Queue: no slot is free, and the last queued task is a one-shot task
of lower priority that is not also the first. -/
def Evicts (N : Nat) (priority : Int) (s : Machine) : Prop :=
  firstFree s N 0 = none ∧ validIdx N s.last ∧
    (s.task s.last.toNat).priority < priority ∧ (s.task s.last.toNat).period = 0 ∧
    s.first ≠ s.last

instance (N : Nat) (priority : Int) (s : Machine) : Decidable (Evicts N priority s) := by
  unfold Evicts; infer_instance

/-- What a registration that claims a slot without eviction may change between
`s` and `s'`: the anchors and lengths of both lists, the clock and the trace are
untouched, and at most one slot is written, the claimed one, which is the
pre-located slot when there is one and a free slot otherwise. The remaining
fields, `available` and the two pending markers, are unconstrained. -/
structure RegFrame (N : Nat) (s s' : Machine) : Prop where
  first : s'.first = s.first
  last : s'.last = s.last
  length : s'.length = s.length
  sch_first : s'.sch_first = s.sch_first
  sch_last : s'.sch_last = s.sch_last
  sch_length : s'.sch_length = s.sch_length
  max_length : s'.max_length = s.max_length
  ms_time : s'.ms_time = s.ms_time
  rollover_time : s'.rollover_time = s.rollover_time
  total_time : s'.total_time = s.total_time
  last_time : s'.last_time = s.last_time
  service_tasks_time : s'.service_tasks_time = s.service_tasks_time
  trace : s'.trace = s.trace
  slots : s'.task = s.task ∨ ∃ i, i < N ∧ (0 ≤ s.available → s.available = (i : Int)) ∧
    (s.available < 0 → (s.task i).priority = TASK_DONE) ∧ ∀ a, a ≠ i → s'.task a = s.task a

/-- The first loop of `TaskReSchedule`: walk the Ready Queue and drop every
task with callback `fn` from it, except the first one, whose period is only
cleared. The source loop has no counter; the first argument bounds the number
of rounds and `Fault.fuel` reports that the bound was reached. -/
def TaskReSchedule_queue (N fn : Nat) : Nat → Int → Machine → Except Fault Machine
  | 0, _, _ => .error .fuel
  | fuel + 1, i, s =>
    if i < 0 then .ok s
    else if i > (N : Int) then .ok s
    else if i = (N : Int) then .error .outOfBounds
    else
      let x := i.toNat
      (if (s.task x).void_fn = fn then
          let s := modTask s x (fun t => { t with period := 0 })
          if i ≠ s.first then UnQueueTask N i s else .ok s
        else .ok s).bind fun s =>
      TaskReSchedule_queue N fn fuel (s.task x).next s

/-- The second loop of `TaskReSchedule`: walk the Schedule; the first task with
callback `fn` is taken out, given the new priority, due time and period and
scheduled again, any further one is taken out. The flag is `found`. -/
def TaskReSchedule_schedule (N fn : Nat) (priority : Int) (delay period : Nat) :
    Nat → Int → Bool → Machine → Except Fault (Machine × Bool)
  | 0, _, _, _ => .error .fuel
  | fuel + 1, i, found, s =>
    if i < 0 then .ok (s, found)
    else if i > (N : Int) then .ok (s, found)
    else if i = (N : Int) then .error .outOfBounds
    else
      let x := i.toNat
      (if (s.task x).void_fn = fn then
          if found = false then
            let s := UnScheduleTask N i s
            let s := modTask s x (fun t => { t with priority := priority })
            let s := modTask s x (fun t => { t with time := add32 (TimeNow s) delay })
            let s := modTask s x (fun t => { t with period := period })
            let s := modTask s x (fun t => { t with count := -1 })
            (ScheduleTask N i s).map (fun s => (s, true))
          else .ok (UnScheduleTask N i s, found)
        else .ok (s, found)).bind fun r =>
      TaskReSchedule_schedule N fn priority delay period fuel (r.1.task x).next r.2 r.1

/-- `TaskReSchedule`. -/
def TaskReSchedule (N fn : Nat) (priority : Int) (delay period : Nat) (s : Machine) :
    Except Fault Machine :=
  (TaskReSchedule_queue N fn (N + 1) s.first s).bind fun s =>
  (TaskReSchedule_schedule N fn priority delay period (N + 1) s.sch_first false s).bind fun r =>
  if r.2 = false then TaskScheduleAdd N fn priority delay period r.1 else .ok r.1

/-! ## FIFO buffer (`buffer.c`) -/

/-- The `buffer_t` structure together with the array it manages. Pointers into
the array are indices counted from `buffer_start`; `buffer_end` is
`max_size - 1`. `called` lists the callbacks invoked by `Push`. -/
structure buffer_t where
  size : Nat
  front : Nat
  rear : Nat
  buffer_end : Int
  Callback : Nat
  mem : Nat → Int
  called : List Nat

/-- `BufferInit` over the array `data_array`. -/
def BufferInit (data_array : Nat → Int) (max_size : Nat) : buffer_t :=
  { size := 0, front := 0, rear := 0, buffer_end := (max_size : Int) - 1, Callback := 0,
    mem := data_array, called := [] }

/-- `Push`. `size` is a `uint16_t`: the increment wraps, the decrement is only
executed on a non-zero size. The callback is assumed not to touch the buffer. -/
def Push (b : buffer_t) (data : Int) : buffer_t :=
  let b :=
    if b.front = b.rear ∧ b.size ≠ 0 then
      let b := { b with front := b.front + 1 }
      let b := if (b.front : Int) > b.buffer_end then { b with front := 0 } else b
      { b with size := b.size - 1 }
    else b
  let b := { b with mem := fun i => if i = b.rear then data else b.mem i, rear := b.rear + 1 }
  let b := if (b.rear : Int) > b.buffer_end then { b with rear := 0 } else b
  let b := { b with size := (b.size + 1) % 65536 }
  if b.Callback ≠ 0 then { b with called := b.called ++ [b.Callback] } else b

/-- `Pop`: the item read at `front`, and the buffer afterwards. -/
def Pop (b : buffer_t) : Int × buffer_t :=
  let data := b.mem b.front
  if b.size ≠ 0 then
    let b := { b with front := b.front + 1 }
    let b := if (b.front : Int) > b.buffer_end then { b with front := 0 } else b
    (data, { b with size := b.size - 1 })
  else (data, b)

/-- `GetSize`. -/
def GetSize (b : buffer_t) : Nat := b.size

/-- `Push` of the items of a list, first item first. -/
def pushAll (b : buffer_t) : List Int → buffer_t
  | [] => b
  | x :: xs => pushAll (Push b x) xs

/-- `k` calls of `Pop`: the items returned, in order, and the buffer afterwards. -/
def popN : Nat → buffer_t → List Int × buffer_t
  | 0, b => ([], b)
  | k + 1, b => ((Pop b).1 :: (popN k (Pop b).2).1, (popN k (Pop b).2).2)

/-! ## Tap tempo (`tap_tempo.c`) -/

/-- Number of taps kept. -/
def MAX_TAPS : Nat := 4

/-- The loop shared by `RegisterTap` and `GetTempo`: starting at index `i` with
`k` indices left, the index at which the loop stops and the last non-zero
entry seen (`last_tap`, unset when the first entry is zero). -/
def lastTap (taps : Nat → Nat) : Nat → Nat → Option Nat → Nat × Option Nat
  | 0, i, last => (i, last)
  | k + 1, i, last =>
    if taps i ≠ 0 then lastTap taps k (i + 1) (some (taps i)) else (i, last)

/-- `RegisterTap` on the array `last_taps`, at the clock of `s`. -/
def RegisterTap (s : Machine) (taps : Nat → Nat) : Nat → Nat :=
  if taps 0 = 0 then fun j => if j = 0 then TimeNow s else taps j
  else
    match lastTap taps MAX_TAPS 0 none with
    | (_, none) => taps
    | (i, some last_tap) =>
      if TimeSince s last_tap > 1999 then
        fun j => if j = 0 then TimeNow s else if j < MAX_TAPS then 0 else taps j
      else if i = MAX_TAPS then
        fun j => if j = MAX_TAPS - 1 then TimeNow s
                 else if j < MAX_TAPS - 1 then taps (j + 1) else taps j
      else fun j => if j = i then TimeNow s else taps j

/-- `GetTempo`; `none` when no tap is recorded, where the source divides an
unset value by zero. -/
def GetTempo (taps : Nat → Nat) : Option Nat :=
  match lastTap taps MAX_TAPS 0 none with
  | (_, none) => none
  | (i, some last_tap) => some (sub32 last_tap (taps 0) / i)

/-- `GetTap`. -/
def GetTap (taps : Nat → Nat) (i : Nat) : Nat := taps i

/-- The pool holds one task and nothing else: slot `x` is in use with the
nullary callback `fn`, the default input callback, period `P` and `c` repeats
left; its priority is the registered priority `p0` raised at most `bmax` times
by the maintenance pass; the Ready Queue is `q` and the Schedule is `sch`, with
no member other than `x`; every other slot is free with its callbacks at their
defaults. -/
structure Solo (N x fn P : Nat) (c p0 bmax : Int) (s : Machine) (q sch : List Nat) : Prop where
  lists : Lists N s q sch
  only : ∀ a, a ∈ q ∨ a ∈ sch → a = x
  free : ∀ a, a < N → a ≠ x →
    (s.task a).priority = TASK_DONE ∧ (s.task a).void_fn = DEFAULT_TASK ∧
      (s.task a).fn = DEFAULT_INPUT_TASK ∧ (s.task a).input = 0
  slot : x < N
  raised : ∃ b : Int, 0 ≤ b ∧ b ≤ bmax ∧ (s.task x).priority = wrap16 (p0 + b)
  callback : (s.task x).void_fn = fn ∧ (s.task x).fn = DEFAULT_INPUT_TASK ∧
    (s.task x).input = 0
  period : (s.task x).period = P
  count : (s.task x).count = c

/-- `k` calls of `SystemTick` in a row. -/
def runTicks (N : Nat) : Nat → Machine → Except Fault Machine
  | 0, s => .ok s
  | k + 1, s => (SystemTick N s).bind (runTicks N k)

/-- After `TaskInit`: tasks 101 and 102 are queued and run by two ticks; then
task 104 is queued before task 105, both at priority 5, and two more ticks
run. The result is the list of callbacks invoked by the last two ticks. -/
def fifoScenario (N : Nat) : Except Fault (List Call) :=
  ((runTicks N 2 (TaskQueueAdd N 102 5 (TaskQueueAdd N 101 5 (TaskInit N boot)))).bind
    (fun s => runTicks N 2
      (TaskQueueAdd N 105 5 (TaskQueueAdd N 104 5 { s with trace := [] })))).map
    (fun s => s.trace)

/-- A full pool of 20 one-shot tasks of priority 1, all in the Ready Queue in
slot order; slot `i` holds callback `i + 1`. -/
def poolFullQueue : Machine :=
  { boot with
    task := fun i => ⟨i + 1, 0, 0, if i < 19 then (i : Int) + 1 else -1, (i : Int) - 1, 1, 0, 0, 0⟩
    first := 0, last := 19, length := 20, available := -1, to_link := -1
    sch_first := -1, sch_last := -1, sch_length := 0, sch_to_link := -1
    rollover_time := TIME_MAX }

/-- A full pool of 20 one-shot tasks of priority 1: slot 0 alone in the Ready
Queue, slots 1 to 19 in the Schedule in slot order, due at `1000 + i`. -/
def poolFullOneQueued : Machine :=
  { boot with
    task := fun i =>
      if i = 0 then ⟨1, 0, 0, -1, -1, 1, 0, 0, 0⟩
      else ⟨i + 1, 0, 0, if i < 19 then (i : Int) + 1 else -1,
            if i = 1 then -1 else (i : Int) - 1, 1, 1000 + i, 0, 0⟩
    first := 0, last := 0, length := 1, available := -1, to_link := -1
    sch_first := 1, sch_last := 19, sch_length := 19, sch_to_link := -1
    rollover_time := TIME_MAX }

/-- The scenario of the specification: A (callback 1, priority 5), B (callback
2, priority 5) and C (callback 3, priority 10), registered in this order. -/
def abcRegs : List Registration := [⟨1, 5, 0⟩, ⟨2, 5, 0⟩, ⟨3, 10, 0⟩]

/-- `k` scheduled registrations on the same clock reading: callback `j` for
`j = 1, ..., k`, priority 1, delay 1000 ms, no period. -/
def scheduleMany (N : Nat) : Nat → Machine → Except Fault Machine
  | 0, s => .ok s
  | k + 1, s => (scheduleMany N k s).bind (TaskScheduleAddCount N (k + 1) 1 1000 0 0)

/-- After `TaskInit`, twenty scheduled registrations and one tick, which links
them all into the Schedule: the members of the Schedule. -/
def fullScheduleList : Except Fault (List Nat) :=
  ((scheduleMany 20 20 (TaskInit 20 boot)).bind (SystemTick 20)).map (scheduleList 20)

/-- In the same state, the query for callback 99, which was never registered. -/
def fullScheduleQuery : Except Fault Nat :=
  ((scheduleMany 20 20 (TaskInit 20 boot)).bind (SystemTick 20)).bind (IsTaskScheduled 20 99)

/-- A pool of four slots: slots 0 (priority 5) and 1 (priority 3) form the
Ready Queue, slot 2 (due at 100) is the Schedule, and slot 3 (priority 4, due
at 50) is in use and in neither list. -/
def smallPool : Machine :=
  { boot with
    task := fun i =>
      if i = 0 then ⟨1, 0, 0, 1, -1, 5, 0, 0, 0⟩
      else if i = 1 then ⟨2, 0, 0, -1, 0, 3, 0, 0, 0⟩
      else if i = 2 then ⟨3, 0, 0, -1, -1, 1, 100, 0, 0⟩
      else if i = 3 then ⟨4, 0, 0, -1, -1, 4, 50, 0, 0⟩
      else ⟨0, 0, 0, 0, 0, -1, 0, 0, 0⟩
    first := 0, last := 1, length := 2, available := -1, to_link := -1
    sch_first := 2, sch_last := 2, sch_length := 1, sch_to_link := -1
    rollover_time := TIME_MAX }

/-- A pool of four slots at clock reading 10: slot 2 (priority 3) is the Ready
Queue; slots 0 (priority 1) and 1 (priority 7), both due at 5, and slot 3
(priority 9, due at 50) form the Schedule. -/
def dueTwo : Machine :=
  { boot with
    task := fun i =>
      if i = 0 then ⟨1, 0, 0, 1, -1, 1, 5, 0, 0⟩
      else if i = 1 then ⟨2, 0, 0, 3, 0, 7, 5, 0, 0⟩
      else if i = 2 then ⟨3, 0, 0, -1, -1, 3, 0, 0, 0⟩
      else if i = 3 then ⟨4, 0, 0, -1, 1, 9, 50, 0, 0⟩
      else ⟨0, 0, 0, 0, 0, -1, 0, 0, 0⟩
    first := 2, last := 2, length := 1, available := -1, to_link := -1
    sch_first := 0, sch_last := 3, sch_length := 3, sch_to_link := -1
    ms_time := 10, rollover_time := TIME_MAX }

/-- After `TaskInit`: callback 7 is registered with period 10 and count -7, one
tick links it into the Schedule, and one millisecond later a second tick
promotes it to the head of the Ready Queue. -/
def strayCount : Except Fault Machine :=
  ((TaskScheduleAddCount 4 7 1 0 10 (-7) (TaskInit 4 boot)).bind (SystemTick 4)).bind
    (fun s => SystemTick 4 (TimingInterrupt s))

/-- A pool of four slots late in the clock cycle: slot 0, periodic with period
10 and due time 4294967290, is alone in the Ready Queue at clock reading
4294967291. -/
def rollHead : Machine :=
  { boot with
    task := fun i =>
      if i = 0 then ⟨1, 0, 0, -1, -1, 1, 4294967290, 10, -1⟩
      else ⟨0, 0, 0, 0, 0, -1, 0, 0, 0⟩
    first := 0, last := 0, length := 1, available := -1, to_link := -1
    sch_first := -1, sch_last := -1, sch_length := 0, sch_to_link := -1
    ms_time := 4294967291, rollover_time := TIME_MAX }

/-- After `TaskInit`: callback 5 is scheduled (priority 1, delay 100, period
50), one tick links it into the Schedule, and then
`TaskReSchedule(5, 7, 20, 50)` is called. -/
def rescheduled : Except Fault Machine :=
  ((TaskScheduleAdd 4 5 1 100 50 (TaskInit 4 boot)).bind (SystemTick 4)).bind
    (TaskReSchedule 4 5 7 20 50)

/-- After `TaskInit`: callbacks 1 (priority 5), 2 (priority 3) and 3 (priority
1) are queued, one tick links them and runs callback 1, and then
`ChangePriority(3, 9)` is called. -/
def reprioritised : Except Fault Machine :=
  (SystemTick 4 (TaskQueueAdd 4 3 1 (TaskQueueAdd 4 2 3 (TaskQueueAdd 4 1 5
    (TaskInit 4 boot))))).map (ChangePriority 4 3 9)

/-- `k` queued registrations: callback `j` for `j = 1, ..., k`, priority 1. -/
def queueMany (N : Nat) : Nat → Machine → Machine
  | 0, s => s
  | k + 1, s => TaskQueueAdd N (k + 1) 1 (queueMany N k s)

/-- After `TaskInit` of a pool of four slots: four queued registrations fill
the pool, one tick links them and runs callback 1, callback 5 is queued into
the slot this frees, and then `TaskInputQueueAdd(50, 1, 9)` is called on the
full pool. -/
def staleCallback : Except Fault Machine :=
  (SystemTick 4 (queueMany 4 4 (TaskInit 4 boot))).map
    (fun s => TaskInputQueueAdd 4 50 1 9 (TaskQueueAdd 4 5 1 s))

/-- Taps registered at clock readings 1000, 1500 and 2000 on an empty history. -/
def threeTaps : Nat → Nat :=
  RegisterTap { boot with ms_time := 2000 }
    (RegisterTap { boot with ms_time := 1500 }
      (RegisterTap { boot with ms_time := 1000 } (fun _ => 0)))

/-- A pool of four slots at clock reading 100: the Ready Queue is empty, slot 0
(due at 90, already overdue) and slot 1 (due at 110) form the Schedule, sorted
by ascending due time. -/
def overdueFirst : Machine :=
  { boot with
    task := fun i =>
      if i = 0 then ⟨1, 0, 0, 1, -1, 1, 90, 0, 0⟩
      else if i = 1 then ⟨2, 0, 0, -1, 0, 1, 110, 0, 0⟩
      else ⟨0, 0, 0, 0, 0, -1, 0, 0, 0⟩
    first := -1, last := -1, length := 0, available := -1, to_link := -1
    sch_first := 0, sch_last := 1, sch_length := 2, sch_to_link := -1
    ms_time := 100
    rollover_time := TIME_MAX }

/-- A pool of four slots at clock reading `2^31`, past the midpoint of the
counter range: both lists are empty and slot 0 is in use with due time 10, as
`TaskScheduleAdd` with a delay of `2^31 + 10` leaves it. -/
def lateClock : Machine :=
  { boot with
    task := fun i =>
      if i = 0 then ⟨7, 0, 0, -3, -1, 1, 10, 0, 0⟩
      else ⟨0, 0, 0, 0, 0, -1, 0, 0, 0⟩
    first := -1, last := -1, length := 0, available := -1, to_link := -1
    sch_first := -1, sch_last := -1, sch_length := 0, sch_to_link := -1
    ms_time := 2147483648
    rollover_time := TIME_MAX }

/-- The pool of `lateClock` at clock reading `2^32 - 101`, slot 0 due at 10. -/
def lateClockNear : Machine :=
  { lateClock with ms_time := 4294967195 }

/-- After `TaskInit` and one tick that clears the pending markers, callback 7
is scheduled once with no delay, no period and count -6; three ticks, the
second of them 1 ms later, link it, promote it and run it. -/
def staleCount : Except Fault Machine :=
  ((SystemTick 4 (TaskInit 4 boot)).bind
    (TaskScheduleAddCount 4 7 1 0 0 (-6))).bind (tickAll 4 [0, 1, 0])

/-- The scenario of the specification on a pool that has been used before:
after `TaskInit`, callback 9 is registered with `TaskQueueAdd` and cancelled
with `RemoveTask` before any tick, and the pool is initialised again with
`TaskInit`; then A, B and C are registered as in `abcRegs`. -/
def reinitRegs : Except Fault Machine :=
  (RemoveTask 3 9 (TaskQueueAdd 3 9 1 (TaskInit 3 boot))).map
    (fun s => registerAll 3 abcRegs (TaskInit 3 s))

/-- A full pool of four slots whose pre-located slot is in use. After
`TaskInit`, callbacks 1 (priority 5), 2 (priority 5), 3 (priority -2) and 4
(priority 4) are queued; one tick links them and runs callback 1; then
`TaskScheduleAddCount(5, 1, 100, 0, 0)` takes the freed slot 0, and its closing
call `GetAvailableTask(TASK_NO_PRIORITY)` pre-locates slot 2, the queue tail of
priority -2. -/
def staleAvailable : Except Fault Machine :=
  (SystemTick 4 (TaskQueueAdd 4 4 4 (TaskQueueAdd 4 3 (-2) (TaskQueueAdd 4 2 5
    (TaskQueueAdd 4 1 5 (TaskInit 4 boot)))))).bind (TaskScheduleAddCount 4 5 1 100 0 0)

/-- A pool of three slots after these calls, all with priorities 1 and 5:
three one-shot tasks are scheduled without delay and promoted to the Ready
Queue; two more registrations on the full pool each drop the queue tail; the
following ticks and registrations re-use the slots. -/
def evictedThenScheduled : Except Fault Machine :=
  runEvents 3 [.scheduleAdd 1 1 0 0 0, .scheduleAdd 2 1 0 0 0, .scheduleAdd 3 1 0 0 0, .tick,
    .interrupt, .tick, .scheduleAdd 4 5 50 0 0, .scheduleAdd 5 5 0 0 0, .tick,
    .scheduleAdd 6 1 0 0 0, .tick, .queueAdd 7 1] (TaskInit 3 boot)

/-! # Properties -/

/-! ## Basic facts about slot updates -/

@[simp] theorem setTask_task (s : Machine) (i : Nat) (t : task_t) (j : Nat) :
    (setTask s i t).task j = if j = i then t else s.task j := rfl

@[simp] theorem modTask_task (s : Machine) (i : Nat) (f : task_t → task_t) (j : Nat) :
    (modTask s i f).task j = if j = i then f (s.task i) else s.task j := rfl

@[simp] theorem modTask_first (s : Machine) (i : Nat) (f : task_t → task_t) :
    (modTask s i f).first = s.first := rfl

@[simp] theorem modTask_last (s : Machine) (i : Nat) (f : task_t → task_t) :
    (modTask s i f).last = s.last := rfl

@[simp] theorem modTask_available (s : Machine) (i : Nat) (f : task_t → task_t) :
    (modTask s i f).available = s.available := rfl

@[simp] theorem modTask_length (s : Machine) (i : Nat) (f : task_t → task_t) :
    (modTask s i f).length = s.length := rfl

@[simp] theorem modTask_to_link (s : Machine) (i : Nat) (f : task_t → task_t) :
    (modTask s i f).to_link = s.to_link := rfl

@[simp] theorem modTask_max_length (s : Machine) (i : Nat) (f : task_t → task_t) :
    (modTask s i f).max_length = s.max_length := rfl

@[simp] theorem modTask_sch_first (s : Machine) (i : Nat) (f : task_t → task_t) :
    (modTask s i f).sch_first = s.sch_first := rfl

@[simp] theorem modTask_sch_last (s : Machine) (i : Nat) (f : task_t → task_t) :
    (modTask s i f).sch_last = s.sch_last := rfl

@[simp] theorem modTask_sch_length (s : Machine) (i : Nat) (f : task_t → task_t) :
    (modTask s i f).sch_length = s.sch_length := rfl

@[simp] theorem modTask_sch_to_link (s : Machine) (i : Nat) (f : task_t → task_t) :
    (modTask s i f).sch_to_link = s.sch_to_link := rfl

@[simp] theorem modTask_ms_time (s : Machine) (i : Nat) (f : task_t → task_t) :
    (modTask s i f).ms_time = s.ms_time := rfl

@[simp] theorem modTask_rollover_time (s : Machine) (i : Nat) (f : task_t → task_t) :
    (modTask s i f).rollover_time = s.rollover_time := rfl

@[simp] theorem modTask_total_time (s : Machine) (i : Nat) (f : task_t → task_t) :
    (modTask s i f).total_time = s.total_time := rfl

@[simp] theorem modTask_last_time (s : Machine) (i : Nat) (f : task_t → task_t) :
    (modTask s i f).last_time = s.last_time := rfl

@[simp] theorem modTask_service_tasks_time (s : Machine) (i : Nat) (f : task_t → task_t) :
    (modTask s i f).service_tasks_time = s.service_tasks_time := rfl

@[simp] theorem modTask_trace (s : Machine) (i : Nat) (f : task_t → task_t) :
    (modTask s i f).trace = s.trace := rfl

theorem wrap16_of_range (v : Int) (h0 : -32768 ≤ v) (h1 : v ≤ 32767) : wrap16 v = v := by
  unfold wrap16; omega

theorem firstFree_none (s : Machine) (k i : Nat)
    (h : ∀ j, i ≤ j → j < i + k → (s.task j).priority ≠ TASK_DONE) : firstFree s k i = none := by
  induction k generalizing i with
  | zero => rfl
  | succ k ih =>
    unfold firstFree
    rw [if_neg (h i (le_refl _) (by omega))]
    exact ih (i + 1) (fun j h1 h2 => h j (by omega) (by omega))

/-! ## Allocation and the clock -/

theorem GetAvailableTask_full_noevict (N : Nat) (priority : Int) (s : Machine)
    (hfull : ∀ i, i < N → (s.task i).priority ≠ TASK_DONE)
    (htail : validIdx N s.last →
      priority ≤ (s.task s.last.toNat).priority ∨ (s.task s.last.toNat).period > 0) :
    GetAvailableTask N priority s = s := by
  unfold GetAvailableTask
  rw [firstFree_none s N 0 (fun j _ h => hfull j (by omega))]
  simp only
  split
  · rename_i hv
    rcases htail hv with h | h
    · rw [if_neg (by omega)]
    · rw [if_neg (by omega)]
  · rfl

theorem full_available_invalid (N : Nat) (s : Machine)
    (hfull : ∀ i, i < N → (s.task i).priority ≠ TASK_DONE)
    (hav : validIdx N s.available → (s.task s.available.toNat).priority = TASK_DONE) :
    ¬ validIdx N s.available := by
  intro h
  have h2 := hav h
  obtain ⟨h0, h1⟩ := h
  exact hfull s.available.toNat (by omega) h2

/-- C4: with `rollover_time = TIME_MAX`, if the 32-bit clock reads `(t + e) mod 2^32`
for a true elapsed time `e < 2^32`, then `TimeSince t = e`; the value is `now - t` when
`now >= t` and `now + (TIME_MAX - t) + 1` modulo `2^32` when `now < t`. -/
theorem TimeSince_exact (s : Machine) (t e : Nat) (ht : t < 4294967296) (he : e < 4294967296)
    (hroll : s.rollover_time = TIME_MAX) (hnow : s.ms_time = (t + e) % 4294967296) :
    TimeSince s t = e ∧
    (t ≤ s.ms_time → TimeSince s t = s.ms_time - t) ∧
    (s.ms_time < t → TimeSince s t = (s.ms_time + (TIME_MAX - t) + 1) % 4294967296) := by
  unfold TimeSince add32 sub32
  rw [hroll, hnow]
  unfold TIME_MAX
  refine ⟨?_, ?_, ?_⟩
  · split <;> omega
  · intro h; rw [if_pos h]
  · intro h; rw [if_neg (by omega)]; omega

/-- Witness of `TimeSince_exact`: eleven milliseconds across the wrap. -/
theorem TimeSince_exact_witness :
    TimeSince { boot with rollover_time := TIME_MAX, ms_time := 5 } 4294967290 = 11 ∧
    (4294967290 ≤ 5 → TimeSince { boot with rollover_time := TIME_MAX, ms_time := 5 } 4294967290
        = 5 - 4294967290) ∧
    (5 < 4294967290 → TimeSince { boot with rollover_time := TIME_MAX, ms_time := 5 } 4294967290
        = (5 + (TIME_MAX - 4294967290) + 1) % 4294967296) :=
  TimeSince_exact { boot with rollover_time := TIME_MAX, ms_time := 5 } 4294967290 11
    (by decide) (by decide) rfl (by decide)

/-- C8 (amended): in a pool with no free slot and no pre-located slot
(`tasks.available` names no slot) whose queue tail, if any, has priority at
least the requested one or is periodic, `TaskQueueAdd` returns and leaves the
whole state unchanged. -/
theorem TaskQueueAdd_rejected (N : Nat) (fn : Nat) (priority : Int) (s : Machine)
    (hfull : ∀ i, i < N → (s.task i).priority ≠ TASK_DONE)
    (hav : ¬ validIdx N s.available)
    (htail : validIdx N s.last →
      priority ≤ (s.task s.last.toNat).priority ∨ (s.task s.last.toNat).period > 0) :
    TaskQueueAdd N fn priority s = s := by
  unfold TaskQueueAdd
  simp only [GetAvailableTask_full_noevict N priority s hfull htail, ite_self]
  rw [if_neg hav]

theorem poolFullQueue_full : ∀ i, i < 20 → (poolFullQueue.task i).priority ≠ TASK_DONE := by
  intro i _; show (1 : Int) ≠ -1; decide

/-- Witness of `TaskQueueAdd_rejected`: priority 1 against a full pool of priority 1. -/
theorem TaskQueueAdd_rejected_witness :
    TaskQueueAdd 20 99 1 poolFullQueue = poolFullQueue :=
  TaskQueueAdd_rejected 20 99 1 poolFullQueue poolFullQueue_full
    (by decide) (fun _ => Or.inl (by decide))

/-- Counterexample to C6 as stated: the pool is full, the queue tail is a one-shot task of
lower priority, but it is also the queue head; it is not evicted and the new task is lost. -/
theorem TaskQueueAdd_sole_tail_not_evicted :
    (∀ i, i < 20 → (poolFullOneQueued.task i).priority ≠ TASK_DONE) ∧
    validIdx 20 poolFullOneQueued.last ∧
    (poolFullOneQueued.task poolFullOneQueued.last.toNat).priority < 2 ∧
    (poolFullOneQueued.task poolFullOneQueued.last.toNat).period = 0 ∧
    (GetAvailableTask 20 2 poolFullOneQueued).available ≠ poolFullOneQueued.last ∧
    ((TaskQueueAdd 20 99 2 poolFullOneQueued).task poolFullOneQueued.last.toNat).void_fn ≠ 99 := by
  refine ⟨?_, by decide, by decide, by decide, by decide, by decide⟩
  intro i _
  show (if i = 0 then _ else _ : task_t).priority ≠ -1
  split
  · decide
  · show (1 : Int) ≠ -1; decide

/-- C6 (amended): in a pool with no free slot and no pre-located slot, when the queue tail
is a one-shot task of strictly lower priority and is not also the queue head,
`GetAvailableTask` selects the tail's slot and `TaskQueueAdd` stores the new task in it,
flagged for linking. -/
theorem TaskQueueAdd_evicts_tail (N : Nat) (fn : Nat) (priority : Int) (s : Machine)
    (hfull : ∀ i, i < N → (s.task i).priority ≠ TASK_DONE)
    (hav : s.available < 0)
    (hlast : validIdx N s.last)
    (hprio : (s.task s.last.toNat).priority < priority)
    (hper : (s.task s.last.toNat).period = 0)
    (hne : s.first ≠ s.last) :
    (GetAvailableTask N priority s).available = s.last ∧
    ((TaskQueueAdd N fn priority s).task s.last.toNat).void_fn = fn ∧
    ((TaskQueueAdd N fn priority s).task s.last.toNat).priority = priority ∧
    ((TaskQueueAdd N fn priority s).task s.last.toNat).period = 0 ∧
    ((TaskQueueAdd N fn priority s).task s.last.toNat).time = TimeNow s ∧
    ((TaskQueueAdd N fn priority s).task s.last.toNat).next = TASK_LINK_QUEUE ∧
    (TaskQueueAdd N fn priority s).to_link ≠ TASK_DONE := by
  have hg : (GetAvailableTask N priority s).available = s.last := by
    unfold GetAvailableTask
    rw [firstFree_none s N 0 (fun j _ h => hfull j (by omega))]
    simp only [hlast, hprio, hper, hne, if_true, and_self, ne_eq, not_false_eq_true]
    split <;> rfl
  have hms : (GetAvailableTask N priority s).ms_time = s.ms_time := by
    unfold GetAvailableTask
    rw [firstFree_none s N 0 (fun j _ h => hfull j (by omega))]
    simp only [hlast, hprio, hper, hne, if_true, and_self, ne_eq, not_false_eq_true]
    split <;> rfl
  refine ⟨hg, ?_⟩
  have hv : validIdx N (GetAvailableTask N priority s).available := by rw [hg]; exact hlast
  have h0 : 0 ≤ s.last := hlast.1
  unfold TaskQueueAdd
  simp only [hav, if_true, hv, hg, hlast]
  refine ⟨?_, ?_, ?_, ?_, ?_, ?_⟩
  · simp [modTask, setTask]
  · simp [modTask, setTask]
  · simp [modTask, setTask]
  · simp [modTask, setTask, TimeNow, hms]
  · simp [modTask, setTask]
  · simp only [modTask, setTask]
    split
    · unfold TASK_DONE; omega
    · decide

/-- Witness of `TaskQueueAdd_evicts_tail`: priority 2 against a full queue of priority 1. -/
theorem TaskQueueAdd_evicts_tail_witness :
    (GetAvailableTask 20 2 poolFullQueue).available = poolFullQueue.last ∧
    ((TaskQueueAdd 20 99 2 poolFullQueue).task poolFullQueue.last.toNat).void_fn = 99 ∧
    ((TaskQueueAdd 20 99 2 poolFullQueue).task poolFullQueue.last.toNat).priority = 2 ∧
    ((TaskQueueAdd 20 99 2 poolFullQueue).task poolFullQueue.last.toNat).period = 0 ∧
    ((TaskQueueAdd 20 99 2 poolFullQueue).task poolFullQueue.last.toNat).time
      = TimeNow poolFullQueue ∧
    ((TaskQueueAdd 20 99 2 poolFullQueue).task poolFullQueue.last.toNat).next
      = TASK_LINK_QUEUE ∧
    (TaskQueueAdd 20 99 2 poolFullQueue).to_link ≠ TASK_DONE :=
  TaskQueueAdd_evicts_tail 20 99 2 poolFullQueue poolFullQueue_full
    (by decide) (by decide) (by decide) (by decide) (by decide)

/-- C7 (the code at the failing input): after `GetAvailableTask` evicts slot 19 from a
full queue, the new tail 18 still has `next = 19`, the length is still 20 and the
traversal from the head still reaches slot 19. -/
theorem GetAvailableTask_evicted_still_linked :
    (GetAvailableTask 20 2 poolFullQueue).available = 19 ∧
    (GetAvailableTask 20 2 poolFullQueue).last = 18 ∧
    ((GetAvailableTask 20 2 poolFullQueue).task 18).next = 19 ∧
    (GetAvailableTask 20 2 poolFullQueue).length = 20 ∧
    19 ∈ queueList 20 (GetAvailableTask 20 2 poolFullQueue) := by
  refine ⟨by decide, by decide, by decide, by decide, by decide⟩

/-- C10 (the code at the failing inputs): in a pool with no free slot and no evictable
tail, `TaskScheduleAddCount` does not return; it resets the device. -/
theorem TaskScheduleAddCount_full_resets (N : Nat) (fn : Nat) (priority : Int)
    (delay period : Nat) (count : Int) (s : Machine)
    (hfull : ∀ i, i < N → (s.task i).priority ≠ TASK_DONE)
    (hav : validIdx N s.available → (s.task s.available.toNat).priority = TASK_DONE)
    (htail : validIdx N s.last →
      priority ≤ (s.task s.last.toNat).priority ∨ (s.task s.last.toNat).period > 0) :
    TaskScheduleAddCount N fn priority delay period count s = .error .reset := by
  have hnv := full_available_invalid N s hfull hav
  unfold TaskScheduleAddCount
  simp only [GetAvailableTask_full_noevict N priority s hfull htail, ite_self]
  rw [if_neg hnv]

/-- Witness of `TaskScheduleAddCount_full_resets`. -/
theorem TaskScheduleAddCount_full_resets_witness :
    TaskScheduleAddCount 20 99 1 100 50 3 poolFullQueue = .error .reset :=
  TaskScheduleAddCount_full_resets 20 99 1 100 50 3 poolFullQueue poolFullQueue_full
    (fun h => absurd h (by decide)) (fun _ => Or.inl (by decide))

/-- C1 (the code at the failing input): task 104 is registered before task 105 at the
same priority, into slots freed earlier; the next two ticks run 105 first, then 104. -/
theorem fifo_violated_on_slot_reuse :
    fifoScenario 20 = .ok [Call.input 0 0, Call.void 105, Call.input 0 0, Call.void 104] := rfl

theorem firstFree_some (s : Machine) (k i j : Nat) (h : firstFree s k i = some j) :
    (s.task j).priority = TASK_DONE ∧ i ≤ j ∧ j < i + k := by
  induction k generalizing i with
  | zero => simp [firstFree] at h
  | succ k ih =>
    unfold firstFree at h
    split at h
    · rename_i hp
      injection h with h
      subst h
      exact ⟨hp, le_refl _, by omega⟩
    · obtain ⟨h1, h2, h3⟩ := ih (i + 1) h
      exact ⟨h1, by omega, by omega⟩

theorem hd_mem (l : List Nat) (n : Int) (i : Nat) (hn : n < 0) (h : hd l n = (i : Int)) :
    i ∈ l := by
  cases l with
  | nil => simp only [hd] at h; omega
  | cons a r =>
    simp only [hd] at h
    have : a = i := by exact_mod_cast h
    simp [this]

theorem lst_mem (l : List Nat) (p : Int) (i : Nat) (hp : p < 0) (h : lst l p = (i : Int)) :
    i ∈ l := by
  induction l generalizing p with
  | nil => simp only [lst] at h; omega
  | cons a r ih =>
    simp only [lst] at h
    cases r with
    | nil =>
      simp only [lst] at h
      have : a = i := by exact_mod_cast h
      simp [this]
    | cons b r' =>
      have : i ∈ b :: r' := by
        simp only [lst] at h
        have h2 : lst (b :: r') (-1) = (i : Int) := by simpa only [lst] using h
        exact ih (-1) (by decide) h2
      exact List.mem_cons_of_mem _ this

/-- On well-formed lists with no pre-located slot: when `GetAvailableTask`
selects slot `i`, that slot is not a member of the Schedule, is not the queue
head, is not an in-use periodic slot and is not an in-use slot whose priority is
at least the requested one. -/
theorem GetAvailableTask_spares (N : Nat) (priority : Int) (s : Machine) (q sch : List Nat)
    (hl : Lists N s q sch) (hav : s.available < 0) (i : Nat)
    (hsel : (GetAvailableTask N priority s).available = (i : Int)) :
    i < N ∧ i ∉ sch ∧ s.first ≠ (i : Int) ∧
    ¬ ((s.task i).priority ≠ TASK_DONE ∧ (s.task i).period > 0) ∧
    ¬ ((s.task i).priority ≠ TASK_DONE ∧ priority ≤ (s.task i).priority) := by
  unfold GetAvailableTask at hsel
  split at hsel
  · rename_i j hj
    obtain ⟨hfree, _, hlt⟩ := firstFree_some s N 0 j hj
    have hij : j = i := by
      have h' : (j : Int) = (i : Int) := hsel
      exact_mod_cast h'
    subst hij
    refine ⟨by omega, ?_, ?_, ?_, ?_⟩
    · intro hm; exact hl.used j (Or.inr hm) hfree
    · intro hf
      have : j ∈ q := hd_mem q (-1) j (by decide) (by rw [← hl.queue.first_eq]; exact hf)
      exact hl.used j (Or.inl this) hfree
    · intro h; exact h.1 hfree
    · intro h; exact h.1 hfree
  · simp only at hsel
    split at hsel
    · rename_i hv
      split at hsel
      · rename_i hev
        split at hsel
        · rename_i hne
          have hsl : s.last = (i : Int) := by
            split at hsel <;> exact hsel
          have hi : s.last.toNat = i := by omega
          rw [hi] at hev
          have hmem : i ∈ q := lst_mem q (-1) i (by decide) (by rw [← hl.queue.last_eq]; exact hsl)
          refine ⟨hl.queue.lt i hmem, hl.disj i hmem, ?_, ?_, ?_⟩
          · rw [← hsl]; exact hne
          · intro h; omega
          · intro h; omega
        · omega
      · omega
    · omega

theorem poolFullQueue_lists : Lists 20 poolFullQueue (List.range 20) [] := by
  refine ⟨⟨by decide, by decide, by decide, by decide, by decide, by decide⟩,
    ⟨by decide, by decide, by decide, by decide, by decide, by decide⟩, by decide, ?_⟩
  intro i _; show (1 : Int) ≠ -1; decide

/-- Witness of `GetAvailableTask_spares`: the evicted tail of a full queue. -/
theorem GetAvailableTask_spares_witness :
    19 < 20 ∧ 19 ∉ ([] : List Nat) ∧ poolFullQueue.first ≠ ((19 : Nat) : Int) ∧
    ¬ ((poolFullQueue.task 19).priority ≠ TASK_DONE ∧ (poolFullQueue.task 19).period > 0) ∧
    ¬ ((poolFullQueue.task 19).priority ≠ TASK_DONE ∧ 2 ≤ (poolFullQueue.task 19).priority) :=
  GetAvailableTask_spares 20 2 poolFullQueue (List.range 20) [] poolFullQueue_lists
    (by decide) 19 (by decide)

/-! ## Linked lists: insertion and removal -/

theorem hd_append (A B : List Nat) (n : Int) : hd (A ++ B) n = hd A (hd B n) := by
  cases A <;> rfl

theorem lst_append (A B : List Nat) (p : Int) : lst (A ++ B) p = lst B (lst A p) := by
  induction A generalizing p with
  | nil => rfl
  | cons a r ih =>
    show lst (r ++ B) (a : Int) = lst B (lst r (a : Int))
    exact ih _

theorem lst_concat (A : List Nat) (a : Nat) (p : Int) : lst (A ++ [a]) p = (a : Int) := by
  rw [lst_append]; rfl

theorem hd_nonneg_iff (l : List Nat) : 0 ≤ hd l (-1) ↔ l ≠ [] := by
  cases l with
  | nil => simp [hd]
  | cons a r => simp [hd]

theorem lst_nonneg_iff (l : List Nat) (p : Int) (hp : p < 0) : 0 ≤ lst l p ↔ l ≠ [] := by
  induction l generalizing p with
  | nil => simp only [lst, ne_eq, not_true_eq_false, iff_false]; omega
  | cons a r ih =>
    simp only [lst, ne_eq, reduceCtorEq, not_false_eq_true, iff_true]
    cases r with
    | nil => simp [lst]
    | cons b r' =>
      have := (ih (-1) (by decide)).2 (by simp)
      simpa only [lst] using this

theorem Chain_frame (t t' : Nat → task_t) (p : Int) (l : List Nat) (n : Int)
    (h : ∀ a ∈ l, (t' a).next = (t a).next ∧ (t' a).previous = (t a).previous)
    (hc : Chain t p l n) : Chain t' p l n := by
  induction l generalizing p with
  | nil => trivial
  | cons a r ih =>
    obtain ⟨h1, h2, h3⟩ := hc
    have ha := h a (List.mem_cons_self _ _)
    exact ⟨by rw [ha.2]; exact h1, by rw [ha.1]; exact h2,
      ih a (fun b hb => h b (List.mem_cons_of_mem _ hb)) h3⟩

theorem Chain_append (t : Nat → task_t) (p : Int) (A B : List Nat) (n : Int) :
    Chain t p (A ++ B) n ↔ Chain t p A (hd B n) ∧ Chain t (lst A p) B n := by
  induction A generalizing p with
  | nil => simp [Chain, lst]
  | cons a r ih =>
    show ((t a).previous = p ∧ (t a).next = hd (r ++ B) n ∧ Chain t (a : Int) (r ++ B) n) ↔
      ((t a).previous = p ∧ (t a).next = hd r (hd B n) ∧ Chain t (a : Int) r (hd B n)) ∧
        Chain t (lst r (a : Int)) B n
    rw [hd_append, ih]
    tauto

theorem nodup_length_le (N : Nat) (l : List Nat) (hn : l.Nodup) (hlt : ∀ a ∈ l, a < N) :
    l.length ≤ N := by
  have hsub : l ⊆ List.range N := fun a ha => List.mem_range.2 (hlt a ha)
  have := (List.subperm_of_subset hn hsub).length_le
  simpa using this

theorem QueueTask_scan_eq (N : Nat) (s : Machine) (x : Nat) (fuel : Nat) (i : Int) :
    QueueTask_scan N s x fuel i
      = scanBy N s (fun j => (s.task x).priority > (s.task j).priority) fuel i := by
  induction fuel generalizing i with
  | zero => rfl
  | succ f ih =>
    unfold QueueTask_scan scanBy
    simp only [ih]

theorem ScheduleTask_scan_eq (N : Nat) (s : Machine) (x : Nat) (fuel : Nat) (i : Int) :
    ScheduleTask_scan N s x fuel i
      = scanBy N s (fun j => (s.task x).time < (s.task j).time) fuel i := by
  induction fuel generalizing i with
  | zero => rfl
  | succ f ih =>
    unfold ScheduleTask_scan scanBy
    simp only [ih]

theorem scanBy_spec (N : Nat) (s : Machine) (before : Nat → Prop) [DecidablePred before]
    (l : List Nat) (n : Int) (hc : Chain s.task (-1) l n) (hlt : ∀ a ∈ l, a < N)
    (A : List Nat) : ∀ (B : List Nat) (fuel : Nat), l = A ++ B → A ≠ [] →
      (∀ b ∈ B, before b) → A.length ≤ fuel →
      (∃ A1 j B1, l = A1 ++ j :: B1 ∧ (∀ b ∈ B1, before b) ∧ ¬ before j ∧
          scanBy N s before fuel (lst A (-1)) = .after j) ∨
      (∃ h r, l = h :: r ∧ (∀ b ∈ l, before b) ∧
          scanBy N s before fuel (lst A (-1)) = .front h) := by
  induction A using List.reverseRecOn with
  | nil => intro B fuel _ h; exact absurd rfl h
  | append_singleton A' i ih =>
    intro B fuel hl _ hB hfuel
    rw [lst_concat]
    have hi : i ∈ l := by rw [hl]; simp
    have hiN : i < N := hlt i hi
    have hv : validIdx N (i : Int) := ⟨by omega, by exact_mod_cast hiN⟩
    cases fuel with
    | zero => simp at hfuel
    | succ f =>
      unfold scanBy
      rw [if_pos hv]
      simp only [Int.toNat_ofNat]
      by_cases hb : before i
      · rw [if_pos hb]
        have hl' : l = A' ++ (i :: B) := by rw [hl]; simp
        have hprev : (s.task i).previous = lst A' (-1) := by
          have h2 := hc
          rw [hl', Chain_append] at h2
          exact h2.2.1
        by_cases hA : A' = []
        · subst hA
          have hneg : (s.task i).previous < 0 := by rw [hprev]; simp [lst]
          rw [if_pos hneg]
          right
          refine ⟨i, B, by simpa using hl', ?_, rfl⟩
          intro b hb'
          rw [hl'] at hb'
          simp only [List.nil_append, List.mem_cons] at hb'
          rcases hb' with h | h
          · rw [h]; exact hb
          · exact hB b h
        · have hnn : ¬ (s.task i).previous < 0 := by
            rw [hprev]
            have := (lst_nonneg_iff A' (-1) (by decide)).2 hA
            omega
          rw [if_neg hnn, hprev]
          refine ih (i :: B) f hl' hA ?_ ?_
          · intro b hb'
            simp only [List.mem_cons] at hb'
            rcases hb' with h | h
            · rw [h]; exact hb
            · exact hB b h
          · simp at hfuel; omega
      · rw [if_neg hb]
        left
        exact ⟨A', i, B, by rw [hl]; simp, hB, hb, rfl⟩

theorem Chain_insert_after (t t2 : Nat → task_t) (A B : List Nat) (j x : Nat) (p n : Int)
    (hc : Chain t p (A ++ j :: B) n) (hnd : (A ++ j :: B).Nodup) (hx : x ∉ A ++ j :: B)
    (hx2 : (t2 x).next = hd B n ∧ (t2 x).previous = (j : Int))
    (hj2 : (t2 j).next = (x : Int) ∧ (t2 j).previous = (t j).previous)
    (hb2 : ∀ b B', B = b :: B' → (t2 b).previous = (x : Int) ∧ (t2 b).next = (t b).next)
    (hother : ∀ a, a ≠ x → a ≠ j → (∀ B', B ≠ a :: B') →
      (t2 a).next = (t a).next ∧ (t2 a).previous = (t a).previous) :
    Chain t2 p (A ++ j :: x :: B) n := by
  rw [Chain_append] at hc ⊢
  obtain ⟨hA, hjB⟩ := hc
  have hndA : ∀ a ∈ A, a ≠ j ∧ a ∉ B := by
    intro a ha
    rw [List.nodup_append] at hnd
    have h3 := hnd.2.2
    constructor
    · intro h; subst h; exact h3 ha (List.mem_cons_self _ _)
    · intro h; exact h3 ha (List.mem_cons_of_mem _ h)
  have hjB' : j ∉ B := by
    rw [List.nodup_append] at hnd
    exact (List.nodup_cons.1 hnd.2.1).1
  have hBnd : B.Nodup := by
    rw [List.nodup_append] at hnd
    exact (List.nodup_cons.1 hnd.2.1).2
  have hxA : ∀ a ∈ A, a ≠ x := by
    intro a ha h; subst h; exact hx (by simp [ha])
  have hxj : x ≠ j := by intro h; subst h; exact hx (by simp)
  have hxB : x ∉ B := by intro h; exact hx (by simp [h])
  refine ⟨?_, ?_⟩
  · refine Chain_frame t t2 p A _ ?_ hA
    intro a ha
    refine hother a (hxA a ha) (hndA a ha).1 ?_
    intro B' hB'
    exact (hndA a ha).2 (by rw [hB']; simp)
  · obtain ⟨hj1, hj2', hj3⟩ := hjB
    refine ⟨by rw [hj2.2]; exact hj1, hj2.1, hx2.2, hx2.1, ?_⟩
    cases B with
    | nil => trivial
    | cons b B' =>
      obtain ⟨hb1, hb2', hb3⟩ := hj3
      have hbx : b ≠ x := by intro h; subst h; exact hxB (by simp)
      have hbj : b ≠ j := by intro h; subst h; exact hjB' (by simp)
      have hbB' : b ∉ B' := (List.nodup_cons.1 hBnd).1
      refine ⟨(hb2 b B' rfl).1, by rw [(hb2 b B' rfl).2]; exact hb2', ?_⟩
      refine Chain_frame t t2 b B' _ ?_ hb3
      intro a ha
      refine hother a ?_ ?_ ?_
      · intro h; subst h; exact hxB (by simp [ha])
      · intro h; subst h; exact hjB' (by simp [ha])
      · intro B'' hB''
        injection hB'' with h1 h2
        subst h1; exact hbB' ha

theorem Chain_insert_front (t t2 : Nat → task_t) (h : Nat) (r : List Nat) (x : Nat)
    (p p2 n : Int)
    (hc : Chain t p (h :: r) n) (hnd : (h :: r).Nodup) (hx : x ∉ h :: r)
    (hx2 : (t2 x).next = (h : Int) ∧ (t2 x).previous = p2)
    (hh2 : (t2 h).next = (t h).next ∧ (t2 h).previous = (x : Int))
    (hother : ∀ a, a ≠ x → a ≠ h →
      (t2 a).next = (t a).next ∧ (t2 a).previous = (t a).previous) :
    Chain t2 p2 (x :: h :: r) n := by
  obtain ⟨_, h2, h3⟩ := hc
  refine ⟨hx2.2, hx2.1, hh2.2, by rw [hh2.1]; exact h2, ?_⟩
  refine Chain_frame t t2 h r _ ?_ h3
  intro a ha
  refine hother a ?_ ?_
  · intro e; subst e; exact hx (List.mem_cons_of_mem _ ha)
  · intro e; subst e; exact (List.nodup_cons.1 hnd).1 ha

theorem Chain_remove (t t2 : Nat → task_t) (A B : List Nat) (x : Nat) (p n : Int)
    (hc : Chain t p (A ++ x :: B) n) (hnd : (A ++ x :: B).Nodup)
    (ha2 : ∀ A' a, A = A' ++ [a] → (t2 a).next = hd B n ∧ (t2 a).previous = (t a).previous)
    (hb2 : ∀ b B', B = b :: B' → (t2 b).previous = lst A p ∧ (t2 b).next = (t b).next)
    (hother : ∀ a, a ≠ x → (∀ A', A ≠ A' ++ [a]) → (∀ B', B ≠ a :: B') →
      (t2 a).next = (t a).next ∧ (t2 a).previous = (t a).previous) :
    Chain t2 p (A ++ B) n := by
  rw [Chain_append] at hc ⊢
  obtain ⟨hA, hxB⟩ := hc
  obtain ⟨_, _, hB⟩ := hxB
  rw [List.nodup_append] at hnd
  obtain ⟨hAnd, hxBnd, hdisj⟩ := hnd
  have hxB' : x ∉ B := (List.nodup_cons.1 hxBnd).1
  have hBnd : B.Nodup := (List.nodup_cons.1 hxBnd).2
  constructor
  · -- the prefix: only its last element changes
    rcases List.eq_nil_or_concat A with hnil | ⟨A', a, hcat⟩
    · subst hnil; trivial
    · rw [List.concat_eq_append] at hcat
      subst hcat
      rw [Chain_append] at hA ⊢
      obtain ⟨hA1, ha1, _, _⟩ := hA
      rw [List.nodup_append] at hAnd
      have haA' : a ∉ A' := fun h => hAnd.2.2 h (List.mem_singleton_self a)
      refine ⟨?_, ?_, ?_, trivial⟩
      · refine Chain_frame t t2 p A' _ ?_ hA1
        intro c hc'
        have hcA : c ∈ A' ++ [a] := by simp [hc']
        refine hother c ?_ ?_ ?_
        · intro e; subst e; exact hdisj hcA (List.mem_cons_self _ _)
        · intro A'' e
          have := List.append_inj_right' e rfl
          injection this with e1 _
          subst e1; exact haA' hc'
        · intro B' e
          exact hdisj hcA (by rw [e]; simp)
      · rw [(ha2 A' a rfl).2]; exact ha1
      · exact (ha2 A' a rfl).1
  · cases B with
    | nil => trivial
    | cons b B' =>
      obtain ⟨_, hb2', hb3⟩ := hB
      refine ⟨(hb2 b B' rfl).1, by rw [(hb2 b B' rfl).2]; exact hb2', ?_⟩
      refine Chain_frame t t2 b B' _ ?_ hb3
      intro c hc'
      have hbB' : b ∉ B' := (List.nodup_cons.1 hBnd).1
      refine hother c ?_ ?_ ?_
      · intro e; subst e; exact hxB' (by simp [hc'])
      · intro A' e
        have hcA : c ∈ A := by rw [e]; simp
        exact hdisj hcA (by simp [hc'])
      · intro B'' e
        injection e with e1 _
        subst e1; exact hbB' hc'

theorem linkAfter_task (s : Machine) (x j a : Nat) (hxj : x ≠ j) :
    (linkAfter s x j).task a =
      if a = j then { s.task j with next := (x : Int) }
      else if a = x then { s.task x with next := (s.task j).next, previous := (j : Int) }
      else s.task a := by
  unfold linkAfter
  simp only [modTask_task]
  by_cases h1 : a = j
  · subst h1
    simp [Ne.symm hxj]
  · by_cases h2 : a = x
    · subst h2; simp [h1]
    · simp [h1, h2]

theorem linkFront_task (s : Machine) (x h a : Nat) (hxh : x ≠ h) :
    (linkFront s x h).task a =
      if a = x then { s.task x with next := (h : Int), previous := -1 }
      else if a = h then { s.task h with previous := (x : Int) }
      else s.task a := by
  unfold linkFront
  simp only [modTask_task]
  by_cases h1 : a = x
  · subst h1; simp [hxh]
  · by_cases h2 : a = h
    · subst h2; simp [h1]
    · simp [h1, h2]

theorem linkAfter_chain (s : Machine) (x j : Nat) (A B : List Nat)
    (hc : Chain s.task (-1) (A ++ j :: B) (-1)) (hnd : (A ++ j :: B).Nodup)
    (hx : x ∉ A ++ j :: B) :
    ((linkAfter s x j).task x).next = hd B (-1) ∧
    (B = [] → Chain (linkAfter s x j).task (-1) (A ++ j :: x :: B) (-1)) ∧
    (∀ b B', B = b :: B' →
      Chain (modTask (linkAfter s x j) b (fun t => { t with previous := (x : Int) })).task
        (-1) (A ++ j :: x :: B) (-1)) := by
  have hxj : x ≠ j := by intro h; subst h; exact hx (by simp)
  have hjn : (s.task j).next = hd B (-1) := by
    have h2 := hc
    rw [Chain_append] at h2
    exact h2.2.2.1
  have hxn : ((linkAfter s x j).task x).next = hd B (-1) := by
    rw [linkAfter_task s x j x hxj]; simp [hxj, hjn]
  refine ⟨hxn, ?_, ?_⟩
  · intro hB
    refine Chain_insert_after s.task _ A B j x (-1) (-1) hc hnd hx ⟨hxn, ?_⟩ ⟨?_, ?_⟩ ?_ ?_
    · rw [linkAfter_task s x j x hxj]; simp [hxj]
    · rw [linkAfter_task s x j j hxj]; simp
    · rw [linkAfter_task s x j j hxj]; simp
    · intro b B' hb; rw [hB] at hb; cases hb
    · intro a h1 h2 _
      rw [linkAfter_task s x j a hxj]; simp [h1, h2]
  · intro b B' hB
    have hbx : b ≠ x := by intro h; subst h; exact hx (by rw [hB]; simp)
    have hbj : b ≠ j := by
      intro h; subst h
      rw [List.nodup_append] at hnd
      exact (List.nodup_cons.1 hnd.2.1).1 (by rw [hB]; simp)
    refine Chain_insert_after s.task _ A B j x (-1) (-1) hc hnd hx ⟨?_, ?_⟩ ⟨?_, ?_⟩ ?_ ?_
    · rw [modTask_task, if_neg (Ne.symm hbx)]; exact hxn
    · rw [modTask_task, if_neg (Ne.symm hbx), linkAfter_task s x j x hxj]; simp [hxj]
    · rw [modTask_task, if_neg (Ne.symm hbj), linkAfter_task s x j j hxj]; simp
    · rw [modTask_task, if_neg (Ne.symm hbj), linkAfter_task s x j j hxj]; simp
    · intro b' B'' hb'
      rw [hB] at hb'
      injection hb' with e1 _
      subst e1
      rw [modTask_task, if_pos rfl, linkAfter_task s x j b hxj]
      simp [hbx, hbj]
    · intro a h1 h2 h3
      have hab : a ≠ b := by intro e; subst e; exact h3 B' hB
      rw [modTask_task, if_neg hab, linkAfter_task s x j a hxj]; simp [h1, h2]

theorem linkFront_chain (s : Machine) (x h : Nat) (r : List Nat)
    (hc : Chain s.task (-1) (h :: r) (-1)) (hnd : (h :: r).Nodup) (hx : x ∉ h :: r) :
    Chain (linkFront s x h).task (-1) (x :: h :: r) (-1) := by
  have hxh : x ≠ h := by intro e; subst e; exact hx (by simp)
  refine Chain_insert_front s.task _ h r x (-1) (-1) (-1) hc hnd hx ⟨?_, ?_⟩ ⟨?_, ?_⟩ ?_
  · rw [linkFront_task s x h x hxh]; simp
  · rw [linkFront_task s x h x hxh]; simp
  · rw [linkFront_task s x h h hxh]; simp [Ne.symm hxh]
  · rw [linkFront_task s x h h hxh]; simp [Ne.symm hxh]
  · intro a h1 h2
    rw [linkFront_task s x h a hxh]; simp [h1, h2]

theorem sameData_refl (a : task_t) : sameData a a := ⟨rfl, rfl, rfl, rfl, rfl, rfl, rfl⟩

theorem sameData_trans {a b c : task_t} (h1 : sameData a b) (h2 : sameData b c) :
    sameData a c := by
  obtain ⟨a1, a2, a3, a4, a5, a6, a7⟩ := h1
  obtain ⟨b1, b2, b3, b4, b5, b6, b7⟩ := h2
  exact ⟨a1.trans b1, a2.trans b2, a3.trans b3, a4.trans b4, a5.trans b5, a6.trans b6,
    a7.trans b7⟩

theorem SameRest.rest_refl (s : Machine) : SameRest s s :=
  ⟨rfl, rfl, rfl, rfl, rfl, rfl, rfl, rfl, rfl, rfl⟩

theorem SameRest.rest_trans {a b c : Machine} (h1 : SameRest a b) (h2 : SameRest b c) :
    SameRest a c :=
  ⟨h2.available.trans h1.available, h2.to_link.trans h1.to_link,
    h2.max_length.trans h1.max_length, h2.sch_to_link.trans h1.sch_to_link,
    h2.ms_time.trans h1.ms_time, h2.rollover_time.trans h1.rollover_time,
    h2.total_time.trans h1.total_time, h2.last_time.trans h1.last_time,
    h2.service_tasks_time.trans h1.service_tasks_time, h2.trace.trans h1.trace⟩

theorem nodup_insert_mid (A B : List Nat) (x : Nat) (hnd : (A ++ B).Nodup) (hx : x ∉ A ++ B) :
    (A ++ x :: B).Nodup := by
  rw [List.nodup_append] at hnd ⊢
  obtain ⟨h1, h2, h3⟩ := hnd
  simp only [List.mem_append, not_or] at hx
  refine ⟨h1, List.nodup_cons.2 ⟨hx.2, h2⟩, ?_⟩
  intro a ha hb
  rcases List.mem_cons.1 hb with h | h
  · subst h; exact hx.1 ha
  · exact h3 ha h

theorem IsList.nil_iff {N : Nat} {t : Nat → task_t} {f l n : Int} {q : List Nat}
    (h : IsList N t f l n q) : (n = 0 ∨ f < 0 ∨ l < 0) ↔ q = [] := by
  constructor
  · intro hh
    by_contra hne
    have h1 := (hd_nonneg_iff q).2 hne
    have h2 := (lst_nonneg_iff q (-1) (by decide)).2 hne
    have h3 : 0 < q.length := List.length_pos.2 hne
    rw [← h.first_eq] at h1
    rw [← h.last_eq] at h2
    have h4 := h.len_eq
    omega
  · intro hh
    subst hh
    left
    simpa using h.len_eq

theorem QueueTask_spec (N : Nat) (s : Machine) (q : List Nat) (x : Nat)
    (hq : IsList N s.task s.first s.last s.length q) (hx : x < N) (hxq : x ∉ q)
    (hused : (s.task x).priority ≠ TASK_DONE) (hcap : N ≤ 32767) :
    ∃ s' A B, QueueTask N (x : Int) s = .ok s' ∧ q = A ++ B ∧
      (∀ b ∈ B, (s.task b).priority < (s.task x).priority) ∧
      (∀ A' a, A = A' ++ [a] → (s.task x).priority ≤ (s.task a).priority) ∧
      IsList N s'.task s'.first s'.last s'.length (A ++ x :: B) ∧
      SameRest s s' ∧ s'.sch_first = s.sch_first ∧ s'.sch_last = s.sch_last ∧
      s'.sch_length = s.sch_length ∧
      (∀ a, sameData (s'.task a) (s.task a)) ∧
      (∀ a, a ∉ q → a ≠ x → s'.task a = s.task a) := by
  have hv : validIdx N (x : Int) := ⟨by omega, by exact_mod_cast hx⟩
  have hlen : (q.length : Int) + 1 ≤ 32767 := by
    have := nodup_length_le N (x :: q) (List.nodup_cons.2 ⟨hxq, hq.nodup⟩)
      (by intro a ha; rcases List.mem_cons.1 ha with h | h
          · rw [h]; exact hx
          · exact hq.lt a h)
    simp only [List.length_cons] at this
    omega
  unfold QueueTask
  rw [if_pos hv]
  simp only [Int.toNat_ofNat]
  rw [if_neg hused]
  -- the state after the repair of a flagged `next`
  generalize hfix : (if (s.task x).next < -1 then modTask s x (fun t => { t with next := -1 })
    else s) = sf
  have hft : ∀ a, a ≠ x → sf.task a = s.task a := by
    intro a ha; rw [← hfix]; split
    · rw [modTask_task, if_neg ha]
    · rfl
  have hfd : ∀ a, sameData (sf.task a) (s.task a) := by
    intro a; rw [← hfix]; split
    · rw [modTask_task]; split
      · rename_i h; subst h; exact ⟨rfl, rfl, rfl, rfl, rfl, rfl, rfl⟩
      · exact sameData_refl _
    · exact sameData_refl _
  have hfr : SameRest s sf := by
    rw [← hfix]; split
    · exact ⟨rfl, rfl, rfl, rfl, rfl, rfl, rfl, rfl, rfl, rfl⟩
    · exact SameRest.rest_refl s
  have hfa : sf.first = s.first ∧ sf.last = s.last ∧ sf.length = s.length ∧
      sf.sch_first = s.sch_first ∧ sf.sch_last = s.sch_last ∧ sf.sch_length = s.sch_length := by
    rw [← hfix]; split <;> exact ⟨rfl, rfl, rfl, rfl, rfl, rfl⟩
  obtain ⟨hf1, hf2, hf3, hf4, hf5, hf6⟩ := hfa
  have hfc : Chain sf.task (-1) q (-1) := by
    refine Chain_frame s.task sf.task (-1) q (-1) ?_ hq.chain
    intro a ha
    have : a ≠ x := by intro e; subst e; exact hxq ha
    rw [hft a this]; exact ⟨rfl, rfl⟩
  have hfp : ∀ a, (sf.task a).priority = (s.task a).priority := fun a => (hfd a).2.2.2.1
  have hqf : IsList N sf.task sf.first sf.last sf.length q :=
    ⟨hq.nodup, hq.lt, hfc, by rw [hf1]; exact hq.first_eq, by rw [hf2]; exact hq.last_eq,
      by rw [hf3]; exact hq.len_eq⟩
  by_cases hnil : q = []
  · -- empty queue
    subst hnil
    rw [if_pos (hqf.nil_iff.2 rfl)]
    refine ⟨_, [], [], rfl, rfl, by simp, by simp, ?_, ?_, hf4, hf5, hf6, ?_, ?_⟩
    · refine ⟨by simp, by simpa using hx, ?_, rfl, rfl, ?_⟩
      · simp [Chain, hd]
      · simp [wrap16]
    · exact ⟨hfr.available, hfr.to_link, hfr.max_length, hfr.sch_to_link, hfr.ms_time,
        hfr.rollover_time, hfr.total_time, hfr.last_time, hfr.service_tasks_time, hfr.trace⟩
    · intro a
      simp only [modTask_task]
      split
      · rename_i h; subst h
        exact sameData_trans ⟨rfl, rfl, rfl, rfl, rfl, rfl, rfl⟩ (hfd a)
      · exact hfd a
    · intro a _ ha
      simp only [modTask_task, if_neg ha]
      exact hft a ha
  · rw [if_neg (fun h => hnil (hqf.nil_iff.1 h))]
    rw [QueueTask_scan_eq]
    have hscan := scanBy_spec N sf (fun j => (sf.task x).priority > (sf.task j).priority)
      q (-1) hfc hq.lt q [] (N + 1) (by simp) hnil (by simp)
      (by have := nodup_length_le N q hq.nodup hq.lt; omega)
    rw [← hqf.last_eq] at hscan
    rcases hscan with ⟨A1, j, B1, hl, hB, hj, hres⟩ | ⟨h, r, hl, hall, hres⟩
    · -- insert after `j`
      rw [hres]
      simp only
      have hxl : x ∉ A1 ++ j :: B1 := by rw [← hl]; exact hxq
      have hndl : (A1 ++ j :: B1).Nodup := by rw [← hl]; exact hq.nodup
      have hcl : Chain sf.task (-1) (A1 ++ j :: B1) (-1) := by rw [← hl]; exact hfc
      obtain ⟨hn, hc1, hc2⟩ := linkAfter_chain sf x j A1 B1 hcl hndl hxl
      have hxj : x ≠ j := by intro e; subst e; exact hxl (by simp)
      have hnd' : (A1 ++ j :: x :: B1).Nodup := by
        have := nodup_insert_mid (A1 ++ [j]) B1 x (by simpa using hndl) (by simpa using hxl)
        simpa using this
      have hlt' : ∀ a ∈ A1 ++ j :: x :: B1, a < N := by
        intro a ha
        simp only [List.mem_append, List.mem_cons] at ha
        rcases ha with h | h | h | h
        · exact hq.lt a (by rw [hl]; simp [h])
        · exact hq.lt a (by rw [hl]; simp [h])
        · rw [h]; exact hx
        · exact hq.lt a (by rw [hl]; simp [h])
      have hfirst : sf.first = hd (A1 ++ j :: x :: B1) (-1) := by
        rw [hqf.first_eq, hl]; cases A1 <;> rfl
      have hlen' : wrap16 (sf.length + 1) = ((A1 ++ j :: x :: B1).length : Int) := by
        rw [hqf.len_eq, wrap16_of_range _ (by omega) hlen, hl]
        simp only [List.length_append, List.length_cons]; push_cast; ring
      have hdata : ∀ a, sameData ((linkAfter sf x j).task a) (s.task a) := by
        intro a
        rw [linkAfter_task sf x j a hxj]
        split
        · rename_i h; subst h
          exact sameData_trans ⟨rfl, rfl, rfl, rfl, rfl, rfl, rfl⟩ (hfd a)
        · split
          · rename_i h; subst h
            exact sameData_trans ⟨rfl, rfl, rfl, rfl, rfl, rfl, rfl⟩ (hfd a)
          · exact hfd a
      have hout : ∀ a, a ∉ q → a ≠ x → (linkAfter sf x j).task a = s.task a := by
        intro a haq hax
        have haj : a ≠ j := by intro e; subst e; exact haq (by rw [hl]; simp)
        rw [linkAfter_task sf x j a hxj, if_neg haj, if_neg hax]
        exact hft a hax
      refine ⟨_, A1 ++ [j], B1, rfl, by rw [hl]; simp, ?_, ?_, ?_⟩
      · intro b hb
        have h' : (sf.task x).priority > (sf.task b).priority := hB b hb
        rw [hfp, hfp] at h'; exact h'
      · intro A' a ha
        have e : j = a := (List.cons.inj (List.append_inj_right' ha rfl)).1
        subst e
        have h' : ¬ ((sf.task x).priority > (sf.task j).priority) := hj
        rw [hfp, hfp] at h'; omega
      cases B1 with
      | nil =>
        have hneg : ((linkAfter sf x j).task x).next < 0 := by rw [hn]; decide
        rw [if_pos hneg]
        refine ⟨?_, ?_, hf4, hf5, hf6, hdata, hout⟩
        · refine ⟨by simpa using hnd', by simpa using hlt', by simpa using hc1 rfl, ?_, ?_, ?_⟩
          · simpa using hfirst
          · show (x : Int) = lst ((A1 ++ [j]) ++ [x]) (-1); rw [lst_concat]
          · simpa using hlen'
        · exact ⟨hfr.available, hfr.to_link, hfr.max_length, hfr.sch_to_link, hfr.ms_time,
            hfr.rollover_time, hfr.total_time, hfr.last_time, hfr.service_tasks_time, hfr.trace⟩
      | cons b B' =>
        have hbN : b < N := hq.lt b (by rw [hl]; simp)
        have hnn : ¬ ((linkAfter sf x j).task x).next < 0 := by rw [hn]; simp [hd]
        have hnN : ((linkAfter sf x j).task x).next < (N : Int) := by
          rw [hn]; simp only [hd]; exact_mod_cast hbN
        rw [if_neg hnn, if_pos hnN]
        have hnb : ((linkAfter sf x j).task x).next.toNat = b := by rw [hn]; simp [hd]
        rw [hnb]
        refine ⟨?_, ?_, hf4, hf5, hf6, ?_, ?_⟩
        · refine ⟨by simpa using hnd', by simpa using hlt', by simpa using hc2 b B' rfl,
            ?_, ?_, ?_⟩
          · simpa using hfirst
          · show sf.last = lst ((A1 ++ [j]) ++ x :: b :: B') (-1)
            rw [hqf.last_eq, hl, lst_append, lst_append, lst_append]; rfl
          · simpa using hlen'
        · exact ⟨hfr.available, hfr.to_link, hfr.max_length, hfr.sch_to_link, hfr.ms_time,
            hfr.rollover_time, hfr.total_time, hfr.last_time, hfr.service_tasks_time, hfr.trace⟩
        · intro a
          simp only [modTask_task]
          split
          · rename_i h; subst h
            exact sameData_trans ⟨rfl, rfl, rfl, rfl, rfl, rfl, rfl⟩ (hdata a)
          · exact hdata a
        · intro a haq hax
          have hab : a ≠ b := by intro e; subst e; exact haq (by rw [hl]; simp)
          simp only [modTask_task, if_neg hab]
          exact hout a haq hax
    · -- insert in front of the first element
      rw [hres]
      simp only
      have hxl : x ∉ h :: r := by rw [← hl]; exact hxq
      have hndl : (h :: r).Nodup := by rw [← hl]; exact hq.nodup
      have hcl : Chain sf.task (-1) (h :: r) (-1) := by rw [← hl]; exact hfc
      have hxh : x ≠ h := by intro e; subst e; exact hxl (by simp)
      have hc1 := linkFront_chain { sf with first := (x : Int) } x h r hcl hndl hxl
      refine ⟨_, [], q, rfl, rfl, ?_, by simp, ?_, ?_, hf4, hf5, hf6, ?_, ?_⟩
      · intro b hb
        have h' : (sf.task x).priority > (sf.task b).priority := hall b hb
        rw [hfp, hfp] at h'; exact h'
      · refine ⟨?_, ?_, ?_, rfl, ?_, ?_⟩
        · simpa using List.nodup_cons.2 ⟨hxq, hq.nodup⟩
        · intro a ha
          simp only [List.nil_append, List.mem_cons] at ha
          rcases ha with e | e
          · rw [e]; exact hx
          · exact hq.lt a e
        · rw [hl]; exact hc1
        · show sf.last = lst (x :: q) (-1)
          rw [hqf.last_eq, hl]; rfl
        · show wrap16 (sf.length + 1) = ((x :: q).length : Int)
          rw [hqf.len_eq, wrap16_of_range _ (by omega) hlen]
          simp only [List.length_cons]; push_cast; ring
      · exact ⟨hfr.available, hfr.to_link, hfr.max_length, hfr.sch_to_link, hfr.ms_time,
          hfr.rollover_time, hfr.total_time, hfr.last_time, hfr.service_tasks_time, hfr.trace⟩
      · intro a
        show sameData ((linkFront { sf with first := (x : Int) } x h).task a) (s.task a)
        rw [linkFront_task _ x h a hxh]
        split
        · rename_i e; subst e
          exact sameData_trans ⟨rfl, rfl, rfl, rfl, rfl, rfl, rfl⟩ (hfd a)
        · split
          · rename_i e; subst e
            exact sameData_trans ⟨rfl, rfl, rfl, rfl, rfl, rfl, rfl⟩ (hfd a)
          · exact hfd a
      · intro a haq hax
        have hah : a ≠ h := by intro e; subst e; exact haq (by rw [hl]; simp)
        show (linkFront { sf with first := (x : Int) } x h).task a = s.task a
        rw [linkFront_task _ x h a hxh, if_neg hax, if_neg hah]
        exact hft a hax

theorem nodup_mid (A B : List Nat) (x : Nat) (h : (A ++ x :: B).Nodup) :
    x ∉ A ∧ x ∉ B ∧ (∀ a ∈ A, a ∉ B) ∧ A.Nodup ∧ B.Nodup := by
  rw [List.nodup_append] at h
  obtain ⟨h1, h2, h3⟩ := h
  refine ⟨fun hx => h3 hx (List.mem_cons_self _ _), (List.nodup_cons.1 h2).1,
    fun a ha hb => h3 ha (List.mem_cons_of_mem _ hb), h1, (List.nodup_cons.1 h2).2⟩

theorem sameData_modTask (s : Machine) (i : Nat) (f : task_t → task_t)
    (hf : ∀ t, sameData (f t) t) (c : Nat) : sameData ((modTask s i f).task c) (s.task c) := by
  rw [modTask_task]
  split
  · rename_i e; rw [e]; exact hf _
  · exact sameData_refl _

theorem sameData_setNext (v : Int) (t : task_t) : sameData { t with next := v } t :=
  ⟨rfl, rfl, rfl, rfl, rfl, rfl, rfl⟩

theorem sameData_setPrevious (v : Int) (t : task_t) : sameData { t with previous := v } t :=
  ⟨rfl, rfl, rfl, rfl, rfl, rfl, rfl⟩

theorem UnScheduleTask_spec (N : Nat) (s : Machine) (A B : List Nat) (x : Nat)
    (hq : IsList N s.task s.sch_first s.sch_last s.sch_length (A ++ x :: B))
    (hused : (s.task x).priority ≠ TASK_DONE) (hcap : N ≤ 32767) :
    IsList N (UnScheduleTask N (x : Int) s).task (UnScheduleTask N (x : Int) s).sch_first
      (UnScheduleTask N (x : Int) s).sch_last (UnScheduleTask N (x : Int) s).sch_length (A ++ B) ∧
    SameRest s (UnScheduleTask N (x : Int) s) ∧
    (UnScheduleTask N (x : Int) s).first = s.first ∧
    (UnScheduleTask N (x : Int) s).last = s.last ∧
    (UnScheduleTask N (x : Int) s).length = s.length ∧
    (UnScheduleTask N (x : Int) s).task x = { clearTask (s.task x) with count := TASK_DONE } ∧
    (∀ a, a ≠ x → sameData ((UnScheduleTask N (x : Int) s).task a) (s.task a)) ∧
    (∀ a, a ∉ A ++ x :: B → (UnScheduleTask N (x : Int) s).task a = s.task a) := by
  have hxN : x < N := hq.lt x (by simp)
  have hv : validIdx N (x : Int) := ⟨by omega, by exact_mod_cast hxN⟩
  have hc := hq.chain
  rw [Chain_append] at hc
  obtain ⟨hcA, hxp, hxn, hcB⟩ := hc
  have hnd := hq.nodup
  have hlenN := nodup_length_le N _ hq.nodup hq.lt
  have hlen' : wrap16 (s.sch_length - 1) = ((A ++ B).length : Int) := by
    rw [hq.len_eq, wrap16_of_range]
    · simp only [List.length_append, List.length_cons]; push_cast; ring
    · simp only [List.length_append, List.length_cons]; push_cast; omega
    · simp only [List.length_append, List.length_cons] at hlenN ⊢; push_cast; omega
  have hnd' : (A ++ B).Nodup := by
    rw [List.nodup_append] at hnd ⊢
    exact ⟨hnd.1, (List.nodup_cons.1 hnd.2.1).2,
      fun a ha hb => hnd.2.2 ha (List.mem_cons_of_mem _ hb)⟩
  have hlt' : ∀ a ∈ A ++ B, a < N := by
    intro a ha
    refine hq.lt a ?_
    simp only [List.mem_append, List.mem_cons] at ha ⊢
    tauto
  unfold UnScheduleTask
  rw [if_pos hv]
  simp only [Int.toNat_ofNat]
  rw [if_neg hused, hxp, hxn]
  rcases List.eq_nil_or_concat A with hA | ⟨A', a, hA⟩
  · -- `x` is the first element
    subst hA
    have hpv : ¬ validIdx N (lst [] (-1)) := by simp [lst, validIdx]
    rw [if_neg hpv]
    cases B with
    | nil =>
      have hnv : ¬ validIdx N (hd [] (-1)) := by simp [hd, validIdx]
      rw [if_neg hnv]
      refine ⟨⟨by simp, by simp, trivial, rfl, rfl, by simpa using hlen'⟩,
        ⟨rfl, rfl, rfl, rfl, rfl, rfl, rfl, rfl, rfl, rfl⟩, rfl, rfl, rfl, ?_, ?_, ?_⟩
      · simp
      · intro c hcx; simp [hcx, sameData_refl]
      · intro c hc'
        have : c ≠ x := by intro e; subst e; exact hc' (by simp)
        simp [this]
    | cons b B' =>
      have hbN : b < N := hq.lt b (by simp)
      have hbx : b ≠ x := by
        intro e; subst e
        exact (nodup_mid _ _ _ hnd).2.1 (by simp)
      have hnv : validIdx N (hd (b :: B') (-1)) :=
        ⟨by simp [hd], by simp only [hd]; exact_mod_cast hbN⟩
      rw [if_pos hnv]
      have hp0 : lst [] (-1) < (0 : Int) := by simp [lst]
      rw [if_pos hp0]
      simp only [hd, lst, Int.toNat_ofNat]
      refine ⟨⟨by simpa using hnd', by simpa using hlt', ?_, rfl, ?_, by simpa using hlen'⟩,
        ⟨rfl, rfl, rfl, rfl, rfl, rfl, rfl, rfl, rfl, rfl⟩, rfl, rfl, rfl, ?_, ?_, ?_⟩
      · have := Chain_remove s.task
          (modTask (modTask s x (fun t => { clearTask t with count := TASK_DONE })) b
            (fun t => { t with previous := -1 })).task [] (b :: B') x (-1) (-1)
          (by simpa using hq.chain) (by simpa using hnd)
          (by intro A' a' e; simp at e)
          (by intro b' B'' e
              have e1 := (List.cons.inj e).1
              subst e1
              simp [lst, hbx, clearTask])
          (by intro c h1 _ h3
              have hcb : c ≠ b := by intro e; subst e; exact h3 B' rfl
              simp [h1, hcb])
        simpa using this
      · show s.sch_last = lst ([] ++ b :: B') (-1)
        rw [hq.last_eq]; rfl
      · simp [Ne.symm hbx]
      · intro c hcx
        try dsimp only
        refine sameData_trans (sameData_modTask _ _ _ (fun t => ?_) c) ?_
        · first | exact sameData_setNext _ t | exact sameData_setPrevious _ t
        · rw [modTask_task, if_neg hcx]; exact sameData_refl _
      · intro c hc'
        simp only [List.nil_append, List.mem_cons, not_or] at hc'
        simp [hc'.1, hc'.2.1]
  · -- `x` has a predecessor `a`
    rw [List.concat_eq_append] at hA
    subst hA
    have haN : a < N := hq.lt a (by simp)
    have hax : a ≠ x := by
      intro e; subst e
      exact (nodup_mid _ _ _ hnd).1 (by simp)
    have hpv : validIdx N (lst (A' ++ [a]) (-1)) := by
      rw [lst_concat]; exact ⟨by omega, by exact_mod_cast haN⟩
    rw [if_pos hpv, lst_concat]
    simp only [Int.toNat_ofNat]
    cases B with
    | nil =>
      have hn0 : hd [] (-1) < (0 : Int) := by simp [hd]
      have hnv : ¬ validIdx N (hd [] (-1)) := by simp [hd, validIdx]
      rw [if_pos hn0, if_neg hnv]
      refine ⟨⟨by simpa using hnd', by simpa using hlt', ?_, ?_, ?_, by simpa using hlen'⟩,
        ⟨rfl, rfl, rfl, rfl, rfl, rfl, rfl, rfl, rfl, rfl⟩, rfl, rfl, rfl, ?_, ?_, ?_⟩
      · have := Chain_remove s.task
          (modTask (modTask s x (fun t => { clearTask t with count := TASK_DONE })) a
            (fun t => { t with next := hd [] (-1) })).task (A' ++ [a]) [] x (-1) (-1)
          hq.chain hnd
          (by intro A'' a' e
              have e1 : a = a' := (List.cons.inj (List.append_inj_right' e rfl)).1
              subst e1
              simp [hax, hd])
          (by intro b' B'' e; cases e)
          (by intro c h1 h2 _
              have hca : c ≠ a := by intro e; subst e; exact h2 A' rfl
              simp [h1, hca])
        simpa using this
      · show s.sch_first = hd ((A' ++ [a]) ++ []) (-1)
        rw [hq.first_eq, hd_append, hd_append]
        cases A' <;> rfl
      · show (a : Int) = lst ((A' ++ [a]) ++ []) (-1)
        rw [List.append_nil, lst_concat]
      · simp [Ne.symm hax]
      · intro c hcx
        try dsimp only
        refine sameData_trans (sameData_modTask _ _ _ (fun t => ?_) c) ?_
        · first | exact sameData_setNext _ t | exact sameData_setPrevious _ t
        · rw [modTask_task, if_neg hcx]; exact sameData_refl _
      · intro c hc'
        simp only [List.mem_append, List.mem_cons, List.mem_singleton, not_or] at hc'
        simp [hc'.2.1, hc'.1.2]
    | cons b B' =>
      have hbN : b < N := hq.lt b (by simp)
      have hbx : b ≠ x := by
        intro e; subst e
        exact (nodup_mid _ _ _ hnd).2.1 (by simp)
      have hba : b ≠ a := by
        intro e; subst e
        exact (nodup_mid _ _ _ hnd).2.2.1 b (by simp) (by simp)
      have hn0 : ¬ hd (b :: B') (-1) < (0 : Int) := by simp [hd]
      have hnv : validIdx N (hd (b :: B') (-1)) :=
        ⟨by simp [hd], by simp only [hd]; exact_mod_cast hbN⟩
      have hp0 : ¬ ((a : Int) < 0) := by omega
      rw [if_neg hn0, if_pos hnv, if_neg hp0]
      simp only [hd, Int.toNat_ofNat]
      refine ⟨⟨by simpa using hnd', by simpa using hlt', ?_, ?_, ?_, by simpa using hlen'⟩,
        ⟨rfl, rfl, rfl, rfl, rfl, rfl, rfl, rfl, rfl, rfl⟩, rfl, rfl, rfl, ?_, ?_, ?_⟩
      · have := Chain_remove s.task
          (modTask (modTask (modTask s x (fun t => { clearTask t with count := TASK_DONE })) a
            (fun t => { t with next := (b : Int) })) b
            (fun t => { t with previous := (a : Int) })).task (A' ++ [a]) (b :: B') x (-1) (-1)
          hq.chain hnd
          (by intro A'' a' e
              have e1 : a = a' := (List.cons.inj (List.append_inj_right' e rfl)).1
              subst e1
              simp [hax, Ne.symm hba, hd])
          (by intro b' B'' e
              have e1 := (List.cons.inj e).1
              subst e1
              simp [hbx, hba, lst_concat, clearTask])
          (by intro c h1 h2 h3
              have hca : c ≠ a := by intro e; subst e; exact h2 A' rfl
              have hcb : c ≠ b := by intro e; subst e; exact h3 B' rfl
              simp [h1, hca, hcb])
        simpa using this
      · show s.sch_first = hd ((A' ++ [a]) ++ b :: B') (-1)
        rw [hq.first_eq, hd_append, hd_append]
        cases A' <;> rfl
      · show s.sch_last = lst ((A' ++ [a]) ++ b :: B') (-1)
        rw [hq.last_eq]; simp only [lst_append, lst]
      · simp [Ne.symm hax, Ne.symm hbx]
      · intro c hcx
        try dsimp only
        refine sameData_trans (sameData_modTask _ _ _ (fun t => sameData_setPrevious _ t) c) ?_
        refine sameData_trans (sameData_modTask _ _ _ (fun t => sameData_setNext _ t) c) ?_
        rw [modTask_task, if_neg hcx]; exact sameData_refl _
      · intro c hc'
        simp only [List.mem_append, List.mem_cons, List.mem_singleton, not_or] at hc'
        simp [hc'.2.1, hc'.1.2, hc'.2.2.1]

theorem UnQueueTask_spec (N : Nat) (s : Machine) (A B : List Nat) (x : Nat)
    (hq : IsList N s.task s.first s.last s.length (A ++ x :: B))
    (hused : (s.task x).priority ≠ TASK_DONE) (hcap : N ≤ 32767) :
    ∃ s', UnQueueTask N (x : Int) s = .ok s' ∧
    IsList N s'.task s'.first s'.last s'.length (A ++ B) ∧
    SameRest s s' ∧
    s'.sch_first = s.sch_first ∧ s'.sch_last = s.sch_last ∧ s'.sch_length = s.sch_length ∧
    s'.task x = { clearTask (s.task x) with count := TASK_DONE } ∧
    (∀ a, a ≠ x → sameData (s'.task a) (s.task a)) ∧
    (∀ a, a ∉ A ++ x :: B → s'.task a = s.task a) := by
  have hxN : x < N := hq.lt x (by simp)
  have hv : validIdx N (x : Int) := ⟨by omega, by exact_mod_cast hxN⟩
  have hc := hq.chain
  rw [Chain_append] at hc
  obtain ⟨hcA, hxp, hxn, hcB⟩ := hc
  have hnd := hq.nodup
  have hlenN := nodup_length_le N _ hq.nodup hq.lt
  have hlen' : wrap16 (s.length - 1) = ((A ++ B).length : Int) := by
    rw [hq.len_eq, wrap16_of_range]
    · simp only [List.length_append, List.length_cons]; push_cast; ring
    · simp only [List.length_append, List.length_cons]; push_cast; omega
    · simp only [List.length_append, List.length_cons] at hlenN ⊢; push_cast; omega
  have hnd' : (A ++ B).Nodup := by
    rw [List.nodup_append] at hnd ⊢
    exact ⟨hnd.1, (List.nodup_cons.1 hnd.2.1).2,
      fun a ha hb => hnd.2.2 ha (List.mem_cons_of_mem _ hb)⟩
  have hlt' : ∀ a ∈ A ++ B, a < N := by
    intro a ha
    refine hq.lt a ?_
    simp only [List.mem_append, List.mem_cons] at ha ⊢
    tauto
  have hn1 : ¬ ((x : Int) < 0 ∨ (x : Int) > (N : Int)) := by omega
  have hn2 : ¬ ((x : Int) = (N : Int)) := by omega
  unfold UnQueueTask
  rw [if_neg hn1, if_neg hn2]
  simp only [Int.toNat_ofNat]
  rw [if_neg hused, hxp, hxn]
  rcases List.eq_nil_or_concat A with hA | ⟨A', a, hA⟩
  · -- `x` is the first element
    subst hA
    have hpv : ¬ validIdx N (lst [] (-1)) := by simp [lst, validIdx]
    rw [if_neg hpv]
    cases B with
    | nil =>
      have hnv : ¬ validIdx N (hd [] (-1)) := by simp [hd, validIdx]
      rw [if_neg hnv]
      refine ⟨_, rfl, ⟨by simp, by simp, trivial, rfl, rfl, by simpa using hlen'⟩,
        ⟨rfl, rfl, rfl, rfl, rfl, rfl, rfl, rfl, rfl, rfl⟩, rfl, rfl, rfl, ?_, ?_, ?_⟩
      · simp
      · intro c hcx; simp [hcx, sameData_refl]
      · intro c hc'
        have : c ≠ x := by intro e; subst e; exact hc' (by simp)
        simp [this]
    | cons b B' =>
      have hbN : b < N := hq.lt b (by simp)
      have hbx : b ≠ x := by
        intro e; subst e
        exact (nodup_mid _ _ _ hnd).2.1 (by simp)
      have hnv : validIdx N (hd (b :: B') (-1)) :=
        ⟨by simp [hd], by simp only [hd]; exact_mod_cast hbN⟩
      rw [if_pos hnv]
      have hp0 : lst [] (-1) < (0 : Int) := by simp [lst]
      rw [if_pos hp0]
      simp only [hd, lst, Int.toNat_ofNat]
      refine ⟨_, rfl, ⟨by simpa using hnd', by simpa using hlt', ?_, rfl, ?_, by simpa using hlen'⟩,
        ⟨rfl, rfl, rfl, rfl, rfl, rfl, rfl, rfl, rfl, rfl⟩, rfl, rfl, rfl, ?_, ?_, ?_⟩
      · have := Chain_remove s.task
          (modTask (modTask s x (fun t => { clearTask t with count := TASK_DONE })) b
            (fun t => { t with previous := -1 })).task [] (b :: B') x (-1) (-1)
          (by simpa using hq.chain) (by simpa using hnd)
          (by intro A' a' e; simp at e)
          (by intro b' B'' e
              have e1 := (List.cons.inj e).1
              subst e1
              simp [lst, hbx, clearTask])
          (by intro c h1 _ h3
              have hcb : c ≠ b := by intro e; subst e; exact h3 B' rfl
              simp [h1, hcb])
        simpa using this
      · show s.last = lst ([] ++ b :: B') (-1)
        rw [hq.last_eq]; rfl
      · simp [Ne.symm hbx]
      · intro c hcx
        try dsimp only
        refine sameData_trans (sameData_modTask _ _ _ (fun t => ?_) c) ?_
        · first | exact sameData_setNext _ t | exact sameData_setPrevious _ t
        · rw [modTask_task, if_neg hcx]; exact sameData_refl _
      · intro c hc'
        simp only [List.nil_append, List.mem_cons, not_or] at hc'
        simp [hc'.1, hc'.2.1]
  · -- `x` has a predecessor `a`
    rw [List.concat_eq_append] at hA
    subst hA
    have haN : a < N := hq.lt a (by simp)
    have hax : a ≠ x := by
      intro e; subst e
      exact (nodup_mid _ _ _ hnd).1 (by simp)
    have hpv : validIdx N (lst (A' ++ [a]) (-1)) := by
      rw [lst_concat]; exact ⟨by omega, by exact_mod_cast haN⟩
    rw [if_pos hpv, lst_concat]
    simp only [Int.toNat_ofNat]
    cases B with
    | nil =>
      have hn0 : hd [] (-1) < (0 : Int) := by simp [hd]
      have hnv : ¬ validIdx N (hd [] (-1)) := by simp [hd, validIdx]
      rw [if_pos hn0, if_neg hnv]
      refine ⟨_, rfl, ⟨by simpa using hnd', by simpa using hlt', ?_, ?_, ?_, by simpa using hlen'⟩,
        ⟨rfl, rfl, rfl, rfl, rfl, rfl, rfl, rfl, rfl, rfl⟩, rfl, rfl, rfl, ?_, ?_, ?_⟩
      · have := Chain_remove s.task
          (modTask (modTask s x (fun t => { clearTask t with count := TASK_DONE })) a
            (fun t => { t with next := hd [] (-1) })).task (A' ++ [a]) [] x (-1) (-1)
          hq.chain hnd
          (by intro A'' a' e
              have e1 : a = a' := (List.cons.inj (List.append_inj_right' e rfl)).1
              subst e1
              simp [hax, hd])
          (by intro b' B'' e; cases e)
          (by intro c h1 h2 _
              have hca : c ≠ a := by intro e; subst e; exact h2 A' rfl
              simp [h1, hca])
        simpa using this
      · show s.first = hd ((A' ++ [a]) ++ []) (-1)
        rw [hq.first_eq, hd_append, hd_append]
        cases A' <;> rfl
      · show (a : Int) = lst ((A' ++ [a]) ++ []) (-1)
        rw [List.append_nil, lst_concat]
      · simp [Ne.symm hax]
      · intro c hcx
        try dsimp only
        refine sameData_trans (sameData_modTask _ _ _ (fun t => ?_) c) ?_
        · first | exact sameData_setNext _ t | exact sameData_setPrevious _ t
        · rw [modTask_task, if_neg hcx]; exact sameData_refl _
      · intro c hc'
        simp only [List.mem_append, List.mem_cons, List.mem_singleton, not_or] at hc'
        simp [hc'.2.1, hc'.1.2]
    | cons b B' =>
      have hbN : b < N := hq.lt b (by simp)
      have hbx : b ≠ x := by
        intro e; subst e
        exact (nodup_mid _ _ _ hnd).2.1 (by simp)
      have hba : b ≠ a := by
        intro e; subst e
        exact (nodup_mid _ _ _ hnd).2.2.1 b (by simp) (by simp)
      have hn0 : ¬ hd (b :: B') (-1) < (0 : Int) := by simp [hd]
      have hnv : validIdx N (hd (b :: B') (-1)) :=
        ⟨by simp [hd], by simp only [hd]; exact_mod_cast hbN⟩
      have hp0 : ¬ ((a : Int) < 0) := by omega
      rw [if_neg hn0, if_pos hnv, if_neg hp0]
      simp only [hd, Int.toNat_ofNat]
      refine ⟨_, rfl, ⟨by simpa using hnd', by simpa using hlt', ?_, ?_, ?_, by simpa using hlen'⟩,
        ⟨rfl, rfl, rfl, rfl, rfl, rfl, rfl, rfl, rfl, rfl⟩, rfl, rfl, rfl, ?_, ?_, ?_⟩
      · have := Chain_remove s.task
          (modTask (modTask (modTask s x (fun t => { clearTask t with count := TASK_DONE })) a
            (fun t => { t with next := (b : Int) })) b
            (fun t => { t with previous := (a : Int) })).task (A' ++ [a]) (b :: B') x (-1) (-1)
          hq.chain hnd
          (by intro A'' a' e
              have e1 : a = a' := (List.cons.inj (List.append_inj_right' e rfl)).1
              subst e1
              simp [hax, Ne.symm hba, hd])
          (by intro b' B'' e
              have e1 := (List.cons.inj e).1
              subst e1
              simp [hbx, hba, lst_concat, clearTask])
          (by intro c h1 h2 h3
              have hca : c ≠ a := by intro e; subst e; exact h2 A' rfl
              have hcb : c ≠ b := by intro e; subst e; exact h3 B' rfl
              simp [h1, hca, hcb])
        simpa using this
      · show s.first = hd ((A' ++ [a]) ++ b :: B') (-1)
        rw [hq.first_eq, hd_append, hd_append]
        cases A' <;> rfl
      · show s.last = lst ((A' ++ [a]) ++ b :: B') (-1)
        rw [hq.last_eq]; simp only [lst_append, lst]
      · simp [Ne.symm hax, Ne.symm hbx]
      · intro c hcx
        try dsimp only
        refine sameData_trans (sameData_modTask _ _ _ (fun t => sameData_setPrevious _ t) c) ?_
        refine sameData_trans (sameData_modTask _ _ _ (fun t => sameData_setNext _ t) c) ?_
        rw [modTask_task, if_neg hcx]; exact sameData_refl _
      · intro c hc'
        simp only [List.mem_append, List.mem_cons, List.mem_singleton, not_or] at hc'
        simp [hc'.2.1, hc'.1.2, hc'.2.2.1]

theorem ScheduleTask_insert_spec (N : Nat) (s : Machine) (q : List Nat) (x : Nat)
    (hq : IsList N s.task s.sch_first s.sch_last s.sch_length q) (hx : x < N) (hxq : x ∉ q)
    (hcap : N ≤ 32767) :
    ∃ s' A B, ScheduleTask_insert N (x : Int) s = .ok s' ∧ q = A ++ B ∧
      (∀ b ∈ B, (s.task x).time < (s.task b).time) ∧
      (∀ A' a, A = A' ++ [a] → (s.task a).time ≤ (s.task x).time) ∧
      IsList N s'.task s'.sch_first s'.sch_last s'.sch_length (A ++ x :: B) ∧
      SameRest s s' ∧ s'.first = s.first ∧ s'.last = s.last ∧ s'.length = s.length ∧
      (∀ a, sameData (s'.task a) (s.task a)) ∧
      (∀ a, a ∉ q → a ≠ x → s'.task a = s.task a) := by
  have hlen : (q.length : Int) + 1 ≤ 32767 := by
    have := nodup_length_le N (x :: q) (List.nodup_cons.2 ⟨hxq, hq.nodup⟩)
      (by intro a ha; rcases List.mem_cons.1 ha with h | h
          · rw [h]; exact hx
          · exact hq.lt a h)
    simp only [List.length_cons] at this
    omega
  unfold ScheduleTask_insert
  simp only [Int.toNat_ofNat]
  by_cases hnil : q = []
  · subst hnil
    have h0 : s.sch_length = 0 := by simpa using hq.len_eq
    rw [if_pos h0]
    refine ⟨_, [], [], rfl, rfl, by simp, by simp, ?_, ⟨rfl, rfl, rfl, rfl, rfl, rfl, rfl, rfl, rfl, rfl⟩,
      rfl, rfl, rfl, ?_, ?_⟩
    · refine ⟨by simp, by simpa using hx, ?_, rfl, rfl, ?_⟩
      · simp [Chain, hd]
      · simp [wrap16, h0]
    · intro a
      simp only [modTask_task]
      split
      · rename_i h; subst h
        exact ⟨rfl, rfl, rfl, rfl, rfl, rfl, rfl⟩
      · exact sameData_refl _
    · intro a _ ha
      simp only [modTask_task, if_neg ha]
  · have h0 : ¬ s.sch_length = 0 := by
      intro h
      have h3 : 0 < q.length := List.length_pos.2 hnil
      have h4 := hq.len_eq
      omega
    rw [if_neg h0]
    rw [ScheduleTask_scan_eq]
    have hscan := scanBy_spec N s (fun j => (s.task x).time < (s.task j).time)
      q (-1) hq.chain hq.lt q [] (N + 1) (by simp) hnil (by simp)
      (by have := nodup_length_le N q hq.nodup hq.lt; omega)
    rw [← hq.last_eq] at hscan
    rcases hscan with ⟨A1, j, B1, hl, hB, hj, hres⟩ | ⟨h, r, hl, hall, hres⟩
    · rw [hres]
      simp only
      have hxl : x ∉ A1 ++ j :: B1 := by rw [← hl]; exact hxq
      have hndl : (A1 ++ j :: B1).Nodup := by rw [← hl]; exact hq.nodup
      have hcl : Chain s.task (-1) (A1 ++ j :: B1) (-1) := by rw [← hl]; exact hq.chain
      obtain ⟨hn, hc1, hc2⟩ := linkAfter_chain s x j A1 B1 hcl hndl hxl
      have hxj : x ≠ j := by intro e; subst e; exact hxl (by simp)
      have hnd' : (A1 ++ j :: x :: B1).Nodup := by
        have := nodup_insert_mid (A1 ++ [j]) B1 x (by simpa using hndl) (by simpa using hxl)
        simpa using this
      have hlt' : ∀ a ∈ A1 ++ j :: x :: B1, a < N := by
        intro a ha
        simp only [List.mem_append, List.mem_cons] at ha
        rcases ha with h | h | h | h
        · exact hq.lt a (by rw [hl]; simp [h])
        · exact hq.lt a (by rw [hl]; simp [h])
        · rw [h]; exact hx
        · exact hq.lt a (by rw [hl]; simp [h])
      have hfirst : s.sch_first = hd (A1 ++ j :: x :: B1) (-1) := by
        rw [hq.first_eq, hl]; cases A1 <;> rfl
      have hlen' : wrap16 (s.sch_length + 1) = ((A1 ++ j :: x :: B1).length : Int) := by
        rw [hq.len_eq, wrap16_of_range _ (by omega) hlen, hl]
        simp only [List.length_append, List.length_cons]; push_cast; ring
      have hdata : ∀ a, sameData ((linkAfter s x j).task a) (s.task a) := by
        intro a
        rw [linkAfter_task s x j a hxj]
        split
        · rename_i h; subst h
          exact ⟨rfl, rfl, rfl, rfl, rfl, rfl, rfl⟩
        · split
          · rename_i h; subst h
            exact ⟨rfl, rfl, rfl, rfl, rfl, rfl, rfl⟩
          · exact sameData_refl _
      have hout : ∀ a, a ∉ q → a ≠ x → (linkAfter s x j).task a = s.task a := by
        intro a haq hax
        have haj : a ≠ j := by intro e; subst e; exact haq (by rw [hl]; simp)
        rw [linkAfter_task s x j a hxj, if_neg haj, if_neg hax]
      refine ⟨_, A1 ++ [j], B1, rfl, by rw [hl]; simp, ?_, ?_, ?_⟩
      · intro b hb
        exact hB b hb
      · intro A' a ha
        have e : j = a := (List.cons.inj (List.append_inj_right' ha rfl)).1
        subst e
        have h' : ¬ ((s.task x).time < (s.task j).time) := hj
        omega
      cases B1 with
      | nil =>
        have hneg : ((linkAfter s x j).task x).next < 0 := by rw [hn]; decide
        rw [if_pos hneg]
        refine ⟨?_, ⟨rfl, rfl, rfl, rfl, rfl, rfl, rfl, rfl, rfl, rfl⟩, rfl, rfl, rfl, hdata, hout⟩
        refine ⟨by simpa using hnd', by simpa using hlt', by simpa using hc1 rfl, ?_, ?_, ?_⟩
        · simpa using hfirst
        · show (x : Int) = lst ((A1 ++ [j]) ++ [x]) (-1); rw [lst_concat]
        · simpa using hlen'
      | cons b B' =>
        have hbN : b < N := hq.lt b (by rw [hl]; simp)
        have hnn : ¬ ((linkAfter s x j).task x).next < 0 := by rw [hn]; simp [hd]
        have hnN : ((linkAfter s x j).task x).next < (N : Int) := by
          rw [hn]; simp only [hd]; exact_mod_cast hbN
        rw [if_neg hnn, if_pos hnN]
        have hnb : ((linkAfter s x j).task x).next.toNat = b := by rw [hn]; simp [hd]
        rw [hnb]
        refine ⟨?_, ⟨rfl, rfl, rfl, rfl, rfl, rfl, rfl, rfl, rfl, rfl⟩, rfl, rfl, rfl, ?_, ?_⟩
        · refine ⟨by simpa using hnd', by simpa using hlt', by simpa using hc2 b B' rfl,
            ?_, ?_, ?_⟩
          · simpa using hfirst
          · show s.sch_last = lst ((A1 ++ [j]) ++ x :: b :: B') (-1)
            rw [hq.last_eq, hl]; simp only [lst_append, lst]
          · simpa using hlen'
        · intro a
          dsimp only
          exact sameData_trans (sameData_modTask _ _ _ (fun t => sameData_setPrevious _ t) a)
            (hdata a)
        · intro a haq hax
          have hab : a ≠ b := by intro e; subst e; exact haq (by rw [hl]; simp)
          simp only [modTask_task, if_neg hab]
          exact hout a haq hax
    · rw [hres]
      simp only
      have hxl : x ∉ h :: r := by rw [← hl]; exact hxq
      have hndl : (h :: r).Nodup := by rw [← hl]; exact hq.nodup
      have hcl : Chain s.task (-1) (h :: r) (-1) := by rw [← hl]; exact hq.chain
      have hxh : x ≠ h := by intro e; subst e; exact hxl (by simp)
      have hc1 := linkFront_chain { s with sch_first := (x : Int) } x h r hcl hndl hxl
      refine ⟨_, [], q, rfl, rfl, ?_, by simp, ?_, ⟨rfl, rfl, rfl, rfl, rfl, rfl, rfl, rfl, rfl, rfl⟩,
        rfl, rfl, rfl, ?_, ?_⟩
      · intro b hb
        exact hall b hb
      · refine ⟨?_, ?_, ?_, rfl, ?_, ?_⟩
        · simpa using List.nodup_cons.2 ⟨hxq, hq.nodup⟩
        · intro a ha
          simp only [List.nil_append, List.mem_cons] at ha
          rcases ha with e | e
          · rw [e]; exact hx
          · exact hq.lt a e
        · rw [hl]; exact hc1
        · show s.sch_last = lst (x :: q) (-1)
          rw [hq.last_eq, hl]; rfl
        · show wrap16 (s.sch_length + 1) = ((x :: q).length : Int)
          rw [hq.len_eq, wrap16_of_range _ (by omega) hlen]
          simp only [List.length_cons]; push_cast; ring
      · intro a
        show sameData ((linkFront { s with sch_first := (x : Int) } x h).task a) (s.task a)
        rw [linkFront_task _ x h a hxh]
        split
        · rename_i e; subst e
          exact ⟨rfl, rfl, rfl, rfl, rfl, rfl, rfl⟩
        · split
          · rename_i e; subst e
            exact ⟨rfl, rfl, rfl, rfl, rfl, rfl, rfl⟩
          · exact sameData_refl _
      · intro a haq hax
        have hah : a ≠ h := by intro e; subst e; exact haq (by rw [hl]; simp)
        show (linkFront { s with sch_first := (x : Int) } x h).task a = s.task a
        rw [linkFront_task _ x h a hxh, if_neg hax, if_neg hah]

theorem sameData_sameIdent {a b : task_t} (h : sameData a b) : sameIdent a b :=
  ⟨h.1, h.2.1, h.2.2.1, h.2.2.2.1, h.2.2.2.2.2.1, h.2.2.2.2.2.2⟩

theorem sameIdent_refl (a : task_t) : sameIdent a a := ⟨rfl, rfl, rfl, rfl, rfl, rfl⟩

theorem sameIdent_trans {a b c : task_t} (h1 : sameIdent a b) (h2 : sameIdent b c) :
    sameIdent a c := by
  obtain ⟨a1, a2, a3, a4, a5, a6⟩ := h1
  obtain ⟨b1, b2, b3, b4, b5, b6⟩ := h2
  exact ⟨a1.trans b1, a2.trans b2, a3.trans b3, a4.trans b4, a5.trans b5, a6.trans b6⟩

theorem SameRest.ctl {s s' : Machine} (h : SameRest s s') : SameCtl s s' :=
  ⟨h.available, h.to_link, h.max_length, h.sch_to_link, h.last_time, h.service_tasks_time,
    h.trace⟩

theorem SameCtl.ctl_refl (s : Machine) : SameCtl s s := ⟨rfl, rfl, rfl, rfl, rfl, rfl, rfl⟩

theorem SameCtl.ctl_trans {a b c : Machine} (h1 : SameCtl a b) (h2 : SameCtl b c) : SameCtl a c :=
  ⟨h2.available.trans h1.available, h2.to_link.trans h1.to_link,
    h2.max_length.trans h1.max_length, h2.sch_to_link.trans h1.sch_to_link,
    h2.last_time.trans h1.last_time, h2.service_tasks_time.trans h1.service_tasks_time,
    h2.trace.trans h1.trace⟩

theorem SameRest_modTask (s : Machine) (i : Nat) (f : task_t → task_t) :
    SameRest s (modTask s i f) := ⟨rfl, rfl, rfl, rfl, rfl, rfl, rfl, rfl, rfl, rfl⟩

theorem SameCtl_TimerRoll (s : Machine) : SameCtl s (TimerRoll s) :=
  ⟨rfl, rfl, rfl, rfl, rfl, rfl, rfl⟩

/-- `rollAll` rewrites due times only. -/
theorem rollAll_frame (now : Nat) (k i : Nat) (s : Machine) :
    (∀ a, sameIdent ((rollAll now k i s).task a) (s.task a) ∧
      ((rollAll now k i s).task a).next = (s.task a).next ∧
      ((rollAll now k i s).task a).previous = (s.task a).previous) ∧
    SameRest s (rollAll now k i s) ∧
    (rollAll now k i s).first = s.first ∧ (rollAll now k i s).last = s.last ∧
    (rollAll now k i s).length = s.length ∧ (rollAll now k i s).sch_first = s.sch_first ∧
    (rollAll now k i s).sch_last = s.sch_last ∧ (rollAll now k i s).sch_length = s.sch_length := by
  induction k generalizing i s with
  | zero =>
    exact ⟨fun a => ⟨sameIdent_refl _, rfl, rfl⟩, SameRest.rest_refl s, rfl, rfl, rfl, rfl, rfl, rfl⟩
  | succ k ih =>
    unfold rollAll
    split
    · obtain ⟨h1, h2, h3, h4, h5, h6, h7, h8⟩ :=
        ih (i + 1) (modTask s i (fun t => { t with time := t.time - now }))
      refine ⟨?_, ?_, h3, h4, h5, h6, h7, h8⟩
      · intro a
        obtain ⟨g1, g2, g3⟩ := h1 a
        have : sameIdent ((modTask s i (fun t => { t with time := t.time - now })).task a)
            (s.task a) ∧
            ((modTask s i (fun t => { t with time := t.time - now })).task a).next
              = (s.task a).next ∧
            ((modTask s i (fun t => { t with time := t.time - now })).task a).previous
              = (s.task a).previous := by
          rw [modTask_task]
          split
          · rename_i e; subst e; exact ⟨⟨rfl, rfl, rfl, rfl, rfl, rfl⟩, rfl, rfl⟩
          · exact ⟨sameIdent_refl _, rfl, rfl⟩
        exact ⟨sameIdent_trans g1 this.1, g2.trans this.2.1, g3.trans this.2.2⟩
      · exact SameRest.rest_trans (SameRest_modTask s i _) h2
    · exact ih (i + 1) s

/-- `RollTimer` rewrites due times and the clock only. -/
theorem RollTimer_frame (N : Nat) (s : Machine) :
    (∀ a, sameIdent ((RollTimer N s).task a) (s.task a) ∧
      ((RollTimer N s).task a).next = (s.task a).next ∧
      ((RollTimer N s).task a).previous = (s.task a).previous) ∧
    SameCtl s (RollTimer N s) ∧
    (RollTimer N s).first = s.first ∧ (RollTimer N s).last = s.last ∧
    (RollTimer N s).length = s.length ∧ (RollTimer N s).sch_first = s.sch_first ∧
    (RollTimer N s).sch_last = s.sch_last ∧ (RollTimer N s).sch_length = s.sch_length := by
  obtain ⟨h1, h2, h3, h4, h5, h6, h7, h8⟩ := rollAll_frame (TimeNow s) N 0 s
  exact ⟨h1, SameCtl.ctl_trans h2.ctl (SameCtl_TimerRoll _), h3, h4, h5, h6, h7, h8⟩

theorem IsList.congr {N : Nat} {t t' : Nat → task_t} {f l n f' l' n' : Int} {q : List Nat}
    (h : IsList N t f l n q)
    (ht : ∀ a ∈ q, (t' a).next = (t a).next ∧ (t' a).previous = (t a).previous)
    (hf : f' = f) (hl : l' = l) (hn : n' = n) : IsList N t' f' l' n' q :=
  ⟨h.nodup, h.lt, Chain_frame t t' _ _ _ ht h.chain, by rw [hf]; exact h.first_eq,
    by rw [hl]; exact h.last_eq, by rw [hn]; exact h.len_eq⟩

theorem ScheduleTask_spec (N : Nat) (s : Machine) (q : List Nat) (x : Nat)
    (hq : IsList N s.task s.sch_first s.sch_last s.sch_length q) (hx : x < N) (hxq : x ∉ q)
    (hused : (s.task x).priority ≠ TASK_DONE) (hcap : N ≤ 32767) :
    ∃ s' A B, ScheduleTask N (x : Int) s = .ok s' ∧ q = A ++ B ∧
      (∀ b ∈ B, (s'.task x).time < (s'.task b).time) ∧
      (∀ A' a, A = A' ++ [a] → (s'.task a).time ≤ (s'.task x).time) ∧
      IsList N s'.task s'.sch_first s'.sch_last s'.sch_length (A ++ x :: B) ∧
      SameCtl s s' ∧ s'.first = s.first ∧ s'.last = s.last ∧ s'.length = s.length ∧
      (∀ a, sameIdent (s'.task a) (s.task a)) ∧
      (∀ a, a ∉ q → a ≠ x →
        (s'.task a).next = (s.task a).next ∧ (s'.task a).previous = (s.task a).previous) ∧
      (¬ ((s.task x).time < TIME_MAX / 2 ∧ TimeNow s > TIME_MAX / 2) →
        SameRest s s' ∧ ∀ a, (s'.task a).time = (s.task a).time) := by
  have hv : validIdx N (x : Int) := ⟨by omega, by exact_mod_cast hx⟩
  unfold ScheduleTask
  rw [if_pos hv]
  simp only [Int.toNat_ofNat]
  rw [if_neg hused]
  generalize hfix : (if (s.task x).next < -1 then modTask s x (fun t => { t with next := -1 })
    else s) = sf
  have hft : ∀ a, a ≠ x → sf.task a = s.task a := by
    intro a ha; rw [← hfix]; split
    · rw [modTask_task, if_neg ha]
    · rfl
  have hfd : ∀ a, sameData (sf.task a) (s.task a) := by
    intro a; rw [← hfix]; split
    · exact sameData_modTask _ _ _ (fun t => sameData_setNext _ t) a
    · exact sameData_refl _
  have hfr : SameRest s sf := by
    rw [← hfix]; split
    · exact ⟨rfl, rfl, rfl, rfl, rfl, rfl, rfl, rfl, rfl, rfl⟩
    · exact SameRest.rest_refl s
  have hfa : sf.first = s.first ∧ sf.last = s.last ∧ sf.length = s.length ∧
      sf.sch_first = s.sch_first ∧ sf.sch_last = s.sch_last ∧ sf.sch_length = s.sch_length := by
    rw [← hfix]; split <;> exact ⟨rfl, rfl, rfl, rfl, rfl, rfl⟩
  obtain ⟨hf1, hf2, hf3, hf4, hf5, hf6⟩ := hfa
  have hcond : ((sf.task x).time < TIME_MAX / 2 ∧ TimeNow sf > TIME_MAX / 2) ↔
      ((s.task x).time < TIME_MAX / 2 ∧ TimeNow s > TIME_MAX / 2) := by
    have h1 : (sf.task x).time = (s.task x).time := (hfd x).2.2.2.2.1
    have h2 : TimeNow sf = TimeNow s := hfr.ms_time
    rw [h1, h2]
  -- the state after the rollover check
  generalize hroll : (if (sf.task x).time < TIME_MAX / 2 ∧ TimeNow sf > TIME_MAX / 2 then
      RollTimer N (modTask sf x (fun t => { t with time := add32 t.time (TIME_MAX - TimeNow sf) }))
    else sf) = sr
  have hrt : ∀ a, sameIdent (sr.task a) (s.task a) ∧
      (a ≠ x → (sr.task a).next = (s.task a).next ∧ (sr.task a).previous = (s.task a).previous) := by
    intro a
    rw [← hroll]
    split
    · obtain ⟨g1, g2, g3⟩ := (RollTimer_frame N (modTask sf x
        (fun t => { t with time := add32 t.time (TIME_MAX - TimeNow sf) }))).1 a
      have hm : sameIdent ((modTask sf x
          (fun t => { t with time := add32 t.time (TIME_MAX - TimeNow sf) })).task a) (sf.task a) := by
        rw [modTask_task]; split
        · rename_i e; subst e; exact ⟨rfl, rfl, rfl, rfl, rfl, rfl⟩
        · exact sameIdent_refl _
      refine ⟨sameIdent_trans g1 (sameIdent_trans hm (sameData_sameIdent (hfd a))), ?_⟩
      intro ha
      rw [g2, g3, modTask_task, if_neg ha, hft a ha]
      exact ⟨rfl, rfl⟩
    · refine ⟨sameData_sameIdent (hfd a), ?_⟩
      intro ha; rw [hft a ha]; exact ⟨rfl, rfl⟩
  have hrc : SameCtl s sr ∧ sr.first = s.first ∧ sr.last = s.last ∧ sr.length = s.length ∧
      sr.sch_first = s.sch_first ∧ sr.sch_last = s.sch_last ∧ sr.sch_length = s.sch_length := by
    rw [← hroll]
    split
    · obtain ⟨_, g2, g3, g4, g5, g6, g7, g8⟩ := RollTimer_frame N (modTask sf x
        (fun t => { t with time := add32 t.time (TIME_MAX - TimeNow sf) }))
      exact ⟨SameCtl.ctl_trans hfr.ctl (SameCtl.ctl_trans (SameRest_modTask sf x _).ctl g2),
        g3.trans hf1, g4.trans hf2, g5.trans hf3, g6.trans hf4, g7.trans hf5, g8.trans hf6⟩
    · exact ⟨hfr.ctl, hf1, hf2, hf3, hf4, hf5, hf6⟩
  obtain ⟨hr0, hr1, hr2, hr3, hr4, hr5, hr6⟩ := hrc
  have hqr : IsList N sr.task sr.sch_first sr.sch_last sr.sch_length q := by
    refine hq.congr ?_ hr4 hr5 hr6
    intro a ha
    have : a ≠ x := by intro e; subst e; exact hxq ha
    exact (hrt a).2 this
  obtain ⟨s', A, B, h1, h2, h3, h4, h5, h6, h7, h8, h9, h10, h11⟩ :=
    ScheduleTask_insert_spec N sr q x hqr hx hxq hcap
  have htime : ∀ a, (s'.task a).time = (sr.task a).time := fun a => (h10 a).2.2.2.2.1
  refine ⟨s', A, B, h1, h2, ?_, ?_, h5, SameCtl.ctl_trans hr0 h6.ctl, h7.trans hr1, h8.trans hr2,
    h9.trans hr3, ?_, ?_, ?_⟩
  · intro b hb; rw [htime, htime]; exact h3 b hb
  · intro A' a ha; rw [htime, htime]; exact h4 A' a ha
  · intro a
    exact sameIdent_trans (sameData_sameIdent (h10 a)) (hrt a).1
  · intro a haq hax
    rw [h11 a haq hax]
    exact (hrt a).2 hax
  · intro hno
    have hsr : sr = sf := by rw [← hroll, if_neg (fun h => hno (hcond.1 h))]
    subst hsr
    refine ⟨SameRest.rest_trans hfr h6, ?_⟩
    intro a
    rw [htime]
    exact (hfd a).2.2.2.2.1

theorem Chain_next_ge (t : Nat → task_t) (p n : Int) (l : List Nat) (hn : -1 ≤ n)
    (hc : Chain t p l n) : ∀ a ∈ l, -1 ≤ (t a).next := by
  induction l generalizing p with
  | nil => intro a ha; cases ha
  | cons b r ih =>
    obtain ⟨_, h2, h3⟩ := hc
    intro a ha
    rcases List.mem_cons.1 ha with e | e
    · subst e
      rw [h2]
      cases r with
      | nil => exact hn
      | cons c r' => simp only [hd]; omega
    · exact ih b h3 a e

theorem IsList.next_ge {N : Nat} {t : Nat → task_t} {f l n : Int} {q : List Nat}
    (h : IsList N t f l n q) : ∀ a ∈ q, -1 ≤ (t a).next :=
  Chain_next_ge t (-1) (-1) q (by decide) h.chain

theorem Lists.not_mem_of_next {N : Nat} {s : Machine} {q sch : List Nat} (h : Lists N s q sch)
    (a : Nat) (ha : (s.task a).next < -1) : a ∉ q ∧ a ∉ sch := by
  constructor
  · intro hm; have := h.queue.next_ge a hm; omega
  · intro hm; have := h.sched.next_ge a hm; omega

theorem mem_split_nodup (l : List Nat) (x : Nat) (hx : x ∈ l) :
    ∃ A B, l = A ++ x :: B := by
  obtain ⟨A, B, h⟩ := List.append_of_mem hx
  exact ⟨A, B, h⟩

theorem QueueTask_lists (N : Nat) (s : Machine) (q sch : List Nat) (x : Nat)
    (hL : Lists N s q sch) (hx : x < N) (hxq : x ∉ q) (hxs : x ∉ sch)
    (hused : (s.task x).priority ≠ TASK_DONE) (hcap : N ≤ 32767) :
    ∃ s' q', QueueTask N (x : Int) s = .ok s' ∧ Lists N s' q' sch ∧
      (∀ a, a ∈ q' ↔ a = x ∨ a ∈ q) ∧ SameRest s s' ∧
      (∀ a, sameData (s'.task a) (s.task a)) ∧
      (∀ a, a ∉ q → a ≠ x → s'.task a = s.task a) := by
  obtain ⟨s', A, B, h1, h2, _, _, h5, h6, h7, h8, h9, h10, h11⟩ :=
    QueueTask_spec N s q x hL.queue hx hxq hused hcap
  have hmem : ∀ a, a ∈ A ++ x :: B ↔ a = x ∨ a ∈ q := by
    intro a; rw [h2]; simp only [List.mem_append, List.mem_cons]; tauto
  refine ⟨s', A ++ x :: B, h1, ⟨h5, ?_, ?_, ?_⟩, hmem, h6, h10, h11⟩
  · refine hL.sched.congr ?_ h7 h8 h9
    intro a ha
    have h1' : a ∉ q := fun h => hL.disj a h ha
    have h2' : a ≠ x := by intro e; subst e; exact hxs ha
    rw [h11 a h1' h2']; exact ⟨rfl, rfl⟩
  · intro a ha
    rcases (hmem a).1 ha with e | e
    · rw [e]; exact hxs
    · exact hL.disj a e
  · intro a ha
    have hp : (s'.task a).priority = (s.task a).priority := (h10 a).2.2.2.1
    rw [hp]
    rcases ha with ha | ha
    · rcases (hmem a).1 ha with e | e
      · rw [e]; exact hused
      · exact hL.used a (Or.inl e)
    · exact hL.used a (Or.inr ha)

theorem ScheduleTask_lists (N : Nat) (s : Machine) (q sch : List Nat) (x : Nat)
    (hL : Lists N s q sch) (hx : x < N) (hxq : x ∉ q) (hxs : x ∉ sch)
    (hused : (s.task x).priority ≠ TASK_DONE) (hcap : N ≤ 32767) :
    ∃ s' sch', ScheduleTask N (x : Int) s = .ok s' ∧ Lists N s' q sch' ∧
      (∀ a, a ∈ sch' ↔ a = x ∨ a ∈ sch) ∧ SameCtl s s' ∧
      (∀ a, sameIdent (s'.task a) (s.task a)) ∧
      (∀ a, a ∉ sch → a ≠ x →
        (s'.task a).next = (s.task a).next ∧ (s'.task a).previous = (s.task a).previous) := by
  obtain ⟨s', A, B, h1, h2, _, _, h5, h6, h7, h8, h9, h10, h11, _⟩ :=
    ScheduleTask_spec N s sch x hL.sched hx hxs hused hcap
  have hmem : ∀ a, a ∈ A ++ x :: B ↔ a = x ∨ a ∈ sch := by
    intro a; rw [h2]; simp only [List.mem_append, List.mem_cons]; tauto
  refine ⟨s', A ++ x :: B, h1, ⟨?_, h5, ?_, ?_⟩, hmem, h6, h10, h11⟩
  · refine hL.queue.congr ?_ h7 h8 h9
    intro a ha
    have h1' : a ∉ sch := hL.disj a ha
    have h2' : a ≠ x := by intro e; subst e; exact hxq ha
    exact h11 a h1' h2'
  · intro a ha hb
    rcases (hmem a).1 hb with e | e
    · rw [e] at ha; exact hxq ha
    · exact hL.disj a ha e
  · intro a ha
    have hp : (s'.task a).priority = (s.task a).priority := (h10 a).2.2.2.1
    rw [hp]
    rcases ha with ha | ha
    · exact hL.used a (Or.inl ha)
    · rcases (hmem a).1 ha with e | e
      · rw [e]; exact hused
      · exact hL.used a (Or.inr e)

theorem UnQueueTask_lists (N : Nat) (s : Machine) (q sch : List Nat) (x : Nat)
    (hL : Lists N s q sch) (hxq : x ∈ q) (hcap : N ≤ 32767) :
    ∃ s' q', UnQueueTask N (x : Int) s = .ok s' ∧ Lists N s' q' sch ∧
      (∀ a, a ∈ q' ↔ a ∈ q ∧ a ≠ x) ∧ SameRest s s' ∧
      s'.task x = { clearTask (s.task x) with count := TASK_DONE } ∧
      (∀ a, a ≠ x → sameData (s'.task a) (s.task a)) ∧
      (∀ a, a ∉ q → s'.task a = s.task a) := by
  obtain ⟨A, B, hAB⟩ := mem_split_nodup q x hxq
  subst hAB
  obtain ⟨s', h1, h2, h3, h4, h5, h6, h7, h8, h9⟩ :=
    UnQueueTask_spec N s A B x hL.queue (hL.used x (Or.inl hxq)) hcap
  have hnd := nodup_mid A B x hL.queue.nodup
  have hmem : ∀ a, a ∈ A ++ B ↔ a ∈ A ++ x :: B ∧ a ≠ x := by
    intro a
    simp only [List.mem_append, List.mem_cons]
    constructor
    · rintro (h | h)
      · exact ⟨Or.inl h, fun e => hnd.1 (e ▸ h)⟩
      · exact ⟨Or.inr (Or.inr h), fun e => hnd.2.1 (e ▸ h)⟩
    · rintro ⟨h | h | h, hne⟩
      · exact Or.inl h
      · exact absurd h hne
      · exact Or.inr h
  refine ⟨s', A ++ B, h1, ⟨h2, ?_, ?_, ?_⟩, hmem, h3, h7, h8, h9⟩
  · refine hL.sched.congr ?_ h4 h5 h6
    intro a ha
    have h1' : a ∉ A ++ x :: B := fun h => hL.disj a h ha
    rw [h9 a h1']; exact ⟨rfl, rfl⟩
  · intro a ha
    exact hL.disj a ((hmem a).1 ha).1
  · intro a ha
    have hax : a ≠ x := by
      rcases ha with ha | ha
      · exact ((hmem a).1 ha).2
      · intro e; subst e; exact hL.disj a hxq ha
    have hp : (s'.task a).priority = (s.task a).priority := (h8 a hax).2.2.2.1
    rw [hp]
    rcases ha with ha | ha
    · exact hL.used a (Or.inl ((hmem a).1 ha).1)
    · exact hL.used a (Or.inr ha)

theorem UnScheduleTask_lists (N : Nat) (s : Machine) (q sch : List Nat) (x : Nat)
    (hL : Lists N s q sch) (hxs : x ∈ sch) (hcap : N ≤ 32767) :
    ∃ sch', Lists N (UnScheduleTask N (x : Int) s) q sch' ∧
      (∀ a, a ∈ sch' ↔ a ∈ sch ∧ a ≠ x) ∧ SameRest s (UnScheduleTask N (x : Int) s) ∧
      (UnScheduleTask N (x : Int) s).task x = { clearTask (s.task x) with count := TASK_DONE } ∧
      (∀ a, a ≠ x → sameData ((UnScheduleTask N (x : Int) s).task a) (s.task a)) ∧
      (∀ a, a ∉ sch → (UnScheduleTask N (x : Int) s).task a = s.task a) := by
  obtain ⟨A, B, hAB⟩ := mem_split_nodup sch x hxs
  subst hAB
  obtain ⟨h2, h3, h4, h5, h6, h7, h8, h9⟩ :=
    UnScheduleTask_spec N s A B x hL.sched (hL.used x (Or.inr hxs)) hcap
  have hnd := nodup_mid A B x hL.sched.nodup
  have hmem : ∀ a, a ∈ A ++ B ↔ a ∈ A ++ x :: B ∧ a ≠ x := by
    intro a
    simp only [List.mem_append, List.mem_cons]
    constructor
    · rintro (h | h)
      · exact ⟨Or.inl h, fun e => hnd.1 (e ▸ h)⟩
      · exact ⟨Or.inr (Or.inr h), fun e => hnd.2.1 (e ▸ h)⟩
    · rintro ⟨h | h | h, hne⟩
      · exact Or.inl h
      · exact absurd h hne
      · exact Or.inr h
  refine ⟨A ++ B, ⟨?_, h2, ?_, ?_⟩, hmem, h3, h7, h8, h9⟩
  · refine hL.queue.congr ?_ h4 h5 h6
    intro a ha
    have h1' : a ∉ A ++ x :: B := hL.disj a ha
    rw [h9 a h1']; exact ⟨rfl, rfl⟩
  · intro a ha hb
    exact hL.disj a ha ((hmem a).1 hb).1
  · intro a ha
    have hax : a ≠ x := by
      rcases ha with ha | ha
      · intro e; subst e; exact hL.disj a ha hxs
      · exact ((hmem a).1 ha).2
    have hp : ((UnScheduleTask N (x : Int) s).task a).priority = (s.task a).priority :=
      (h8 a hax).2.2.2.1
    rw [hp]
    rcases ha with ha | ha
    · exact hL.used a (Or.inl ha)
    · exact hL.used a (Or.inr ((hmem a).1 ha).1)

/-- Dropping the first element of a chain after resetting the `previous` of the second. -/
theorem Chain_pop (t t2 : Nat → task_t) (h : Nat) (r : List Nat) (p p2 n : Int)
    (hc : Chain t p (h :: r) n) (hnd : (h :: r).Nodup)
    (hb : ∀ b r', r = b :: r' → (t2 b).previous = p2 ∧ (t2 b).next = (t b).next)
    (hother : ∀ a ∈ r, (∀ r', r ≠ a :: r') →
      (t2 a).next = (t a).next ∧ (t2 a).previous = (t a).previous) :
    Chain t2 p2 r n := by
  obtain ⟨_, _, h3⟩ := hc
  cases r with
  | nil => trivial
  | cons b r' =>
    obtain ⟨_, g2, g3⟩ := h3
    have hbr : b ∉ r' := (List.nodup_cons.1 (List.nodup_cons.1 hnd).2).1
    refine ⟨(hb b r' rfl).1, by rw [(hb b r' rfl).2]; exact g2, ?_⟩
    refine Chain_frame t t2 b r' n ?_ g3
    intro a ha
    refine hother a (List.mem_cons_of_mem _ ha) ?_
    intro r'' e
    have e1 := (List.cons.inj e).1
    subst e1
    exact hbr ha

theorem tickRun_account_frame (s : Machine) :
    (tickRun_account s).task = s.task ∧ (tickRun_account s).first = s.first ∧
    (tickRun_account s).length = wrap16 (s.length - 1) ∧
    (tickRun_account s).last = (if wrap16 (s.length - 1) < 1 then TASK_DONE else s.last) ∧
    (tickRun_account s).sch_first = s.sch_first ∧ (tickRun_account s).sch_last = s.sch_last ∧
    (tickRun_account s).sch_length = s.sch_length ∧
    (tickRun_account s).available = s.available ∧ (tickRun_account s).to_link = s.to_link ∧
    (tickRun_account s).sch_to_link = s.sch_to_link ∧ (tickRun_account s).ms_time = s.ms_time ∧
    (tickRun_account s).rollover_time = s.rollover_time ∧
    (tickRun_account s).total_time = s.total_time ∧
    (tickRun_account s).last_time = s.last_time ∧
    (tickRun_account s).service_tasks_time = s.service_tasks_time ∧
    (tickRun_account s).trace = s.trace := by
  unfold tickRun_account
  simp only
  split <;> split <;> simp_all

theorem tickRun_dispose_spec (N : Nat) (s : Machine) (sch : List Nat) (h : Nat)
    (hs : IsList N s.task s.sch_first s.sch_last s.sch_length sch) (hh : h < N) (hhs : h ∉ sch)
    (hused : (s.task h).priority ≠ TASK_DONE) (hcap : N ≤ 32767) :
    ∃ s' sch', tickRun_dispose N (h : Int) s = .ok s' ∧
      IsList N s'.task s'.sch_first s'.sch_last s'.sch_length sch' ∧
      s'.first = s.first ∧ s'.last = s.last ∧ s'.length = s.length ∧
      s'.to_link = s.to_link ∧ s'.sch_to_link = s.sch_to_link ∧ s'.last_time = s.last_time ∧
      s'.service_tasks_time = s.service_tasks_time ∧ s'.trace = s.trace ∧
      s'.max_length = s.max_length ∧
      (∀ a, a ≠ h → sameIdent (s'.task a) (s.task a)) ∧
      (∀ a, a ≠ h → a ∉ sch →
        (s'.task a).next = (s.task a).next ∧ (s'.task a).previous = (s.task a).previous) ∧
      (((s'.task h).priority = TASK_DONE ∧ (s'.task h).void_fn = DEFAULT_TASK ∧
          (s'.task h).fn = DEFAULT_INPUT_TASK ∧ (s'.task h).input = 0 ∧ sch' = sch ∧
          s'.available = (h : Int) ∧ s'.ms_time = s.ms_time ∧
          (¬ ((s.task h).period > 0 ∧ (s.task h).count ≠ 0) ∨ (s.task h).count < TASK_DONE) ∧
          (∀ a, a ≠ h → s'.task a = s.task a)) ∨
       ((∀ a, a ∈ sch' ↔ a = h ∨ a ∈ sch) ∧
          (s'.task h).priority = (s.task h).priority ∧ (s'.task h).void_fn = (s.task h).void_fn ∧
          (s'.task h).fn = (s.task h).fn ∧ (s'.task h).input = (s.task h).input ∧
          (s'.task h).period = (s.task h).period ∧ (s.task h).period > 0 ∧
          (s.task h).count ≠ 0 ∧ TASK_DONE ≤ (s.task h).count ∧
          (s'.task h).count
            = (if (s.task h).count > 0 then (s.task h).count - 1 else (s.task h).count) ∧
          s'.available = s.available ∧
          (¬ (add32 (s.task h).time (s.task h).period < TIME_MAX / 2 ∧ TimeNow s > TIME_MAX / 2) →
            (s'.task h).time = add32 (s.task h).time (s.task h).period ∧
            s'.ms_time = s.ms_time ∧ s'.rollover_time = s.rollover_time ∧
            s'.total_time = s.total_time ∧
            ∀ a, a ≠ h → (s'.task a).time = (s.task a).time))) := by
  unfold tickRun_dispose
  simp only [Int.toNat_ofNat]
  by_cases hper : (s.task h).period > 0 ∧ (s.task h).count ≠ 0
  · rw [if_pos hper]
    generalize hdec : (if (s.task h).count > 0
        then modTask s h (fun t => { t with count := t.count - 1 }) else s) = sd
    have hdt : ∀ a, a ≠ h → sd.task a = s.task a := by
      intro a ha; rw [← hdec]; split
      · rw [modTask_task, if_neg ha]
      · rfl
    have hdh : sd.task h = { s.task h with count :=
        (if (s.task h).count > 0 then (s.task h).count - 1 else (s.task h).count) } := by
      rw [← hdec]; split
      · rw [modTask_task, if_pos rfl]
      · rfl
    have hdr : SameRest s sd ∧ sd.first = s.first ∧ sd.last = s.last ∧ sd.length = s.length ∧
        sd.sch_first = s.sch_first ∧ sd.sch_last = s.sch_last ∧ sd.sch_length = s.sch_length := by
      rw [← hdec]; split
      · exact ⟨SameRest_modTask _ _ _, rfl, rfl, rfl, rfl, rfl, rfl⟩
      · exact ⟨SameRest.rest_refl _, rfl, rfl, rfl, rfl, rfl, rfl⟩
    obtain ⟨hd0, hd1, hd2, hd3, hd4, hd5, hd6⟩ := hdr
    have hdc : (sd.task h).count
        = (if (s.task h).count > 0 then (s.task h).count - 1 else (s.task h).count) := by
      rw [hdh]
    by_cases hcor : (sd.task h).count < TASK_DONE
    · -- the count was corrupted: clear the slot
      rw [if_pos hcor]
      refine ⟨_, sch, rfl, ?_, hd1, hd2, hd3, hd0.to_link, hd0.sch_to_link, hd0.last_time,
        hd0.service_tasks_time, hd0.trace, hd0.max_length, ?_, ?_, Or.inl ⟨?_, ?_, ?_, ?_, rfl, rfl,
          hd0.ms_time, ?_, ?_⟩⟩
      · refine hs.congr ?_ hd4 hd5 hd6
        intro a ha
        have : a ≠ h := by intro e; subst e; exact hhs ha
        simp only [modTask_task, if_neg this, hdt a this, and_self]
      · intro a ha
        simp only [modTask_task, if_neg ha, hdt a ha]; exact sameIdent_refl _
      · intro a ha _
        simp only [modTask_task, if_neg ha, hdt a ha, and_self]
      · simp [clearTask]
      · simp [clearTask]
      · simp [clearTask]
      · simp [clearTask]
      · right
        rw [hdc] at hcor
        unfold TASK_DONE at hcor ⊢
        split at hcor <;> omega
      · intro a ha
        simp only [modTask_task, if_neg ha, hdt a ha]
    · -- schedule the slot again
      rw [if_neg hcor]
      have hsm : IsList N (modTask sd h (fun t => { t with time := add32 t.time t.period })).task
          (modTask sd h (fun t => { t with time := add32 t.time t.period })).sch_first
          (modTask sd h (fun t => { t with time := add32 t.time t.period })).sch_last
          (modTask sd h (fun t => { t with time := add32 t.time t.period })).sch_length sch := by
        refine hs.congr ?_ hd4 hd5 hd6
        intro a ha
        have : a ≠ h := by intro e; subst e; exact hhs ha
        simp only [modTask_task, if_neg this, hdt a this, and_self]
      have husedm : ((modTask sd h (fun t => { t with time := add32 t.time t.period })).task h).priority
          ≠ TASK_DONE := by
        simp only [modTask_task, if_pos, hdh]; exact hused
      obtain ⟨s', A, B, g1, g2, _, _, g5, g6, g7, g8, g9, g10, g11, g12⟩ :=
        ScheduleTask_spec N _ sch h hsm hh hhs husedm hcap
      have hmh : (modTask sd h (fun t => { t with time := add32 t.time t.period })).task h
          = { s.task h with
              count := (if (s.task h).count > 0 then (s.task h).count - 1 else (s.task h).count),
              time := add32 (s.task h).time (s.task h).period } := by
        simp only [modTask_task, if_pos, hdh]
      have hma : ∀ a, a ≠ h →
          (modTask sd h (fun t => { t with time := add32 t.time t.period })).task a = s.task a := by
        intro a ha; simp only [modTask_task, if_neg ha, hdt a ha]
      have hid := g10 h
      rw [hmh] at hid
      obtain ⟨i1, i2, i3, i4, i5, i6⟩ := hid
      refine ⟨s', A ++ h :: B, g1, g5, g7.trans hd1, g8.trans hd2, g9.trans hd3,
        g6.to_link.trans hd0.to_link, g6.sch_to_link.trans hd0.sch_to_link,
        g6.last_time.trans hd0.last_time, g6.service_tasks_time.trans hd0.service_tasks_time,
        g6.trace.trans hd0.trace, g6.max_length.trans hd0.max_length, ?_, ?_, Or.inr ⟨?_, i4, i1, i2, i3, i5,
          hper.1, hper.2, ?_, i6, g6.available.trans hd0.available, ?_⟩⟩
      · intro a ha
        have := g10 a
        rw [hma a ha] at this
        exact this
      · intro a ha has
        have := g11 a has ha
        rw [hma a ha] at this
        exact this
      · intro a; rw [g2]; simp only [List.mem_append, List.mem_cons]; tauto
      · rw [hdc] at hcor
        unfold TASK_DONE at hcor ⊢
        split at hcor <;> omega
      · intro hno
        have hno' : ¬ (((modTask sd h (fun t => { t with time := add32 t.time t.period })).task h).time
            < TIME_MAX / 2 ∧
            TimeNow (modTask sd h (fun t => { t with time := add32 t.time t.period })) > TIME_MAX / 2) := by
          rw [hmh]
          have : TimeNow (modTask sd h (fun t => { t with time := add32 t.time t.period }))
              = TimeNow s := hd0.ms_time
          rw [this]
          exact hno
        obtain ⟨k1, k2⟩ := g12 hno'
        refine ⟨?_, k1.ms_time.trans hd0.ms_time, k1.rollover_time.trans hd0.rollover_time,
          k1.total_time.trans hd0.total_time, ?_⟩
        · rw [k2 h, hmh]
        · intro a ha; rw [k2 a, hma a ha]
  · rw [if_neg hper]
    refine ⟨_, sch, rfl, ?_, rfl, rfl, rfl, rfl, rfl, rfl, rfl, rfl, rfl, ?_, ?_,
      Or.inl ⟨?_, ?_, ?_, ?_, rfl, rfl, rfl, Or.inl hper, ?_⟩⟩
    · refine hs.congr ?_ rfl rfl rfl
      intro a ha
      have : a ≠ h := by intro e; subst e; exact hhs ha
      simp only [modTask_task, if_neg this, and_self]
    · intro a ha
      simp only [modTask_task, if_neg ha]; exact sameIdent_refl _
    · intro a ha _
      simp only [modTask_task, if_neg ha, and_self]
    · simp [clearTask]
    · simp [clearTask]
    · simp [clearTask]
    · simp [clearTask]
    · intro a ha
      simp only [modTask_task, if_neg ha]

theorem tickRun_spec (N : Nat) (s : Machine) (q sch : List Nat)
    (hL : Lists N s q sch) (hcap : N ≤ 32767) :
    ∃ s' sch', tickRun N s = .ok s' ∧ Lists N s' q.tail sch' ∧
      s'.to_link = s.to_link ∧ s'.sch_to_link = s.sch_to_link ∧ s'.last_time = s.last_time ∧
      s'.service_tasks_time = s.service_tasks_time ∧
      (∀ a, q.head? ≠ some a → sameIdent (s'.task a) (s.task a)) ∧
      (∀ a, a ∉ q → a ∉ sch →
        (s'.task a).next = (s.task a).next ∧ (s'.task a).previous = (s.task a).previous) ∧
      (q = [] → s' = s ∧ sch' = sch) ∧
      (∀ h r, q = h :: r →
        s'.trace = s.trace ++
          [Call.input (s.task h).fn (s.task h).input, Call.void (s.task h).void_fn] ∧
        RunOutcome s s' sch sch' h) := by
  cases q with
  | nil =>
    have hf : ¬ validIdx N s.first := by
      rw [hL.queue.first_eq]; simp [hd, validIdx]
    unfold tickRun
    simp only [hf, if_false]
    exact ⟨s, sch, rfl, hL, rfl, rfl, rfl, rfl, fun a _ => sameIdent_refl _,
      fun a _ _ => ⟨rfl, rfl⟩, fun _ => ⟨rfl, rfl⟩, fun h r e => by cases e⟩
  | cons h r =>
    have hhN : h < N := hL.queue.lt h (by simp)
    have hfirst : s.first = (h : Int) := hL.queue.first_eq
    have hv : validIdx N s.first := by rw [hfirst]; exact ⟨by omega, by exact_mod_cast hhN⟩
    have hhs : h ∉ sch := hL.disj h (by simp)
    have hnd := hL.queue.nodup
    have hhr : h ∉ r := (List.nodup_cons.1 hnd).1
    obtain ⟨hc1, hc2, hc3⟩ := hL.queue.chain
    unfold tickRun
    have hv' : validIdx N (h : Int) := by rw [← hfirst]; exact hv
    simp only [hfirst, hv', if_true, Int.toNat_ofNat]
    -- the state after the head has been unlinked
    generalize hpop : (if validIdx N (s.task h).next then
        modTask { s with
            trace := s.trace ++ [Call.input (s.task h).fn (s.task h).input,
              Call.void (s.task h).void_fn],
            first := (s.task h).next }
          (s.task h).next.toNat (fun t => { t with previous := TASK_DONE })
      else { s with
            trace := s.trace ++ [Call.input (s.task h).fn (s.task h).input,
              Call.void (s.task h).void_fn],
            first := (s.task h).next }) = sp
    have hp_task : ∀ a, (∀ r', r ≠ a :: r') → sp.task a = s.task a := by
      intro a ha
      rw [← hpop]
      split
      · rename_i hvn
        rw [hc2] at hvn ⊢
        cases r with
        | nil => simp [hd, validIdx] at hvn
        | cons b r' =>
          have : a ≠ b := by intro e; subst e; exact ha r' rfl
          simp [hd, this]
      · rfl
    have hp_b : ∀ b r', r = b :: r' → sp.task b = { s.task b with previous := TASK_DONE } := by
      intro b r' e
      subst e
      have hbN : b < N := hL.queue.lt b (by simp)
      have hvn : validIdx N (s.task h).next := by
        rw [hc2]; exact ⟨by simp [hd], by simp only [hd]; exact_mod_cast hbN⟩
      rw [← hpop, if_pos hvn, hc2]
      simp [hd]
    have hp_rest : sp.first = hd r (-1) ∧ sp.last = s.last ∧ sp.length = s.length ∧
        sp.sch_first = s.sch_first ∧ sp.sch_last = s.sch_last ∧ sp.sch_length = s.sch_length ∧
        sp.to_link = s.to_link ∧ sp.sch_to_link = s.sch_to_link ∧ sp.last_time = s.last_time ∧
        sp.service_tasks_time = s.service_tasks_time ∧ sp.available = s.available ∧
        sp.ms_time = s.ms_time ∧ sp.rollover_time = s.rollover_time ∧
        sp.total_time = s.total_time ∧ sp.max_length = s.max_length ∧
        sp.trace = s.trace ++
          [Call.input (s.task h).fn (s.task h).input, Call.void (s.task h).void_fn] := by
      rw [← hpop]
      split <;> simp [hc2]
    obtain ⟨p1, p2, p3, p4, p5, p6, p7, p8, p9, p10, p11, p12, p13, p14, p15, p16⟩ := hp_rest
    have hph : sp.task h = s.task h := by
      refine hp_task h ?_
      intro r' e; exact hhr (by rw [e]; simp)
    have hp_data : ∀ a, sameData (sp.task a) (s.task a) := by
      intro a
      by_cases ha : ∃ r', r = a :: r'
      · obtain ⟨r', e⟩ := ha
        rw [hp_b a r' e]; exact sameData_setPrevious _ _
      · rw [hp_task a (fun r' e => ha ⟨r', e⟩)]; exact sameData_refl _
    have hp_out : ∀ a, a ∉ r → sp.task a = s.task a := by
      intro a ha
      refine hp_task a ?_
      intro r' e; exact ha (by rw [e]; simp)
    have hsch : IsList N sp.task sp.sch_first sp.sch_last sp.sch_length sch := by
      refine hL.sched.congr ?_ p4 p5 p6
      intro a ha
      have : a ∉ r := fun h' => hL.disj a (List.mem_cons_of_mem _ h') ha
      rw [hp_out a this]; exact ⟨rfl, rfl⟩
    have husedp : (sp.task h).priority ≠ TASK_DONE := by
      rw [hph]; exact hL.used h (Or.inl (by simp))
    obtain ⟨s4, sch', d1, d2, d3, d4, d5, d6, d7, d8, d9, d10, d11, d12, d13, d14⟩ :=
      tickRun_dispose_spec N sp sch h hsch hhN hhs husedp hcap
    rw [d1]
    simp only
    obtain ⟨a1, a2, a3, a4, a5, a6, a7, a8, a9, a10, a11, a12, a13, a14, a15, a16⟩ :=
      tickRun_account_frame s4
    have hmem' : ∀ a, a ∈ sch' → a = h ∨ a ∈ sch := by
      intro a ha
      rcases d14 with g | g
      · right; rw [g.2.2.2.2.1] at ha; exact ha
      · exact (g.1 a).1 ha
    have hlen : wrap16 (s4.length - 1) = (r.length : Int) := by
      rw [d5, p3, hL.queue.len_eq]
      have := nodup_length_le N _ hL.queue.nodup hL.queue.lt
      simp only [List.length_cons] at this ⊢
      rw [wrap16_of_range] <;> push_cast <;> omega
    refine ⟨_, sch', rfl, ⟨?_, ?_, ?_, ?_⟩, ?_, ?_, ?_, ?_, ?_, ?_, ?_, ?_⟩
    · -- the queue is now `r`
      refine ⟨(List.nodup_cons.1 hnd).2, fun a ha => hL.queue.lt a (List.mem_cons_of_mem _ ha),
        ?_, ?_, ?_, ?_⟩
      · rw [a1]
        refine Chain_pop s.task s4.task h r (-1) (-1) (-1) hL.queue.chain hnd ?_ ?_
        · intro b r' e
          have hbh : b ≠ h := by intro e'; subst e'; exact hhr (by rw [e]; simp)
          have hbs : b ∉ sch := hL.disj b (by rw [e]; simp)
          obtain ⟨g1, g2⟩ := d13 b hbh hbs
          rw [g1, g2, hp_b b r' e]
          exact ⟨rfl, rfl⟩
        · intro a ha hne
          have hah : a ≠ h := by intro e'; subst e'; exact hhr ha
          have has : a ∉ sch := hL.disj a (List.mem_cons_of_mem _ ha)
          obtain ⟨g1, g2⟩ := d13 a hah has
          rw [g1, g2, hp_task a hne]
          exact ⟨rfl, rfl⟩
      · rw [a2, d3, p1]; rfl
      · rw [a4, hlen, d4, p2, hL.queue.last_eq]
        cases r with
        | nil => simp [lst, TASK_DONE]
        | cons b r' =>
          have : ¬ (((b :: r').length : Int) < 1) := by simp only [List.length_cons]; push_cast; omega
          rw [if_neg this]; rfl
      · rw [a3, hlen]; rfl
    · rw [a1, a5, a6, a7]; exact d2
    · intro a ha hb
      rcases hmem' a hb with e | e
      · rw [e] at ha; exact hhr ha
      · exact hL.disj a (List.mem_cons_of_mem _ ha) e
    · intro a ha
      rw [a1]
      by_cases hah : a = h
      · subst hah
        rcases ha with ha | ha
        · exact absurd ha hhr
        · rcases d14 with g | g
          · rw [g.2.2.2.2.1] at ha; exact absurd ha hhs
          · rw [g.2.1, hph]; exact hL.used a (Or.inl (by simp))
      · have hp : (s4.task a).priority = (s.task a).priority := by
          rw [(d12 a hah).2.2.2.1]; exact (hp_data a).2.2.2.1
        rw [hp]
        rcases ha with ha | ha
        · exact hL.used a (Or.inl (List.mem_cons_of_mem _ ha))
        · rcases hmem' a ha with e | e
          · exact absurd e hah
          · exact hL.used a (Or.inr e)
    · rw [a9, d6, p7]
    · rw [a10, d7, p8]
    · rw [a14, d8, p9]
    · rw [a15, d9, p10]
    · intro a ha
      rw [a1]
      have hah : a ≠ h := by intro e; subst e; exact ha rfl
      exact sameIdent_trans (d12 a hah) (sameData_sameIdent (hp_data a))
    · intro a ha has
      rw [a1]
      have hah : a ≠ h := by intro e; subst e; exact ha (by simp)
      obtain ⟨g1, g2⟩ := d13 a hah has
      rw [g1, g2, hp_out a (fun h' => ha (List.mem_cons_of_mem _ h'))]
      exact ⟨rfl, rfl⟩
    · intro e; cases e
    · intro h' r' e
      obtain ⟨e1, e2⟩ := List.cons.inj e
      subst e1 e2
      refine ⟨by rw [a16, d10, p16], ?_⟩
      unfold RunOutcome
      rw [a1, a8, a11, a12, a13]
      rcases d14 with g | g
      · left
        obtain ⟨g1, g2, g3, g4, g5, g6, g7, g8, g9⟩ := g
        refine ⟨g1, g2, g3, g4, g5, g6, g7.trans p12, ?_, ?_⟩
        · rw [hph] at g8; exact g8
        · intro a ha; rw [g9 a ha]; exact hp_data a
      · right
        obtain ⟨g1, g2, g3, g4, g5, g6, g7, g8, g9, g10, g11, g12⟩ := g
        rw [hph] at g2 g3 g4 g5 g6 g7 g8 g9 g10 g12
        refine ⟨g1, g2, g3, g4, g5, g6, g7, g8, g9, g10, g11.trans p11, ?_⟩
        intro hno
        have : TimeNow sp = TimeNow s := p12
        rw [this] at g12
        obtain ⟨k1, k2, k3, k4, k5⟩ := g12 hno
        refine ⟨k1, k2.trans p12, k3.trans p13, k4.trans p14, ?_⟩
        intro a ha
        rw [k5 a ha]; exact (hp_data a).2.2.2.2.1

theorem promote_pop_spec (N : Nat) (s : Machine) (q : List Nat) (h : Nat) (r : List Nat)
    (hL : Lists N s q (h :: r)) (hcap : N ≤ 32767) :
    Lists N (promote_pop N (h : Int) s) q r ∧ SameRest s (promote_pop N (h : Int) s) ∧
    (∀ a, sameData ((promote_pop N (h : Int) s).task a) (s.task a)) ∧
    (∀ a, a ∉ r → (promote_pop N (h : Int) s).task a = s.task a) := by
  have hnd := hL.sched.nodup
  have hhr : h ∉ r := (List.nodup_cons.1 hnd).1
  obtain ⟨hc1, hc2, hc3⟩ := hL.sched.chain
  have hlen : wrap16 (s.sch_length - 1) = (r.length : Int) := by
    rw [hL.sched.len_eq]
    have := nodup_length_le N _ hL.sched.nodup hL.sched.lt
    simp only [List.length_cons] at this ⊢
    rw [wrap16_of_range] <;> push_cast <;> omega
  cases r with
  | nil =>
    have hnv : ¬ validIdx N (hd [] (-1)) := by simp [hd, validIdx]
    have h1 : wrap16 (s.sch_length - 1) < 1 := by rw [hlen]; simp
    have hpp : promote_pop N (h : Int) s = { s with
        sch_first := -1
        sch_length := wrap16 (s.sch_length - 1)
        sch_last := TASK_DONE } := by
      unfold promote_pop
      simp only [Int.toNat_ofNat, hc2, hnv, if_false, h1, if_true]
      rfl
    rw [hpp]
    refine ⟨⟨hL.queue, ⟨by simp, by simp, trivial, rfl, rfl, by simpa using hlen⟩, by simp, ?_⟩,
      ⟨rfl, rfl, rfl, rfl, rfl, rfl, rfl, rfl, rfl, rfl⟩, fun a => sameData_refl _, fun a _ => rfl⟩
    intro a ha
    rcases ha with ha | ha
    · exact hL.used a (Or.inl ha)
    · cases ha
  | cons b r' =>
    have hbN : b < N := hL.sched.lt b (by simp)
    have hv : validIdx N (hd (b :: r') (-1)) :=
      ⟨by simp [hd], by simp only [hd]; exact_mod_cast hbN⟩
    have h1 : ¬ wrap16 (s.sch_length - 1) < 1 := by
      rw [hlen]; simp only [List.length_cons]; push_cast; omega
    have hpp : promote_pop N (h : Int) s =
        { modTask { s with sch_first := (b : Int) } b (fun t => { t with previous := TASK_DONE })
          with sch_length := wrap16 (s.sch_length - 1) } := by
      unfold promote_pop
      simp only [Int.toNat_ofNat, hc2, hv, if_true, modTask_sch_length, h1, if_false]
      simp only [hd, Int.toNat_ofNat]
    rw [hpp]
    have hbq : b ∉ q := fun h' => hL.disj b h' (by simp)
    refine ⟨⟨?_, ⟨(List.nodup_cons.1 hnd).2,
        fun a ha => hL.sched.lt a (List.mem_cons_of_mem _ ha), ?_, rfl, ?_, by simpa using hlen⟩,
        fun a ha hb => hL.disj a ha (List.mem_cons_of_mem _ hb), ?_⟩,
      ⟨rfl, rfl, rfl, rfl, rfl, rfl, rfl, rfl, rfl, rfl⟩, ?_, ?_⟩
    · refine hL.queue.congr ?_ rfl rfl rfl
      intro a ha
      have : a ≠ b := by intro e; subst e; exact hbq ha
      simp [this]
    · refine Chain_pop s.task _ h (b :: r') (-1) (-1) (-1) hL.sched.chain hnd ?_ ?_
      · intro b' r'' e
        obtain ⟨e1, _⟩ := List.cons.inj e
        subst e1
        simp [TASK_DONE]
      · intro a _ hne
        have : a ≠ b := by intro e; subst e; exact hne r' rfl
        simp [this]
    · show s.sch_last = lst (b :: r') (-1)
      rw [hL.sched.last_eq]; rfl
    · intro a ha
      have hp : ((modTask { s with sch_first := (b : Int) } b
          (fun t => { t with previous := TASK_DONE })).task a).priority = (s.task a).priority := by
        simp only [modTask_task]; split
        · rename_i e; subst e; rfl
        · rfl
      show ((modTask { s with sch_first := (b : Int) } b
          (fun t => { t with previous := TASK_DONE })).task a).priority ≠ TASK_DONE
      rw [hp]
      rcases ha with ha | ha
      · exact hL.used a (Or.inl ha)
      · exact hL.used a (Or.inr (List.mem_cons_of_mem _ ha))
    · intro a
      exact sameData_modTask _ _ _ (fun t => sameData_setPrevious _ t) a
    · intro a ha
      have : a ≠ b := by intro e; subst e; exact ha (by simp)
      simp [this]

theorem promote_spec (N : Nat) (hcap : N ≤ 32767) (sch : List Nat) :
    ∀ (s : Machine) (q : List Nat) (fuel : Nat), Lists N s q sch → sch.length < fuel →
    ∃ s' q' P sch', promote N fuel s = .ok s' ∧ Lists N s' q' sch' ∧ sch = P ++ sch' ∧
      (∀ a, a ∈ q' ↔ a ∈ q ∨ a ∈ P) ∧ SameRest s s' ∧
      (∀ a, sameData (s'.task a) (s.task a)) ∧
      (∀ a, a ∉ q → a ∉ sch → s'.task a = s.task a) ∧
      (∀ a ∈ P, (s.task a).time ≤ TimeNow s) ∧
      (∀ h r, sch' = h :: r → (s.task h).time > TimeNow s) := by
  induction sch with
  | nil =>
    intro s q fuel hL hf
    cases fuel with
    | zero => simp at hf
    | succ f =>
      have hnv : ¬ validIdx N s.sch_first := by
        rw [hL.sched.first_eq]; simp [hd, validIdx]
      unfold promote
      rw [if_neg hnv]
      exact ⟨s, q, [], [], rfl, hL, rfl, by simp, SameRest.rest_refl s, fun a => sameData_refl _,
        fun a _ _ => rfl, by simp, by simp⟩
  | cons h r ih =>
    intro s q fuel hL hf
    cases fuel with
    | zero => simp at hf
    | succ f =>
      have hhN : h < N := hL.sched.lt h (by simp)
      have hfirst : s.sch_first = (h : Int) := hL.sched.first_eq
      have hv : validIdx N (h : Int) := ⟨by omega, by exact_mod_cast hhN⟩
      unfold promote
      rw [hfirst, if_pos hv]
      simp only [Int.toNat_ofNat]
      by_cases hdue : (s.task h).time > TimeNow s
      · rw [if_pos hdue]
        refine ⟨s, q, [], h :: r, rfl, hL, rfl, by simp, SameRest.rest_refl s,
          fun a => sameData_refl _, fun a _ _ => rfl, by simp, ?_⟩
        intro h' r' e
        obtain ⟨e1, _⟩ := List.cons.inj e
        subst e1; exact hdue
      · rw [if_neg hdue]
        obtain ⟨p1, p2, p3, p4⟩ := promote_pop_spec N s q h r hL hcap
        have hhq : h ∉ q := fun h' => hL.disj h h' (by simp)
        have hhr : h ∉ r := (List.nodup_cons.1 hL.sched.nodup).1
        have hup : ((promote_pop N (h : Int) s).task h).priority ≠ TASK_DONE := by
          rw [(p3 h).2.2.2.1]; exact hL.used h (Or.inr (by simp))
        obtain ⟨s1, q1, g1, g2, g3, g4, g5, g6⟩ :=
          QueueTask_lists N _ q r h p1 hhN hhq hhr hup hcap
        rw [g1]
        simp only
        obtain ⟨s', q', P, sch', k1, k2, k3, k4, k5, k6, k7, k8, k9⟩ :=
          ih s1 q1 f g2 (by simp at hf; omega)
        have hs1 : ∀ a, sameData (s1.task a) (s.task a) :=
          fun a => sameData_trans (g5 a) (p3 a)
        have hnow : TimeNow s1 = TimeNow s := g4.ms_time.trans p2.ms_time
        refine ⟨s', q', h :: P, sch', k1, k2, by rw [k3]; rfl, ?_,
          SameRest.rest_trans p2 (SameRest.rest_trans g4 k5), fun a => sameData_trans (k6 a) (hs1 a),
          ?_, ?_, ?_⟩
        · intro a
          rw [k4 a, g3 a]
          simp only [List.mem_cons]
          tauto
        · intro a ha1 ha2
          have hah : a ≠ h := by intro e; subst e; exact ha2 (by simp)
          have har : a ∉ r := fun h' => ha2 (List.mem_cons_of_mem _ h')
          have haq1 : a ∉ q1 := by
            intro h'
            rcases (g3 a).1 h' with e | e
            · exact hah e
            · exact ha1 e
          rw [k7 a haq1 har, g6 a ha1 hah, p4 a har]
        · intro a ha
          rcases List.mem_cons.1 ha with e | e
          · subst e; omega
          · have := k8 a e
            rw [(hs1 a).2.2.2.2.1, hnow] at this
            exact this
        · intro h' r' e
          have := k9 h' r' e
          rw [(hs1 h').2.2.2.2.1, hnow] at this
          exact this

theorem Chain_previous_ge (t : Nat → task_t) (p n : Int) (l : List Nat) (hp : -1 ≤ p)
    (hc : Chain t p l n) : ∀ a ∈ l, -1 ≤ (t a).previous := by
  induction l generalizing p with
  | nil => intro a ha; cases ha
  | cons b r ih =>
    obtain ⟨h1, _, h3⟩ := hc
    intro a ha
    rcases List.mem_cons.1 ha with e | e
    · subst e; rw [h1]; exact hp
    · exact ih b (by omega) h3 a e

/-- In a list, the only member without a predecessor is the first one. -/
theorem IsList.first_of_previous {N : Nat} {t : Nat → task_t} {f l n : Int} {q : List Nat}
    (h : IsList N t f l n q) (a : Nat) (ha : a ∈ q) (hp : (t a).previous < 0) :
    f = (a : Int) := by
  obtain ⟨A, B, e⟩ := mem_split_nodup q a ha
  subst e
  have hc := h.chain
  rw [Chain_append] at hc
  have h1 : (t a).previous = lst A (-1) := hc.2.1
  by_cases hA : A = []
  · subst hA; exact h.first_eq
  · have := (lst_nonneg_iff A (-1) (by decide)).2 hA
    omega

theorem Lists.modTask_data {N : Nat} {s : Machine} {q sch : List Nat} (hL : Lists N s q sch)
    (i : Nat) (f : task_t → task_t)
    (hf : ∀ t, (f t).next = t.next ∧ (f t).previous = t.previous ∧ (f t).priority = t.priority) :
    Lists N (modTask s i f) q sch := by
  have hlinks : ∀ a, ((modTask s i f).task a).next = (s.task a).next ∧
      ((modTask s i f).task a).previous = (s.task a).previous := by
    intro a; rw [modTask_task]; split
    · rename_i e; subst e; exact ⟨(hf _).1, (hf _).2.1⟩
    · exact ⟨rfl, rfl⟩
  refine ⟨hL.queue.congr (fun a _ => hlinks a) rfl rfl rfl,
    hL.sched.congr (fun a _ => hlinks a) rfl rfl rfl, hL.disj, ?_⟩
  intro a ha
  have : ((modTask s i f).task a).priority = (s.task a).priority := by
    rw [modTask_task]; split
    · rename_i e; subst e; exact (hf _).2.2
    · rfl
  rw [this]; exact hL.used a ha

theorem ServiceTasks_slot_spec (N : Nat) (s : Machine) (q sch : List Nat) (i : Nat)
    (hL : Lists N s q sch) (hi : i < N) (hcap : N ≤ 32767) :
    ∃ s' q' sch', ServiceTasks_slot N i s = .ok s' ∧ Lists N s' q' sch' ∧
      (∀ a, sameIdent (s'.task a) (s.task a)) ∧ SameCtl s s' ∧
      (∀ a, a ∈ q → a ∈ q') ∧ (∀ a, a ∈ sch → a ∈ sch') := by
  unfold ServiceTasks_slot
  by_cases hp : (s.task i).priority ≥ 0
  · rw [if_pos hp]
    have hused : (s.task i).priority ≠ TASK_DONE := by unfold TASK_DONE; omega
    -- first statement
    have step1 : ∃ s1 q1, (if (s.task i).next = TASK_LINK_QUEUE then QueueTask N i s else .ok s)
        = .ok s1 ∧ Lists N s1 q1 sch ∧ (∀ a, sameData (s1.task a) (s.task a)) ∧ SameRest s s1 ∧
        (∀ a, a ∈ q → a ∈ q1) := by
      by_cases h1 : (s.task i).next = TASK_LINK_QUEUE
      · rw [if_pos h1]
        have hnm := hL.not_mem_of_next i (by rw [h1]; decide)
        obtain ⟨s1, q1, g1, g2, g3, g4, g5, _⟩ :=
          QueueTask_lists N s q sch i hL hi hnm.1 hnm.2 hused hcap
        exact ⟨s1, q1, g1, g2, g5, g4, fun a ha => (g3 a).2 (Or.inr ha)⟩
      · rw [if_neg h1]
        exact ⟨s, q, rfl, hL, fun a => sameData_refl _, SameRest.rest_refl s, fun a ha => ha⟩
    obtain ⟨s1, q1, e1, L1, d1, r1, m1⟩ := step1
    rw [e1]
    have hused1 : (s1.task i).priority ≠ TASK_DONE := by rw [(d1 i).2.2.2.1]; exact hused
    -- second statement
    have step2 : ∃ s2 sch2, (if (s1.task i).next = TASK_LINK_SCHEDULE then ScheduleTask N i s1
        else .ok s1) = .ok s2 ∧ Lists N s2 q1 sch2 ∧ (∀ a, sameIdent (s2.task a) (s1.task a)) ∧
        SameCtl s1 s2 ∧ (∀ a, a ∈ sch → a ∈ sch2) := by
      by_cases h2 : (s1.task i).next = TASK_LINK_SCHEDULE
      · rw [if_pos h2]
        have hnm := L1.not_mem_of_next i (by rw [h2]; decide)
        obtain ⟨s2, sch2, g1, g2, g3, g4, g5, _⟩ :=
          ScheduleTask_lists N s1 q1 sch i L1 hi hnm.1 hnm.2 hused1 hcap
        exact ⟨s2, sch2, g1, g2, g5, g4, fun a ha => (g3 a).2 (Or.inr ha)⟩
      · rw [if_neg h2]
        exact ⟨s1, sch, rfl, L1, fun a => sameIdent_refl _, SameCtl.ctl_refl s1, fun a ha => ha⟩
    obtain ⟨s2, sch2, e2, L2, d2, r2, m2⟩ := step2
    simp only [Except.bind, e2]
    have hid2 : ∀ a, sameIdent (s2.task a) (s.task a) :=
      fun a => sameIdent_trans (d2 a) (sameData_sameIdent (d1 a))
    have hused2 : (s2.task i).priority ≠ TASK_DONE := by rw [(hid2 i).2.2.2.1]; exact hused
    by_cases h3 : (s2.task i).period > 0 ∧ s2.first ≠ (i : Int) ∧ s2.sch_first ≠ (i : Int)
        ∧ (s2.task i).next = TASK_DONE ∧ (s2.task i).previous = TASK_DONE
    · rw [if_pos h3]
      obtain ⟨_, hf, hsf, _, hprev⟩ := h3
      have hpn : (s2.task i).previous < 0 := by rw [hprev]; decide
      have hiq : i ∉ q1 := fun h' => hf (L2.queue.first_of_previous i h' hpn)
      have his : i ∉ sch2 := fun h' => hsf (L2.sched.first_of_previous i h' hpn)
      have L3 : Lists N (modTask s2 i (fun t => { t with time := add32 (TimeNow s2) t.period }))
          q1 sch2 := L2.modTask_data i _ (fun t => ⟨rfl, rfl, rfl⟩)
      have hused3 : ((modTask s2 i
          (fun t => { t with time := add32 (TimeNow s2) t.period })).task i).priority
          ≠ TASK_DONE := by
        simp only [modTask_task, if_pos]; exact hused2
      obtain ⟨s3, sch3, g1, g2, g3, g4, g5, _⟩ :=
        ScheduleTask_lists N _ q1 sch2 i L3 hi hiq his hused3 hcap
      refine ⟨s3, q1, sch3, g1, g2, ?_, ?_, m1, fun a ha => (g3 a).2 (Or.inr (m2 a ha))⟩
      · intro a
        refine sameIdent_trans (g5 a) (sameIdent_trans ?_ (hid2 a))
        rw [modTask_task]; split
        · rename_i e; subst e; exact ⟨rfl, rfl, rfl, rfl, rfl, rfl⟩
        · exact sameIdent_refl _
      · exact SameCtl.ctl_trans r1.ctl (SameCtl.ctl_trans r2
          (SameCtl.ctl_trans (SameRest_modTask s2 i _).ctl g4))
    · rw [if_neg h3]
      exact ⟨s2, q1, sch2, rfl, L2, hid2, SameCtl.ctl_trans r1.ctl r2, m1, m2⟩
  · rw [if_neg hp]
    exact ⟨s, q, sch, rfl, hL, fun a => sameIdent_refl _, SameCtl.ctl_refl s, fun a ha => ha,
      fun a ha => ha⟩

theorem ServiceTasks_all_spec (N : Nat) (hcap : N ≤ 32767) (k : Nat) :
    ∀ (i : Nat) (s : Machine) (q sch : List Nat), Lists N s q sch → i + k ≤ N →
    ∃ s' q' sch', ServiceTasks_all N k i s = .ok s' ∧ Lists N s' q' sch' ∧
      (∀ a, sameIdent (s'.task a) (s.task a)) ∧ SameCtl s s' ∧
      (∀ a, a ∈ q → a ∈ q') ∧ (∀ a, a ∈ sch → a ∈ sch') := by
  induction k with
  | zero =>
    intro i s q sch hL _
    exact ⟨s, q, sch, rfl, hL, fun a => sameIdent_refl _, SameCtl.ctl_refl s, fun a ha => ha,
      fun a ha => ha⟩
  | succ k ih =>
    intro i s q sch hL hik
    obtain ⟨s1, q1, sch1, e1, L1, d1, c1, m1, n1⟩ :=
      ServiceTasks_slot_spec N s q sch i hL (by omega) hcap
    obtain ⟨s2, q2, sch2, e2, L2, d2, c2, m2, n2⟩ := ih (i + 1) s1 q1 sch1 L1 (by omega)
    refine ⟨s2, q2, sch2, ?_, L2, fun a => sameIdent_trans (d2 a) (d1 a), SameCtl.ctl_trans c1 c2,
      fun a ha => m2 a (m1 a ha), fun a ha => n2 a (n1 a ha)⟩
    unfold ServiceTasks_all
    simp only [Except.bind, e1, e2]

/-- The priority-raising loop touches only the `priority` of queue members, each at most
once. -/
theorem ServiceTasks_bump_spec (N : Nat) (q : List Nat) (k : Nat) :
    ∀ (s : Machine) (A B : List Nat),
      IsList N s.task s.first s.last s.length q → q = A ++ B →
      (ServiceTasks_bump N k (lst A (-1)) s) =
        { s with task := (ServiceTasks_bump N k (lst A (-1)) s).task } ∧
      ∀ b, (b ∉ A → (ServiceTasks_bump N k (lst A (-1)) s).task b = s.task b) ∧
        ((ServiceTasks_bump N k (lst A (-1)) s).task b = s.task b ∨
          (ServiceTasks_bump N k (lst A (-1)) s).task b =
            { s.task b with priority := wrap16 ((s.task b).priority + 1) }) := by
  induction k with
  | zero => intro s A B _ _; exact ⟨rfl, fun b => ⟨fun _ => rfl, Or.inl rfl⟩⟩
  | succ k ih =>
    intro s A B hq hAB
    rcases List.eq_nil_or_concat A with hA | ⟨A', a, hA⟩
    · subst hA
      have hnv : ¬ validIdx N (lst [] (-1)) := by simp [lst, validIdx]
      unfold ServiceTasks_bump
      rw [if_neg hnv]
      exact ⟨rfl, fun b => ⟨fun _ => rfl, Or.inl rfl⟩⟩
    · rw [List.concat_eq_append] at hA
      subst hA
      have haq : a ∈ q := by rw [hAB]; simp
      have haN : a < N := hq.lt a haq
      have hv : validIdx N (a : Int) := ⟨by omega, by exact_mod_cast haN⟩
      have hnd : (A' ++ a :: B).Nodup := by
        have := hq.nodup; rw [hAB] at this; simpa using this
      have haA' : a ∉ A' := (nodup_mid A' B a hnd).1
      have hprev : (s.task a).previous = lst A' (-1) := by
        have hc := hq.chain
        rw [hAB, List.append_assoc, Chain_append] at hc
        exact hc.2.1
      rw [lst_concat]
      unfold ServiceTasks_bump
      rw [if_pos hv]
      simp only [Int.toNat_ofNat]
      generalize hb : (if TimeSince s (s.task a).time > TASK_BUMP_PRIORITY_TIME
          then modTask s a (fun t => { t with priority := wrap16 (t.priority + 1) })
          else s) = s1
      have h1t : ∀ b, b ≠ a → s1.task b = s.task b := by
        intro b hb'; rw [← hb]; split
        · rw [modTask_task, if_neg hb']
        · rfl
      have h1a : s1.task a = s.task a ∨
          s1.task a = { s.task a with priority := wrap16 ((s.task a).priority + 1) } := by
        rw [← hb]; split
        · right; rw [modTask_task, if_pos rfl]
        · left; rfl
      have h1l : ∀ b, (s1.task b).next = (s.task b).next ∧
          (s1.task b).previous = (s.task b).previous := by
        intro b
        by_cases hba : b = a
        · subst hba
          rcases h1a with e | e <;> rw [e] <;> exact ⟨rfl, rfl⟩
        · rw [h1t b hba]; exact ⟨rfl, rfl⟩
      have h1e : s1 = { s with task := s1.task } := by
        rw [← hb]; split <;> rfl
      have h1q : IsList N s1.task s1.first s1.last s1.length q := by
        have e1 : s1.first = s.first := by rw [h1e]
        have e2 : s1.last = s.last := by rw [h1e]
        have e3 : s1.length = s.length := by rw [h1e]
        exact hq.congr (fun b _ => h1l b) e1 e2 e3
      rw [(h1l a).2, hprev]
      obtain ⟨g1, g2⟩ := ih s1 A' (a :: B) h1q (by rw [hAB]; simp)
      refine ⟨?_, ?_⟩
      · rw [g1]
        rw [h1e]
      · intro b
        obtain ⟨k1, k2⟩ := g2 b
        constructor
        · intro hbA
          simp only [List.mem_append, List.mem_singleton, not_or] at hbA
          rw [k1 hbA.1, h1t b hbA.2]
        · by_cases hba : b = a
          · subst hba
            rw [k1 haA']
            exact h1a
          · rw [h1t b hba] at k2
            exact k2

theorem ServiceTasks_spec (N : Nat) (s : Machine) (q sch : List Nat)
    (hL : Lists N s q sch) (hcap : N ≤ 32767)
    (hprio : ∀ a, a < N → (s.task a).priority ≠ TASK_DONE →
      0 ≤ (s.task a).priority ∧ (s.task a).priority ≤ 32767) :
    ∃ s' q' sch', ServiceTasks N s = .ok s' ∧ Lists N s' q' sch' ∧
      (∀ a, (s.task a).priority = TASK_DONE → (s'.task a).priority = TASK_DONE) ∧
      (∀ a, (s'.task a).void_fn = (s.task a).void_fn) ∧
      (∀ a, a ∈ q → a ∈ q') ∧ (∀ a, a ∈ sch → a ∈ sch') ∧
      s'.to_link = s.to_link ∧ s'.sch_to_link = s.sch_to_link ∧ s'.trace = s.trace := by
  obtain ⟨s1, q1, sch1, e1, L1, d1, c1, m1, n1⟩ :=
    ServiceTasks_all_spec N hcap N 0 s q sch hL (by omega)
  obtain ⟨g1, g2⟩ := ServiceTasks_bump_spec N q1 (N + 1) s1 q1 [] L1.queue (by simp)
  rw [← L1.queue.last_eq] at g1 g2
  have hlinks : ∀ b, ((ServiceTasks_bump N (N + 1) s1.last s1).task b).next = (s1.task b).next ∧
      ((ServiceTasks_bump N (N + 1) s1.last s1).task b).previous = (s1.task b).previous := by
    intro b
    rcases (g2 b).2 with e | e <;> rw [e] <;> exact ⟨rfl, rfl⟩
  refine ⟨ServiceTasks_bump N (N + 1) s1.last s1, q1, sch1, ?_, ⟨?_, ?_, L1.disj, ?_⟩, ?_, ?_,
    m1, n1, ?_, ?_, ?_⟩
  · unfold ServiceTasks
    rw [e1]; rfl
  · refine L1.queue.congr (fun b _ => hlinks b) ?_ ?_ ?_ <;> rw [g1]
  · refine L1.sched.congr (fun b _ => hlinks b) ?_ ?_ ?_ <;> rw [g1]
  · intro a ha
    have hu1 := L1.used a ha
    rcases (g2 a).2 with e | e
    · rw [e]; exact hu1
    · rw [e]
      have haN : a < N := by
        rcases ha with ha | ha
        · exact L1.queue.lt a ha
        · exact L1.sched.lt a ha
      have hp1 : (s1.task a).priority = (s.task a).priority := (d1 a).2.2.2.1
      have := hprio a haN (by rw [← hp1]; exact hu1)
      rw [hp1]
      show wrap16 ((s.task a).priority + 1) ≠ TASK_DONE
      unfold wrap16 TASK_DONE
      omega
  · intro a ha
    have hp1 : (s1.task a).priority = TASK_DONE := by rw [(d1 a).2.2.2.1]; exact ha
    have hnq : a ∉ q1 := fun h' => L1.used a (Or.inl h') hp1
    rw [(g2 a).1 hnq]; exact hp1
  · intro a
    have h1 : (s1.task a).void_fn = (s.task a).void_fn := (d1 a).1
    rcases (g2 a).2 with e | e <;> rw [e] <;> exact h1
  · rw [g1]; exact c1.to_link
  · rw [g1]; exact c1.sch_to_link
  · rw [g1]; exact c1.trace

theorem Lists.set_env {N : Nat} {s s' : Machine} {q sch : List Nat} (hL : Lists N s q sch)
    (ht : s'.task = s.task) (h1 : s'.first = s.first) (h2 : s'.last = s.last)
    (h3 : s'.length = s.length) (h4 : s'.sch_first = s.sch_first)
    (h5 : s'.sch_last = s.sch_last) (h6 : s'.sch_length = s.sch_length) :
    Lists N s' q sch := by
  refine ⟨?_, ?_, hL.disj, ?_⟩
  · rw [ht, h1, h2, h3]; exact hL.queue
  · rw [ht, h4, h5, h6]; exact hL.sched
  · intro a ha; rw [ht]; exact hL.used a ha

theorem tickPromote_spec (N : Nat) (s : Machine) (q sch : List Nat)
    (hL : Lists N s q sch) (hcap : N ≤ 32767)
    (hprio : ∀ a, a < N → (s.task a).priority ≠ TASK_DONE →
      0 ≤ (s.task a).priority ∧ (s.task a).priority ≤ 32767) :
    ∃ s' q' sch', tickPromote N s = .ok s' ∧ Lists N s' q' sch' ∧
      (∀ a, (s.task a).priority = TASK_DONE → (s'.task a).priority = TASK_DONE) ∧
      (∀ a, (s'.task a).void_fn = (s.task a).void_fn) ∧
      s'.to_link = s.to_link ∧ s'.sch_to_link = s.sch_to_link ∧ s'.trace = s.trace := by
  unfold tickPromote
  by_cases hc : TimeNow s ≠ s.last_time
  · rw [if_pos hc]
    have hL0 : Lists N { s with last_time := TimeNow s } q sch :=
      hL.set_env rfl rfl rfl rfl rfl rfl rfl
    obtain ⟨s1, q1, P, sch1, e1, L1, _, _, r1, d1, _, _, _⟩ :=
      promote_spec N hcap sch _ q (N + 1) hL0
        (by have := nodup_length_le N sch hL.sched.nodup hL.sched.lt; omega)
    rw [e1]
    simp only [Except.bind]
    have hp1 : ∀ a, (s1.task a).priority = (s.task a).priority := fun a => (d1 a).2.2.2.1
    split
    · have L2 : Lists N { s1 with service_tasks_time := TimeNow s1 } q1 sch1 :=
        L1.set_env rfl rfl rfl rfl rfl rfl rfl
      obtain ⟨s3, q3, sch3, e3, L3, f3, v3, _, _, t3, u3, w3⟩ :=
        ServiceTasks_spec N _ q1 sch1 L2 hcap
          (by intro a ha hu
              have : (s1.task a).priority = (s.task a).priority := hp1 a
              show 0 ≤ (s1.task a).priority ∧ (s1.task a).priority ≤ 32767
              rw [this]
              exact hprio a ha (by rw [← this]; exact hu))
      refine ⟨s3, q3, sch3, e3, L3, ?_, ?_, ?_, ?_, ?_⟩
      · intro a ha
        exact f3 a (by show (s1.task a).priority = TASK_DONE; rw [hp1]; exact ha)
      · intro a; rw [v3 a]; exact (d1 a).1
      · rw [t3]; exact r1.to_link
      · rw [u3]; exact r1.sch_to_link
      · rw [w3]; exact r1.trace
    · refine ⟨s1, q1, sch1, rfl, L1, ?_, fun a => (d1 a).1, r1.to_link, r1.sch_to_link, r1.trace⟩
      intro a ha; rw [hp1]; exact ha
  · rw [if_neg hc]
    exact ⟨s, q, sch, rfl, hL, fun a ha => ha, fun a => rfl, rfl, rfl, rfl⟩

theorem Kept.kept_refl (s : Machine) (l : List Nat) (a : Nat) : Kept s s l l a :=
  ⟨sameIdent_refl _, Iff.rfl, fun _ => rfl⟩

theorem Kept.kept_trans {s0 s s' : Machine} {l0 l l' : List Nat} {a : Nat}
    (h1 : Kept s0 s l0 l a) (h2 : Kept s s' l l' a) : Kept s0 s' l0 l' a := by
  obtain ⟨a1, a2, a3⟩ := h1
  obtain ⟨b1, b2, b3⟩ := h2
  refine ⟨sameIdent_trans b1 a1, b2.trans a2, ?_⟩
  intro h
  rw [b3 (fun h' => h (a2.1 h')), a3 h]

theorem Resolved.then_kept {link unlink : Int} {s0 s s' : Machine} {l0 l l' : List Nat}
    {a : Nat} (h1 : Resolved link unlink s0 s l0 l a) (h2 : Kept s s' l l' a) :
    Resolved link unlink s0 s' l0 l' a := by
  obtain ⟨a1, a2, a3⟩ := h1
  obtain ⟨b1, b2, b3⟩ := h2
  have hp : (s'.task a).priority = (s.task a).priority := b1.2.2.2.1
  refine ⟨fun h => by rw [hp]; exact a1 h, fun h h' => by rw [hp]; exact a2 h h', ?_⟩
  intro h h'
  obtain ⟨c1, c2, c3⟩ := a3 h h'
  refine ⟨sameIdent_trans b1 c1, b2.trans c2, ?_⟩
  intro g1 g2
  have : a ∉ l := fun hm => by
    rcases c2.1 hm with e | e
    · exact g1 e
    · exact g2 e
  rw [b3 this, c3 g1 g2]

theorem Kept.then_resolved {link unlink : Int} {s0 s s' : Machine} {l0 l l' : List Nat}
    {a : Nat} (h1 : Kept s0 s l0 l a) (h2 : Resolved link unlink s s' l l' a) :
    Resolved link unlink s0 s' l0 l' a := by
  obtain ⟨a1, a2, a3⟩ := h1
  obtain ⟨b1, b2, b3⟩ := h2
  have hp : (s.task a).priority = (s0.task a).priority := a1.2.2.2.1
  have hc : (s.task a).count = (s0.task a).count := a1.2.2.2.2.2
  refine ⟨fun h => b1 (by rw [hp]; exact h),
    fun h h' => b2 (by rw [hp]; exact h) (by rw [hc]; exact h'), ?_⟩
  intro h h'
  obtain ⟨c1, c2, c3⟩ := b3 (by rw [hp]; exact h) (by rw [hc]; exact h')
  refine ⟨sameIdent_trans c1 a1, ?_, ?_⟩
  · rw [c2, a2]
    by_cases hm : a ∈ l0
    · simp [hm]
    · rw [a3 hm]
  · intro g1 g2
    have hm : a ∉ l := fun hm => g1 (a2.1 hm)
    rw [c3 hm (by rw [a3 g1]; exact g2), a3 g1]

theorem resolveQueue_spec (N : Nat) (s : Machine) (q sch : List Nat) (i : Nat)
    (hL : Lists N s q sch) (hi : i < N) (hcap : N ≤ 32767)
    (hflag : (s.task i).priority ≠ TASK_DONE → (s.task i).count = TASK_UNLINK_QUEUE →
      i ∈ q ∨ (s.task i).next = TASK_LINK_QUEUE) :
    ∃ s' q', resolveQueue N i s = .ok s' ∧ Lists N s' q' sch ∧ SameRest s s' ∧
      (∀ a, a ≠ i → Kept s s' q q' a) ∧
      Resolved TASK_LINK_QUEUE TASK_UNLINK_QUEUE s s' q q' i := by
  unfold resolveQueue
  by_cases hfree : (s.task i).priority = TASK_DONE
  · -- a free slot: both calls return at once
    have h1 : QueueTask N (i : Int) s = .ok s := by
      unfold QueueTask
      have hv : validIdx N (i : Int) := ⟨by omega, by exact_mod_cast hi⟩
      rw [if_pos hv]; simp only [Int.toNat_ofNat]; rw [if_pos hfree]
    have h2 : UnQueueTask N (i : Int) s = .ok s := by
      unfold UnQueueTask
      have hn1 : ¬ ((i : Int) < 0 ∨ (i : Int) > (N : Int)) := by omega
      have hn2 : ¬ ((i : Int) = (N : Int)) := by omega
      rw [if_neg hn1, if_neg hn2]; simp only [Int.toNat_ofNat]; rw [if_pos hfree]
    have : ((if (s.task i).next = TASK_LINK_QUEUE then QueueTask N i s else .ok s).bind fun s =>
        if (s.task i).count = TASK_UNLINK_QUEUE then UnQueueTask N i s else .ok s) = .ok s := by
      rw [h1]; simp only [ite_self, Except.bind, h2]
    rw [this]
    exact ⟨s, q, rfl, hL, SameRest.rest_refl s, fun a _ => Kept.kept_refl s q a,
      fun h => h, fun h => absurd hfree h, fun h => absurd hfree h⟩
  · by_cases hlink : (s.task i).next = TASK_LINK_QUEUE
    · rw [if_pos hlink]
      have hnm := hL.not_mem_of_next i (by rw [hlink]; decide)
      obtain ⟨s1, q1, g1, g2, g3, g4, g5, g6⟩ :=
        QueueTask_lists N s q sch i hL hi hnm.1 hnm.2 hfree hcap
      rw [g1]
      simp only [Except.bind]
      have hc1 : (s1.task i).count = (s.task i).count := (g5 i).2.2.2.2.2.2
      have hk1 : ∀ a, a ≠ i → Kept s s1 q q1 a := by
        intro a ha
        refine ⟨sameData_sameIdent (g5 a), ?_, ?_⟩
        · rw [g3 a]; simp [ha]
        · intro hm; rw [g6 a hm ha]
      by_cases hun : (s.task i).count = TASK_UNLINK_QUEUE
      · rw [if_pos (by rw [hc1]; exact hun)]
        obtain ⟨s2, q2, k1, k2, k3, k4, k5, k6, k7⟩ :=
          UnQueueTask_lists N s1 q1 sch i g2 ((g3 i).2 (Or.inl rfl)) hcap
        refine ⟨s2, q2, k1, k2, SameRest.rest_trans g4 k4, ?_, ?_⟩
        · intro a ha
          refine (hk1 a ha).kept_trans ⟨sameData_sameIdent (k6 a ha), ?_, ?_⟩
          · rw [k3 a]; simp [ha]
          · intro hm; rw [k7 a hm]
        · refine ⟨fun h => absurd h hfree, fun _ _ => ?_, fun _ h => absurd hun h⟩
          rw [k5]; rfl
      · rw [if_neg (by rw [hc1]; exact hun)]
        refine ⟨s1, q1, rfl, g2, g4, hk1, fun h => absurd h hfree, fun _ h => absurd h hun,
          fun _ _ => ⟨sameData_sameIdent (g5 i), ?_, fun _ h => absurd hlink h⟩⟩
        rw [g3 i]; simp [hlink]
    · rw [if_neg hlink]
      simp only [Except.bind]
      by_cases hun : (s.task i).count = TASK_UNLINK_QUEUE
      · rw [if_pos hun]
        have hiq : i ∈ q := by
          rcases hflag hfree hun with h | h
          · exact h
          · exact absurd h hlink
        obtain ⟨s2, q2, k1, k2, k3, k4, k5, k6, k7⟩ :=
          UnQueueTask_lists N s q sch i hL hiq hcap
        refine ⟨s2, q2, k1, k2, k4, ?_, ?_⟩
        · intro a ha
          refine ⟨sameData_sameIdent (k6 a ha), ?_, ?_⟩
          · rw [k3 a]; simp [ha]
          · intro hm; rw [k7 a hm]
        · refine ⟨fun h => absurd h hfree, fun _ _ => ?_, fun _ h => absurd hun h⟩
          rw [k5]; rfl
      · rw [if_neg hun]
        refine ⟨s, q, rfl, hL, SameRest.rest_refl s, fun a _ => Kept.kept_refl s q a,
          fun h => h, fun _ h => absurd h hun, fun _ _ => ⟨sameIdent_refl _, ?_, fun _ _ => rfl⟩⟩
        simp [hlink]

theorem Kept.to_resolved {link unlink : Int} {s s' : Machine} {l l' : List Nat} {a : Nat}
    (h : Kept s s' l l' a)
    (hno : (s.task a).priority ≠ TASK_DONE →
      (s.task a).count ≠ unlink ∧ (s.task a).next ≠ link) :
    Resolved link unlink s s' l l' a := by
  obtain ⟨a1, a2, a3⟩ := h
  have hp : (s'.task a).priority = (s.task a).priority := a1.2.2.2.1
  refine ⟨fun h => by rw [hp]; exact h, fun h h' => absurd h' (hno h).1, fun h _ => ?_⟩
  refine ⟨a1, ?_, fun g _ => a3 g⟩
  rw [a2]
  simp [(hno h).2]

theorem Kept.flag {unlink link : Int} {s s' : Machine} {l l' : List Nat} {a : Nat}
    (h : Kept s s' l l' a)
    (hf : (s.task a).priority ≠ TASK_DONE → (s.task a).count = unlink →
      a ∈ l ∨ (s.task a).next = link) :
    (s'.task a).priority ≠ TASK_DONE → (s'.task a).count = unlink →
      a ∈ l' ∨ (s'.task a).next = link := by
  obtain ⟨a1, a2, a3⟩ := h
  have hp : (s'.task a).priority = (s.task a).priority := a1.2.2.2.1
  have hc : (s'.task a).count = (s.task a).count := a1.2.2.2.2.2
  intro g1 g2
  by_cases hm : a ∈ l
  · exact Or.inl (a2.2 hm)
  · rcases hf (by rw [← hp]; exact g1) (by rw [← hc]; exact g2) with e | e
    · exact absurd e hm
    · right; rw [a3 hm]; exact e

theorem resolveQueueAll_spec (N : Nat) (hcap : N ≤ 32767) (sch : List Nat) :
    ∀ (k i : Nat) (s : Machine) (q : List Nat), Lists N s q sch → i + k ≤ N →
      (∀ a, i ≤ a → a < i + k → (s.task a).priority ≠ TASK_DONE →
        (s.task a).count = TASK_UNLINK_QUEUE → a ∈ q ∨ (s.task a).next = TASK_LINK_QUEUE) →
      ∃ s' q', resolveQueueAll N k i s = .ok s' ∧ Lists N s' q' sch ∧ SameRest s s' ∧
        ∀ a, (i ≤ a ∧ a < i + k → Resolved TASK_LINK_QUEUE TASK_UNLINK_QUEUE s s' q q' a) ∧
          (¬ (i ≤ a ∧ a < i + k) → Kept s s' q q' a) := by
  intro k
  induction k with
  | zero =>
    intro i s q hL _ _
    exact ⟨s, q, rfl, hL, SameRest.rest_refl s, fun a => ⟨fun h => by omega, fun _ => Kept.kept_refl s q a⟩⟩
  | succ k ih =>
    intro i s q hL hik hflag
    obtain ⟨s1, q1, e1, L1, r1, k1, z1⟩ :=
      resolveQueue_spec N s q sch i hL (by omega) hcap (hflag i (le_refl i) (by omega))
    have hflag1 : ∀ a, i + 1 ≤ a → a < i + 1 + k → (s1.task a).priority ≠ TASK_DONE →
        (s1.task a).count = TASK_UNLINK_QUEUE →
        a ∈ q1 ∨ (s1.task a).next = TASK_LINK_QUEUE := by
      intro a h1 h2
      exact (k1 a (by omega)).flag (hflag a (by omega) (by omega))
    obtain ⟨s2, q2, e2, L2, r2, z2⟩ := ih (i + 1) s1 q1 L1 (by omega) hflag1
    refine ⟨s2, q2, ?_, L2, r1.rest_trans r2, ?_⟩
    · show (resolveQueue N i s).bind (resolveQueueAll N k (i + 1)) = _
      rw [e1]; exact e2
    · intro a
      by_cases hai : a = i
      · subst hai
        refine ⟨fun _ => z1.then_kept ((z2 a).2 (by omega)), fun h => by omega⟩
      · by_cases hin : i + 1 ≤ a ∧ a < i + 1 + k
        · exact ⟨fun _ => (k1 a hai).then_resolved ((z2 a).1 hin), fun h => by omega⟩
        · exact ⟨fun h => by omega, fun _ => (k1 a hai).kept_trans ((z2 a).2 hin)⟩

theorem tickLinkQueue_spec (N : Nat) (s : Machine) (q sch : List Nat)
    (hL : Lists N s q sch) (hcap : N ≤ 32767)
    (hflag : ∀ a, a < N → (s.task a).priority ≠ TASK_DONE →
      (s.task a).count = TASK_UNLINK_QUEUE → a ∈ q ∨ (s.task a).next = TASK_LINK_QUEUE)
    (hmark : ∀ a, a < N → (s.task a).priority ≠ TASK_DONE →
      ((s.task a).next = TASK_LINK_QUEUE ∨ (s.task a).count = TASK_UNLINK_QUEUE) →
      s.to_link ≠ TASK_DONE ∧ (validIdx N s.to_link → s.to_link = (a : Int))) :
    ∃ s' q', tickLinkQueue N s = .ok s' ∧ Lists N s' q' sch ∧
      SameRest { s with to_link := TASK_DONE } s' ∧
      ∀ a, a < N → Resolved TASK_LINK_QUEUE TASK_UNLINK_QUEUE s s' q q' a := by
  unfold tickLinkQueue
  by_cases hd : s.to_link ≠ TASK_DONE
  · rw [if_pos hd]
    have L0 : Lists N { s with to_link := TASK_DONE } q sch :=
      hL.set_env rfl rfl rfl rfl rfl rfl rfl
    by_cases hv : validIdx N s.to_link
    · simp only [if_pos hv]
      obtain ⟨h0, hN⟩ := hv
      have hiN : s.to_link.toNat < N := by omega
      have hcast : (s.to_link.toNat : Int) = s.to_link := Int.toNat_of_nonneg h0
      obtain ⟨s1, q1, e1, L1, r1, k1, z1⟩ :=
        resolveQueue_spec N { s with to_link := TASK_DONE } q sch s.to_link.toNat L0 hiN hcap
          (hflag _ hiN)
      refine ⟨s1, q1, e1, L1, r1, ?_⟩
      intro a ha
      by_cases hai : a = s.to_link.toNat
      · subst hai; exact z1
      · refine (k1 a hai).to_resolved ?_
        intro hu
        constructor
        · intro hc
          have := (hmark a ha hu (Or.inr hc)).2 ⟨h0, hN⟩
          omega
        · intro hc
          have := (hmark a ha hu (Or.inl hc)).2 ⟨h0, hN⟩
          omega
    · simp only [if_neg hv]
      obtain ⟨s1, q1, e1, L1, r1, z1⟩ :=
        resolveQueueAll_spec N hcap sch N 0 { s with to_link := TASK_DONE } q L0 (by omega)
          (fun a _ h => hflag a (by omega))
      exact ⟨s1, q1, e1, L1, r1, fun a ha => (z1 a).1 ⟨Nat.zero_le a, by omega⟩⟩
  · rw [if_neg hd]
    have hd' : s.to_link = TASK_DONE := not_not.mp hd
    refine ⟨s, q, rfl, hL, ⟨rfl, ?_, rfl, rfl, rfl, rfl, rfl, rfl, rfl, rfl⟩, ?_⟩
    · exact hd'
    · intro a ha
      refine (Kept.kept_refl s q a).to_resolved ?_
      intro hu
      exact ⟨fun hc => absurd hd' (hmark a ha hu (Or.inr hc)).1,
        fun hc => absurd hd' (hmark a ha hu (Or.inl hc)).1⟩

theorem resolveSchedule_spec (N : Nat) (s : Machine) (q sch : List Nat) (i : Nat)
    (hL : Lists N s q sch) (hi : i < N) (hcap : N ≤ 32767)
    (hflag : (s.task i).priority ≠ TASK_DONE → (s.task i).count = TASK_UNLINK_SCHEDULE →
      i ∈ sch ∨ (s.task i).next = TASK_LINK_SCHEDULE) :
    ∃ s' sch', resolveSchedule N i s = .ok s' ∧ Lists N s' q sch' ∧ SameCtl s s' ∧
      (∀ a, a ≠ i → Kept s s' sch sch' a) ∧
      Resolved TASK_LINK_SCHEDULE TASK_UNLINK_SCHEDULE s s' sch sch' i := by
  unfold resolveSchedule
  have hv : validIdx N (i : Int) := ⟨by omega, by exact_mod_cast hi⟩
  by_cases hfree : (s.task i).priority = TASK_DONE
  · have h1 : ScheduleTask N (i : Int) s = .ok s := by
      unfold ScheduleTask
      rw [if_pos hv]; simp only [Int.toNat_ofNat]; rw [if_pos hfree]
    have h2 : UnScheduleTask N (i : Int) s = s := by
      unfold UnScheduleTask
      rw [if_pos hv]; simp only [Int.toNat_ofNat]; rw [if_pos hfree]
    have : ((if (s.task i).next = TASK_LINK_SCHEDULE then ScheduleTask N i s else .ok s).bind
        fun s => Except.ok (if (s.task i).count = TASK_UNLINK_SCHEDULE
          then UnScheduleTask N i s else s)) = .ok s := by
      rw [h1]; simp only [ite_self, Except.bind, h2]
    rw [this]
    exact ⟨s, sch, rfl, hL, SameCtl.ctl_refl s, fun a _ => Kept.kept_refl s sch a,
      fun h => h, fun h => absurd hfree h, fun h => absurd hfree h⟩
  · by_cases hlink : (s.task i).next = TASK_LINK_SCHEDULE
    · rw [if_pos hlink]
      have hnm := hL.not_mem_of_next i (by rw [hlink]; decide)
      obtain ⟨s1, sch1, g1, g2, g3, g4, g5, g6⟩ :=
        ScheduleTask_lists N s q sch i hL hi hnm.1 hnm.2 hfree hcap
      rw [g1]
      simp only [Except.bind]
      have hc1 : (s1.task i).count = (s.task i).count := (g5 i).2.2.2.2.2
      have hk1 : ∀ a, a ≠ i → Kept s s1 sch sch1 a := by
        intro a ha
        refine ⟨g5 a, ?_, ?_⟩
        · rw [g3 a]; simp [ha]
        · intro hm; exact (g6 a hm ha).1
      by_cases hun : (s.task i).count = TASK_UNLINK_SCHEDULE
      · rw [if_pos (by rw [hc1]; exact hun)]
        obtain ⟨sch2, k2, k3, k4, k5, k6, k7⟩ :=
          UnScheduleTask_lists N s1 q sch1 i g2 ((g3 i).2 (Or.inl rfl)) hcap
        refine ⟨_, sch2, rfl, k2, g4.ctl_trans k4.ctl, ?_, ?_⟩
        · intro a ha
          refine (hk1 a ha).kept_trans ⟨sameData_sameIdent (k6 a ha), ?_, ?_⟩
          · rw [k3 a]; simp [ha]
          · intro hm; rw [k7 a hm]
        · refine ⟨fun h => absurd h hfree, fun _ _ => ?_, fun _ h => absurd hun h⟩
          rw [k5]; rfl
      · rw [if_neg (by rw [hc1]; exact hun)]
        refine ⟨s1, sch1, rfl, g2, g4, hk1, fun h => absurd h hfree, fun _ h => absurd h hun,
          fun _ _ => ⟨g5 i, ?_, fun _ h => absurd hlink h⟩⟩
        rw [g3 i]; simp [hlink]
    · rw [if_neg hlink]
      simp only [Except.bind]
      by_cases hun : (s.task i).count = TASK_UNLINK_SCHEDULE
      · rw [if_pos hun]
        have his : i ∈ sch := by
          rcases hflag hfree hun with h | h
          · exact h
          · exact absurd h hlink
        obtain ⟨sch2, k2, k3, k4, k5, k6, k7⟩ :=
          UnScheduleTask_lists N s q sch i hL his hcap
        refine ⟨_, sch2, rfl, k2, k4.ctl, ?_, ?_⟩
        · intro a ha
          refine ⟨sameData_sameIdent (k6 a ha), ?_, ?_⟩
          · rw [k3 a]; simp [ha]
          · intro hm; rw [k7 a hm]
        · refine ⟨fun h => absurd h hfree, fun _ _ => ?_, fun _ h => absurd hun h⟩
          rw [k5]; rfl
      · rw [if_neg hun]
        refine ⟨s, sch, rfl, hL, SameCtl.ctl_refl s, fun a _ => Kept.kept_refl s sch a,
          fun h => h, fun _ h => absurd h hun, fun _ _ => ⟨sameIdent_refl _, ?_, fun _ _ => rfl⟩⟩
        simp [hlink]

theorem resolveScheduleAll_spec (N : Nat) (hcap : N ≤ 32767) (q : List Nat) :
    ∀ (k i : Nat) (s : Machine) (sch : List Nat), Lists N s q sch → i + k ≤ N →
      (∀ a, i ≤ a → a < i + k → (s.task a).priority ≠ TASK_DONE →
        (s.task a).count = TASK_UNLINK_SCHEDULE →
        a ∈ sch ∨ (s.task a).next = TASK_LINK_SCHEDULE) →
      ∃ s' sch', resolveScheduleAll N k i s = .ok s' ∧ Lists N s' q sch' ∧ SameCtl s s' ∧
        ∀ a, (i ≤ a ∧ a < i + k →
            Resolved TASK_LINK_SCHEDULE TASK_UNLINK_SCHEDULE s s' sch sch' a) ∧
          (¬ (i ≤ a ∧ a < i + k) → Kept s s' sch sch' a) := by
  intro k
  induction k with
  | zero =>
    intro i s sch hL _ _
    exact ⟨s, sch, rfl, hL, SameCtl.ctl_refl s,
      fun a => ⟨fun h => by omega, fun _ => Kept.kept_refl s sch a⟩⟩
  | succ k ih =>
    intro i s sch hL hik hflag
    obtain ⟨s1, sch1, e1, L1, r1, k1, z1⟩ :=
      resolveSchedule_spec N s q sch i hL (by omega) hcap (hflag i (le_refl i) (by omega))
    have hflag1 : ∀ a, i + 1 ≤ a → a < i + 1 + k → (s1.task a).priority ≠ TASK_DONE →
        (s1.task a).count = TASK_UNLINK_SCHEDULE →
        a ∈ sch1 ∨ (s1.task a).next = TASK_LINK_SCHEDULE := by
      intro a h1 h2
      exact (k1 a (by omega)).flag (hflag a (by omega) (by omega))
    obtain ⟨s2, sch2, e2, L2, r2, z2⟩ := ih (i + 1) s1 sch1 L1 (by omega) hflag1
    refine ⟨s2, sch2, ?_, L2, r1.ctl_trans r2, ?_⟩
    · show (resolveSchedule N i s).bind (resolveScheduleAll N k (i + 1)) = _
      rw [e1]; exact e2
    · intro a
      by_cases hai : a = i
      · subst hai
        refine ⟨fun _ => z1.then_kept ((z2 a).2 (by omega)), fun h => by omega⟩
      · by_cases hin : i + 1 ≤ a ∧ a < i + 1 + k
        · exact ⟨fun _ => (k1 a hai).then_resolved ((z2 a).1 hin), fun h => by omega⟩
        · exact ⟨fun h => by omega, fun _ => (k1 a hai).kept_trans ((z2 a).2 hin)⟩

theorem tickLinkSchedule_spec (N : Nat) (s : Machine) (q sch : List Nat)
    (hL : Lists N s q sch) (hcap : N ≤ 32767)
    (hflag : ∀ a, a < N → (s.task a).priority ≠ TASK_DONE →
      (s.task a).count = TASK_UNLINK_SCHEDULE → a ∈ sch ∨ (s.task a).next = TASK_LINK_SCHEDULE)
    (hmark : ∀ a, a < N → (s.task a).priority ≠ TASK_DONE →
      ((s.task a).next = TASK_LINK_SCHEDULE ∨ (s.task a).count = TASK_UNLINK_SCHEDULE) →
      s.sch_to_link ≠ TASK_DONE ∧ (validIdx N s.sch_to_link → s.sch_to_link = (a : Int))) :
    ∃ s' sch', tickLinkSchedule N s = .ok s' ∧ Lists N s' q sch' ∧
      SameCtl { s with sch_to_link := TASK_DONE } s' ∧
      ∀ a, a < N → Resolved TASK_LINK_SCHEDULE TASK_UNLINK_SCHEDULE s s' sch sch' a := by
  unfold tickLinkSchedule
  by_cases hd : s.sch_to_link ≠ TASK_DONE
  · rw [if_pos hd]
    have L0 : Lists N { s with sch_to_link := TASK_DONE } q sch :=
      hL.set_env rfl rfl rfl rfl rfl rfl rfl
    by_cases hv : validIdx N s.sch_to_link
    · simp only [if_pos hv]
      obtain ⟨h0, hN⟩ := hv
      have hiN : s.sch_to_link.toNat < N := by omega
      have hcast : (s.sch_to_link.toNat : Int) = s.sch_to_link := Int.toNat_of_nonneg h0
      obtain ⟨s1, sch1, e1, L1, r1, k1, z1⟩ :=
        resolveSchedule_spec N { s with sch_to_link := TASK_DONE } q sch s.sch_to_link.toNat
          L0 hiN hcap (hflag _ hiN)
      refine ⟨s1, sch1, e1, L1, r1, ?_⟩
      intro a ha
      by_cases hai : a = s.sch_to_link.toNat
      · subst hai; exact z1
      · refine (k1 a hai).to_resolved ?_
        intro hu
        constructor
        · intro hc
          have := (hmark a ha hu (Or.inr hc)).2 ⟨h0, hN⟩
          omega
        · intro hc
          have := (hmark a ha hu (Or.inl hc)).2 ⟨h0, hN⟩
          omega
    · simp only [if_neg hv]
      obtain ⟨s1, sch1, e1, L1, r1, z1⟩ :=
        resolveScheduleAll_spec N hcap q N 0 { s with sch_to_link := TASK_DONE } sch L0
          (by omega) (fun a _ h => hflag a (by omega))
      exact ⟨s1, sch1, e1, L1, r1, fun a ha => (z1 a).1 ⟨Nat.zero_le a, by omega⟩⟩
  · rw [if_neg hd]
    have hd' : s.sch_to_link = TASK_DONE := not_not.mp hd
    refine ⟨s, sch, rfl, hL, ⟨rfl, rfl, rfl, ?_, rfl, rfl, rfl⟩, ?_⟩
    · exact hd'
    · intro a ha
      refine (Kept.kept_refl s sch a).to_resolved ?_
      intro hu
      exact ⟨fun hc => absurd hd' (hmark a ha hu (Or.inr hc)).1,
        fun hc => absurd hd' (hmark a ha hu (Or.inl hc)).1⟩

theorem Resolved.inuse {link unlink : Int} {s s' : Machine} {l l' : List Nat} {a : Nat}
    (h : Resolved link unlink s s' l l' a) (hu : (s'.task a).priority ≠ TASK_DONE) :
    (s.task a).priority ≠ TASK_DONE ∧ (s.task a).count ≠ unlink ∧
      sameIdent (s'.task a) (s.task a) ∧ (a ∈ l' ↔ a ∈ l ∨ (s.task a).next = link) ∧
      (a ∉ l → (s.task a).next ≠ link → (s'.task a).next = (s.task a).next) := by
  obtain ⟨a1, a2, a3⟩ := h
  have h1 : (s.task a).priority ≠ TASK_DONE := fun g => hu (a1 g)
  have h2 : (s.task a).count ≠ unlink := fun g => hu (a2 h1 g)
  exact ⟨h1, h2, a3 h1 h2⟩

theorem walk_chain (N : Nat) (s : Machine) :
    ∀ (l : List Nat) (p : Int) (fuel : Nat), Chain s.task p l (-1) → (∀ i ∈ l, i < N) →
      l.length < fuel → walk N s fuel (hd l (-1)) = l := by
  intro l
  induction l with
  | nil =>
    intro p fuel _ _ hf
    cases fuel with
    | zero => simp at hf
    | succ f => simp [walk, hd, validIdx]
  | cons a r ih =>
    intro p fuel hc hlt hf
    cases fuel with
    | zero => simp at hf
    | succ f =>
      have ha : a < N := hlt a (List.mem_cons_self a r)
      have hv : validIdx N (a : Int) := ⟨by omega, by exact_mod_cast ha⟩
      obtain ⟨_, hn, hc'⟩ := hc
      show walk N s (f + 1) (a : Int) = a :: r
      unfold walk
      rw [if_pos hv]
      simp only [Int.toNat_ofNat]
      rw [hn, ih (a : Int) f hc' (fun i hi => hlt i (List.mem_cons_of_mem a hi))
        (by simp at hf; omega)]

theorem Lists.walk_eq {N : Nat} {s : Machine} {q sch : List Nat} (h : Lists N s q sch) :
    queueList N s = q ∧ scheduleList N s = sch := by
  constructor
  · unfold queueList
    rw [h.queue.first_eq]
    exact walk_chain N s q (-1) (N + 1) h.queue.chain h.queue.lt
      (Nat.lt_succ_of_le (nodup_length_le N q h.queue.nodup h.queue.lt))
  · unfold scheduleList
    rw [h.sched.first_eq]
    exact walk_chain N s sch (-1) (N + 1) h.sched.chain h.sched.lt
      (Nat.lt_succ_of_le (nodup_length_le N sch h.sched.nodup h.sched.lt))

theorem tickLinkQueue_wf (N : Nat) (s : Machine) (q sch : List Nat)
    (hL : Lists N s q sch) (hcap : N ≤ 32767)
    (hQ : FlagsOK N TASK_LINK_QUEUE TASK_UNLINK_QUEUE s.to_link s q)
    (hS : FlagsOK N TASK_LINK_SCHEDULE TASK_UNLINK_SCHEDULE s.sch_to_link s sch)
    (hP : PrioOK N s) :
    ∃ sa qa, tickLinkQueue N s = .ok sa ∧ Lists N sa qa sch ∧
      FlagsOK N TASK_LINK_SCHEDULE TASK_UNLINK_SCHEDULE sa.sch_to_link sa sch ∧
      PrioOK N sa ∧ sa.trace = s.trace ∧
      (∀ a, a < N → (s.task a).priority = TASK_DONE ∨ (s.task a).count = TASK_UNLINK_QUEUE →
        (sa.task a).priority = TASK_DONE) ∧
      (∀ a, a < N → (s.task a).count = TASK_UNLINK_SCHEDULE →
        (sa.task a).priority = TASK_DONE ∨ (sa.task a).count = TASK_UNLINK_SCHEDULE) := by
  obtain ⟨sa, qa, e1, L1, r1, z1⟩ :=
    tickLinkQueue_spec N s q sch hL hcap (fun a ha hu => (hQ a ha hu).1)
      (fun a ha hu => (hQ a ha hu).2)
  have hstl : sa.sch_to_link = s.sch_to_link := r1.sch_to_link
  refine ⟨sa, qa, e1, L1, ?_, ?_, r1.trace, ?_, ?_⟩
  · intro a ha hu
    obtain ⟨g1, g2, g3, g4, g5⟩ := (z1 a ha).inuse hu
    have hc : (sa.task a).count = (s.task a).count := g3.2.2.2.2.2
    have hnext : (sa.task a).next = TASK_LINK_SCHEDULE → (s.task a).next = TASK_LINK_SCHEDULE := by
      intro hn
      have hnm := (L1.not_mem_of_next a (by rw [hn]; decide)).1
      have h1 : a ∉ q := fun h => hnm (g4.2 (Or.inl h))
      have h2 : (s.task a).next ≠ TASK_LINK_QUEUE := fun h => hnm (g4.2 (Or.inr h))
      rw [← g5 h1 h2]; exact hn
    constructor
    · intro hc5
      rcases (hS a ha g1).1 (by rw [← hc]; exact hc5) with h | h
      · exact Or.inl h
      · right
        have h1 := (hL.not_mem_of_next a (by rw [h]; decide)).1
        rw [g5 h1 (by rw [h]; decide)]; exact h
    · intro hfl
      rw [hstl]
      refine (hS a ha g1).2 ?_
      rcases hfl with h | h
      · exact Or.inl (hnext h)
      · exact Or.inr (by rw [← hc]; exact h)
  · intro a ha hu
    obtain ⟨g1, _, g3, _, _⟩ := (z1 a ha).inuse hu
    have hp : (sa.task a).priority = (s.task a).priority := g3.2.2.2.1
    rw [hp]; exact hP a ha g1
  · intro a ha h
    by_contra hu
    obtain ⟨g1, g2, _⟩ := (z1 a ha).inuse hu
    rcases h with h | h
    · exact g1 h
    · exact g2 h
  · intro a ha h
    by_cases hu : (sa.task a).priority = TASK_DONE
    · exact Or.inl hu
    · right
      obtain ⟨_, _, g3, _, _⟩ := (z1 a ha).inuse hu
      rw [g3.2.2.2.2.2]; exact h

theorem tickLinkSchedule_wf (N : Nat) (s : Machine) (q sch : List Nat)
    (hL : Lists N s q sch) (hcap : N ≤ 32767)
    (hS : FlagsOK N TASK_LINK_SCHEDULE TASK_UNLINK_SCHEDULE s.sch_to_link s sch)
    (hP : PrioOK N s) :
    ∃ sc schc, tickLinkSchedule N s = .ok sc ∧ Lists N sc q schc ∧ PrioOK N sc ∧
      sc.trace = s.trace ∧
      (∀ a, a < N →
        (s.task a).priority = TASK_DONE ∨ (s.task a).count = TASK_UNLINK_SCHEDULE →
        (sc.task a).priority = TASK_DONE) := by
  obtain ⟨sc, schc, e1, L1, r1, z1⟩ :=
    tickLinkSchedule_spec N s q sch hL hcap (fun a ha hu => (hS a ha hu).1)
      (fun a ha hu => (hS a ha hu).2)
  refine ⟨sc, schc, e1, L1, ?_, r1.trace, ?_⟩
  · intro a ha hu
    obtain ⟨g1, _, g3, _, _⟩ := (z1 a ha).inuse hu
    have hp : (sc.task a).priority = (s.task a).priority := g3.2.2.2.1
    rw [hp]; exact hP a ha g1
  · intro a ha h
    by_contra hu
    obtain ⟨g1, g2, _⟩ := (z1 a ha).inuse hu
    rcases h with h | h
    · exact g1 h
    · exact g2 h

theorem tickRun_wf (N : Nat) (s : Machine) (q sch : List Nat)
    (hL : Lists N s q sch) (hcap : N ≤ 32767)
    (hS : FlagsOK N TASK_LINK_SCHEDULE TASK_UNLINK_SCHEDULE s.sch_to_link s sch)
    (hP : PrioOK N s) :
    ∃ sb schb, tickRun N s = .ok sb ∧ Lists N sb q.tail schb ∧
      FlagsOK N TASK_LINK_SCHEDULE TASK_UNLINK_SCHEDULE sb.sch_to_link sb schb ∧
      PrioOK N sb ∧
      (∀ a, a < N → (s.task a).priority = TASK_DONE → (sb.task a).priority = TASK_DONE) ∧
      (∀ a, a < N → (s.task a).count = TASK_UNLINK_SCHEDULE →
        (sb.task a).priority = TASK_DONE ∨ (sb.task a).count = TASK_UNLINK_SCHEDULE) := by
  obtain ⟨sb, schb, e1, L1, _, hstl, _, _, hid, hlk, hnil, hcons⟩ :=
    tickRun_spec N s q sch hL hcap
  refine ⟨sb, schb, e1, L1, ?_⟩
  cases q with
  | nil =>
    obtain ⟨hs, hsch⟩ := hnil rfl
    subst hs; subst hsch
    exact ⟨hS, hP, fun a _ h => h, fun a _ h => Or.inr h⟩
  | cons h r =>
    obtain ⟨_, hout⟩ := hcons h r rfl
    have hhq : h ∈ h :: r := List.mem_cons_self h r
    have hhu : (s.task h).priority ≠ TASK_DONE := hL.used h (Or.inl hhq)
    have hhN : h < N := hL.queue.lt h hhq
    have hhc : (s.task h).count ≠ TASK_UNLINK_SCHEDULE := by
      intro hc
      rcases (hS h hhN hhu).1 hc with g | g
      · exact hL.disj h hhq g
      · exact (hL.not_mem_of_next h (by rw [g]; decide)).1 hhq
    have key : ∀ a, a ≠ h → sameIdent (sb.task a) (s.task a) ∧ (a ∈ schb ↔ a ∈ sch) := by
      intro a ha
      refine ⟨hid a (by simp [List.head?]; exact fun e => ha e.symm), ?_⟩
      rcases hout with ⟨_, _, _, _, e, _⟩ | ⟨m, _⟩
      · rw [e]
      · rw [m a]; simp [ha]
    have hh : (sb.task h).priority ≠ TASK_DONE →
        h ∈ schb ∧ (sb.task h).priority = (s.task h).priority ∧
          (sb.task h).count ≠ TASK_UNLINK_SCHEDULE := by
      intro hu
      rcases hout with ⟨e, _⟩ | ⟨m, p, _, _, _, _, _, c0, c1, c2, _⟩
      · exact absurd e hu
      · refine ⟨(m h).2 (Or.inl rfl), p, ?_⟩
        rw [c2]
        have h1 : (-1 : Int) ≤ (s.task h).count := c1
        split
        · show (s.task h).count - 1 ≠ -5; omega
        · show (s.task h).count ≠ -5; omega
    refine ⟨?_, ?_, ?_, ?_⟩
    · intro a ha hu
      by_cases hah : a = h
      · subst hah
        obtain ⟨m1, _, m3⟩ := hh hu
        refine ⟨fun _ => Or.inl m1, fun hfl => ?_⟩
        rcases hfl with g | g
        · exact absurd m1 (L1.not_mem_of_next a (by rw [g]; decide)).2
        · exact absurd g m3
      · obtain ⟨k1, k2⟩ := key a hah
        have hp : (sb.task a).priority = (s.task a).priority := k1.2.2.2.1
        have hc : (sb.task a).count = (s.task a).count := k1.2.2.2.2.2
        have hu0 : (s.task a).priority ≠ TASK_DONE := by rw [← hp]; exact hu
        constructor
        · intro hc5
          rcases (hS a ha hu0).1 (by rw [← hc]; exact hc5) with g | g
          · exact Or.inl (k2.2 g)
          · right
            have hnm := hL.not_mem_of_next a (by rw [g]; decide)
            rw [(hlk a hnm.1 hnm.2).1]; exact g
        · intro hfl
          rw [hstl]
          refine (hS a ha hu0).2 ?_
          rcases hfl with g | g
          · left
            have hnm := L1.not_mem_of_next a (by rw [g]; decide)
            have h1 : a ∉ h :: r := by
              intro hm
              rcases List.mem_cons.1 hm with e | e
              · exact hah e
              · exact hnm.1 e
            have h2 : a ∉ sch := fun hm => hnm.2 (k2.2 hm)
            rw [← (hlk a h1 h2).1]; exact g
          · exact Or.inr (by rw [← hc]; exact g)
    · intro a ha hu
      by_cases hah : a = h
      · subst hah
        rw [(hh hu).2.1]; exact hP a ha hhu
      · have hp : (sb.task a).priority = (s.task a).priority := (key a hah).1.2.2.2.1
        rw [hp]; exact hP a ha (by rw [← hp]; exact hu)
    · intro a _ hf
      have hah : a ≠ h := fun e => hhu (by rw [← e]; exact hf)
      rw [(key a hah).1.2.2.2.1]; exact hf
    · intro a _ hc
      have hah : a ≠ h := fun e => hhc (by rw [← e]; exact hc)
      right
      rw [(key a hah).1.2.2.2.2.2]; exact hc

theorem SystemTick_wf (N : Nat) (s : Machine) (hW : WellFormed N s) :
    ∃ s', SystemTick N s = .ok s' ∧
      Lists N s' (queueList N s') (scheduleList N s') ∧
      ∀ a, a < N → (s.task a).priority = TASK_DONE ∨
          (s.task a).count = TASK_UNLINK_QUEUE ∨ (s.task a).count = TASK_UNLINK_SCHEDULE →
        (s'.task a).priority = TASK_DONE := by
  obtain ⟨sa, qa, e1, L1, S1, P1, _, f1, g1⟩ :=
    tickLinkQueue_wf N s _ _ hW.lists hW.cap hW.queueFlags hW.schedFlags hW.prio
  obtain ⟨sb, schb, e2, L2, S2, P2, f2, g2⟩ := tickRun_wf N sa qa _ L1 hW.cap S1 P1
  obtain ⟨sc, schc, e3, L3, P3, _, f3⟩ := tickLinkSchedule_wf N sb _ schb L2 hW.cap S2 P2
  obtain ⟨sd, qd, schd, e4, L4, f4, _⟩ := tickPromote_spec N sc _ schc L3 hW.cap P3
  refine ⟨sd, ?_, ?_, ?_⟩
  · unfold SystemTick
    simp only [e1, e2, e3, Except.bind]
    exact e4
  · obtain ⟨w1, w2⟩ := L4.walk_eq
    rw [w1, w2]; exact L4
  · intro a ha h
    apply f4 a
    apply f3 a ha
    rcases h with h | h | h
    · exact Or.inl (f2 a ha (f1 a ha (Or.inl h)))
    · exact Or.inl (f2 a ha (f1 a ha (Or.inr h)))
    · rcases g1 a ha h with k | k
      · exact Or.inl (f2 a ha k)
      · exact g2 a ha k

theorem voidMono.void_refl (s : Machine) : voidMono s s := ⟨fun _ => Or.inl rfl, rfl⟩

theorem voidMono.void_trans {s1 s2 s3 : Machine} (h1 : voidMono s1 s2) (h2 : voidMono s2 s3) :
    voidMono s1 s3 := by
  refine ⟨fun a => ?_, h2.2.trans h1.2⟩
  rcases h2.1 a with e | e
  · rw [e]; exact h1.1 a
  · exact Or.inr e

theorem modTask_void_fn (s : Machine) (i : Nat) (f : task_t → task_t) (a : Nat) :
    ((modTask s i f).task a).void_fn =
      if a = i then (f (s.task i)).void_fn else (s.task a).void_fn := by
  rw [modTask_task]
  split <;> rfl

theorem ite_void_fn (s : Machine) (a i : Nat) :
    (if a = i then (s.task i).void_fn else (s.task a).void_fn) = (s.task a).void_fn := by
  split
  · rename_i e; rw [e]
  · rfl

theorem voidMono_modTask (s : Machine) (i : Nat) (f : task_t → task_t)
    (hf : ∀ t, (f t).void_fn = t.void_fn ∨ (f t).void_fn = DEFAULT_TASK) :
    voidMono s (modTask s i f) := by
  refine ⟨fun a => ?_, rfl⟩
  rw [modTask_task]
  split
  · rename_i e; subst e; exact hf _
  · exact Or.inl rfl

theorem QueueTask_void (N : Nat) (i : Int) (s s' : Machine) (h : QueueTask N i s = .ok s') :
    voidMono s s' := by
  unfold QueueTask at h
  split at h
  · dsimp only at h
    split at h
    · cases h; exact voidMono.void_refl s
    · have h0 : voidMono s (if (s.task i.toNat).next < -1
          then modTask s i.toNat (fun t => { t with next := -1 }) else s) := by
        split
        · exact voidMono_modTask _ _ _ (fun _ => Or.inl rfl)
        · exact voidMono.void_refl s
      revert h
      generalize (if (s.task i.toNat).next < -1
          then modTask s i.toNat (fun t => { t with next := -1 }) else s) = s0 at h0 ⊢
      intro h
      refine h0.void_trans ?_
      split at h
      · cases h
        refine ⟨fun a => Or.inl ?_, rfl⟩
        dsimp only
        simp only [modTask_void_fn, ite_void_fn, if_true, ite_self]
      · split at h
        · cases h
        · cases h
        · cases h
          refine ⟨fun a => Or.inl ?_, rfl⟩
          dsimp only [linkFront]
          simp only [modTask_void_fn, ite_void_fn, if_true, ite_self]
        · cases h
          refine ⟨fun a => Or.inl ?_, ?_⟩
          · dsimp only
            split
            · dsimp only [linkAfter]
              simp only [modTask_void_fn, ite_void_fn, if_true, ite_self]
            · split
              · dsimp only [linkAfter]
                simp only [modTask_void_fn, ite_void_fn, if_true, ite_self]
              · dsimp only [linkAfter]
                simp only [modTask_void_fn, ite_void_fn, if_true, ite_self]
          · dsimp only
            split
            · rfl
            · split <;> rfl
  · cases h

theorem UnScheduleTask_void (N : Nat) (i : Int) (s : Machine) :
    voidMono s (UnScheduleTask N i s) := by
  unfold UnScheduleTask
  split
  · dsimp only
    split
    · exact voidMono.void_refl s
    · have h1 : voidMono s
          (modTask s i.toNat (fun t => { clearTask t with count := TASK_DONE })) :=
        voidMono_modTask _ _ _ (fun _ => Or.inr rfl)
      revert h1
      generalize (modTask s i.toNat (fun t => { clearTask t with count := TASK_DONE })) = s1
      intro h1
      refine h1.void_trans ⟨fun a => Or.inl ?_, ?_⟩
      · repeat' split
        all_goals (try dsimp only)
        all_goals first | rfl | simp only [modTask_void_fn, ite_void_fn, if_true, ite_self]
      · repeat' split
        all_goals rfl
  · exact voidMono.void_refl s

theorem rollAll_void (now : Nat) : ∀ (k i : Nat) (s : Machine), voidMono s (rollAll now k i s) := by
  intro k
  induction k with
  | zero => intro i s; exact voidMono.void_refl s
  | succ k ih =>
    intro i s
    unfold rollAll
    refine voidMono.void_trans ?_ (ih (i + 1) _)
    split
    · exact voidMono_modTask _ _ _ (fun _ => Or.inl rfl)
    · exact voidMono.void_refl s

theorem RollTimer_void (N : Nat) (s : Machine) : voidMono s (RollTimer N s) := by
  unfold RollTimer
  exact (rollAll_void (TimeNow s) N 0 s).void_trans ⟨fun _ => Or.inl rfl, rfl⟩

theorem ScheduleTask_insert_void (N : Nat) (i : Int) (s s' : Machine)
    (h : ScheduleTask_insert N i s = .ok s') : voidMono s s' := by
  unfold ScheduleTask_insert at h
  dsimp only at h
  split at h
  · cases h
    refine ⟨fun a => Or.inl ?_, rfl⟩
    dsimp only
    simp only [modTask_void_fn, ite_void_fn, if_true, ite_self]
  · split at h
    · cases h
    · cases h
    · cases h
      refine ⟨fun a => Or.inl ?_, rfl⟩
      dsimp only [linkFront]
      simp only [modTask_void_fn, ite_void_fn, if_true, ite_self]
    · cases h
      refine ⟨fun a => Or.inl ?_, ?_⟩
      · dsimp only
        repeat' split
        all_goals (try dsimp only [linkAfter])
        all_goals simp only [modTask_void_fn, ite_void_fn, if_true, ite_self]
      · dsimp only
        repeat' split
        all_goals rfl

theorem ScheduleTask_void (N : Nat) (i : Int) (s s' : Machine)
    (h : ScheduleTask N i s = .ok s') : voidMono s s' := by
  unfold ScheduleTask at h
  split at h
  · dsimp only at h
    split at h
    · cases h; exact voidMono.void_refl s
    · have h0 : voidMono s (if (s.task i.toNat).next < -1
          then modTask s i.toNat (fun t => { t with next := -1 }) else s) := by
        split
        · exact voidMono_modTask _ _ _ (fun _ => Or.inl rfl)
        · exact voidMono.void_refl s
      revert h
      generalize (if (s.task i.toNat).next < -1
          then modTask s i.toNat (fun t => { t with next := -1 }) else s) = s0 at h0 ⊢
      intro h
      refine (h0.void_trans ?_).void_trans (ScheduleTask_insert_void N i _ s' h)
      split
      · refine voidMono.void_trans ?_ (RollTimer_void N _)
        exact voidMono_modTask _ _ _ (fun _ => Or.inl rfl)
      · exact voidMono.void_refl s0
  · cases h

theorem bind_eq_ok {x : Except Fault Machine} {f : Machine → Except Fault Machine}
    {s' : Machine} (h : x.bind f = .ok s') : ∃ m, x = .ok m ∧ f m = .ok s' := by
  cases x with
  | error e => cases h
  | ok m => exact ⟨m, rfl, h⟩

theorem resolveSchedule_void (N i : Nat) (s s' : Machine)
    (h : resolveSchedule N i s = .ok s') : voidMono s s' := by
  unfold resolveSchedule at h
  obtain ⟨m, h1, h2⟩ := bind_eq_ok h
  have g1 : voidMono s m := by
    split at h1
    · exact ScheduleTask_void N _ s m h1
    · cases h1; exact voidMono.void_refl _
  refine g1.void_trans ?_
  cases h2
  split
  · exact UnScheduleTask_void N _ m
  · exact voidMono.void_refl _

theorem resolveScheduleAll_void (N : Nat) : ∀ (k i : Nat) (s s' : Machine),
    resolveScheduleAll N k i s = .ok s' → voidMono s s' := by
  intro k
  induction k with
  | zero => intro i s s' h; cases h; exact voidMono.void_refl _
  | succ k ih =>
    intro i s s' h
    obtain ⟨m, h1, h2⟩ := bind_eq_ok (x := resolveSchedule N i s) h
    exact (resolveSchedule_void N i s m h1).void_trans (ih (i + 1) m s' h2)

theorem tickLinkSchedule_void (N : Nat) (s s' : Machine)
    (h : tickLinkSchedule N s = .ok s') : voidMono s s' := by
  unfold tickLinkSchedule at h
  split at h
  · dsimp only at h
    have h0 : voidMono s { s with sch_to_link := TASK_DONE } := ⟨fun _ => Or.inl rfl, rfl⟩
    split at h
    · exact h0.void_trans (resolveSchedule_void N _ _ s' h)
    · exact h0.void_trans (resolveScheduleAll_void N N 0 _ s' h)
  · cases h; exact voidMono.void_refl _

theorem promote_pop_void (N : Nat) (i : Int) (s : Machine) : voidMono s (promote_pop N i s) := by
  unfold promote_pop
  refine ⟨fun a => Or.inl ?_, ?_⟩
  · dsimp only
    repeat' split
    all_goals (try dsimp only)
    all_goals first | rfl | simp only [modTask_void_fn, ite_void_fn, if_true, ite_self]
  · dsimp only
    repeat' split
    all_goals rfl

theorem promote_void (N : Nat) : ∀ (fuel : Nat) (s s' : Machine),
    promote N fuel s = .ok s' → voidMono s s' := by
  intro fuel
  induction fuel with
  | zero => intro s s' h; cases h
  | succ f ih =>
    intro s s' h
    unfold promote at h
    split at h
    · split at h
      · cases h; exact voidMono.void_refl _
      · split at h
        · cases h
        · rename_i m hm
          exact ((promote_pop_void N _ s).void_trans (QueueTask_void N _ _ m hm)).void_trans (ih m s' h)
    · cases h; exact voidMono.void_refl _

theorem ServiceTasks_slot_void (N i : Nat) (s s' : Machine)
    (h : ServiceTasks_slot N i s = .ok s') : voidMono s s' := by
  unfold ServiceTasks_slot at h
  split at h
  · obtain ⟨m1, h1, h2⟩ := bind_eq_ok h
    obtain ⟨m2, h3, h4⟩ := bind_eq_ok h2
    have g1 : voidMono s m1 := by
      split at h1
      · exact QueueTask_void N _ s m1 h1
      · cases h1; exact voidMono.void_refl _
    have g2 : voidMono m1 m2 := by
      split at h3
      · exact ScheduleTask_void N _ m1 m2 h3
      · cases h3; exact voidMono.void_refl _
    refine (g1.void_trans g2).void_trans ?_
    split at h4
    · refine voidMono.void_trans ?_ (ScheduleTask_void N _ _ s' h4)
      exact voidMono_modTask _ _ _ (fun _ => Or.inl rfl)
    · cases h4; exact voidMono.void_refl _
  · cases h; exact voidMono.void_refl _

theorem ServiceTasks_all_void (N : Nat) : ∀ (k i : Nat) (s s' : Machine),
    ServiceTasks_all N k i s = .ok s' → voidMono s s' := by
  intro k
  induction k with
  | zero => intro i s s' h; cases h; exact voidMono.void_refl _
  | succ k ih =>
    intro i s s' h
    obtain ⟨m, h1, h2⟩ := bind_eq_ok (x := ServiceTasks_slot N i s) h
    exact (ServiceTasks_slot_void N i s m h1).void_trans (ih (i + 1) m s' h2)

theorem ServiceTasks_bump_void (N : Nat) : ∀ (k : Nat) (i : Int) (s : Machine),
    voidMono s (ServiceTasks_bump N k i s) := by
  intro k
  induction k with
  | zero => intro i s; exact voidMono.void_refl _
  | succ k ih =>
    intro i s
    unfold ServiceTasks_bump
    split
    · dsimp only
      refine voidMono.void_trans ?_ (ih _ _)
      split
      · exact voidMono_modTask _ _ _ (fun _ => Or.inl rfl)
      · exact voidMono.void_refl _
    · exact voidMono.void_refl _

theorem ServiceTasks_void (N : Nat) (s s' : Machine) (h : ServiceTasks N s = .ok s') :
    voidMono s s' := by
  unfold ServiceTasks at h
  obtain ⟨m, h1, h2⟩ := bind_eq_ok h
  cases h2
  exact (ServiceTasks_all_void N N 0 s m h1).void_trans (ServiceTasks_bump_void N _ _ m)

theorem tickPromote_void (N : Nat) (s s' : Machine) (h : tickPromote N s = .ok s') :
    voidMono s s' := by
  unfold tickPromote at h
  split at h
  · obtain ⟨m, h1, h2⟩ := bind_eq_ok h
    have h0 : voidMono s { s with last_time := TimeNow s } := ⟨fun _ => Or.inl rfl, rfl⟩
    refine (h0.void_trans (promote_void N _ _ m h1)).void_trans ?_
    split at h2
    · have h3 : voidMono m { m with service_tasks_time := TimeNow m } :=
        ⟨fun _ => Or.inl rfl, rfl⟩
      exact h3.void_trans (ServiceTasks_void N _ s' h2)
    · cases h2; exact voidMono.void_refl _
  · cases h; exact voidMono.void_refl _

theorem walk_congr (N : Nat) (s s' : Machine) (ht : s'.task = s.task) :
    ∀ (fuel : Nat) (i : Int), walk N s' fuel i = walk N s fuel i := by
  intro fuel
  induction fuel with
  | zero => intro i; rfl
  | succ f ih =>
    intro i
    unfold walk
    rw [ht, ih]

theorem WellFormed.interrupt {N : Nat} {s : Machine} (hW : WellFormed N s) :
    WellFormed N (TimingInterrupt s) := by
  have hq : queueList N (TimingInterrupt s) = queueList N s :=
    walk_congr N s (TimingInterrupt s) rfl (N + 1) s.first
  have hs : scheduleList N (TimingInterrupt s) = scheduleList N s :=
    walk_congr N s (TimingInterrupt s) rfl (N + 1) s.sch_first
  refine ⟨hW.cap, ?_, hW.prio, ?_, ?_, ?_⟩
  · rw [hq, hs]
    exact ⟨hW.lists.queue, hW.lists.sched, hW.lists.disj, hW.lists.used⟩
  · rw [hq, hs]; exact hW.owned
  · rw [hq]; exact hW.queueFlags
  · rw [hs]; exact hW.schedFlags

theorem advance_task (k : Nat) : ∀ s : Machine, (advance k s).task = s.task := by
  induction k with
  | zero => intro s; rfl
  | succ k ih => intro s; exact ih _

theorem poolFullOneQueued_wf : WellFormed 20 poolFullOneQueued := by
  have hpr : ∀ a, (poolFullOneQueued.task a).priority = 1 := by
    intro a; unfold poolFullOneQueued; dsimp only; split <;> rfl
  have hL : Lists 20 poolFullOneQueued [0] (List.range' 1 19) := by
    refine ⟨⟨by decide, by decide, by decide, by decide, by decide, by decide⟩,
      ⟨by decide, by decide, by decide, by decide, by decide, by decide⟩, by decide, ?_⟩
    intro i _
    rw [hpr i]; decide
  obtain ⟨w1, w2⟩ := hL.walk_eq
  have hct : ∀ a, (poolFullOneQueued.task a).count = 0 := by
    intro a; unfold poolFullOneQueued; dsimp only; split <;> rfl
  have hnx : ∀ a, -1 ≤ (poolFullOneQueued.task a).next := by
    intro a; unfold poolFullOneQueued; dsimp only
    split
    · decide
    · dsimp only; split
      · omega
      · decide
  refine ⟨by decide, by rw [w1, w2]; exact hL, ?_, ?_, ?_, ?_⟩
  · intro a _ _; rw [hpr a]; decide
  · intro a ha _
    rw [w1, w2]
    by_cases h0 : a = 0
    · left; rw [h0]; decide
    · right; left
      rw [List.mem_range']
      exact ⟨a - 1, by omega, by omega⟩
  · intro a _ _
    have := hnx a
    refine ⟨fun h => ?_, fun h => ?_⟩
    · rw [hct a] at h; exact absurd h (by decide)
    · rcases h with h | h
      · rw [h] at this; exact absurd this (by decide)
      · rw [hct a] at h; exact absurd h (by decide)
  · intro a _ _
    have := hnx a
    refine ⟨fun h => ?_, fun h => ?_⟩
    · rw [hct a] at h; exact absurd h (by decide)
    · rcases h with h | h
      · rw [h] at this; exact absurd this (by decide)
      · rw [hct a] at h; exact absurd h (by decide)

theorem tickRun_oneshot (N : Nat) (s : Machine) (h : Nat) (r : List Nat)
    (hq : IsList N s.task s.first s.last s.length (h :: r))
    (hper : (s.task h).period = 0) (hcap : N ≤ 32767) :
    ∃ s', tickRun N s = .ok s' ∧ IsList N s'.task s'.first s'.last s'.length r ∧
      s'.trace = s.trace ++
        [Call.input (s.task h).fn (s.task h).input, Call.void (s.task h).void_fn] ∧
      s'.task h = clearTask (s.task h) ∧
      (∀ a, a ≠ h → sameData (s'.task a) (s.task a)) ∧
      (∀ a, a ∉ r → a ≠ h → s'.task a = s.task a) ∧
      s'.sch_first = s.sch_first ∧ s'.sch_last = s.sch_last ∧
      s'.sch_length = s.sch_length ∧ s'.to_link = s.to_link ∧
      s'.sch_to_link = s.sch_to_link ∧ s'.ms_time = s.ms_time ∧
      s'.last_time = s.last_time ∧ s'.service_tasks_time = s.service_tasks_time ∧
      s'.rollover_time = s.rollover_time := by
  have hhN : h < N := hq.lt h (by simp)
  have hfirst : s.first = (h : Int) := hq.first_eq
  have hnd := hq.nodup
  have hhr : h ∉ r := (List.nodup_cons.1 hnd).1
  obtain ⟨hc1, hc2, hc3⟩ := hq.chain
  unfold tickRun
  have hv' : validIdx N (h : Int) := ⟨by omega, by exact_mod_cast hhN⟩
  simp only [hfirst, hv', if_true, Int.toNat_ofNat]
  generalize hpop : (if validIdx N (s.task h).next then
      modTask { s with
          trace := s.trace ++ [Call.input (s.task h).fn (s.task h).input,
            Call.void (s.task h).void_fn],
          first := (s.task h).next }
        (s.task h).next.toNat (fun t => { t with previous := TASK_DONE })
    else { s with
          trace := s.trace ++ [Call.input (s.task h).fn (s.task h).input,
            Call.void (s.task h).void_fn],
          first := (s.task h).next }) = sp
  have hp_task : ∀ a, (∀ r', r ≠ a :: r') → sp.task a = s.task a := by
    intro a ha
    rw [← hpop]
    split
    · rename_i hvn
      rw [hc2] at hvn ⊢
      cases r with
      | nil => simp [hd, validIdx] at hvn
      | cons b r' =>
        have : a ≠ b := by intro e; subst e; exact ha r' rfl
        simp [hd, this]
    · rfl
  have hp_b : ∀ b r', r = b :: r' → sp.task b = { s.task b with previous := TASK_DONE } := by
    intro b r' e
    subst e
    have hbN : b < N := hq.lt b (by simp)
    have hvn : validIdx N (s.task h).next := by
      rw [hc2]; exact ⟨by simp [hd], by simp only [hd]; exact_mod_cast hbN⟩
    rw [← hpop, if_pos hvn, hc2]
    simp [hd]
  have hp_rest : sp.first = hd r (-1) ∧ sp.last = s.last ∧ sp.length = s.length ∧
      sp.sch_first = s.sch_first ∧ sp.sch_last = s.sch_last ∧ sp.sch_length = s.sch_length ∧
      sp.to_link = s.to_link ∧ sp.sch_to_link = s.sch_to_link ∧ sp.last_time = s.last_time ∧
      sp.service_tasks_time = s.service_tasks_time ∧
      sp.ms_time = s.ms_time ∧ sp.rollover_time = s.rollover_time ∧
      sp.trace = s.trace ++
        [Call.input (s.task h).fn (s.task h).input, Call.void (s.task h).void_fn] := by
    rw [← hpop]
    split <;> simp [hc2]
  obtain ⟨p1, p2, p3, p4, p5, p6, p7, p8, p9, p10, p12, p13, p16⟩ := hp_rest
  have hph : sp.task h = s.task h := by
    refine hp_task h ?_
    intro r' e; exact hhr (by rw [e]; simp)
  have hp_data : ∀ a, sameData (sp.task a) (s.task a) := by
    intro a
    by_cases ha : ∃ r', r = a :: r'
    · obtain ⟨r', e⟩ := ha
      rw [hp_b a r' e]; exact sameData_setPrevious _ _
    · rw [hp_task a (fun r' e => ha ⟨r', e⟩)]; exact sameData_refl _
  have hp_out : ∀ a, a ∉ r → sp.task a = s.task a := by
    intro a ha
    refine hp_task a ?_
    intro r' e; exact ha (by rw [e]; simp)
  have hdis : tickRun_dispose N (h : Int) sp
      = .ok { modTask sp h clearTask with available := (h : Int) } := by
    unfold tickRun_dispose
    simp only [Int.toNat_ofNat]
    rw [if_neg (by rw [hph, hper]; simp)]
  rw [hdis]
  simp only
  obtain ⟨a1, a2, a3, a4, a5, a6, a7, a8, a9, a10, a11, a12, a13, a14, a15, a16⟩ :=
    tickRun_account_frame { modTask sp h clearTask with available := (h : Int) }
  have ht4 : ∀ a, ({ modTask sp h clearTask with available := (h : Int) } : Machine).task a
      = if a = h then clearTask (s.task h) else sp.task a := by
    intro a
    show (modTask sp h clearTask).task a = _
    rw [modTask_task, hph]
  have hlen : wrap16 (s.length - 1) = (r.length : Int) := by
    rw [hq.len_eq]
    have := nodup_length_le N _ hq.nodup hq.lt
    simp only [List.length_cons] at this ⊢
    rw [wrap16_of_range] <;> push_cast <;> omega
  refine ⟨_, rfl, ⟨(List.nodup_cons.1 hnd).2,
    fun a ha => hq.lt a (List.mem_cons_of_mem _ ha), ?_, ?_, ?_, ?_⟩,
    ?_, ?_, ?_, ?_, ?_, ?_, ?_, ?_, ?_, ?_, ?_, ?_, ?_⟩
  · rw [a1]
    refine Chain_pop s.task _ h r (-1) (-1) (-1) hq.chain hnd ?_ ?_
    · intro b r' e
      have hbh : b ≠ h := by intro e'; subst e'; exact hhr (by rw [e]; simp)
      rw [ht4 b, if_neg hbh, hp_b b r' e]
      exact ⟨rfl, rfl⟩
    · intro a ha hne
      have hah : a ≠ h := by intro e'; subst e'; exact hhr ha
      rw [ht4 a, if_neg hah, hp_task a hne]
      exact ⟨rfl, rfl⟩
  · rw [a2]; exact p1
  · rw [a4]
    show (if wrap16 (sp.length - 1) < 1 then TASK_DONE else sp.last) = _
    rw [p3, hlen, p2, hq.last_eq]
    cases r with
    | nil => simp [lst, TASK_DONE]
    | cons b r' =>
      have : ¬ (((b :: r').length : Int) < 1) := by simp only [List.length_cons]; push_cast; omega
      rw [if_neg this]; rfl
  · rw [a3]
    show wrap16 (sp.length - 1) = _
    rw [p3, hlen]
  · rw [a16]; exact p16
  · rw [a1, ht4 h, if_pos rfl]
  · intro a ha
    rw [a1, ht4 a, if_neg ha]; exact hp_data a
  · intro a har hah
    rw [a1, ht4 a, if_neg hah]; exact hp_out a har
  · rw [a5]; exact p4
  · rw [a6]; exact p5
  · rw [a7]; exact p6
  · rw [a9]; exact p7
  · rw [a10]; exact p8
  · rw [a11]; exact p12
  · rw [a14]; exact p9
  · rw [a15]; exact p10
  · rw [a12]; exact p13

theorem promote_empty (N fuel : Nat) (s : Machine) (h : ¬ validIdx N s.sch_first) :
    promote N (fuel + 1) s = .ok s := by
  unfold promote
  rw [if_neg h]

theorem ServiceTasks_slot_quiet (N i : Nat) (s : Machine)
    (h : (s.task i).priority ≥ 0 → (s.task i).next ≠ TASK_LINK_QUEUE ∧
      (s.task i).next ≠ TASK_LINK_SCHEDULE ∧ (s.task i).period = 0) :
    ServiceTasks_slot N i s = .ok s := by
  unfold ServiceTasks_slot
  split
  · rename_i hp
    obtain ⟨h1, h2, h3⟩ := h hp
    rw [if_neg h1]
    simp only [Except.bind]
    rw [if_neg h2]
    simp only [Except.bind]
    rw [if_neg (by rw [h3]; simp)]
  · rfl

theorem ServiceTasks_all_quiet (N : Nat) (s : Machine) : ∀ (k i : Nat),
    (∀ a, i ≤ a → a < i + k → (s.task a).priority ≥ 0 →
      (s.task a).next ≠ TASK_LINK_QUEUE ∧ (s.task a).next ≠ TASK_LINK_SCHEDULE ∧
        (s.task a).period = 0) →
    ServiceTasks_all N k i s = .ok s := by
  intro k
  induction k with
  | zero => intro i _; rfl
  | succ k ih =>
    intro i h
    unfold ServiceTasks_all
    rw [ServiceTasks_slot_quiet N i s (h i (le_refl i) (by omega))]
    exact ih (i + 1) (fun a h1 h2 => h a (by omega) (by omega))

theorem resolveSchedule_noop (N i : Nat) (s : Machine) (hi : i < N)
    (h : (s.task i).priority = TASK_DONE ∨
      ((s.task i).next ≠ TASK_LINK_SCHEDULE ∧ (s.task i).count ≠ TASK_UNLINK_SCHEDULE)) :
    resolveSchedule N i s = .ok s := by
  unfold resolveSchedule
  have hv : validIdx N (i : Int) := ⟨by omega, by exact_mod_cast hi⟩
  rcases h with hfree | ⟨h1, h2⟩
  · have e1 : ScheduleTask N (i : Int) s = .ok s := by
      unfold ScheduleTask
      rw [if_pos hv]; simp only [Int.toNat_ofNat]; rw [if_pos hfree]
    have e2 : UnScheduleTask N (i : Int) s = s := by
      unfold UnScheduleTask
      rw [if_pos hv]; simp only [Int.toNat_ofNat]; rw [if_pos hfree]
    rw [e1]; simp only [ite_self, Except.bind, e2]
  · rw [if_neg h1]
    simp only [Except.bind]
    rw [if_neg h2]

theorem tickPromote_quiet (N : Nat) (s : Machine) (q : List Nat)
    (hq : IsList N s.task s.first s.last s.length q) (hsch : s.sch_first = -1)
    (hquiet : ∀ a, a < N → (s.task a).priority ≥ 0 →
      (s.task a).next ≠ TASK_LINK_QUEUE ∧ (s.task a).next ≠ TASK_LINK_SCHEDULE ∧
        (s.task a).period = 0) :
    ∃ s', tickPromote N s = .ok s' ∧
      (∀ b, (b ∉ q → s'.task b = s.task b) ∧
        (s'.task b = s.task b ∨
          s'.task b = { s.task b with priority := wrap16 ((s.task b).priority + 1) })) ∧
      s'.first = s.first ∧ s'.last = s.last ∧ s'.length = s.length ∧
      s'.sch_first = s.sch_first ∧ s'.to_link = s.to_link ∧
      s'.sch_to_link = s.sch_to_link ∧ s'.trace = s.trace := by
  unfold tickPromote
  have hnv : ¬ validIdx N s.sch_first := by rw [hsch]; simp [validIdx]
  split
  · have hnv' : ¬ validIdx N ({ s with last_time := TimeNow s } : Machine).sch_first := hnv
    rw [promote_empty N N { s with last_time := TimeNow s } hnv']
    simp only [Except.bind]
    split
    · unfold ServiceTasks
      have hall : ∀ s2 : Machine, s2.task = s.task → ServiceTasks_all N N 0 s2 = .ok s2 := by
        intro s2 h2
        refine ServiceTasks_all_quiet N s2 N 0 (fun a _ ha => ?_)
        rw [h2]; exact hquiet a (by omega)
      rw [hall _ (by rfl)]
      simp only [Except.bind]
      obtain ⟨g1, g2⟩ := ServiceTasks_bump_spec N q (N + 1)
        { s with last_time := TimeNow s, service_tasks_time := TimeNow s } q [] hq (by simp)
      rw [← hq.last_eq] at g1 g2
      generalize hB : ServiceTasks_bump N (N + 1) s.last
        { s with last_time := TimeNow s, service_tasks_time := TimeNow s } = sB at g1 g2
      have f1 : sB.first = s.first := by rw [g1]
      have f2 : sB.last = s.last := by rw [g1]
      have f3 : sB.length = s.length := by rw [g1]
      have f4 : sB.sch_first = s.sch_first := by rw [g1]
      have f5 : sB.to_link = s.to_link := by rw [g1]
      have f6 : sB.sch_to_link = s.sch_to_link := by rw [g1]
      have f7 : sB.trace = s.trace := by rw [g1]
      exact ⟨sB, congrArg Except.ok hB, g2, f1, f2, f3, f4, f5, f6, f7⟩
    · exact ⟨_, rfl, fun b => ⟨fun _ => rfl, Or.inl rfl⟩, rfl, rfl, rfl, rfl, rfl, rfl, rfl⟩
  · exact ⟨_, rfl, fun b => ⟨fun _ => rfl, Or.inl rfl⟩, rfl, rfl, rfl, rfl, rfl, rfl, rfl⟩

theorem tick_drain (N : Nat) (s : Machine) (h : Nat) (r : List Nat)
    (hD : Draining N s (h :: r)) (hcap : N ≤ 32767) :
    ∃ s', (tickRun N s).bind (fun s => (tickLinkSchedule N s).bind (tickPromote N)) = .ok s' ∧
      Draining N s' r ∧ s'.sch_to_link = TASK_DONE ∧
      s'.trace = s.trace ++
        [Call.input (s.task h).fn (s.task h).input, Call.void (s.task h).void_fn] ∧
      (∀ a ∈ r, (s'.task a).void_fn = (s.task a).void_fn ∧ (s'.task a).fn = (s.task a).fn ∧
        (s'.task a).input = (s.task a).input) := by
  have hhN : h < N := hD.queue.lt h (by simp)
  have hhr : h ∉ r := (List.nodup_cons.1 hD.queue.nodup).1
  obtain ⟨sb, e1, q1, tr1, th, tdata, tout, b1, b2, b3, b4, b5, b6, b7, b8, b9⟩ :=
    tickRun_oneshot N s h r hD.queue (hD.oneshot h (by simp)).1 hcap
  have hfreeb : ∀ a, a < N → a ∉ r → (sb.task a).priority = TASK_DONE := by
    intro a ha har
    by_cases hah : a = h
    · rw [hah, th]; rfl
    · rw [(tdata a hah).2.2.2.1]
      exact hD.free a ha (fun hm => by
        rcases List.mem_cons.1 hm with e | e
        · exact hah e
        · exact har e)
  have hmemb : ∀ a ∈ r, (sb.task a).period = 0 ∧ (sb.task a).count ≠ TASK_UNLINK_SCHEDULE ∧
      -1 ≤ (sb.task a).next := by
    intro a ha
    have hah : a ≠ h := fun e => hhr (e ▸ ha)
    obtain ⟨_, _, _, _, _, d6, d7⟩ := tdata a hah
    have := hD.oneshot a (List.mem_cons_of_mem _ ha)
    exact ⟨by rw [d6]; exact this.1, by rw [d7]; exact this.2, q1.next_ge a ha⟩
  -- the schedule-side link step changes the marker only
  have hC : ∃ sc, tickLinkSchedule N sb = .ok sc ∧ sc.task = sb.task ∧ sc.first = sb.first ∧
      sc.last = sb.last ∧ sc.length = sb.length ∧ sc.sch_first = sb.sch_first ∧
      sc.to_link = sb.to_link ∧ sc.sch_to_link = TASK_DONE ∧ sc.trace = sb.trace := by
    unfold tickLinkSchedule
    by_cases hd0 : sb.sch_to_link = TASK_DONE
    · rw [if_neg (not_not.mpr hd0)]
      exact ⟨sb, rfl, rfl, rfl, rfl, rfl, rfl, rfl, hd0, rfl⟩
    · rw [if_pos hd0]
      have h0 : sb.sch_to_link = 0 := by
        rcases hD.sch_to_link with e | e
        · exact absurd (b5.trans e) hd0
        · exact b5.trans e
      have hv : validIdx N sb.sch_to_link := by rw [h0]; exact ⟨le_refl 0, by omega⟩
      simp only [if_pos hv]
      have hN0 : (0 : Nat) < N := by omega
      have h0' : sb.sch_to_link.toNat = 0 := by rw [h0]; rfl
      rw [h0']
      have hno : resolveSchedule N 0 { sb with sch_to_link := TASK_DONE }
          = .ok { sb with sch_to_link := TASK_DONE } := by
        refine resolveSchedule_noop N 0 _ hN0 ?_
        by_cases h0r : 0 ∈ r
        · right
          obtain ⟨_, m2, m3⟩ := hmemb 0 h0r
          refine ⟨fun e => ?_, m2⟩
          have e' : (sb.task 0).next = TASK_LINK_SCHEDULE := e
          rw [e'] at m3; exact absurd m3 (by decide)
        · left; exact hfreeb 0 hN0 h0r
      exact ⟨_, hno, rfl, rfl, rfl, rfl, rfl, rfl, rfl, rfl⟩
  obtain ⟨sc, e2, c1, c2, c3, c4, c5, c6, c7, c8⟩ := hC
  have qc : IsList N sc.task sc.first sc.last sc.length r := by
    rw [c1, c2, c3, c4]; exact q1
  have hquiet : ∀ a, a < N → (sc.task a).priority ≥ 0 →
      (sc.task a).next ≠ TASK_LINK_QUEUE ∧ (sc.task a).next ≠ TASK_LINK_SCHEDULE ∧
        (sc.task a).period = 0 := by
    intro a ha hp
    rw [c1] at hp ⊢
    by_cases har : a ∈ r
    · obtain ⟨m1, _, m3⟩ := hmemb a har
      refine ⟨fun e => ?_, fun e => ?_, m1⟩
      · rw [e] at m3; exact absurd m3 (by decide)
      · rw [e] at m3; exact absurd m3 (by decide)
    · rw [hfreeb a ha har] at hp; exact absurd hp (by decide)
  obtain ⟨sd, e3, d1, d2, d3, d4, d5, d6, d7, d8⟩ :=
    tickPromote_quiet N sc r qc (by rw [c5, b1]; exact hD.sch_empty) hquiet
  have hlinks : ∀ b, (sd.task b).next = (sb.task b).next ∧
      (sd.task b).previous = (sb.task b).previous ∧ (sd.task b).period = (sb.task b).period ∧
      (sd.task b).count = (sb.task b).count ∧ (sd.task b).void_fn = (sb.task b).void_fn ∧
      (sd.task b).fn = (sb.task b).fn ∧ (sd.task b).input = (sb.task b).input := by
    intro b
    rcases (d1 b).2 with e | e <;> rw [e, c1] <;> exact ⟨rfl, rfl, rfl, rfl, rfl, rfl, rfl⟩
  refine ⟨sd, ?_, ⟨?_, ?_, ?_, ?_, ?_, ?_⟩, ?_, ?_, ?_⟩
  · rw [e1]; simp only [Except.bind]; rw [e2]; exact e3
  · exact qc.congr (fun a _ => by
      obtain ⟨g1, g2, _⟩ := hlinks a
      rw [c1]; exact ⟨g1, g2⟩) d2 d3 d4
  · intro a ha har
    rw [(d1 a).1 har, c1]; exact hfreeb a ha har
  · intro a ha
    obtain ⟨_, _, g3, g4, _⟩ := hlinks a
    obtain ⟨m1, m2, _⟩ := hmemb a ha
    exact ⟨by rw [g3]; exact m1, by rw [g4]; exact m2⟩
  · rw [d5, c5, b1]; exact hD.sch_empty
  · rw [d6, c6, b4]; exact hD.to_link
  · left; rw [d7]; exact c7
  · rw [d7]; exact c7
  · rw [d8, c8]; exact tr1
  · intro a ha
    have hah : a ≠ h := fun e => hhr (e ▸ ha)
    obtain ⟨_, _, _, _, g5, g6, g7⟩ := hlinks a
    obtain ⟨t1, t2, t3, _⟩ := tdata a hah
    exact ⟨g5.trans t1, g6.trans t2, g7.trans t3⟩

theorem clearAll_spec : ∀ (k i : Nat) (s : Machine),
    clearAll k i s = { s with task := (clearAll k i s).task } ∧
    ∀ a, (clearAll k i s).task a =
      if i ≤ a ∧ a < i + k then clearTask (s.task a) else s.task a := by
  intro k
  induction k with
  | zero =>
    intro i s
    refine ⟨rfl, fun a => ?_⟩
    rw [if_neg (by omega)]; rfl
  | succ k ih =>
    intro i s
    obtain ⟨h1, h2⟩ := ih (i + 1) (modTask s i clearTask)
    refine ⟨?_, fun a => ?_⟩
    · show clearAll k (i + 1) (modTask s i clearTask) = _
      rw [h1]; rfl
    · show (clearAll k (i + 1) (modTask s i clearTask)).task a = _
      rw [h2 a, modTask_task]
      by_cases hai : a = i
      · subst hai
        rw [if_neg (by omega), if_pos rfl, if_pos (by omega)]
      · rw [if_neg hai]
        by_cases hin : i + 1 ≤ a ∧ a < i + 1 + k
        · rw [if_pos hin, if_pos (by omega)]
        · rw [if_neg hin, if_neg (by omega)]

theorem TaskInit_registered (N : Nat) : Registered N [] (TaskInit N boot) := by
  obtain ⟨h1, h2⟩ := clearAll_spec N 0
    { boot with first := -1, last := -1, sch_first := -1, sch_last := -1,
                available := 0, length := 0, sch_length := 0, max_length := 0 }
  have he : TaskInit N boot = clearAll N 0
    { boot with first := -1, last := -1, sch_first := -1, sch_last := -1,
                available := 0, length := 0, sch_length := 0, max_length := 0 } := rfl
  refine ⟨fun i hi => absurd hi (by simp), ?_, ?_, ?_, ?_, ?_, ?_, ?_, ?_, ?_, ?_, ?_⟩
  · intro i _ hi
    rw [he, h2 i, if_pos ⟨Nat.zero_le i, by omega⟩]
    exact ⟨rfl, rfl, rfl, rfl⟩
  all_goals (rw [he, h1])
  all_goals rfl

theorem advance_eq (k : Nat) : ∀ s : Machine,
    advance k s = { s with ms_time := (advance k s).ms_time } := by
  induction k with
  | zero => intro s; rfl
  | succ k ih =>
    intro s
    show advance k (TimingInterrupt s) = _
    rw [ih]; rfl

theorem firstFree_eq (s : Machine) (j : Nat) : ∀ (k i : Nat),
    (∀ a, i ≤ a → a < j → (s.task a).priority ≠ TASK_DONE) →
    (s.task j).priority = TASK_DONE → i ≤ j → j < i + k → firstFree s k i = some j := by
  intro k
  induction k with
  | zero => intro i _ _ h1 h2; omega
  | succ k ih =>
    intro i hu hf h1 h2
    unfold firstFree
    by_cases hij : i = j
    · subst hij; rw [if_pos hf]
    · rw [if_neg (hu i (le_refl i) (by omega))]
      exact ih (i + 1) (fun a ha hb => hu a (by omega) hb) hf (by omega) (by omega)

theorem Registered.advance_reg {N : Nat} {regs : List Registration} {s : Machine}
    (h : Registered N regs s) (k : Nat) : Registered N regs (advance k s) := by
  have he := advance_eq k s
  have ht := advance_task k s
  refine ⟨fun i hi => by rw [ht]; exact h.slot i hi, fun i h1 h2 => by rw [ht]; exact h.free i h1 h2,
    ?_, ?_, ?_, ?_, ?_, ?_, ?_, ?_, ?_, ?_⟩
  · rw [he]; exact h.first
  · rw [he]; exact h.last
  · rw [he]; exact h.length
  · rw [he]; exact h.sch_first
  · rw [he]; exact h.sch_last
  · rw [he]; exact h.sch_length
  · rw [he]; exact h.available
  · rw [he]; exact h.to_link
  · rw [he]; exact h.sch_to_link
  · rw [he]; exact h.trace

theorem TaskQueueAdd_at (N fn : Nat) (p : Int) (s : Machine) (j : Nat)
    (hav : s.available = (j : Int)) (hj : j < N) :
    TaskQueueAdd N fn p s =
      { s with
        available := -1
        to_link := (if s.to_link = TASK_DONE then (j : Int) else TASK_LINK_QUEUE)
        task := fun a => if a = j then
            { s.task j with priority := p, void_fn := fn, time := TimeNow s, period := 0,
                            next := TASK_LINK_QUEUE }
          else s.task a } := by
  have hv : validIdx N (j : Int) := ⟨by omega, by exact_mod_cast hj⟩
  unfold TaskQueueAdd
  rw [if_neg (show ¬ s.available < 0 by rw [hav]; omega)]
  simp only [hav, hv, if_true, Int.toNat_ofNat, modTask, setTask, TimeNow]
  congr 1
  funext a
  by_cases ha : a = j
  · simp [ha]
  · simp [ha]

theorem TaskQueueAdd_alloc (N fn : Nat) (p : Int) (s : Machine) (j : Nat)
    (hav : s.available < 0) (hff : firstFree s N 0 = some j) :
    TaskQueueAdd N fn p s = TaskQueueAdd N fn p { s with available := (j : Int) } := by
  have hg : GetAvailableTask N p s = { s with available := (j : Int) } := by
    unfold GetAvailableTask
    rw [hff]
  unfold TaskQueueAdd
  have e1 : (if s.available < 0 then GetAvailableTask N p s else s)
      = { s with available := (j : Int) } := by rw [if_pos hav, hg]
  have e2 : (if ({ s with available := (j : Int) } : Machine).available < 0
      then GetAvailableTask N p { s with available := (j : Int) }
      else { s with available := (j : Int) }) = { s with available := (j : Int) } :=
    if_neg (by show ¬ ((j : Int) < 0); omega)
  rw [e1, e2]

theorem regFn_append_left (regs : List Registration) (r : Registration) (i : Nat)
    (hi : i < regs.length) :
    regFn (regs ++ [r]) i = regFn regs i ∧ regPriority (regs ++ [r]) i = regPriority regs i := by
  unfold regFn regPriority
  rw [List.getD_append _ _ _ _ hi]
  exact ⟨rfl, rfl⟩

theorem regFn_append_right (regs : List Registration) (r : Registration) :
    regFn (regs ++ [r]) regs.length = r.fn ∧
      regPriority (regs ++ [r]) regs.length = r.priority := by
  unfold regFn regPriority
  rw [List.getD_append_right _ _ _ _ (le_refl _)]
  simp

theorem Registered.add {N : Nat} {regs : List Registration} {s : Machine}
    (h : Registered N regs s) (r : Registration) (hlen : regs.length < N)
    (hprev : ∀ i, i < regs.length → regPriority regs i ≠ TASK_DONE) :
    Registered N (regs ++ [r]) (TaskQueueAdd N r.fn r.priority s) := by
  have key : TaskQueueAdd N r.fn r.priority s =
      { s with
        available := -1
        to_link := TASK_LINK_QUEUE
        task := fun a => if a = regs.length then
            { s.task regs.length with
              priority := r.priority, void_fn := r.fn, time := TimeNow s, period := 0,
              next := TASK_LINK_QUEUE }
          else s.task a } := by
    by_cases h0 : regs.length = 0
    · have hav : s.available = ((regs.length : Nat) : Int) := by
        rw [h.available, if_pos h0, h0]; rfl
      rw [TaskQueueAdd_at N r.fn r.priority s regs.length hav hlen]
      have htl : s.to_link = 0 := by rw [h.to_link, if_pos h0]
      rw [htl]
      rfl
    · have hav : s.available < 0 := by
        rw [h.available, if_neg h0]; decide
      have hff : firstFree s N 0 = some regs.length := by
        refine firstFree_eq s regs.length N 0 ?_ (h.free _ (le_refl _) hlen).1 (Nat.zero_le _)
          (by omega)
        intro a _ ha
        rw [(h.slot a ha).2.1]; exact hprev a ha
      rw [TaskQueueAdd_alloc N r.fn r.priority s regs.length hav hff,
        TaskQueueAdd_at N r.fn r.priority _ regs.length rfl hlen]
      have htl : s.to_link = TASK_LINK_QUEUE := by rw [h.to_link, if_neg h0]
      show ({ s with
        available := -1
        to_link := (if s.to_link = TASK_DONE then (regs.length : Int) else TASK_LINK_QUEUE)
        task := _ } : Machine) = _
      rw [htl]
      rfl
  have hlen' : (regs ++ [r]).length = regs.length + 1 := by simp
  have ht : ∀ a, a ≠ regs.length →
      (TaskQueueAdd N r.fn r.priority s).task a = s.task a := by
    intro a ha; rw [key]; show (if a = regs.length then _ else s.task a) = _
    rw [if_neg ha]
  have hj : (TaskQueueAdd N r.fn r.priority s).task regs.length =
      { s.task regs.length with
        priority := r.priority, void_fn := r.fn, time := TimeNow s, period := 0,
        next := TASK_LINK_QUEUE } := by
    rw [key]; show (if regs.length = regs.length then _ else _) = _
    rw [if_pos rfl]
  refine ⟨?_, ?_, ?_, ?_, ?_, ?_, ?_, ?_, ?_, ?_, ?_, ?_⟩
  · intro i hi
    rw [hlen'] at hi
    by_cases hij : i = regs.length
    · subst hij
      obtain ⟨f1, f2⟩ := regFn_append_right regs r
      obtain ⟨_, g2, g3, g4⟩ := h.free regs.length (le_refl _) hlen
      rw [hj, f1, f2]
      exact ⟨rfl, rfl, rfl, rfl, g2, g3, g4⟩
    · have hi' : i < regs.length := by omega
      obtain ⟨f1, f2⟩ := regFn_append_left regs r i hi'
      rw [ht i hij, f1, f2]
      exact h.slot i hi'
  · intro i h1 h2
    rw [hlen'] at h1
    rw [ht i (by omega)]
    exact h.free i (by omega) h2
  · rw [key]; exact h.first
  · rw [key]; exact h.last
  · rw [key]; exact h.length
  · rw [key]; exact h.sch_first
  · rw [key]; exact h.sch_last
  · rw [key]; exact h.sch_length
  · rw [key, hlen', if_neg (by omega)]
  · rw [key, hlen', if_neg (by omega)]
  · rw [key]; exact h.sch_to_link
  · rw [key]; exact h.trace

theorem registerAll_registered (N : Nat) : ∀ (rest done : List Registration) (s : Machine),
    Registered N done s → (done ++ rest).length ≤ N →
    (∀ i, i < (done ++ rest).length → regPriority (done ++ rest) i ≠ TASK_DONE) →
    Registered N (done ++ rest) (registerAll N rest s) := by
  intro rest
  induction rest with
  | nil =>
    intro done s h _ _
    rw [List.append_nil]; exact h
  | cons r rest ih =>
    intro done s h hlen hp
    have e : done ++ r :: rest = (done ++ [r]) ++ rest := by simp
    rw [e] at hlen hp ⊢
    show Registered N _ (registerAll N rest (TaskQueueAdd N r.fn r.priority (advance r.wait s)))
    refine ih (done ++ [r]) _ ((h.advance_reg r.wait).add r ?_ ?_) hlen hp
    · simp at hlen; omega
    · intro i hi
      have := hp i (by simp; omega)
      rw [List.append_assoc] at this
      unfold regPriority at this ⊢
      rw [List.getD_append _ _ _ _ hi] at this
      exact this

theorem resolveQueue_free (N i : Nat) (s : Machine) (hi : i < N)
    (hfree : (s.task i).priority = TASK_DONE) : resolveQueue N i s = .ok s := by
  unfold resolveQueue
  have h1 : QueueTask N (i : Int) s = .ok s := by
    unfold QueueTask
    have hv : validIdx N (i : Int) := ⟨by omega, by exact_mod_cast hi⟩
    rw [if_pos hv]; simp only [Int.toNat_ofNat]; rw [if_pos hfree]
  have h2 : UnQueueTask N (i : Int) s = .ok s := by
    unfold UnQueueTask
    have hn1 : ¬ ((i : Int) < 0 ∨ (i : Int) > (N : Int)) := by omega
    have hn2 : ¬ ((i : Int) = (N : Int)) := by omega
    rw [if_neg hn1, if_neg hn2]; simp only [Int.toNat_ofNat]; rw [if_pos hfree]
  rw [h1]; simp only [ite_self, Except.bind, h2]

theorem resolveQueue_link (N i : Nat) (s s' : Machine) (hq : QueueTask N (i : Int) s = .ok s')
    (hnext : (s.task i).next = TASK_LINK_QUEUE)
    (hcount : (s'.task i).count ≠ TASK_UNLINK_QUEUE) : resolveQueue N i s = .ok s' := by
  unfold resolveQueue
  rw [if_pos hnext, hq]
  simp only [Except.bind]
  rw [if_neg hcount]

theorem pairwise_insert (regs : List Registration) (A B : List Nat) (x : Nat)
    (hP : (A ++ B).Pairwise (runsBefore regs))
    (hA : ∀ a ∈ A, a < x)
    (hB : ∀ b ∈ B, regPriority regs b < regPriority regs x)
    (hlast : ∀ A' a, A = A' ++ [a] → regPriority regs x ≤ regPriority regs a) :
    (A ++ x :: B).Pairwise (runsBefore regs) := by
  rw [List.pairwise_append] at hP ⊢
  obtain ⟨pA, pB, pAB⟩ := hP
  have hAx : ∀ a ∈ A, regPriority regs x ≤ regPriority regs a := by
    intro a ha
    rcases List.eq_nil_or_concat A with e | ⟨A', l, e⟩
    · rw [e] at ha; simp at ha
    · rw [List.concat_eq_append] at e
      have hl := hlast A' l e
      rw [e] at ha pA
      rcases List.mem_append.1 ha with h1 | h1
      · rw [List.pairwise_append] at pA
        have := pA.2.2 a h1 l (by simp)
        rcases this with g | g
        · omega
        · omega
      · simp at h1; rw [h1]; exact hl
  refine ⟨pA, ?_, ?_⟩
  · rw [List.pairwise_cons]
    exact ⟨fun b hb => Or.inl (hB b hb), pB⟩
  · intro a ha b hb
    rcases List.mem_cons.1 hb with e | e
    · rw [e]
      have h1 := hAx a ha
      have h2 := hA a ha
      by_cases heq : regPriority regs a = regPriority regs x
      · exact Or.inr ⟨heq, h2⟩
      · exact Or.inl (by omega)
    · exact pAB a ha b e

theorem link_scan (N : Nat) (hcap : N ≤ 32767) (regs : List Registration) (s0 : Machine)
    (hslot : ∀ i, i < regs.length →
      (s0.task i).priority = regPriority regs i ∧ (s0.task i).next = TASK_LINK_QUEUE ∧
      (s0.task i).count = 0)
    (hfree : ∀ i, regs.length ≤ i → i < N → (s0.task i).priority = TASK_DONE)
    (hp : ∀ i, i < regs.length → regPriority regs i ≠ TASK_DONE) :
    ∀ (k i : Nat) (s : Machine) (q : List Nat), i + k = N →
      IsList N s.task s.first s.last s.length q → q.Perm (List.range (min i regs.length)) →
      q.Pairwise (runsBefore regs) → (∀ a, sameData (s.task a) (s0.task a)) →
      (∀ a, i ≤ a → s.task a = s0.task a) →
      ∃ s' q', resolveQueueAll N k i s = .ok s' ∧
        IsList N s'.task s'.first s'.last s'.length q' ∧
        q'.Perm (List.range (min N regs.length)) ∧ q'.Pairwise (runsBefore regs) ∧
        (∀ a, sameData (s'.task a) (s0.task a)) ∧ SameRest s s' ∧
        s'.sch_first = s.sch_first ∧ s'.sch_last = s.sch_last ∧
        s'.sch_length = s.sch_length := by
  intro k
  induction k with
  | zero =>
    intro i s q hik hq hperm hpw hdata _
    have : i = N := by omega
    subst this
    exact ⟨s, q, rfl, hq, hperm, hpw, hdata, SameRest.rest_refl s, rfl, rfl, rfl⟩
  | succ k ih =>
    intro i s q hik hq hperm hpw hdata hout
    have hiN : i < N := by omega
    show ∃ s' q', (resolveQueue N i s).bind (resolveQueueAll N k (i + 1)) = .ok s' ∧ _
    by_cases hin : i < regs.length
    · have hmin : min i regs.length = i := by omega
      rw [hmin] at hperm
      have hmem : ∀ a, a ∈ q ↔ a < i := by
        intro a; rw [hperm.mem_iff, List.mem_range]
      obtain ⟨hs1, hs2, hs3⟩ := hslot i hin
      have hti : s.task i = s0.task i := hout i (le_refl i)
      have hprio : ∀ a, a < regs.length → (s.task a).priority = regPriority regs a := by
        intro a ha; rw [(hdata a).2.2.2.1]; exact (hslot a ha).1
      obtain ⟨s1, A, B, g1, g2, g3, g4, g5, g6, g7, g8, g9, g10, g11⟩ :=
        QueueTask_spec N s q i hq hiN (fun hm => by have := (hmem i).1 hm; omega)
          (by rw [hti, hs1]; exact hp i hin) hcap
      have hc1 : (s1.task i).count ≠ TASK_UNLINK_QUEUE := by
        rw [(g10 i).2.2.2.2.2.2, hti, hs3]; decide
      rw [resolveQueue_link N i s s1 g1 (by rw [hti]; exact hs2) hc1]
      simp only [Except.bind]
      have hAB : ∀ a, a ∈ A ++ B → a < i := fun a ha => (hmem a).1 (by rw [g2]; exact ha)
      have hperm1 : (A ++ i :: B).Perm (List.range (min (i + 1) regs.length)) := by
        have hmin1 : min (i + 1) regs.length = i + 1 := by omega
        rw [hmin1, List.range_succ]
        have h1 : (A ++ i :: B).Perm (i :: (A ++ B)) := List.perm_middle
        have h2 : (i :: (A ++ B)).Perm (i :: List.range i) :=
          List.Perm.cons i (by rw [← g2]; exact hperm)
        have h3 : (i :: List.range i).Perm (List.range i ++ [i]) :=
          (List.perm_append_singleton i (List.range i)).symm
        exact (h1.trans h2).trans h3
      have hpw1 : (A ++ i :: B).Pairwise (runsBefore regs) := by
        refine pairwise_insert regs A B i (by rw [← g2]; exact hpw)
          (fun a ha => hAB a (List.mem_append_left _ ha)) ?_ ?_
        · intro b hb
          have hb' := hAB b (List.mem_append_right _ hb)
          have := g3 b hb
          rw [hprio b (by omega), hprio i hin] at this
          exact this
        · intro A' a e
          have ha' := hAB a (List.mem_append_left _ (by rw [e]; simp))
          have := g4 A' a e
          rw [hprio a (by omega), hprio i hin] at this
          exact this
      obtain ⟨s2, q2, e2, k1, k2, k3, k4, k5, k6, k7, k8⟩ :=
        ih (i + 1) s1 (A ++ i :: B) (by omega) g5 hperm1 hpw1
          (fun a => sameData_trans (g10 a) (hdata a))
          (fun a ha => by
            rw [g11 a (fun hm => by have := (hmem a).1 hm; omega) (by omega)]
            exact hout a (by omega))
      exact ⟨s2, q2, e2, k1, k2, k3, k4, g6.rest_trans k5, k6.trans g7, k7.trans g8, k8.trans g9⟩
    · have hfr : (s.task i).priority = TASK_DONE := by
        rw [hout i (le_refl i)]; exact hfree i (by omega) hiN
      rw [resolveQueue_free N i s hiN hfr]
      simp only [Except.bind]
      have hmin : min (i + 1) regs.length = min i regs.length := by omega
      exact ih (i + 1) s q (by omega) hq (by rw [hmin]; exact hperm) hpw hdata
        (fun a ha => hout a (by omega))

theorem Draining.advance_drain {N : Nat} {s : Machine} {q : List Nat} (h : Draining N s q)
    (k : Nat) : Draining N (advance k s) q := by
  have he := advance_eq k s
  have ht := advance_task k s
  refine ⟨?_, fun a h1 h2 => by rw [ht]; exact h.free a h1 h2,
    fun a ha => by rw [ht]; exact h.oneshot a ha, ?_, ?_, ?_⟩
  · rw [ht]
    have e1 : (TaskFx.advance k s).first = s.first := by rw [he]
    have e2 : (TaskFx.advance k s).last = s.last := by rw [he]
    have e3 : (TaskFx.advance k s).length = s.length := by rw [he]
    rw [e1, e2, e3]; exact h.queue
  · rw [he]; exact h.sch_empty
  · rw [he]; exact h.to_link
  · rw [he]; exact h.sch_to_link

theorem drain_ticks (N : Nat) (hcap : N ≤ 32767) (f : Nat → Nat) :
    ∀ (ws : List Nat) (q : List Nat) (s : Machine), Draining N s q → ws.length ≤ q.length →
      (∀ a ∈ q, (s.task a).void_fn = f a ∧ (s.task a).fn = DEFAULT_INPUT_TASK ∧
        (s.task a).input = 0) →
      ∃ s', tickAll N ws s = .ok s' ∧
        s'.trace = s.trace ++ callsOf ((q.take ws.length).map f) := by
  intro ws
  induction ws with
  | nil =>
    intro q s _ _ _
    exact ⟨s, rfl, by simp [callsOf]⟩
  | cons w ws ih =>
    intro q s hD hlen hdata
    cases q with
    | nil => simp at hlen
    | cons h r =>
      have hD1 := hD.advance_drain w
      have ht := advance_task w s
      have hA : tickLinkQueue N (advance w s) = .ok (advance w s) := by
        unfold tickLinkQueue
        rw [if_neg (not_not.mpr hD1.to_link)]
      obtain ⟨s1, e1, D1, _, tr1, keep1⟩ := tick_drain N (advance w s) h r hD1 hcap
      have hrun : SystemTick N (advance w s) = .ok s1 := by
        unfold SystemTick
        rw [hA]; exact e1
      obtain ⟨s2, e2, tr2⟩ := ih r s1 D1 (by simp at hlen; omega) (fun a ha => by
        obtain ⟨k1, k2, k3⟩ := keep1 a ha
        obtain ⟨d1, d2, d3⟩ := hdata a (List.mem_cons_of_mem _ ha)
        rw [ht] at k1 k2 k3
        exact ⟨k1.trans d1, k2.trans d2, k3.trans d3⟩)
      refine ⟨s2, ?_, ?_⟩
      · show (SystemTick N (advance w s)).bind (tickAll N ws) = _
        rw [hrun]; exact e2
      · obtain ⟨d1, d2, d3⟩ := hdata h (List.mem_cons_self h r)
        have htr : (advance w s).trace = s.trace := by rw [advance_eq w s]
        rw [tr2, tr1, ht, d1, d2, d3, htr]
        simp [callsOf]

theorem runsBefore_unique (regs : List Registration) (l1 l2 : List Nat) (n : Nat)
    (h1 : l1.Perm (List.range n)) (h2 : l2.Perm (List.range n))
    (p1 : l1.Pairwise (runsBefore regs)) (p2 : l2.Pairwise (runsBefore regs)) : l1 = l2 := by
  haveI : IsAntisymm Nat (runsBefore regs) := ⟨fun a b hab hba => by
    unfold runsBefore at hab hba
    rcases hab with g | g <;> rcases hba with g' | g' <;> omega⟩
  exact List.eq_of_perm_of_sorted (h1.trans h2.symm) p1 p2

theorem first_link (N : Nat) (hcap : N ≤ 32767) (regs : List Registration) (s : Machine)
    (hR : Registered N regs s) (hn : regs.length ≤ N) (hpos : 0 < regs.length)
    (hp : ∀ i, i < regs.length → regPriority regs i ≠ TASK_DONE) :
    ∃ sa q, tickLinkQueue N s = .ok sa ∧ Draining N sa q ∧
      q.Perm (List.range regs.length) ∧ q.Pairwise (runsBefore regs) ∧ sa.trace = [] ∧
      ∀ a ∈ q, (sa.task a).void_fn = regFn regs a ∧ (sa.task a).fn = DEFAULT_INPUT_TASK ∧
        (sa.task a).input = 0 := by
  have htl : s.to_link = TASK_LINK_QUEUE := by
    rw [hR.to_link, if_neg (by omega)]
  have hq0 : IsList N ({ s with to_link := TASK_DONE } : Machine).task
      ({ s with to_link := TASK_DONE } : Machine).first
      ({ s with to_link := TASK_DONE } : Machine).last
      ({ s with to_link := TASK_DONE } : Machine).length [] :=
    ⟨List.nodup_nil, fun i hi => by simp at hi, trivial, hR.first, hR.last, hR.length⟩
  obtain ⟨sa, q, e, k1, k2, k3, k4, k5, k6, k7, k8⟩ :=
    link_scan N hcap regs { s with to_link := TASK_DONE }
      (fun i hi => ⟨(hR.slot i hi).2.1, (hR.slot i hi).2.2.1, (hR.slot i hi).2.2.2.2.1⟩)
      (fun i h1 h2 => (hR.free i h1 h2).1) hp N 0 { s with to_link := TASK_DONE } []
      (by omega) hq0 (by simp) List.Pairwise.nil (fun a => sameData_refl _) (fun a _ => rfl)
  have hmin : min N regs.length = regs.length := by omega
  rw [hmin] at k2
  have hmem : ∀ a, a ∈ q ↔ a < regs.length := by
    intro a; rw [k2.mem_iff, List.mem_range]
  refine ⟨sa, q, ?_, ⟨k1, ?_, ?_, ?_, ?_, ?_⟩, k2, k3, ?_, ?_⟩
  · unfold tickLinkQueue
    rw [if_pos (by rw [htl]; decide)]
    have hnv : ¬ validIdx N s.to_link := by rw [htl]; simp [validIdx, TASK_LINK_QUEUE]
    simp only [if_neg hnv]
    exact e
  · intro a ha haq
    rw [(k4 a).2.2.2.1]
    have hge : regs.length ≤ a := by
      by_contra hc
      exact haq ((hmem a).2 (by omega))
    exact (hR.free a hge ha).1
  · intro a ha
    have hal := (hmem a).1 ha
    obtain ⟨_, _, _, _, _, d6, d7⟩ := k4 a
    obtain ⟨_, _, _, s4, s5, _, _⟩ := hR.slot a hal
    refine ⟨by rw [d6]; exact s4, ?_⟩
    rw [d7]
    show (s.task a).count ≠ TASK_UNLINK_SCHEDULE
    rw [s5]; decide
  · rw [k6]; exact hR.sch_first
  · exact k5.to_link
  · right; rw [k5.sch_to_link]; exact hR.sch_to_link
  · rw [k5.trace]; exact hR.trace
  · intro a ha
    have hal := (hmem a).1 ha
    obtain ⟨d1, d2, d3, _⟩ := k4 a
    obtain ⟨s1, _, _, _, _, s6, s7⟩ := hR.slot a hal
    exact ⟨d1.trans s1, d2.trans s6, d3.trans s7⟩

/-- Starting from the pool initialised by `TaskInit` on the power-up memory
image, for every list of at most `N` one-shot registrations made by `TaskQueueAdd` with
priorities other than the reserved value, at any times, there is one order of
the registrations, sorted by descending priority with registration order among
equals, such that for every `k` up to the number of registrations `k` calls of
`SystemTick`, made after any waits, return and have run exactly the first `k`
registrations of that order, one per tick. -/
theorem queue_runs_in_priority_order (N : Nat) (regs : List Registration)
    (hcap : N ≤ 32767) (hlen : regs.length ≤ N)
    (hprio : ∀ r ∈ regs, r.priority ≠ TASK_DONE) :
    ∃ order : List Nat, order.Perm (List.range regs.length) ∧
      order.Pairwise (runsBefore regs) ∧
      ∀ waits : List Nat, waits.length ≤ regs.length →
        ∃ s', tickAll N waits (registerAll N regs (TaskInit N boot)) = .ok s' ∧
          s'.trace = callsOf ((order.take waits.length).map (regFn regs)) := by
  have hp : ∀ i, i < regs.length → regPriority regs i ≠ TASK_DONE := by
    intro i hi
    unfold regPriority
    rw [List.getD_eq_getElem _ _ hi]
    exact hprio _ (List.getElem_mem _)
  have hR : Registered N regs (registerAll N regs (TaskInit N boot)) := by
    have := registerAll_registered N regs [] (TaskInit N boot) (TaskInit_registered N)
      (by simpa using hlen) (by simpa using hp)
    simpa using this
  by_cases h0 : regs.length = 0
  · refine ⟨[], by rw [h0]; exact List.Perm.refl _, List.Pairwise.nil, ?_⟩
    intro waits hw
    have : waits = [] := List.eq_nil_of_length_eq_zero (by omega)
    subst this
    exact ⟨_, rfl, hR.trace⟩
  · have hpos : 0 < regs.length := by omega
    obtain ⟨_, order, _, _, operm, opw, _, _⟩ :=
      first_link N hcap regs _ hR hlen hpos hp
    refine ⟨order, operm, opw, ?_⟩
    intro waits hw
    cases waits with
    | nil => exact ⟨_, rfl, hR.trace⟩
    | cons w ws =>
      obtain ⟨sa, q, e1, D1, qperm, qpw, tr1, data1⟩ :=
        first_link N hcap regs _ (hR.advance_reg w) hlen hpos hp
      have hq : q = order := runsBefore_unique regs q order _ qperm operm qpw opw
      subst hq
      cases q with
      | nil =>
        have := qperm.length_eq
        simp at this; omega
      | cons h r =>
        obtain ⟨s2, e2, D2, _, tr2, keep2⟩ := tick_drain N sa h r D1 hcap
        obtain ⟨s3, e3, tr3⟩ := drain_ticks N hcap (regFn regs) ws r s2 D2
          (by have := qperm.length_eq; simp at this hw; omega)
          (fun a ha => by
            obtain ⟨k1, k2, k3⟩ := keep2 a ha
            obtain ⟨d1, d2, d3⟩ := data1 a (List.mem_cons_of_mem _ ha)
            exact ⟨k1.trans d1, k2.trans d2, k3.trans d3⟩)
        refine ⟨s3, ?_, ?_⟩
        · show (SystemTick N (advance w _)).bind (tickAll N ws) = _
          have hrun : SystemTick N (advance w (registerAll N regs (TaskInit N boot)))
              = .ok s2 := by
            unfold SystemTick
            rw [e1]; exact e2
          rw [hrun]; exact e3
        · obtain ⟨d1, d2, d3⟩ := data1 h (List.mem_cons_self h r)
          rw [tr3, tr2, tr1, d1, d2, d3]
          simp [callsOf]

/-- Witness of `queue_runs_in_priority_order` on the scenario of the
specification with capacity 3: three ticks run C, then A, then B. -/
theorem queue_runs_in_priority_order_witness :
    (3 : Nat) ≤ 32767 ∧ abcRegs.length ≤ 3 ∧ (∀ r ∈ abcRegs, r.priority ≠ TASK_DONE) ∧
    (∃ order : List Nat, order.Perm (List.range abcRegs.length) ∧
      order.Pairwise (runsBefore abcRegs) ∧
      ∀ waits : List Nat, waits.length ≤ abcRegs.length →
        ∃ s', tickAll 3 waits (registerAll 3 abcRegs (TaskInit 3 boot)) = .ok s' ∧
          s'.trace = callsOf ((order.take waits.length).map (regFn abcRegs))) ∧
    (tickAll 3 [0, 0, 0] (registerAll 3 abcRegs (TaskInit 3 boot))).map (fun s => s.trace)
      = .ok (callsOf [3, 1, 2]) :=
  ⟨by decide, by decide, by decide,
    queue_runs_in_priority_order 3 abcRegs (by decide) (by decide) (by decide), rfl⟩

/-! ## Queries, index checks and the clock: concrete divergences -/

/-- C18: a query for a callback that is not registered resets the system when
the Schedule holds `MAX_TASK_LENGTH` members: after `TaskInit`, twenty scheduled
registrations and one tick the Schedule holds the twenty slots, and
`IsTaskScheduled` of the unregistered callback 99 ends in `Reset()` instead of
returning `0`. -/
theorem IsTaskScheduled_full_schedule_resets :
    fullScheduleList = .ok (List.range 20) ∧ fullScheduleQuery = .error .reset :=
  ⟨rfl, rfl⟩

/-- C27: `TimingInit` does not write the clock: called when the clock reads 5,
it leaves `TimeNow()` at 5. -/
theorem TimingInit_keeps_clock :
    TimeNow (TimingInit { boot with ms_time := 5 }) = 5 := rfl

/-- C29: after a forced rollover `TimeSince` is one too large: `TimerRoll` at
clock reading 100, a timestamp 50 taken before it and a reading of 10 after it
give `TimeSince 50 = 61`, where 60 ms have elapsed. -/
theorem TimeSince_after_TimerRoll_off_by_one :
    TimeSince { TimerRoll { boot with ms_time := 100 } with ms_time := 10 } 50 = 61 ∧
    (100 - 50) + 10 = 60 :=
  ⟨by decide, by decide⟩

/-! ## Priority change and forced rollover -/

theorem ChangePriority_all_spec (fn : Nat) (p : Int) : ∀ (k i : Nat) (s : Machine),
    ChangePriority_all fn p k i s = { s with task := (ChangePriority_all fn p k i s).task } ∧
    ∀ a, (ChangePriority_all fn p k i s).task a =
      if i ≤ a ∧ a < i + k ∧ (s.task a).void_fn = fn then { s.task a with priority := p }
      else s.task a := by
  intro k
  induction k with
  | zero =>
    intro i s
    refine ⟨rfl, fun a => ?_⟩
    rw [if_neg (by omega)]; rfl
  | succ k ih =>
    intro i s
    unfold ChangePriority_all
    by_cases hf : (s.task i).void_fn = fn
    · rw [if_pos hf]
      obtain ⟨h1, h2⟩ := ih (i + 1) (modTask s i (fun t => { t with priority := p }))
      refine ⟨by rw [h1]; rfl, fun a => ?_⟩
      rw [h2 a]
      by_cases hai : a = i
      · subst hai
        rw [if_neg (by omega), if_pos ⟨le_refl _, by omega, hf⟩]
        simp [modTask, setTask]
      · have e : (modTask s i (fun t => { t with priority := p })).task a = s.task a := by
          simp [modTask, setTask, hai]
        rw [e]
        by_cases hc : i ≤ a ∧ a < i + (k + 1) ∧ (s.task a).void_fn = fn
        · rw [if_pos hc, if_pos ⟨by omega, by omega, hc.2.2⟩]
        · rw [if_neg hc, if_neg (fun h => hc ⟨by omega, by omega, h.2.2⟩)]
    · rw [if_neg hf]
      obtain ⟨h1, h2⟩ := ih (i + 1) s
      refine ⟨h1, fun a => ?_⟩
      rw [h2 a]
      by_cases hc : i ≤ a ∧ a < i + (k + 1) ∧ (s.task a).void_fn = fn
      · have hai : a ≠ i := fun h => hf (h ▸ hc.2.2)
        rw [if_pos hc, if_pos ⟨by omega, by omega, hc.2.2⟩]
      · rw [if_neg hc, if_neg (fun h => hc ⟨by omega, by omega, h.2.2⟩)]

/-- C24: `ChangePriority(fn, p)` sets the priority of every slot of the pool
whose `void_fn` is `fn` to `p` and changes nothing else: the resulting state is
the old one with exactly those priorities replaced, so every other slot, every
other field and link, the heads, tails and lengths of both lists and the
pending markers are as before. -/
theorem ChangePriority_spec (N fn : Nat) (p : Int) (s : Machine) :
    ChangePriority N fn p s =
      { s with task := fun a =>
          if a < N ∧ (s.task a).void_fn = fn then { s.task a with priority := p }
          else s.task a } := by
  obtain ⟨h1, h2⟩ := ChangePriority_all_spec fn p N 0 s
  unfold ChangePriority
  rw [h1]
  congr 1
  funext a
  rw [h2 a]
  by_cases hc : a < N ∧ (s.task a).void_fn = fn
  · rw [if_pos hc, if_pos ⟨by omega, by omega, hc.2⟩]
  · rw [if_neg hc, if_neg (fun h => hc ⟨by omega, h.2.2⟩)]

theorem rollAll_spec (now : Nat) : ∀ (k i : Nat) (s : Machine),
    rollAll now k i s = { s with task := (rollAll now k i s).task } ∧
    ∀ a, (rollAll now k i s).task a =
      if i ≤ a ∧ a < i + k ∧ (s.task a).priority ≠ TASK_DONE ∧ (s.task a).time > now
      then { s.task a with time := (s.task a).time - now }
      else s.task a := by
  intro k
  induction k with
  | zero =>
    intro i s
    refine ⟨rfl, fun a => ?_⟩
    rw [if_neg (by omega)]; rfl
  | succ k ih =>
    intro i s
    unfold rollAll
    by_cases hf : (s.task i).priority ≠ TASK_DONE ∧ (s.task i).time > now
    · rw [if_pos hf]
      obtain ⟨h1, h2⟩ := ih (i + 1) (modTask s i (fun t => { t with time := t.time - now }))
      refine ⟨by rw [h1]; rfl, fun a => ?_⟩
      rw [h2 a]
      by_cases hai : a = i
      · subst hai
        rw [if_neg (by omega), if_pos ⟨le_refl _, by omega, hf⟩]
        simp [modTask, setTask]
      · have e : (modTask s i (fun t => { t with time := t.time - now })).task a = s.task a := by
          simp [modTask, setTask, hai]
        rw [e]
        by_cases hc : i ≤ a ∧ a < i + (k + 1) ∧ (s.task a).priority ≠ TASK_DONE ∧ (s.task a).time > now
        · rw [if_pos hc, if_pos ⟨by omega, by omega, hc.2.2⟩]
        · rw [if_neg hc, if_neg (fun h => hc ⟨by omega, by omega, h.2.2⟩)]
    · rw [if_neg hf]
      obtain ⟨h1, h2⟩ := ih (i + 1) s
      refine ⟨h1, fun a => ?_⟩
      rw [h2 a]
      by_cases hc : i ≤ a ∧ a < i + (k + 1) ∧ (s.task a).priority ≠ TASK_DONE ∧ (s.task a).time > now
      · have hai : a ≠ i := fun h => hf (h ▸ hc.2.2)
        rw [if_pos hc, if_pos ⟨by omega, by omega, hc.2.2⟩]
      · rw [if_neg hc, if_neg (fun h => hc ⟨by omega, by omega, h.2.2⟩)]

/-- C28: `RollTimer` at clock reading `n` rewrites the due time of every
non-free slot of the pool that is due later than `n` to `due - n`, leaves every
other slot and every other field of the rewritten slots unchanged, sets the
rollover time to `n` and restarts the clock at 0. -/
theorem RollTimer_spec (N : Nat) (s : Machine) :
    (∀ a, (RollTimer N s).task a =
      if a < N ∧ (s.task a).priority ≠ TASK_DONE ∧ (s.task a).time > TimeNow s
      then { s.task a with time := (s.task a).time - TimeNow s }
      else s.task a) ∧
    (RollTimer N s).rollover_time = TimeNow s ∧ TimeNow (RollTimer N s) = 0 := by
  obtain ⟨h1, h2⟩ := rollAll_spec (TimeNow s) N 0 s
  refine ⟨fun a => ?_, ?_, rfl⟩
  · show (rollAll (TimeNow s) N 0 s).task a = _
    rw [h2 a]
    by_cases hc : a < N ∧ (s.task a).priority ≠ TASK_DONE ∧ (s.task a).time > TimeNow s
    · rw [if_pos hc, if_pos ⟨by omega, by omega, hc.2⟩]
    · rw [if_neg hc, if_neg (fun h => hc ⟨by omega, h.2.2⟩)]
  · show (rollAll (TimeNow s) N 0 s).ms_time = s.ms_time
    rw [h1]

theorem TimerRoll_total (s : Machine) :
    (TimerRoll s).total_time =
      addHr (addMin (addSec (addMs s.total_time
        ((s.ms_time - s.ms_time / 3600000 * 3600000 -
          ((s.ms_time - s.ms_time / 3600000 * 3600000) / 60000) % 256 * 60000 -
          ((s.ms_time - s.ms_time / 3600000 * 3600000 -
            ((s.ms_time - s.ms_time / 3600000 * 3600000) / 60000) % 256 * 60000) / 1000) % 256
            * 1000) % 65536))
        (((s.ms_time - s.ms_time / 3600000 * 3600000 -
            ((s.ms_time - s.ms_time / 3600000 * 3600000) / 60000) % 256 * 60000) / 1000) % 256))
        (((s.ms_time - s.ms_time / 3600000 * 3600000) / 60000) % 256))
        (s.ms_time / 3600000) := rfl

theorem addMs_spec (t : timestruct_t) (m : Nat) (h1 : t.ms < 1000) (h2 : t.sec < 60)
    (hm : m < 1000) :
    (addMs t m).ms < 1000 ∧ (addMs t m).sec ≤ 60 ∧ (addMs t m).min = t.min ∧
    (addMs t m).hr = t.hr ∧
    (addMs t m).sec * 1000 + (addMs t m).ms = t.sec * 1000 + t.ms + m := by
  obtain ⟨a, b, c, d⟩ := t
  simp only at h1 h2
  unfold addMs
  dsimp only
  have e : (a + m) % 65536 = a + m := by omega
  rw [e]
  by_cases c1 : 1000 ≤ a + m
  · rw [if_pos c1]; dsimp only
    have e2 : (b + 1) % 256 = b + 1 := by omega
    rw [e2]; omega
  · rw [if_neg c1]; dsimp only; omega

theorem addSec_spec (t : timestruct_t) (m : Nat) (h1 : t.sec ≤ 60) (h2 : t.min < 60)
    (hm : m < 60) :
    (addSec t m).sec < 60 ∧ (addSec t m).min ≤ 60 ∧ (addSec t m).ms = t.ms ∧
    (addSec t m).hr = t.hr ∧
    (addSec t m).min * 60 + (addSec t m).sec = t.min * 60 + t.sec + m := by
  obtain ⟨a, b, c, d⟩ := t
  simp only at h1 h2
  unfold addSec
  dsimp only
  have e : (b + m) % 256 = b + m := by omega
  rw [e]
  by_cases c1 : 60 ≤ b + m
  · rw [if_pos c1]; dsimp only
    have e2 : (c + 1) % 256 = c + 1 := by omega
    rw [e2]; omega
  · rw [if_neg c1]; dsimp only; omega

theorem addMin_spec (t : timestruct_t) (m : Nat) (h1 : t.min ≤ 60) (hm : m < 60)
    (hov : t.hr + 1 < 4294967296) :
    (addMin t m).min < 60 ∧ (addMin t m).ms = t.ms ∧ (addMin t m).sec = t.sec ∧
    (addMin t m).hr ≤ t.hr + 1 ∧
    (addMin t m).hr * 60 + (addMin t m).min = t.hr * 60 + t.min + m := by
  obtain ⟨a, b, c, d⟩ := t
  simp only at h1 hov
  unfold addMin add32
  dsimp only
  have e : (c + m) % 256 = c + m := by omega
  rw [e]
  by_cases c1 : 60 ≤ c + m
  · rw [if_pos c1]; dsimp only
    have e2 : (d + 1) % 4294967296 = d + 1 := by omega
    rw [e2]; omega
  · rw [if_neg c1]; dsimp only; omega

/-- C30: `TimerRoll` at clock reading `n` keeps a normalised accumulated time
normalised and adds exactly `n` milliseconds to its total, provided the hour
field does not overflow. -/
theorem TimerRoll_accumulates (s : Machine) (hn : Normalised s.total_time)
    (hov : s.total_time.hr + s.ms_time / 3600000 + 1 < 4294967296) :
    Normalised (TimerRoll s).total_time ∧
    totalMs (TimerRoll s).total_time = totalMs s.total_time + s.ms_time := by
  obtain ⟨h1, h2, h3⟩ := hn
  rw [TimerRoll_total]
  have hmn : (s.ms_time - s.ms_time / 3600000 * 3600000) / 60000 % 256 =
      (s.ms_time - s.ms_time / 3600000 * 3600000) / 60000 := by omega
  rw [hmn]
  have hM : (s.ms_time - s.ms_time / 3600000 * 3600000) / 60000 < 60 := by omega
  have hH : s.ms_time / 3600000 * 3600000 ≤ s.ms_time := by omega
  generalize hHd : s.ms_time / 3600000 = H at *
  have hM1 : (s.ms_time - H * 3600000) / 60000 * 60000 ≤ s.ms_time - H * 3600000 := by omega
  generalize hMd : (s.ms_time - H * 3600000) / 60000 = M at *
  have hS : (s.ms_time - H * 3600000 - M * 60000) / 1000 < 60 := by omega
  have hsc : (s.ms_time - H * 3600000 - M * 60000) / 1000 % 256 =
      (s.ms_time - H * 3600000 - M * 60000) / 1000 := by omega
  rw [hsc]
  have hS1 : (s.ms_time - H * 3600000 - M * 60000) / 1000 * 1000 ≤
      s.ms_time - H * 3600000 - M * 60000 := by omega
  generalize hSd : (s.ms_time - H * 3600000 - M * 60000) / 1000 = S at *
  have hm : s.ms_time - H * 3600000 - M * 60000 - S * 1000 < 1000 := by omega
  have hms : (s.ms_time - H * 3600000 - M * 60000 - S * 1000) % 65536 =
      s.ms_time - H * 3600000 - M * 60000 - S * 1000 := by omega
  rw [hms]
  have hr : s.ms_time = H * 3600000 + M * 60000 + S * 1000 +
      (s.ms_time - H * 3600000 - M * 60000 - S * 1000) := by omega
  generalize s.ms_time - H * 3600000 - M * 60000 - S * 1000 = m at hm hr ⊢
  obtain ⟨a1, a2, a3, a4, a5⟩ := addMs_spec s.total_time m h1 h2 hm
  obtain ⟨b1, b2, b3, b4, b5⟩ := addSec_spec (addMs s.total_time m) S a2 (a3 ▸ h3) hS
  obtain ⟨c1, c2, c3, c4, c5⟩ := addMin_spec (addSec (addMs s.total_time m) S) M b2 hM
    (by rw [b4, a4]; omega)
  generalize addMs s.total_time m = t1 at *
  generalize addSec t1 S = t2 at *
  generalize addMin t2 M = t3 at *
  have d1 : (addHr t3 H).hr = t3.hr + H := by
    show add32 t3.hr H = _
    unfold add32
    have : t3.hr + H < 4294967296 := by rw [b4, a4] at c4; omega
    omega
  have d2 : (addHr t3 H).min = t3.min := rfl
  have d3 : (addHr t3 H).sec = t3.sec := rfl
  have d4 : (addHr t3 H).ms = t3.ms := rfl
  unfold Normalised totalMs
  rw [d1, d2, d3, d4, c2, c3, b3]
  refine ⟨⟨a1, b1, c1⟩, ?_⟩
  rw [b4, a4] at c5
  rw [a3] at b5
  omega

theorem TimerRoll_accumulates_witness :
    Normalised (TimerRoll { boot with ms_time := 3725999, total_time := ⟨999, 59, 59, 7⟩ }).total_time ∧
    totalMs (TimerRoll { boot with ms_time := 3725999, total_time := ⟨999, 59, 59, 7⟩ }).total_time =
      totalMs (⟨999, 59, 59, 7⟩ : timestruct_t) + 3725999 :=
  TimerRoll_accumulates { boot with ms_time := 3725999, total_time := ⟨999, 59, 59, 7⟩ }
    (by decide) (by decide)

/-! ## Sorted insertion and removal -/

theorem IsList.queueList_eq {N : Nat} {s : Machine} {q : List Nat}
    (h : IsList N s.task s.first s.last s.length q) : queueList N s = q := by
  unfold queueList
  rw [h.first_eq]
  exact walk_chain N s q (-1) (N + 1) h.chain h.lt
    (Nat.lt_succ_of_le (nodup_length_le N q h.nodup h.lt))

theorem IsList.scheduleList_eq {N : Nat} {s : Machine} {q : List Nat}
    (h : IsList N s.task s.sch_first s.sch_last s.sch_length q) : scheduleList N s = q := by
  unfold scheduleList
  rw [h.first_eq]
  exact walk_chain N s q (-1) (N + 1) h.chain h.lt
    (Nat.lt_succ_of_le (nodup_length_le N q h.nodup h.lt))

theorem filter_split {α : Type} (p : α → Bool) (A B : List α)
    (hA : ∀ a ∈ A, p a = true) (hB : ∀ b ∈ B, p b = false) :
    (A ++ B).filter p = A ∧ (A ++ B).filter (fun a => !p a) = B := by
  constructor
  · rw [List.filter_append, List.filter_eq_self.2 hA, List.filter_eq_nil_iff.2, List.append_nil]
    intro b hb; rw [hB b hb]; simp
  · rw [List.filter_append, List.filter_eq_nil_iff.2, List.filter_eq_self.2, List.nil_append]
    · intro b hb; rw [hB b hb]; rfl
    · intro a ha; rw [hA a ha]; simp

theorem sorted_front_ge {α : Type} (r : α → α → Prop) (A B : List α)
    (hs : (A ++ B).Pairwise r) (A' : List α) (a : α) (hA : A = A' ++ [a]) :
    ∀ c ∈ A, c = a ∨ r c a := by
  intro c hc
  subst hA
  rcases List.mem_append.1 hc with h | h
  · right
    have h1 : (A' ++ [a]).Pairwise r := (List.pairwise_append.1 hs).1
    exact (List.pairwise_append.1 h1).2.2 c h a (List.mem_singleton_self a)
  · left; exact List.mem_singleton.1 h

/-- C11: `QueueTask(i)` on a well-formed Ready Queue sorted by descending
priority, for an in-use slot `i` that is not a member, returns with a
well-formed queue that consists of the old members of priority at least that of
`i` in their old order, then `i`, then the old members of lower priority in
their old order; the queue is again sorted by descending priority and its
length has grown by one. -/
theorem QueueTask_sorted_insert (N : Nat) (s : Machine) (q : List Nat) (x : Nat)
    (hq : IsList N s.task s.first s.last s.length q)
    (hs : q.Pairwise (fun a b => (s.task a).priority ≥ (s.task b).priority))
    (hx : x < N) (hxq : x ∉ q) (hused : (s.task x).priority ≠ TASK_DONE) (hcap : N ≤ 32767) :
    ∃ s', QueueTask N (x : Int) s = .ok s' ∧
      IsList N s'.task s'.first s'.last s'.length (queueList N s') ∧
      queueList N s' =
        q.filter (fun a => decide ((s.task a).priority ≥ (s.task x).priority)) ++
          x :: q.filter (fun a => decide ((s.task a).priority < (s.task x).priority)) ∧
      (queueList N s').Pairwise (fun a b => (s'.task a).priority ≥ (s'.task b).priority) ∧
      s'.length = s.length + 1 := by
  obtain ⟨s', A, B, hok, hsplit, hB, hA, hl, -, -, -, -, hd, -⟩ :=
    QueueTask_spec N s q x hq hx hxq hused hcap
  have hAll : ∀ a ∈ A, (s.task a).priority ≥ (s.task x).priority := by
    intro a ha
    rcases List.eq_nil_or_concat A with h | ⟨A', l, h⟩
    · subst h; exact absurd ha (List.not_mem_nil a)
    · have hl := hA A' l (by rw [h, List.concat_eq_append])
      rcases sorted_front_ge _ A B (hsplit ▸ hs) A' l (by rw [h, List.concat_eq_append]) a ha
        with e | e
      · rw [e]; exact hl
      · exact le_trans hl e
  have hf := filter_split (fun a => decide ((s.task a).priority ≥ (s.task x).priority)) A B
    (fun a ha => decide_eq_true (hAll a ha))
    (fun b hb => decide_eq_false (not_le.2 (hB b hb)))
  have hf2 : (A ++ B).filter (fun a => decide ((s.task a).priority < (s.task x).priority)) = B := by
    have e : (fun a => decide ((s.task a).priority < (s.task x).priority)) =
        (fun a => !decide ((s.task a).priority ≥ (s.task x).priority)) := by
      funext a
      by_cases h : (s.task a).priority < (s.task x).priority
      · simp [h]
      · simp [h, not_lt.1 h]
    rw [e]; exact hf.2
  have hw := hl.queueList_eq
  refine ⟨s', hok, by rw [hw]; exact hl, by rw [hw, hsplit, hf.1, hf2], ?_, ?_⟩
  · rw [hw]
    have hp : ∀ a, (s'.task a).priority = (s.task a).priority := fun a => (hd a).2.2.2.1
    have hs2 : (A ++ B).Pairwise (fun a b => (s.task a).priority ≥ (s.task b).priority) :=
      hsplit ▸ hs
    obtain ⟨pA, pB, pAB⟩ := List.pairwise_append.1 hs2
    refine List.pairwise_append.2 ⟨?_, ?_, ?_⟩
    · exact pA.imp (fun {a b} h => by rw [hp a, hp b]; exact h)
    · refine List.pairwise_cons.2 ⟨?_, pB.imp (fun {a b} h => by rw [hp a, hp b]; exact h)⟩
      intro b hb; rw [hp x, hp b]; exact le_of_lt (hB b hb)
    · intro a ha b hb
      rw [hp a, hp b]
      rcases List.mem_cons.1 hb with e | e
      · rw [e]; exact hAll a ha
      · exact pAB a ha b e
  · rw [hl.len_eq, hq.len_eq, hsplit]
    simp only [List.length_append, List.length_cons]
    push_cast; ring

theorem smallPool_lists : Lists 4 smallPool [0, 1] [2] :=
  ⟨⟨by decide, by decide, by decide, by decide, by decide, by decide⟩,
    ⟨by decide, by decide, by decide, by decide, by decide, by decide⟩, by decide, by
      intro i hi
      have h : i ∈ [0, 1, 2] := by
        rcases hi with h | h
        · exact List.mem_append_left [2] h
        · exact List.mem_append_right [0, 1] h
      have hall : ∀ j ∈ [0, 1, 2], (smallPool.task j).priority ≠ TASK_DONE := by decide
      exact hall i h⟩

/-- C12: `ScheduleTask(i)` on a well-formed Schedule sorted by ascending due
time, for an in-use slot `i` that is not a member and for which the rollover
branch is not taken, returns with a well-formed Schedule that consists of the
old members due no later than `i` in their old order, then `i`, then the old
members due later in their old order: the position is a function of the due
times alone. No due time changes, the Schedule is again sorted by ascending due
time and its length has grown by one. -/
theorem ScheduleTask_sorted_insert (N : Nat) (s : Machine) (sch : List Nat) (x : Nat)
    (hq : IsList N s.task s.sch_first s.sch_last s.sch_length sch)
    (hs : sch.Pairwise (fun a b => (s.task a).time ≤ (s.task b).time))
    (hx : x < N) (hxq : x ∉ sch) (hused : (s.task x).priority ≠ TASK_DONE)
    (hroll : ¬ ((s.task x).time < TIME_MAX / 2 ∧ TimeNow s > TIME_MAX / 2))
    (hcap : N ≤ 32767) :
    ∃ s', ScheduleTask N (x : Int) s = .ok s' ∧
      IsList N s'.task s'.sch_first s'.sch_last s'.sch_length (scheduleList N s') ∧
      scheduleList N s' =
        sch.filter (fun a => decide ((s.task a).time ≤ (s.task x).time)) ++
          x :: sch.filter (fun a => decide ((s.task x).time < (s.task a).time)) ∧
      (∀ a, (s'.task a).time = (s.task a).time) ∧
      (scheduleList N s').Pairwise (fun a b => (s'.task a).time ≤ (s'.task b).time) ∧
      s'.sch_length = s.sch_length + 1 := by
  obtain ⟨s', A, B, hok, hsplit, hB, hA, hl, -, -, -, -, -, -, hno⟩ :=
    ScheduleTask_spec N s sch x hq hx hxq hused hcap
  obtain ⟨-, hp⟩ := hno hroll
  have hB2 : ∀ b ∈ B, (s.task x).time < (s.task b).time := by
    intro b hb; rw [← hp x, ← hp b]; exact hB b hb
  have hAll : ∀ a ∈ A, (s.task a).time ≤ (s.task x).time := by
    intro a ha
    rcases List.eq_nil_or_concat A with h | ⟨A', l, h⟩
    · subst h; exact absurd ha (List.not_mem_nil a)
    · have hl := hA A' l (by rw [h, List.concat_eq_append])
      rw [hp l, hp x] at hl
      rcases sorted_front_ge _ A B (hsplit ▸ hs) A' l (by rw [h, List.concat_eq_append]) a ha
        with e | e
      · rw [e]; exact hl
      · exact le_trans e hl
  have hf := filter_split (fun a => decide ((s.task a).time ≤ (s.task x).time)) A B
    (fun a ha => decide_eq_true (hAll a ha))
    (fun b hb => decide_eq_false (not_le.2 (hB2 b hb)))
  have hf2 : (A ++ B).filter (fun a => decide ((s.task x).time < (s.task a).time)) = B := by
    have e : (fun a => decide ((s.task x).time < (s.task a).time)) =
        (fun a => !decide ((s.task a).time ≤ (s.task x).time)) := by
      funext a
      by_cases h : (s.task x).time < (s.task a).time
      · simp [h]
      · simp [h, not_lt.1 h]
    rw [e]; exact hf.2
  have hw := hl.scheduleList_eq
  refine ⟨s', hok, by rw [hw]; exact hl, by rw [hw, hsplit, hf.1, hf2], hp, ?_, ?_⟩
  · rw [hw]
    have hs2 : (A ++ B).Pairwise (fun a b => (s.task a).time ≤ (s.task b).time) :=
      hsplit ▸ hs
    obtain ⟨pA, pB, pAB⟩ := List.pairwise_append.1 hs2
    refine List.pairwise_append.2 ⟨?_, ?_, ?_⟩
    · exact pA.imp (fun {a b} h => by rw [hp a, hp b]; exact h)
    · refine List.pairwise_cons.2 ⟨?_, pB.imp (fun {a b} h => by rw [hp a, hp b]; exact h)⟩
      intro b hb; rw [hp x, hp b]; exact le_of_lt (hB2 b hb)
    · intro a ha b hb
      rw [hp a, hp b]
      rcases List.mem_cons.1 hb with e | e
      · rw [e]; exact hAll a ha
      · exact pAB a ha b e
  · rw [hl.len_eq, hq.len_eq, hsplit]
    simp only [List.length_append, List.length_cons]
    push_cast; ring

/-- C17: for a member `x` of a well-formed Ready Queue, `UnQueueTask(x)` returns
with the queue reduced to its other members in their old order (so the head and
tail follow when `x` was an endpoint), the queue length one less, slot `x` freed,
the Schedule, the other globals and the non-link fields of all other slots
unchanged; and `UnScheduleTask(y)` does the same for a member `y` of the
Schedule, with the roles of the two lists exchanged. -/
theorem UnQueueTask_UnScheduleTask_remove (N : Nat) (s : Machine) (q sch : List Nat)
    (A B : List Nat) (x : Nat) (C D : List Nat) (y : Nat)
    (hL : Lists N s q sch) (hcap : N ≤ 32767) :
    (q = A ++ x :: B →
      ∃ s', UnQueueTask N (x : Int) s = .ok s' ∧ Lists N s' (A ++ B) sch ∧
        queueList N s' = A ++ B ∧ scheduleList N s' = sch ∧
        s'.length = s.length - 1 ∧ s'.sch_length = s.sch_length ∧
        s'.sch_first = s.sch_first ∧ s'.sch_last = s.sch_last ∧
        s'.task x = { clearTask (s.task x) with count := TASK_DONE } ∧
        (∀ a, a ≠ x → sameData (s'.task a) (s.task a)) ∧ SameRest s s') ∧
    (sch = C ++ y :: D →
      Lists N (UnScheduleTask N (y : Int) s) q (C ++ D) ∧
        queueList N (UnScheduleTask N (y : Int) s) = q ∧
        scheduleList N (UnScheduleTask N (y : Int) s) = C ++ D ∧
        (UnScheduleTask N (y : Int) s).sch_length = s.sch_length - 1 ∧
        (UnScheduleTask N (y : Int) s).length = s.length ∧
        (UnScheduleTask N (y : Int) s).first = s.first ∧
        (UnScheduleTask N (y : Int) s).last = s.last ∧
        (UnScheduleTask N (y : Int) s).task y = { clearTask (s.task y) with count := TASK_DONE } ∧
        (∀ a, a ≠ y → sameData ((UnScheduleTask N (y : Int) s).task a) (s.task a)) ∧
        SameRest s (UnScheduleTask N (y : Int) s)) := by
  constructor
  · intro hq
    have hxq : x ∈ q := by rw [hq]; simp
    obtain ⟨s', q', hok, hL', -, hR, hx, hd, -⟩ := UnQueueTask_lists N s q sch x hL hxq hcap
    obtain ⟨s2, hok2, hl2, -, e1, e2, e3, -⟩ :=
      UnQueueTask_spec N s A B x (hq ▸ hL.queue) (hL.used x (Or.inl hxq)) hcap
    have hs : s2 = s' := by rw [hok] at hok2; cases hok2; rfl
    subst hs
    have hw : q' = A ++ B := by rw [← hL'.walk_eq.1, hl2.queueList_eq]
    subst hw
    refine ⟨s2, hok, hL', hL'.walk_eq.1, hL'.walk_eq.2, ?_, e3, e1, e2, hx, hd, hR⟩
    rw [hL'.queue.len_eq, hL.queue.len_eq, hq]
    simp only [List.length_append, List.length_cons]
    push_cast; ring
  · intro hsch
    have hys : y ∈ sch := by rw [hsch]; simp
    obtain ⟨sch', hL', -, hR, hy, hd, -⟩ := UnScheduleTask_lists N s q sch y hL hys hcap
    obtain ⟨hl2, -, e1, e2, e3, -⟩ :=
      UnScheduleTask_spec N s C D y (hsch ▸ hL.sched) (hL.used y (Or.inr hys)) hcap
    have hw : sch' = C ++ D := by rw [← hL'.walk_eq.2, hl2.scheduleList_eq]
    subst hw
    refine ⟨hL', hL'.walk_eq.1, hL'.walk_eq.2, ?_, e3, e1, e2, hy, hd, hR⟩
    rw [hL'.sched.len_eq, hL.sched.len_eq, hsch]
    simp only [List.length_append, List.length_cons]
    push_cast; ring

/-- Witness of `QueueTask_sorted_insert`: slot 3 (priority 4) goes between slots 0 and 1. -/
theorem QueueTask_sorted_insert_witness :
    ∃ s', QueueTask 4 3 smallPool = .ok s' ∧
      IsList 4 s'.task s'.first s'.last s'.length (queueList 4 s') ∧
      queueList 4 s' = [0, 3, 1] ∧
      (queueList 4 s').Pairwise (fun a b => (s'.task a).priority ≥ (s'.task b).priority) ∧
      s'.length = 3 :=
  QueueTask_sorted_insert 4 smallPool [0, 1] 3 smallPool_lists.queue (by decide) (by decide)
    (by decide) (by decide) (by decide)

/-- Witness of `ScheduleTask_sorted_insert`: slot 3 (due at 50) goes before slot 2. -/
theorem ScheduleTask_sorted_insert_witness :
    ∃ s', ScheduleTask 4 3 smallPool = .ok s' ∧
      IsList 4 s'.task s'.sch_first s'.sch_last s'.sch_length (scheduleList 4 s') ∧
      scheduleList 4 s' = [3, 2] ∧
      (∀ a, (s'.task a).time = (smallPool.task a).time) ∧
      (scheduleList 4 s').Pairwise (fun a b => (s'.task a).time ≤ (s'.task b).time) ∧
      s'.sch_length = 2 :=
  ScheduleTask_sorted_insert 4 smallPool [2] 3 smallPool_lists.sched (by decide) (by decide)
    (by decide) (by decide) (by decide) (by decide)

/-- Witness of `UnQueueTask_UnScheduleTask_remove`: the queue head and the only
scheduled slot are removed. -/
theorem UnQueueTask_UnScheduleTask_remove_witness :
    (∃ s', UnQueueTask 4 0 smallPool = .ok s' ∧ Lists 4 s' [1] [2] ∧
        queueList 4 s' = [1] ∧ scheduleList 4 s' = [2] ∧
        s'.length = 1 ∧ s'.sch_length = 1 ∧
        s'.sch_first = 2 ∧ s'.sch_last = 2 ∧
        s'.task 0 = { clearTask (smallPool.task 0) with count := TASK_DONE } ∧
        (∀ a, a ≠ 0 → sameData (s'.task a) (smallPool.task a)) ∧ SameRest smallPool s') ∧
    (Lists 4 (UnScheduleTask 4 2 smallPool) [0, 1] [] ∧
        queueList 4 (UnScheduleTask 4 2 smallPool) = [0, 1] ∧
        scheduleList 4 (UnScheduleTask 4 2 smallPool) = [] ∧
        (UnScheduleTask 4 2 smallPool).sch_length = 0 ∧
        (UnScheduleTask 4 2 smallPool).length = 2 ∧
        (UnScheduleTask 4 2 smallPool).first = 0 ∧
        (UnScheduleTask 4 2 smallPool).last = 1 ∧
        (UnScheduleTask 4 2 smallPool).task 2 =
          { clearTask (smallPool.task 2) with count := TASK_DONE } ∧
        (∀ a, a ≠ 2 → sameData ((UnScheduleTask 4 2 smallPool).task a) (smallPool.task a)) ∧
        SameRest smallPool (UnScheduleTask 4 2 smallPool)) :=
  ⟨(UnQueueTask_UnScheduleTask_remove 4 smallPool [0, 1] [2] [] [1] 0 [] [] 2
      smallPool_lists (by decide)).1 rfl,
   (UnQueueTask_UnScheduleTask_remove 4 smallPool [0, 1] [2] [] [1] 0 [] [] 2
      smallPool_lists (by decide)).2 rfl⟩

/-! ## The promotion loop: order of promotion and resulting queue order -/

theorem QueueTask_notAbove (N : Nat) (s : Machine) (q sch : List Nat) (x : Nat) (D : List Nat)
    (hL : Lists N s q sch) (hx : x < N) (hxq : x ∉ q) (hxs : x ∉ sch)
    (hused : (s.task x).priority ≠ TASK_DONE) (hcap : N ≤ 32767)
    (hD : q.Pairwise (NotAbove s D)) :
    ∃ s' q', QueueTask N (x : Int) s = .ok s' ∧ Lists N s' q' sch ∧
      (∀ a, a ∈ q' ↔ a = x ∨ a ∈ q) ∧ SameRest s s' ∧
      (∀ a, sameData (s'.task a) (s.task a)) ∧
      (∀ a, a ∉ q → a ≠ x → s'.task a = s.task a) ∧
      q'.Pairwise (NotAbove s (x :: D)) := by
  obtain ⟨s1, q1, g1, g2, g3, g4, g5, g6⟩ := QueueTask_lists N s q sch x hL hx hxq hxs hused hcap
  obtain ⟨s2, A, B, hok, hsplit, hB, hA, hl, -⟩ := QueueTask_spec N s q x hL.queue hx hxq hused hcap
  have hs : s2 = s1 := by rw [g1] at hok; cases hok; rfl
  subst hs
  have hw : q1 = A ++ x :: B := by rw [← g2.walk_eq.1, hl.queueList_eq]
  refine ⟨s2, q1, g1, g2, g3, g4, g5, g6, ?_⟩
  rw [hw]
  have hD2 : (A ++ B).Pairwise (NotAbove s D) := hsplit ▸ hD
  obtain ⟨pA, pB, pAB⟩ := List.pairwise_append.1 hD2
  have hxA : x ∉ A := fun h => hxq (by rw [hsplit]; exact List.mem_append_left _ h)
  have hxB : x ∉ B := fun h => hxq (by rw [hsplit]; exact List.mem_append_right _ h)
  have up : ∀ p c, p ≠ x → NotAbove s D p c → NotAbove s (x :: D) p c := by
    intro p c hp h hm
    rcases List.mem_cons.1 hm with e | e
    · exact absurd e hp
    · exact h e
  refine List.pairwise_append.2 ⟨?_, ?_, ?_⟩
  · refine List.Pairwise.imp_of_mem ?_ pA
    intro p c hp _ h
    exact up p c (fun e => hxA (e ▸ hp)) h
  · refine List.pairwise_cons.2 ⟨fun b hb _ => le_of_lt (hB b hb), ?_⟩
    refine List.Pairwise.imp_of_mem ?_ pB
    intro p c hp _ h
    exact up p c (fun e => hxB (e ▸ hp)) h
  · intro a ha c hc
    have hax : a ≠ x := fun e => hxA (e ▸ ha)
    rcases List.mem_cons.1 hc with e | e
    · subst e
      intro hm
      have haD : a ∈ D := by
        rcases List.mem_cons.1 hm with e | e
        · exact absurd e hax
        · exact e
      rcases List.eq_nil_or_concat A with h | ⟨A', l, h⟩
      · subst h; exact absurd ha (List.not_mem_nil a)
      · have hA' : A = A' ++ [l] := by rw [h, List.concat_eq_append]
        have hl := hA A' l hA'
        rw [hA'] at ha pA
        rcases List.mem_append.1 ha with h1 | h1
        · have := (List.pairwise_append.1 pA).2.2 a h1 l (List.mem_singleton_self l) haD
          exact le_trans hl this
        · rw [List.mem_singleton.1 h1]; exact hl
    · exact up a c hax (pAB a ha c e)

theorem NotAbove_congr (s s' : Machine) (D D' : List Nat) (l : List Nat)
    (hp : ∀ a, (s'.task a).priority = (s.task a).priority) (hD : ∀ a, a ∈ D' → a ∈ D)
    (h : l.Pairwise (NotAbove s D)) : l.Pairwise (NotAbove s' D') := by
  refine h.imp ?_
  intro p c hpc hm
  rw [hp c, hp p]; exact hpc (hD p hm)

theorem promote_order (N : Nat) (hcap : N ≤ 32767) (sch : List Nat) :
    ∀ (s : Machine) (q : List Nat) (fuel : Nat) (D : List Nat), Lists N s q sch →
    sch.length < fuel → q.Pairwise (NotAbove s D) →
    ∃ s' q' P sch', promote N fuel s = .ok s' ∧ Lists N s' q' sch' ∧ sch = P ++ sch' ∧
      promoted N fuel s = P ∧ q'.Pairwise (NotAbove s (P ++ D)) ∧
      (∀ a, a ∈ q' ↔ a ∈ q ∨ a ∈ P) ∧
      (∀ a, sameData (s'.task a) (s.task a)) ∧ SameRest s s' ∧
      (∀ a ∈ P, (s.task a).time ≤ TimeNow s) ∧
      (∀ h r, sch' = h :: r → (s.task h).time > TimeNow s) := by
  induction sch with
  | nil =>
    intro s q fuel D hL hf hD
    cases fuel with
    | zero => simp at hf
    | succ f =>
      have hnv : ¬ validIdx N s.sch_first := by
        rw [hL.sched.first_eq]; simp [hd, validIdx]
      unfold promote promoted
      rw [if_neg hnv, if_neg hnv]
      exact ⟨s, q, [], [], rfl, hL, rfl, rfl, hD, by simp, fun a => sameData_refl _,
        SameRest.rest_refl s, by simp, by simp⟩
  | cons h r ih =>
    intro s q fuel D hL hf hD
    cases fuel with
    | zero => simp at hf
    | succ f =>
      have hhN : h < N := hL.sched.lt h (by simp)
      have hfirst : s.sch_first = (h : Int) := hL.sched.first_eq
      have hv : validIdx N (h : Int) := ⟨by omega, by exact_mod_cast hhN⟩
      unfold promote promoted
      rw [hfirst, if_pos hv, if_pos hv]
      simp only [Int.toNat_ofNat]
      by_cases hdue : (s.task h).time > TimeNow s
      · rw [if_pos hdue, if_pos hdue]
        refine ⟨s, q, [], h :: r, rfl, hL, rfl, rfl, hD, by simp, fun a => sameData_refl _,
          SameRest.rest_refl s, by simp, ?_⟩
        intro h' r' e
        obtain ⟨e1, _⟩ := List.cons.inj e
        subst e1; exact hdue
      · rw [if_neg hdue, if_neg hdue]
        obtain ⟨p1, p2, p3, p4⟩ := promote_pop_spec N s q h r hL hcap
        have hhq : h ∉ q := fun h' => hL.disj h h' (by simp)
        have hhr : h ∉ r := (List.nodup_cons.1 hL.sched.nodup).1
        have hup : ((promote_pop N (h : Int) s).task h).priority ≠ TASK_DONE := by
          rw [(p3 h).2.2.2.1]; exact hL.used h (Or.inr (by simp))
        have hD1 : q.Pairwise (NotAbove (promote_pop N (h : Int) s) D) :=
          NotAbove_congr s _ D D q (fun a => (p3 a).2.2.2.1) (fun _ h => h) hD
        obtain ⟨s1, q1, g1, g2, g3, g4, g5, g6, g7⟩ :=
          QueueTask_notAbove N _ q r h D p1 hhN hhq hhr hup hcap hD1
        rw [g1]
        simp only
        have hs1 : ∀ a, sameData (s1.task a) (s.task a) :=
          fun a => sameData_trans (g5 a) (p3 a)
        have hD2 : q1.Pairwise (NotAbove s1 (h :: D)) :=
          NotAbove_congr _ s1 _ _ q1 (fun a => (g5 a).2.2.2.1) (fun _ h => h) g7
        obtain ⟨s', q', P, sch', k1, k2, k3, k4, k5, k6, k7, k8, k9, k10⟩ :=
          ih s1 q1 f (h :: D) g2 (by simp at hf; omega) hD2
        have hnow : TimeNow s1 = TimeNow s := g4.ms_time.trans p2.ms_time
        refine ⟨s', q', h :: P, sch', k1, k2, by rw [k3]; rfl, by rw [k4], ?_, ?_,
          fun a => sameData_trans (k7 a) (hs1 a), SameRest.rest_trans p2 (SameRest.rest_trans g4 k8),
          ?_, ?_⟩
        · refine NotAbove_congr s1 s _ _ q' (fun a => ((hs1 a).2.2.2.1).symm) ?_ k5
          intro a ha
          simp only [List.mem_append, List.mem_cons] at ha ⊢
          tauto
        · intro a
          rw [k6 a, g3 a]
          simp only [List.mem_cons]
          tauto
        · intro a ha
          rcases List.mem_cons.1 ha with e | e
          · subst e; omega
          · have := k9 a e
            rw [(hs1 a).2.2.2.2.1, hnow] at this
            exact this
        · intro h' r' e
          have := k10 h' r' e
          rw [(hs1 h').2.2.2.2.1, hnow] at this
          exact this

theorem sorted_back_gt {α : Type} (r : α → α → Prop) (P : List α) (h : α) (t : List α)
    (hs : (P ++ h :: t).Pairwise r) : ∀ c ∈ h :: t, c = h ∨ r h c := by
  intro c hc
  have h1 : (h :: t).Pairwise r := (List.pairwise_append.1 hs).2.1
  rcases List.mem_cons.1 hc with e | e
  · left; exact e
  · right; exact (List.pairwise_cons.1 h1).1 c e

theorem promote_sorted (N : Nat) (s : Machine) (q sch : List Nat) (hL : Lists N s q sch)
    (hs : sch.Pairwise (fun a b => (s.task a).time ≤ (s.task b).time)) (hcap : N ≤ 32767) :
    ∃ s' q', promote N (N + 1) s = .ok s' ∧
      Lists N s' q' (sch.filter (fun a => decide (TimeNow s < (s.task a).time))) ∧
      promoted N (N + 1) s = sch.filter (fun a => decide ((s.task a).time ≤ TimeNow s)) ∧
      q'.Pairwise (NotAbove s (promoted N (N + 1) s)) ∧
      (∀ a, a ∈ q' ↔ a ∈ q ∨ (a ∈ sch ∧ (s.task a).time ≤ TimeNow s)) ∧
      (∀ a, sameData (s'.task a) (s.task a)) ∧ SameRest s s' := by
  have hlen := nodup_length_le N sch hL.sched.nodup hL.sched.lt
  obtain ⟨s', q', P, sch', k1, k2, k3, k4, k5, k6, k7, k8, k9, k10⟩ :=
    promote_order N hcap sch s q (N + 1) [] hL (by omega)
      (List.pairwise_of_forall (fun p c hm => absurd hm (List.not_mem_nil p)))
  have hB : ∀ b ∈ sch', TimeNow s < (s.task b).time := by
    intro b hb
    cases sch' with
    | nil => exact absurd hb (List.not_mem_nil b)
    | cons h t =>
      have hh := k10 h t rfl
      rcases sorted_back_gt _ P h t (k3 ▸ hs) b hb with e | e
      · rw [e]; exact hh
      · exact lt_of_lt_of_le hh e
  have hf := filter_split (fun a => decide ((s.task a).time ≤ TimeNow s)) P sch'
    (fun a ha => decide_eq_true (k9 a ha))
    (fun b hb => decide_eq_false (not_le.2 (hB b hb)))
  have hf2 : (P ++ sch').filter (fun a => decide (TimeNow s < (s.task a).time)) = sch' := by
    have e : (fun a => decide (TimeNow s < (s.task a).time)) =
        (fun a => !decide ((s.task a).time ≤ TimeNow s)) := by
      funext a
      by_cases h : TimeNow s < (s.task a).time
      · simp [h]
      · simp [h, not_lt.1 h]
    rw [e]; exact hf.2
  refine ⟨s', q', k1, by rw [k3, hf2]; exact k2, by rw [k4, k3, hf.1], ?_, ?_, k7, k8⟩
  · rw [k4]; simpa using k5
  · intro a
    rw [k6 a]
    constructor
    · rintro (h | h)
      · exact Or.inl h
      · exact Or.inr ⟨by rw [k3]; exact List.mem_append_left _ h, k9 a h⟩
    · rintro (h | ⟨h1, h2⟩)
      · exact Or.inl h
      · right
        rw [k3] at h1
        rcases List.mem_append.1 h1 with h | h
        · exact h
        · exact absurd (hB a h) (not_lt.2 h2)

/-- C13: in a well-formed state whose Schedule is sorted by ascending due time,
the promotion loop with which `SystemTick` starts its last block when the clock
has changed returns;
the slots it moves to the Ready Queue are, in the order of the moves, exactly
the Schedule members with `due_time <= TimeNow()` in Schedule order, hence in
non-decreasing due-time order whatever their priorities; the Ready Queue then
holds its old members and these, and the Schedule is left with exactly the
members with `due_time > TimeNow()` in unchanged order. -/
theorem promote_moves_due (N : Nat) (s : Machine) (q sch : List Nat) (hL : Lists N s q sch)
    (hs : sch.Pairwise (fun a b => (s.task a).time ≤ (s.task b).time)) (hcap : N ≤ 32767)
    (hclock : TimeNow s ≠ s.last_time) :
    ∃ s', promote N (N + 1) { s with last_time := TimeNow s } = .ok s' ∧
      tickPromote N s =
        (if TimeSince s' s'.service_tasks_time > SERVICE_TASKS_PERIOD then
          ServiceTasks N { s' with service_tasks_time := TimeNow s' }
        else .ok s') ∧
      promoted N (N + 1) { s with last_time := TimeNow s } =
        sch.filter (fun a => decide ((s.task a).time ≤ TimeNow s)) ∧
      (promoted N (N + 1) { s with last_time := TimeNow s }).Pairwise
        (fun a b => (s.task a).time ≤ (s.task b).time) ∧
      scheduleList N s' = sch.filter (fun a => decide (TimeNow s < (s.task a).time)) ∧
      (∀ a, a ∈ queueList N s' ↔ a ∈ q ∨ (a ∈ sch ∧ (s.task a).time ≤ TimeNow s)) ∧
      Lists N s' (queueList N s') (scheduleList N s') := by
  have hL0 : Lists N { s with last_time := TimeNow s } q sch :=
    ⟨hL.queue, hL.sched, hL.disj, hL.used⟩
  obtain ⟨s', q', k1, k2, k3, -, k5, -, -⟩ :=
    promote_sorted N { s with last_time := TimeNow s } q sch hL0 hs hcap
  obtain ⟨w1, w2⟩ := k2.walk_eq
  refine ⟨s', k1, ?_, k3, ?_, w2, by rw [w1]; exact k5, by rw [w1, w2]; exact k2⟩
  · unfold tickPromote
    rw [if_pos hclock, k1]
    rfl
  rw [k3]
  exact hs.sublist (List.filter_sublist sch)

theorem mem_order {l : List Nat} (hn : l.Nodup) {a b : Nat} (ha : a ∈ l) (hb : b ∈ l)
    (hab : a ≠ b) : List.Sublist [a, b] l ∨ List.Sublist [b, a] l := by
  induction l with
  | nil => exact absurd ha (List.not_mem_nil a)
  | cons x t ih =>
    obtain ⟨hx, ht⟩ := List.nodup_cons.1 hn
    rcases List.mem_cons.1 ha with e1 | e1 <;> rcases List.mem_cons.1 hb with e2 | e2
    · exact absurd (e1.trans e2.symm) hab
    · left; rw [e1]
      exact List.Sublist.cons₂ x (List.singleton_sublist.2 e2)
    · right; rw [e2]
      exact List.Sublist.cons₂ x (List.singleton_sublist.2 e1)
    · rcases ih ht e1 e2 with h | h
      · exact Or.inl (List.Sublist.cons x h)
      · exact Or.inr (List.Sublist.cons x h)

theorem dueTwo_lists : Lists 4 dueTwo [2] [0, 1, 3] :=
  ⟨⟨by decide, by decide, by decide, by decide, by decide, by decide⟩,
    ⟨by decide, by decide, by decide, by decide, by decide, by decide⟩, by decide, by
      intro i hi
      have h : i ∈ [2, 0, 1, 3] := by
        rcases hi with h | h
        · exact List.mem_append_left [0, 1, 3] h
        · exact List.mem_append_right [2] h
      have hall : ∀ j ∈ [2, 0, 1, 3], (dueTwo.task j).priority ≠ TASK_DONE := by decide
      exact hall i h⟩

/-- Witness of `promote_moves_due`: slots 0 and 1 are due at clock reading 10, slot 3 is not. -/
theorem promote_moves_due_witness :
    ∃ s', promote 4 5 { dueTwo with last_time := TimeNow dueTwo } = .ok s' ∧
      tickPromote 4 dueTwo =
        (if TimeSince s' s'.service_tasks_time > SERVICE_TASKS_PERIOD then
          ServiceTasks 4 { s' with service_tasks_time := TimeNow s' }
        else .ok s') ∧
      promoted 4 5 { dueTwo with last_time := TimeNow dueTwo } = [0, 1] ∧
      (promoted 4 5 { dueTwo with last_time := TimeNow dueTwo }).Pairwise
        (fun a b => (dueTwo.task a).time ≤ (dueTwo.task b).time) ∧
      scheduleList 4 s' = [3] ∧
      (∀ a, a ∈ queueList 4 s' ↔
        a ∈ [2] ∨ (a ∈ [0, 1, 3] ∧ (dueTwo.task a).time ≤ TimeNow dueTwo)) ∧
      Lists 4 s' (queueList 4 s') (scheduleList 4 s') :=
  promote_moves_due 4 dueTwo [2] [0, 1, 3] dueTwo_lists (by decide) (by decide) (by decide)

/-- C15: in a well-formed state `SystemTick` returns and invokes at most one
task: when the Ready Queue is empty after the pending queue links are resolved,
nothing is invoked; otherwise the two callbacks of its head slot are invoked
once each, and nothing else. -/
theorem SystemTick_runs_head (N : Nat) (s : Machine) (hW : WellFormed N s) :
    ∃ m s', tickLinkQueue N s = .ok m ∧ SystemTick N s = .ok s' ∧
      (queueList N m = [] → s'.trace = s.trace) ∧
      (∀ h r, queueList N m = h :: r →
        s'.trace = s.trace ++
          [Call.input (m.task h).fn (m.task h).input, Call.void (m.task h).void_fn]) := by
  obtain ⟨sa, qa, e1, L1, -, -, t1, -, -⟩ :=
    tickLinkQueue_wf N s _ _ hW.lists hW.cap hW.queueFlags hW.schedFlags hW.prio
  obtain ⟨sb, schb, e2, -, -, -, -, -, -, -, hnil, hcons⟩ := tickRun_spec N sa qa _ L1 hW.cap
  obtain ⟨s', e, -⟩ := SystemTick_wf N s hW
  have e' := e
  unfold SystemTick at e'
  rw [e1] at e'
  simp only [Except.bind] at e'
  rw [e2] at e'
  simp only [Except.bind] at e'
  obtain ⟨m3, h5, h6⟩ := bind_eq_ok e'
  have g3 := (tickLinkSchedule_void N sb m3 h5).void_trans (tickPromote_void N m3 s' h6)
  refine ⟨sa, s', e1, e, ?_, ?_⟩
  · intro hq
    rw [L1.walk_eq.1] at hq
    rw [g3.2, (hnil hq).1, t1]
  · intro h r hq
    rw [L1.walk_eq.1] at hq
    rw [g3.2, (hcons h r hq).1, t1]

/-- Witness of `SystemTick_runs_head`: a full pool with one queued task. -/
theorem SystemTick_runs_head_witness :
    ∃ m s', tickLinkQueue 20 poolFullOneQueued = .ok m ∧ SystemTick 20 poolFullOneQueued = .ok s' ∧
      (queueList 20 m = [] → s'.trace = poolFullOneQueued.trace) ∧
      (∀ h r, queueList 20 m = h :: r →
        s'.trace = poolFullOneQueued.trace ++
          [Call.input (m.task h).fn (m.task h).input, Call.void (m.task h).void_fn]) :=
  SystemTick_runs_head 20 poolFullOneQueued poolFullOneQueued_wf

/-- Counterexample to C16 as stated. A head slot with `period > 0` and
`count = -7` is freed by the run step instead of joining the Schedule; and when
the rollover branch of `ScheduleTask` is taken, the due time of the re-scheduled
head (4294967290, period 10) becomes 8, not the old due time advanced by the
period. -/
theorem tickRun_frees_stray_count :
    (∃ s s', strayCount = .ok s ∧ queueList 4 s = [0] ∧ (s.task 0).period > 0 ∧
      (s.task 0).count ≠ 0 ∧ tickRun 4 s = .ok s' ∧
      (s'.task 0).priority = TASK_DONE ∧ scheduleList 4 s' = []) ∧
    (∃ s', queueList 4 rollHead = [0] ∧ (rollHead.task 0).period > 0 ∧
      (rollHead.task 0).count ≠ 0 ∧ tickRun 4 rollHead = .ok s' ∧
      scheduleList 4 s' = [0] ∧ (s'.task 0).time = 8 ∧
      add32 (rollHead.task 0).time (rollHead.task 0).period = 4) :=
  ⟨⟨_, _, rfl, by decide, by decide, by decide, rfl, by decide, by decide⟩,
   ⟨_, by decide, by decide, by decide, rfl, by decide, by decide, by decide⟩⟩

/-- C16 (amended): the run step of `SystemTick` on a well-formed state with head
slot `h` returns with `h` out of the Ready Queue, whose other members keep their
order, and with the queue length decreased by one. If `period(h) > 0` and
`count(h)` is positive or `-1`, then `count(h)` is decremented when positive and
left at `-1` otherwise, `h` joins the Schedule, and its due time is advanced by
`period(h)` in 32-bit arithmetic unless the rollover branch of `ScheduleTask` is
taken. If `period(h) = 0`, `count(h) = 0` or `count(h) < -1`, then `h` is freed
(priority `TASK_DONE`, both callbacks default, input cleared), is the
pre-located available slot, and the Schedule is unchanged. -/
theorem tickRun_disposes (N : Nat) (s : Machine) (h : Nat) (r sch : List Nat)
    (hL : Lists N s (h :: r) sch) (hcap : N ≤ 32767) :
    ∃ s', tickRun N s = .ok s' ∧ queueList N s' = r ∧ h ∉ queueList N s' ∧
      s'.length = s.length - 1 ∧
      ((s.task h).period > 0 ∧ ((s.task h).count > 0 ∨ (s.task h).count = -1) →
        (s'.task h).count = (if (s.task h).count > 0 then (s.task h).count - 1 else -1) ∧
        (∀ a, a ∈ scheduleList N s' ↔ a = h ∨ a ∈ sch) ∧
        (s'.task h).priority = (s.task h).priority ∧
        (s'.task h).void_fn = (s.task h).void_fn ∧ (s'.task h).fn = (s.task h).fn ∧
        (s'.task h).input = (s.task h).input ∧ (s'.task h).period = (s.task h).period ∧
        (¬ (add32 (s.task h).time (s.task h).period < TIME_MAX / 2 ∧ TimeNow s > TIME_MAX / 2) →
          (s'.task h).time = add32 (s.task h).time (s.task h).period)) ∧
      ((s.task h).period = 0 ∨ (s.task h).count = 0 ∨ (s.task h).count < -1 →
        (s'.task h).priority = TASK_DONE ∧ (s'.task h).void_fn = DEFAULT_TASK ∧
        (s'.task h).fn = DEFAULT_INPUT_TASK ∧ (s'.task h).input = 0 ∧
        s'.available = (h : Int) ∧ scheduleList N s' = sch) := by
  obtain ⟨s', sch', e, L1, -, -, -, -, -, -, -, hcons⟩ := tickRun_spec N s (h :: r) sch hL hcap
  obtain ⟨-, hout⟩ := hcons h r rfl
  obtain ⟨w1, w2⟩ := L1.walk_eq
  have hhr : h ∉ r := (List.nodup_cons.1 hL.queue.nodup).1
  refine ⟨s', e, w1, by rw [w1]; exact hhr, ?_, ?_, ?_⟩
  · rw [L1.queue.len_eq, hL.queue.len_eq]
    simp only [List.tail_cons, List.length_cons]
    push_cast; ring
  · rintro ⟨hp, hc⟩
    rcases hout with ⟨-, -, -, -, -, -, -, hno, -⟩ | ⟨m1, m2, m3, m4, m5, m6, -, -, -, m10, -, m12⟩
    · exfalso
      unfold TASK_DONE at hno
      rcases hno with h1 | h1
      · apply h1; refine ⟨hp, ?_⟩; omega
      · omega
    · refine ⟨?_, by rw [w2]; exact m1, m2, m3, m4, m5, m6, fun hr => (m12 hr).1⟩
      rw [m10]
      rcases hc with h1 | h1
      · rw [if_pos h1, if_pos h1]
      · rw [if_neg (by omega), if_neg (by omega), h1]
  · intro hc
    rcases hout with ⟨m1, m2, m3, m4, m5, m6, -⟩ | ⟨-, -, -, -, -, -, m7, m8, m9, -⟩
    · exact ⟨m1, m2, m3, m4, m6, by rw [w2, m5]⟩
    · exfalso
      unfold TASK_DONE at m9
      omega

/-- Witness of `tickRun_disposes`: the head of a queue of two one-shot tasks. -/
theorem tickRun_disposes_witness :
    ∃ s', tickRun 4 smallPool = .ok s' ∧ queueList 4 s' = [1] ∧ 0 ∉ queueList 4 s' ∧
      s'.length = smallPool.length - 1 ∧
      ((smallPool.task 0).period > 0 ∧
          ((smallPool.task 0).count > 0 ∨ (smallPool.task 0).count = -1) →
        (s'.task 0).count =
          (if (smallPool.task 0).count > 0 then (smallPool.task 0).count - 1 else -1) ∧
        (∀ a, a ∈ scheduleList 4 s' ↔ a = 0 ∨ a ∈ [2]) ∧
        (s'.task 0).priority = (smallPool.task 0).priority ∧
        (s'.task 0).void_fn = (smallPool.task 0).void_fn ∧
        (s'.task 0).fn = (smallPool.task 0).fn ∧
        (s'.task 0).input = (smallPool.task 0).input ∧
        (s'.task 0).period = (smallPool.task 0).period ∧
        (¬ (add32 (smallPool.task 0).time (smallPool.task 0).period < TIME_MAX / 2 ∧
            TimeNow smallPool > TIME_MAX / 2) →
          (s'.task 0).time = add32 (smallPool.task 0).time (smallPool.task 0).period)) ∧
      ((smallPool.task 0).period = 0 ∨ (smallPool.task 0).count = 0 ∨
          (smallPool.task 0).count < -1 →
        (s'.task 0).priority = TASK_DONE ∧ (s'.task 0).void_fn = DEFAULT_TASK ∧
        (s'.task 0).fn = DEFAULT_INPUT_TASK ∧ (s'.task 0).input = 0 ∧
        s'.available = ((0 : Nat) : Int) ∧ scheduleList 4 s' = [2]) :=
  tickRun_disposes 4 smallPool 0 [1] [2] smallPool_lists (by decide)

/-! ## After `TerminateAllTasks` -/

theorem resolveQueueAll_free (N : Nat) (s : Machine) : ∀ (k i : Nat), i + k ≤ N →
    (∀ a, a < N → (s.task a).priority = TASK_DONE) → resolveQueueAll N k i s = .ok s := by
  intro k
  induction k with
  | zero => intro i _ _; rfl
  | succ k ih =>
    intro i hi hf
    unfold resolveQueueAll
    rw [resolveQueue_free N i s (by omega) (hf i (by omega))]
    exact ih (i + 1) (by omega) hf

theorem resolveScheduleAll_free (N : Nat) (s : Machine) : ∀ (k i : Nat), i + k ≤ N →
    (∀ a, a < N → (s.task a).priority = TASK_DONE) → resolveScheduleAll N k i s = .ok s := by
  intro k
  induction k with
  | zero => intro i _ _; rfl
  | succ k ih =>
    intro i hi hf
    unfold resolveScheduleAll
    rw [resolveSchedule_noop N i s (by omega) (Or.inl (hf i (by omega)))]
    exact ih (i + 1) (by omega) hf

theorem tickLinkQueue_idle (N : Nat) (s : Machine)
    (hf : ∀ a, a < N → (s.task a).priority = TASK_DONE) :
    ∃ s', tickLinkQueue N s = .ok s' ∧ s' = { s with to_link := s'.to_link } := by
  unfold tickLinkQueue
  by_cases h : s.to_link ≠ TASK_DONE
  · rw [if_pos h]
    dsimp only
    by_cases hv : validIdx N s.to_link
    · rw [if_pos hv]
      have hi : s.to_link.toNat < N := by have := hv.1; have := hv.2; omega
      exact ⟨_, resolveQueue_free N s.to_link.toNat { s with to_link := TASK_DONE } hi
        (hf _ hi), rfl⟩
    · rw [if_neg hv]
      exact ⟨_, resolveQueueAll_free N { s with to_link := TASK_DONE } N 0 (by omega) hf, rfl⟩
  · rw [if_neg h]
    exact ⟨_, rfl, rfl⟩

theorem tickLinkSchedule_idle (N : Nat) (s : Machine)
    (hf : ∀ a, a < N → (s.task a).priority = TASK_DONE) :
    ∃ s', tickLinkSchedule N s = .ok s' ∧ s' = { s with sch_to_link := s'.sch_to_link } := by
  unfold tickLinkSchedule
  by_cases h : s.sch_to_link ≠ TASK_DONE
  · rw [if_pos h]
    dsimp only
    by_cases hv : validIdx N s.sch_to_link
    · rw [if_pos hv]
      have hi : s.sch_to_link.toNat < N := by have := hv.1; have := hv.2; omega
      exact ⟨_, resolveSchedule_noop N s.sch_to_link.toNat { s with sch_to_link := TASK_DONE } hi
        (Or.inl (hf _ hi)), rfl⟩
    · rw [if_neg hv]
      exact ⟨_, resolveScheduleAll_free N { s with sch_to_link := TASK_DONE } N 0 (by omega) hf,
        rfl⟩
  · rw [if_neg h]
    exact ⟨_, rfl, rfl⟩

theorem ServiceTasks_idle (N : Nat) (s : Machine)
    (hf : ∀ a, a < N → (s.task a).priority = TASK_DONE) (hl : s.last = -1) :
    ServiceTasks N s = .ok s := by
  have hq : ServiceTasks_all N N 0 s = .ok s := by
    apply ServiceTasks_all_quiet
    intro a _ ha hp
    rw [hf a (by omega)] at hp
    exact absurd hp (by decide)
  unfold ServiceTasks
  rw [hq]
  simp only [Except.bind]
  rw [hl]; unfold ServiceTasks_bump
  rw [if_neg (by simp [validIdx])]

theorem tickPromote_idle (N : Nat) (s : Machine)
    (hf : ∀ a, a < N → (s.task a).priority = TASK_DONE)
    (hs : s.sch_first = -1) (hl : s.last = -1) :
    ∃ s', tickPromote N s = .ok s' ∧
      s' = { s with last_time := s'.last_time, service_tasks_time := s'.service_tasks_time } := by
  have hp : promote N (N + 1) { s with last_time := TimeNow s } =
      .ok { s with last_time := TimeNow s } :=
    promote_empty N N { s with last_time := TimeNow s } (by
      show ¬ validIdx N s.sch_first
      rw [hs]; simp [validIdx])
  unfold tickPromote
  by_cases h : TimeNow s ≠ s.last_time
  · rw [if_pos h, hp]
    simp only [Except.bind]
    split
    · exact ⟨_, ServiceTasks_idle N
        { s with last_time := TimeNow s, service_tasks_time := TimeNow s } hf hl, rfl⟩
    · exact ⟨_, rfl, rfl⟩
  · rw [if_neg h]
    exact ⟨_, rfl, rfl⟩

theorem SystemTick_idle (N : Nat) (s : Machine) (hI : Idle N s) :
    ∃ s', SystemTick N s = .ok s' ∧ Idle N s' ∧ s'.trace = s.trace := by
  have hf : ∀ a, a < N → (s.task a).priority = TASK_DONE := fun a ha => (hI.free a ha).1
  obtain ⟨s1, e1, f1⟩ := tickLinkQueue_idle N s hf
  have t1 : s1.task = s.task := by rw [f1]
  have e2 : tickRun N s1 = .ok s1 := by
    unfold tickRun
    have : ¬ validIdx N s1.first := by rw [f1]; show ¬ validIdx N s.first; rw [hI.first]; simp [validIdx]
    rw [if_neg this]
  obtain ⟨s3, e3, f3⟩ := tickLinkSchedule_idle N s1 (by rw [t1]; exact hf)
  have t3 : s3.task = s.task := by rw [f3]; exact t1
  have hs3 : s3.sch_first = -1 := by rw [f3]; show s1.sch_first = -1; rw [f1]; exact hI.sch_first
  have hl3 : s3.last = -1 := by rw [f3]; show s1.last = -1; rw [f1]; exact hI.last
  obtain ⟨s4, e4, f4⟩ := tickPromote_idle N s3 (by rw [t3]; exact hf) hs3 hl3
  refine ⟨s4, ?_, ?_, ?_⟩
  · unfold SystemTick
    rw [e1]; simp only [Except.bind]
    rw [e2]; simp only [Except.bind]
    rw [e3]; simp only [Except.bind]
    exact e4
  · have g1 : s4.first = s.first := by rw [f4]; show s3.first = _; rw [f3]; show s1.first = _; rw [f1]
    have g2 : s4.last = s.last := by rw [f4]; show s3.last = _; rw [f3]; show s1.last = _; rw [f1]
    have g3 : s4.length = s.length := by
      rw [f4]; show s3.length = _; rw [f3]; show s1.length = _; rw [f1]
    have g4 : s4.sch_first = s.sch_first := by
      rw [f4]; show s3.sch_first = _; rw [f3]; show s1.sch_first = _; rw [f1]
    have g5 : s4.sch_last = s.sch_last := by
      rw [f4]; show s3.sch_last = _; rw [f3]; show s1.sch_last = _; rw [f1]
    have g6 : s4.sch_length = s.sch_length := by
      rw [f4]; show s3.sch_length = _; rw [f3]; show s1.sch_length = _; rw [f1]
    have g7 : s4.task = s.task := by rw [f4]; exact t3
    exact ⟨by rw [g7]; exact hI.free, g1.trans hI.first, g2.trans hI.last, g3.trans hI.length,
      g4.trans hI.sch_first, g5.trans hI.sch_last, g6.trans hI.sch_length⟩
  · rw [f4]; show s3.trace = _; rw [f3]; show s1.trace = _; rw [f1]

theorem Idle.advance_idle {N : Nat} {s : Machine} (h : Idle N s) (k : Nat) : Idle N (advance k s) := by
  rw [advance_eq]
  exact ⟨h.free, h.first, h.last, h.length, h.sch_first, h.sch_last, h.sch_length⟩

theorem TerminateAllTasks_idle (N : Nat) (s : Machine) : Idle N (TerminateAllTasks N s) := by
  obtain ⟨h1, h2⟩ := clearAll_spec N 0
    { s with first := -1, last := -1, sch_first := -1, sch_last := -1,
             available := 0, length := 0, sch_length := 0, max_length := 0 }
  have he : TerminateAllTasks N s = clearAll N 0
    { s with first := -1, last := -1, sch_first := -1, sch_last := -1,
             available := 0, length := 0, sch_length := 0, max_length := 0 } := rfl
  refine ⟨?_, ?_, ?_, ?_, ?_, ?_, ?_⟩
  · intro a ha
    rw [he, h2 a, if_pos ⟨Nat.zero_le a, by omega⟩]
    exact ⟨rfl, rfl, rfl, rfl⟩
  all_goals (rw [he, h1])

theorem tickAll_idle (N : Nat) : ∀ (waits : List Nat) (s : Machine), Idle N s →
    ∃ s', tickAll N waits s = .ok s' ∧ Idle N s' ∧ s'.trace = s.trace := by
  intro waits
  induction waits with
  | nil => intro s h; exact ⟨s, rfl, h, rfl⟩
  | cons w r ih =>
    intro s h
    obtain ⟨s1, e1, i1, t1⟩ := SystemTick_idle N (advance w s) (h.advance_idle w)
    obtain ⟨s2, e2, i2, t2⟩ := ih s1 i1
    refine ⟨s2, ?_, i2, ?_⟩
    · show (SystemTick N (advance w s)).bind (tickAll N r) = _
      rw [e1]; exact e2
    · rw [t2, t1, advance_eq]

/-- C25: from any state, after `TerminateAllTasks` every slot of the pool is
free with both callbacks at their defaults and the input cleared, and both
lists are empty with length 0; every later sequence of `SystemTick` calls, with
any number of timer interrupts before each, returns, invokes no callback at all
and leaves the pool in that condition, whatever markers and link flags were set
before. -/
theorem TerminateAllTasks_removes_all (N : Nat) (s : Machine) :
    Idle N (TerminateAllTasks N s) ∧
    queueList N (TerminateAllTasks N s) = [] ∧ scheduleList N (TerminateAllTasks N s) = [] ∧
    ∀ waits : List Nat, ∃ s', tickAll N waits (TerminateAllTasks N s) = .ok s' ∧
      s'.trace = s.trace ∧ Idle N s' ∧ queueList N s' = [] ∧ scheduleList N s' = [] := by
  have hI := TerminateAllTasks_idle N s
  have hw : ∀ s2 : Machine, Idle N s2 → queueList N s2 = [] ∧ scheduleList N s2 = [] := by
    intro s2 h
    unfold queueList scheduleList
    rw [h.first, h.sch_first]
    exact ⟨by simp [walk, validIdx], by simp [walk, validIdx]⟩
  refine ⟨hI, (hw _ hI).1, (hw _ hI).2, fun waits => ?_⟩
  obtain ⟨s', e, i, t⟩ := tickAll_idle N waits _ hI
  refine ⟨s', e, ?_, i, (hw _ i).1, (hw _ i).2⟩
  rw [t]
  obtain ⟨h1, -⟩ := clearAll_spec N 0
    { s with first := -1, last := -1, sch_first := -1, sch_last := -1,
             available := 0, length := 0, sch_length := 0, max_length := 0 }
  show (clearAll N 0 _).trace = _
  rw [h1]

/-! ## Resolution of a pending slot -/

theorem GetAvailableTask_noevict (N : Nat) (p : Int) (s : Machine) (h : ¬ Evicts N p s) :
    GetAvailableTask N p s = s ∨
    ∃ i, i < N ∧ (s.task i).priority = TASK_DONE ∧
      GetAvailableTask N p s = { s with available := (i : Int) } := by
  unfold GetAvailableTask
  cases hff : firstFree s N 0 with
  | some i =>
    obtain ⟨h1, -, h3⟩ := firstFree_some s N 0 i hff
    exact Or.inr ⟨i, by omega, h1, rfl⟩
  | none =>
    left
    dsimp only
    by_cases hv : validIdx N s.last
    · rw [if_pos hv]
      by_cases hc : (s.task s.last.toNat).priority < p ∧ (s.task s.last.toNat).period = 0
      · rw [if_pos hc]
        by_cases hfl : s.first ≠ s.last
        · exact absurd ⟨hff, hv, hc.1, hc.2, hfl⟩ h
        · rw [if_neg hfl]
      · rw [if_neg hc]
    · rw [if_neg hv]

theorem firstFree_eq_none (s : Machine) : ∀ (k i : Nat), firstFree s k i = none →
    ∀ j, i ≤ j → j < i + k → (s.task j).priority ≠ TASK_DONE := by
  intro k
  induction k with
  | zero => intro i _ j h1 h2; omega
  | succ k ih =>
    intro i h j h1 h2
    unfold firstFree at h
    split at h
    · cases h
    · rename_i hp
      by_cases e : j = i
      · rw [e]; exact hp
      · exact ih (i + 1) h j (by omega) (by omega)

theorem not_evicts_nonneg (N : Nat) (s : Machine)
    (hprio : ∀ a, a < N → -1 ≤ (s.task a).priority) : ¬ Evicts N TASK_NO_PRIORITY s := by
  rintro ⟨h1, h2, h3, -, -⟩
  have hl : s.last.toNat < N := by have := h2.1; have := h2.2; omega
  have := firstFree_eq_none s N 0 h1 s.last.toNat (Nat.zero_le _) (by omega)
  have := hprio _ hl
  unfold TASK_NO_PRIORITY at h3
  unfold TASK_DONE at *
  omega

theorem claimed_slot (N : Nat) (p : Int) (s : Machine)
    (hne : s.available < 0 → ¬ Evicts N p s) :
    ∃ s0, (if s.available < 0 then GetAvailableTask N p s else s) = s0 ∧
      s0 = { s with available := s0.available } ∧
      (validIdx N s0.available →
        (0 ≤ s.available → s.available = ((s0.available.toNat : Nat) : Int)) ∧
        (s.available < 0 → (s.task s0.available.toNat).priority = TASK_DONE)) := by
  by_cases h : s.available < 0
  · rw [if_pos h]
    rcases GetAvailableTask_noevict N p s (hne h) with e | ⟨i, hi, hf, e⟩
    · rw [e]
      exact ⟨s, rfl, rfl, fun hv => absurd hv.1 (by omega)⟩
    · rw [e]
      refine ⟨_, rfl, rfl, fun _ => ⟨fun h0 => absurd h (by omega), fun _ => ?_⟩⟩
      simpa using hf
  · rw [if_neg h]
    refine ⟨s, rfl, rfl, fun hv => ⟨fun _ => ?_, fun h0 => absurd h0 h⟩⟩
    rw [Int.toNat_of_nonneg hv.1]

theorem RegFrame_of (N : Nat) (s s0 r : Machine)
    (hs0 : s0 = { s with available := s0.available })
    (hcl : validIdx N s0.available →
        (0 ≤ s.available → s.available = ((s0.available.toNat : Nat) : Int)) ∧
        (s.available < 0 → (s.task s0.available.toNat).priority = TASK_DONE))
    (h1 : r.first = s0.first) (h2 : r.last = s0.last) (h3 : r.length = s0.length)
    (h4 : r.sch_first = s0.sch_first) (h5 : r.sch_last = s0.sch_last)
    (h6 : r.sch_length = s0.sch_length) (h7 : r.max_length = s0.max_length)
    (h8 : r.ms_time = s0.ms_time) (h9 : r.rollover_time = s0.rollover_time)
    (h10 : r.total_time = s0.total_time) (h11 : r.last_time = s0.last_time)
    (h12 : r.service_tasks_time = s0.service_tasks_time) (h13 : r.trace = s0.trace)
    (ht : r.task = s0.task ∨
      (validIdx N s0.available ∧ ∀ a, a ≠ s0.available.toNat → r.task a = s0.task a)) :
    RegFrame N s r := by
  have e1 : s0.first = s.first := by rw [hs0]
  have e2 : s0.last = s.last := by rw [hs0]
  have e3 : s0.length = s.length := by rw [hs0]
  have e4 : s0.sch_first = s.sch_first := by rw [hs0]
  have e5 : s0.sch_last = s.sch_last := by rw [hs0]
  have e6 : s0.sch_length = s.sch_length := by rw [hs0]
  have e7 : s0.max_length = s.max_length := by rw [hs0]
  have e8 : s0.ms_time = s.ms_time := by rw [hs0]
  have e9 : s0.rollover_time = s.rollover_time := by rw [hs0]
  have e10 : s0.total_time = s.total_time := by rw [hs0]
  have e11 : s0.last_time = s.last_time := by rw [hs0]
  have e12 : s0.service_tasks_time = s.service_tasks_time := by rw [hs0]
  have e13 : s0.trace = s.trace := by rw [hs0]
  have et : s0.task = s.task := by rw [hs0]
  refine ⟨h1.trans e1, h2.trans e2, h3.trans e3, h4.trans e4, h5.trans e5, h6.trans e6,
    h7.trans e7, h8.trans e8, h9.trans e9, h10.trans e10, h11.trans e11, h12.trans e12,
    h13.trans e13, ?_⟩
  rcases ht with h | ⟨hv, h⟩
  · exact Or.inl (h.trans et)
  · refine Or.inr ⟨s0.available.toNat, ?_, (hcl hv).1, (hcl hv).2, fun a ha => ?_⟩
    · have := hv.1; have := hv.2; omega
    · rw [h a ha, et]

theorem TaskQueueAdd_frame (N fn : Nat) (p : Int) (s : Machine)
    (hne : s.available < 0 → ¬ Evicts N p s) : RegFrame N s (TaskQueueAdd N fn p s) := by
  obtain ⟨s0, e0, hs0, hcl⟩ := claimed_slot N p s hne
  unfold TaskQueueAdd
  simp only [e0]
  split
  · rename_i hv
    exact RegFrame_of N s s0 _ hs0 hcl rfl rfl rfl rfl rfl rfl rfl rfl rfl rfl rfl rfl rfl
      (Or.inr ⟨hv, fun a ha => by simp [modTask, setTask, ha]⟩)
  · exact RegFrame_of N s s0 _ hs0 hcl rfl rfl rfl rfl rfl rfl rfl rfl rfl rfl rfl rfl rfl
      (Or.inl rfl)

theorem TaskInputQueueAdd_frame (N fn input : Nat) (p : Int) (s : Machine)
    (hne : s.available < 0 → ¬ Evicts N p s) :
    RegFrame N s (TaskInputQueueAdd N fn input p s) := by
  obtain ⟨s0, e0, hs0, hcl⟩ := claimed_slot N p s hne
  unfold TaskInputQueueAdd
  simp only [e0]
  split
  · rename_i hv
    exact RegFrame_of N s s0 _ hs0 hcl rfl rfl rfl rfl rfl rfl rfl rfl rfl rfl rfl rfl rfl
      (Or.inr ⟨hv, fun a ha => by simp [modTask, setTask, ha]⟩)
  · exact RegFrame_of N s s0 _ hs0 hcl rfl rfl rfl rfl rfl rfl rfl rfl rfl rfl rfl rfl rfl
      (Or.inl rfl)

theorem GetAvailableTask_nonneg (N : Nat) (s : Machine)
    (hprio : ∀ a, a < N → -1 ≤ (s.task a).priority) :
    GetAvailableTask N TASK_NO_PRIORITY s =
      { s with available := (GetAvailableTask N TASK_NO_PRIORITY s).available } := by
  rcases GetAvailableTask_noevict N TASK_NO_PRIORITY s (not_evicts_nonneg N s hprio)
    with e | ⟨i, -, -, e⟩
  · rw [e]
  · rw [e]

theorem RegFrame_available (N : Nat) (s X : Machine) (h : RegFrame N s X)
    (hprio : ∀ a, a < N → -1 ≤ (X.task a).priority) :
    RegFrame N s (GetAvailableTask N TASK_NO_PRIORITY X) := by
  rw [GetAvailableTask_nonneg N X hprio]
  exact ⟨h.first, h.last, h.length, h.sch_first, h.sch_last, h.sch_length, h.max_length,
    h.ms_time, h.rollover_time, h.total_time, h.last_time, h.service_tasks_time, h.trace,
    h.slots⟩

theorem claimed_valid (N : Nat) (p : Int) (s s0 : Machine)
    (e0 : (if s.available < 0 then GetAvailableTask N p s else s) = s0)
    (h : validIdx N s.available ∨
      (s.available < 0 ∧ ∃ a, a < N ∧ (s.task a).priority = TASK_DONE)) :
    validIdx N s0.available := by
  rcases h with h | ⟨h1, a, ha, hf⟩
  · have : ¬ s.available < 0 := by have := h.1; omega
    rw [if_neg this] at e0
    rw [← e0]; exact h
  · rw [if_pos h1] at e0
    unfold GetAvailableTask at e0
    cases hff : firstFree s N 0 with
    | none =>
      exact absurd hf (firstFree_eq_none s N 0 hff a (Nat.zero_le _) (by omega))
    | some i =>
      rw [hff] at e0
      obtain ⟨-, -, h3⟩ := firstFree_some s N 0 i hff
      rw [← e0]
      exact ⟨by simp, by simp; omega⟩

theorem TaskScheduleAddCount_frame (N fn : Nat) (p : Int) (delay period : Nat) (count : Int)
    (s : Machine) (hne : s.available < 0 → ¬ Evicts N p s)
    (hprio : ∀ a, a < N → -1 ≤ (s.task a).priority) (hp : -1 ≤ p) :
    (∀ s', TaskScheduleAddCount N fn p delay period count s = .ok s' → RegFrame N s s') ∧
    (validIdx N s.available ∨ (s.available < 0 ∧ ∃ a, a < N ∧ (s.task a).priority = TASK_DONE) →
      ∃ s', TaskScheduleAddCount N fn p delay period count s = .ok s') := by
  obtain ⟨s0, e0, hs0, hcl⟩ := claimed_slot N p s hne
  have ht0 : s0.task = s.task := by rw [hs0]
  unfold TaskScheduleAddCount
  simp only [e0]
  constructor
  · intro s' h
    split at h
    · rename_i hv
      injection h with h
      subst h
      apply RegFrame_available
      · exact RegFrame_of N s s0 _ hs0 hcl rfl rfl rfl rfl rfl rfl rfl rfl rfl rfl rfl rfl rfl
          (Or.inr ⟨hv, fun a ha => by simp [modTask, setTask, ha]⟩)
      · intro a ha
        by_cases e : a = s0.available.toNat
        · simp [modTask, setTask, e]; exact hp
        · simp [modTask, setTask, e]; rw [ht0]; exact hprio a ha
    · cases h
  · intro h
    rw [if_pos (claimed_valid N p s s0 e0 h)]
    exact ⟨_, rfl⟩

theorem TaskInputScheduleAddCount_frame (N fn input : Nat) (p : Int) (delay period : Nat)
    (count : Int) (s : Machine) (hne : s.available < 0 → ¬ Evicts N p s)
    (hprio : ∀ a, a < N → -1 ≤ (s.task a).priority) (hp : -1 ≤ p) :
    (∀ s', TaskInputScheduleAddCount N fn input p delay period count s = .ok s' →
      RegFrame N s s') ∧
    (validIdx N s.available ∨ (s.available < 0 ∧ ∃ a, a < N ∧ (s.task a).priority = TASK_DONE) →
      ∃ s', TaskInputScheduleAddCount N fn input p delay period count s = .ok s') := by
  obtain ⟨s0, e0, hs0, hcl⟩ := claimed_slot N p s hne
  have ht0 : s0.task = s.task := by rw [hs0]
  unfold TaskInputScheduleAddCount
  simp only [e0]
  constructor
  · intro s' h
    split at h
    · rename_i hv
      injection h with h
      subst h
      apply RegFrame_available
      · exact RegFrame_of N s s0 _ hs0 hcl rfl rfl rfl rfl rfl rfl rfl rfl rfl rfl rfl rfl rfl
          (Or.inr ⟨hv, fun a ha => by simp [modTask, setTask, ha]⟩)
      · intro a ha
        by_cases e : a = s0.available.toNat
        · simp [modTask, setTask, e]; exact hp
        · simp [modTask, setTask, e]; rw [ht0]; exact hprio a ha
    · cases h
  · intro h
    rw [if_pos (claimed_valid N p s s0 e0 h)]
    exact ⟨_, rfl⟩

/-- Counterexample to C20 as stated: on a full pool whose queue holds all 20
slots, `TaskQueueAdd` with a higher priority drops the last queued task: the
queue tail moves from slot 19 to slot 18 and the `next` link of slot 19, which
was a member of the queue, is overwritten with the pending-link flag. -/
theorem TaskQueueAdd_moves_tail :
    queueList 20 poolFullQueue = List.range 20 ∧ poolFullQueue.last = 19 ∧
    (poolFullQueue.task 19).next = -1 ∧
    (TaskQueueAdd 20 99 2 poolFullQueue).last = 18 ∧
    ((TaskQueueAdd 20 99 2 poolFullQueue).task 19).next = TASK_LINK_QUEUE :=
  ⟨by decide, by decide, by decide, by decide, by decide⟩

/-- C20 (amended): on a pool whose slot priorities are non-negative or the free
sentinel, a registration with such a priority that does not evict the last
queued task (a slot is pre-located, or a slot is free, or no task can be
dropped) leaves the heads, tails and lengths of both lists unchanged and writes
at most the claimed slot, which is the pre-located slot or else a free slot, so
no link of any other slot changes; outside the slot array only `available` and
the pending markers may change. The two scheduled registrations return when a
slot is pre-located or free. -/
theorem registration_never_splices (N fn input : Nat) (p : Int) (delay period : Nat)
    (count : Int) (s : Machine) (hne : s.available < 0 → ¬ Evicts N p s)
    (hprio : ∀ a, a < N → -1 ≤ (s.task a).priority) (hp : -1 ≤ p) :
    RegFrame N s (TaskQueueAdd N fn p s) ∧
    RegFrame N s (TaskInputQueueAdd N fn input p s) ∧
    (∀ s', TaskScheduleAddCount N fn p delay period count s = .ok s' → RegFrame N s s') ∧
    (∀ s', TaskInputScheduleAddCount N fn input p delay period count s = .ok s' →
      RegFrame N s s') ∧
    (validIdx N s.available ∨ (s.available < 0 ∧ ∃ a, a < N ∧ (s.task a).priority = TASK_DONE) →
      (∃ s', TaskScheduleAddCount N fn p delay period count s = .ok s') ∧
      (∃ s', TaskInputScheduleAddCount N fn input p delay period count s = .ok s')) :=
  ⟨TaskQueueAdd_frame N fn p s hne, TaskInputQueueAdd_frame N fn input p s hne,
    (TaskScheduleAddCount_frame N fn p delay period count s hne hprio hp).1,
    (TaskInputScheduleAddCount_frame N fn input p delay period count s hne hprio hp).1,
    fun h => ⟨(TaskScheduleAddCount_frame N fn p delay period count s hne hprio hp).2 h,
      (TaskInputScheduleAddCount_frame N fn input p delay period count s hne hprio hp).2 h⟩⟩

/-- Witness of `registration_never_splices`: registrations on the pool of four
slots after one queued registration; slot 1 is free. -/
theorem registration_never_splices_witness :
    RegFrame 4 (TaskQueueAdd 4 7 3 (TaskInit 4 boot))
      (TaskQueueAdd 4 8 5 (TaskQueueAdd 4 7 3 (TaskInit 4 boot))) ∧
    RegFrame 4 (TaskQueueAdd 4 7 3 (TaskInit 4 boot))
      (TaskInputQueueAdd 4 8 1 5 (TaskQueueAdd 4 7 3 (TaskInit 4 boot))) ∧
    (∀ s', TaskScheduleAddCount 4 8 5 10 20 3 (TaskQueueAdd 4 7 3 (TaskInit 4 boot)) = .ok s' →
      RegFrame 4 (TaskQueueAdd 4 7 3 (TaskInit 4 boot)) s') ∧
    (∀ s', TaskInputScheduleAddCount 4 8 1 5 10 20 3 (TaskQueueAdd 4 7 3 (TaskInit 4 boot))
        = .ok s' → RegFrame 4 (TaskQueueAdd 4 7 3 (TaskInit 4 boot)) s') ∧
    (∃ s', TaskScheduleAddCount 4 8 5 10 20 3 (TaskQueueAdd 4 7 3 (TaskInit 4 boot)) = .ok s') ∧
    (∃ s', TaskInputScheduleAddCount 4 8 1 5 10 20 3 (TaskQueueAdd 4 7 3 (TaskInit 4 boot))
        = .ok s') :=
  have h := registration_never_splices 4 8 1 5 10 20 3 (TaskQueueAdd 4 7 3 (TaskInit 4 boot))
    (fun _ => by decide) (by decide) (by decide)
  ⟨h.1, h.2.1, h.2.2.1, h.2.2.2.1,
    h.2.2.2.2 (Or.inr ⟨by decide, 1, by decide, by decide⟩)⟩

/-! ## Reachable states that break an invariant of the documentation -/

/-- C19: after `TaskReSchedule(5, 7, 20, 50)` of the scheduled callback 5, the
Schedule holds its slot with the new priority, due time and period, but the
slot's callback is the default no-op: `IsTaskScheduled(5)` returns 0, and when
the slot becomes due the default callback runs instead of callback 5. -/
theorem TaskReSchedule_loses_callback :
    rescheduled.map (fun s => (scheduleList 4 s, (s.task 0).void_fn, (s.task 0).priority,
      (s.task 0).time, (s.task 0).period)) = .ok ([0], DEFAULT_TASK, 7, 20, 50) ∧
    rescheduled.bind (IsTaskScheduled 4 5) = .ok 0 ∧
    (rescheduled.bind (tickAll 4 [20, 1])).map (fun s => s.trace) =
      .ok [Call.input 0 0, Call.void DEFAULT_TASK] :=
  ⟨rfl, rfl, rfl⟩

/-- C22: a slot claimed by eviction keeps the callback of the evicted task.
After `TaskInputQueueAdd(50, 1, 9)` on a full pool, slot 3 holds both its old
nullary callback 4 and the new input callback 50, and the next tick, after the
first one that ran callback 1, invokes both. -/
theorem evicted_slot_keeps_callback :
    staleCallback.map (fun s => ((s.task 3).void_fn, (s.task 3).fn, (s.task 3).input)) =
      .ok (4, 50, 1) ∧
    (staleCallback.bind (SystemTick 4)).map (fun s => s.trace) =
      .ok [Call.input 0 0, Call.void 1, Call.input 50 1, Call.void 4] :=
  ⟨rfl, rfl⟩

/-- C23 (counterexample): in a state reached from `TaskInit` by three
registrations, one tick and `ChangePriority(3, 9)`, the Ready Queue holds slot 1
(priority 3) before slot 2 (priority 9), and the next tick runs callback 2, of
the lower priority. -/
theorem ChangePriority_unsorts_queue :
    reprioritised.map (fun s => (queueList 4 s, (s.task 1).priority, (s.task 2).priority)) =
      .ok ([1, 2], 3, 9) ∧
    (reprioritised.bind (SystemTick 4)).map (fun s => s.trace) =
      .ok [Call.input 0 0, Call.void 1, Call.input 0 0, Call.void 2] :=
  ⟨rfl, rfl⟩

/-! ## FIFO buffer and tap tempo -/

theorem pushAll_spec (n : Nat) (hn1 : 1 ≤ n) (hn : n ≤ 65535) :
    ∀ (xs : List Int) (b : buffer_t) (m : Nat), b.front = 0 → b.size = m → m < n →
      b.rear = m → b.buffer_end = (n : Int) - 1 → b.Callback = 0 → m + xs.length ≤ n →
      (pushAll b xs).front = 0 ∧ (pushAll b xs).size = m + xs.length ∧
      (pushAll b xs).buffer_end = (n : Int) - 1 ∧
      (∀ i, i < m → (pushAll b xs).mem i = b.mem i) ∧
      (∀ i, i < xs.length → (pushAll b xs).mem (m + i) = xs.getD i 0) := by
  intro xs
  induction xs with
  | nil =>
    intro b m h1 h2 _ _ h5 _ _
    exact ⟨h1, by simpa using h2, h5, fun _ _ => rfl, fun i hi => absurd hi (by simp)⟩
  | cons x xs ih =>
    intro b m h1 h2 h3 h4 h5 h6 h7
    simp only [List.length_cons] at h7
    have hfull : ¬ (b.front = b.rear ∧ b.size ≠ 0) := by
      rintro ⟨e1, e2⟩
      rw [h1, h4] at e1
      rw [h2] at e2
      exact e2 e1.symm
    have hP : (Push b x).front = 0 ∧ (Push b x).size = m + 1 ∧
        (Push b x).buffer_end = (n : Int) - 1 ∧ (Push b x).Callback = 0 ∧
        (Push b x).mem = (fun i => if i = m then x else b.mem i) ∧
        (Push b x).rear = (if m + 1 = n then 0 else m + 1) := by
      have hs : (m + 1) % 65536 = m + 1 := by omega
      unfold Push
      rw [if_neg hfull]
      dsimp only
      rw [h4, h5]
      by_cases hw : m + 1 = n
      · have : ((m + 1 : Nat) : Int) > (n : Int) - 1 := by omega
        rw [if_pos this, if_pos hw]
        dsimp only
        rw [h6, if_neg (fun h => h rfl), h2, hs]
        exact ⟨h1, rfl, rfl, rfl, rfl, rfl⟩
      · have : ¬ ((m + 1 : Nat) : Int) > (n : Int) - 1 := by omega
        rw [if_neg this, if_neg hw]
        dsimp only
        rw [h6, if_neg (fun h => h rfl), h2, hs]
        exact ⟨h1, rfl, rfl, rfl, rfl, rfl⟩
    obtain ⟨P1, P2, P3, P4, P5, P6⟩ := hP
    by_cases hxs : xs = []
    · subst hxs
      simp only [pushAll, List.length_cons, List.length_nil]
      refine ⟨P1, P2, P3, ?_, ?_⟩
      · intro i hi
        rw [P5]
        show (if i = m then x else b.mem i) = b.mem i
        rw [if_neg (by omega)]
      · intro i hi
        have : i = 0 := by omega
        subst this
        rw [P5]
        simp
    · have hlen : 0 < xs.length := List.length_pos.2 hxs
      have hw : ¬ m + 1 = n := by omega
      obtain ⟨k1, k2, k3, k4, k5⟩ := ih (Push b x) (m + 1) P1 P2 (by omega)
        (by rw [P6, if_neg hw]) P3 P4 (by omega)
      simp only [pushAll, List.length_cons]
      refine ⟨k1, by rw [k2]; omega, k3, ?_, ?_⟩
      · intro i hi
        rw [k4 i (by omega), P5]
        show (if i = m then x else b.mem i) = b.mem i
        rw [if_neg (by omega)]
      · intro i hi
        cases i with
        | zero =>
          rw [Nat.add_zero, k4 m (by omega), P5]
          show (if m = m then x else b.mem m) = _
          simp
        | succ j =>
          have := k5 j (by omega)
          rw [show m + (j + 1) = m + 1 + j by omega, this]
          rfl

theorem popN_spec (n : Nat) (hn : n ≤ 65535) :
    ∀ (k : Nat) (b : buffer_t), b.size = k → b.front + k ≤ n → b.buffer_end = (n : Int) - 1 →
      (popN k b).1 = (List.range k).map (fun i => b.mem (b.front + i)) ∧
      (popN k b).2.size = 0 := by
  intro k
  induction k with
  | zero => intro b h _ _; exact ⟨rfl, h⟩
  | succ k ih =>
    intro b h1 h2 h3
    have hne : b.size ≠ 0 := by omega
    have hs : b.size - 1 = k := by omega
    have hP1 : (Pop b).1 = b.mem b.front := by
      unfold Pop; rw [if_pos hne]
    have hP2 : (Pop b).2.size = k ∧ (Pop b).2.mem = b.mem ∧
        (Pop b).2.buffer_end = (n : Int) - 1 ∧
        (Pop b).2.front = (if b.front + 1 = n then 0 else b.front + 1) := by
      unfold Pop; rw [if_pos hne]
      dsimp only
      rw [h3]
      by_cases hw : b.front + 1 = n
      · have : ((b.front + 1 : Nat) : Int) > (n : Int) - 1 := by omega
        rw [if_pos this, if_pos hw]
        dsimp only
        exact ⟨hs, rfl, rfl, rfl⟩
      · have : ¬ ((b.front + 1 : Nat) : Int) > (n : Int) - 1 := by omega
        rw [if_neg this, if_neg hw]
        dsimp only
        exact ⟨hs, rfl, rfl, rfl⟩
    obtain ⟨p1, p2, p3, p4⟩ := hP2
    have hfk : (Pop b).2.front + k ≤ n := by
      rw [p4]; split <;> omega
    obtain ⟨q1, q2⟩ := ih (Pop b).2 p1 hfk p3
    refine ⟨?_, q2⟩
    have e : (popN (k + 1) b).1 = (Pop b).1 :: (popN k (Pop b).2).1 := rfl
    rw [e, hP1, q1, List.range_succ_eq_map, List.map_cons, List.map_map, p2]
    simp only [Nat.add_zero, List.cons.injEq, true_and]
    apply List.map_congr_left
    intro i hi
    have hik : i < k := List.mem_range.1 hi
    have hw : ¬ b.front + 1 = n := by omega
    rw [p4, if_neg hw]
    simp only [Function.comp]
    rw [show b.front + 1 + i = b.front + (i + 1) by omega]

/-- C31: on a buffer initialised by `BufferInit` with capacity `n >= 1`, pushing
`k <= n` items and then popping `k` times returns the items in the order they
were pushed; `GetSize` is `k` after the pushes and 0 after the pops. -/
theorem push_pop_fifo (data_array : Nat → Int) (n : Nat) (xs : List Int)
    (hn1 : 1 ≤ n) (hn : n ≤ 65535) (hk : xs.length ≤ n) :
    GetSize (pushAll (BufferInit data_array n) xs) = xs.length ∧
    (popN xs.length (pushAll (BufferInit data_array n) xs)).1 = xs ∧
    GetSize (popN xs.length (pushAll (BufferInit data_array n) xs)).2 = 0 := by
  obtain ⟨k1, k2, k3, -, k5⟩ := pushAll_spec n hn1 hn xs (BufferInit data_array n) 0 rfl rfl
    (by omega) rfl rfl rfl (by omega)
  rw [Nat.zero_add] at k2
  obtain ⟨q1, q2⟩ := popN_spec n hn xs.length (pushAll (BufferInit data_array n) xs) k2
    (by rw [k1]; omega) k3
  refine ⟨k2, ?_, q2⟩
  rw [q1, k1]
  apply List.ext_getElem
  · simp
  · intro i h1 h2
    simp only [List.getElem_map, List.getElem_range]
    have := k5 i h2
    rw [Nat.zero_add] at this ⊢
    rw [this, List.getD_eq_getElem _ _ h2]

/-- Witness of `push_pop_fifo`: three items through a buffer of capacity 3. -/
theorem push_pop_fifo_witness :
    GetSize (pushAll (BufferInit (fun _ => 0) 3) [5, 6, 7]) = 3 ∧
    (popN 3 (pushAll (BufferInit (fun _ => 0) 3) [5, 6, 7])).1 = [5, 6, 7] ∧
    GetSize (popN 3 (pushAll (BufferInit (fun _ => 0) 3) [5, 6, 7])).2 = 0 :=
  push_pop_fifo (fun _ => 0) 3 [5, 6, 7] (by decide) (by decide) (by decide)

/-- C32: `Pop` on an empty buffer returns the item left at `front`, not 0: on a
buffer of capacity 1, after `Push 7` and one `Pop` the buffer is empty, and a
second `Pop` returns 7 again (leaving the buffer unchanged). -/
theorem Pop_empty_returns_stale :
    (Pop (Push (BufferInit (fun _ => 0) 1) 7)).1 = 7 ∧
    GetSize (Pop (Push (BufferInit (fun _ => 0) 1) 7)).2 = 0 ∧
    (Pop (Pop (Push (BufferInit (fun _ => 0) 1) 7)).2).1 = 7 ∧
    GetSize (Pop (Pop (Push (BufferInit (fun _ => 0) 1) 7)).2).2 = 0 ∧
    (Pop (Pop (Push (BufferInit (fun _ => 0) 1) 7)).2).2.front =
      (Pop (Push (BufferInit (fun _ => 0) 1) 7)).2.front :=
  ⟨by decide, by decide, by decide, by decide, by decide⟩

/-- C33: `GetTempo` divides the span of the recorded taps by their number, not
by the number of intervals: after taps at 1000, 1500 and 2000 it returns
`1000 / 3 = 333`, where the average time between taps is 500. -/
theorem GetTempo_divides_by_tap_count :
    (List.range 4).map threeTaps = [1000, 1500, 2000, 0] ∧
    GetTempo threeTaps = some 333 ∧ (2000 - 1000) / (3 - 1) = 500 :=
  ⟨by decide, by decide, by decide⟩

/-! ## Well-formedness of the lists, resolution of the markers, termination of the scans -/

/-- C34: every insertion and removal keeps the two lists well formed. If the
Ready Queue `q` and the Schedule `sch` of `s` are disjoint, acyclic,
link-consistent lists of in-use slots with correct anchors and lengths, then
`QueueTask` and `ScheduleTask` of an in-use slot in neither list, `UnQueueTask`
of a queue member, `UnScheduleTask` of a Schedule member, the run step of
`SystemTick` (which pops the queue head) and its promotion loop all return, and
the two lists of the resulting state are again of that kind. -/
theorem lists_preserved (N : Nat) (s : Machine) (q sch : List Nat) (x y z : Nat)
    (hL : Lists N s q sch) (hcap : N ≤ 32767) :
    (x < N → x ∉ q → x ∉ sch → (s.task x).priority ≠ TASK_DONE →
      (∃ s' q', QueueTask N (x : Int) s = .ok s' ∧ Lists N s' q' sch ∧
        ∀ a, a ∈ q' ↔ a = x ∨ a ∈ q) ∧
      (∃ s' sch', ScheduleTask N (x : Int) s = .ok s' ∧ Lists N s' q sch' ∧
        ∀ a, a ∈ sch' ↔ a = x ∨ a ∈ sch)) ∧
    (y ∈ q → ∃ s' q', UnQueueTask N (y : Int) s = .ok s' ∧ Lists N s' q' sch ∧
      ∀ a, a ∈ q' ↔ a ∈ q ∧ a ≠ y) ∧
    (z ∈ sch → ∃ sch', Lists N (UnScheduleTask N (z : Int) s) q sch' ∧
      ∀ a, a ∈ sch' ↔ a ∈ sch ∧ a ≠ z) ∧
    (∃ s' sch', tickRun N s = .ok s' ∧ Lists N s' q.tail sch') ∧
    (∃ s' q' sch', promote N (N + 1) s = .ok s' ∧ Lists N s' q' sch') := by
  refine ⟨?_, ?_, ?_, ?_, ?_⟩
  · intro hx hxq hxs hu
    constructor
    · obtain ⟨s', q', h1, h2, h3, -⟩ := QueueTask_lists N s q sch x hL hx hxq hxs hu hcap
      exact ⟨s', q', h1, h2, h3⟩
    · obtain ⟨s', sch', h1, h2, h3, -⟩ := ScheduleTask_lists N s q sch x hL hx hxq hxs hu hcap
      exact ⟨s', sch', h1, h2, h3⟩
  · intro hy
    obtain ⟨s', q', h1, h2, h3, -⟩ := UnQueueTask_lists N s q sch y hL hy hcap
    exact ⟨s', q', h1, h2, h3⟩
  · intro hz
    obtain ⟨sch', h2, h3, -⟩ := UnScheduleTask_lists N s q sch z hL hz hcap
    exact ⟨sch', h2, h3⟩
  · obtain ⟨s', sch', h1, h2, -⟩ := tickRun_spec N s q sch hL hcap
    exact ⟨s', sch', h1, h2⟩
  · have hlen := nodup_length_le N sch hL.sched.nodup hL.sched.lt
    obtain ⟨s', q', P, sch', h1, h2, -⟩ := promote_spec N hcap sch s q (N + 1) hL (by omega)
    exact ⟨s', q', sch', h1, h2⟩

/-- Witness of `lists_preserved`: the pool of four slots with slot 3 inserted,
the queue head 0 and the scheduled slot 2 removed. -/
theorem lists_preserved_witness :
    ((∃ s' q', QueueTask 4 ((3 : Nat) : Int) smallPool = .ok s' ∧ Lists 4 s' q' [2] ∧
        ∀ a, a ∈ q' ↔ a = 3 ∨ a ∈ [0, 1]) ∧
      (∃ s' sch', ScheduleTask 4 ((3 : Nat) : Int) smallPool = .ok s' ∧ Lists 4 s' [0, 1] sch' ∧
        ∀ a, a ∈ sch' ↔ a = 3 ∨ a ∈ [2])) ∧
    (∃ s' q', UnQueueTask 4 ((0 : Nat) : Int) smallPool = .ok s' ∧ Lists 4 s' q' [2] ∧
      ∀ a, a ∈ q' ↔ a ∈ [0, 1] ∧ a ≠ 0) ∧
    (∃ sch', Lists 4 (UnScheduleTask 4 ((2 : Nat) : Int) smallPool) [0, 1] sch' ∧
      ∀ a, a ∈ sch' ↔ a ∈ [2] ∧ a ≠ 2) ∧
    (∃ s' sch', tickRun 4 smallPool = .ok s' ∧ Lists 4 s' [1] sch') ∧
    (∃ s' q' sch', promote 4 5 smallPool = .ok s' ∧ Lists 4 s' q' sch') :=
  have h := lists_preserved 4 smallPool [0, 1] [2] 3 0 2 smallPool_lists (by decide)
  ⟨h.1 (by decide) (by decide) (by decide) (by decide), h.2.1 (by decide),
    h.2.2.1 (by decide), h.2.2.2.1, h.2.2.2.2⟩

theorem scanBy_total (N : Nat) (s : Machine) (before : Nat → Prop) [DecidablePred before]
    (f la n : Int) (l : List Nat) (hl : IsList N s.task f la n l) (hne : l ≠ [])
    (fuel : Nat) (hfuel : l.length ≤ fuel) :
    ∃ j, j ∈ l ∧ (scanBy N s before fuel la = .front j ∨ scanBy N s before fuel la = .after j) := by
  have h := scanBy_spec N s before l (-1) hl.chain hl.lt l [] fuel (by simp) hne
    (fun b hb => absurd hb (List.not_mem_nil b)) hfuel
  rw [← hl.last_eq] at h
  rcases h with ⟨A1, j, B1, e, -, -, hs⟩ | ⟨h0, r, e, -, hs⟩
  · exact ⟨j, by rw [e]; simp, Or.inr hs⟩
  · exact ⟨h0, by rw [e]; simp, Or.inl hs⟩

/-- C39: on a well-formed, non-empty Ready Queue (resp. Schedule) with `L`
members, the tail-to-head scan of `QueueTask` (resp. `ScheduleTask`) for any
slot `x` ends within `L` visited members, at a member of the list, either
before the first member or right after some member; it neither reaches the
out-of-range branch nor runs out of members to visit. -/
theorem insertion_scan_terminates (N : Nat) (s : Machine) (q sch : List Nat) (x : Nat)
    (hq : IsList N s.task s.first s.last s.length q)
    (hs : IsList N s.task s.sch_first s.sch_last s.sch_length sch) :
    (q ≠ [] → ∀ fuel, q.length ≤ fuel → ∃ j, j ∈ q ∧
      (QueueTask_scan N s x fuel s.last = .front j ∨
        QueueTask_scan N s x fuel s.last = .after j)) ∧
    (sch ≠ [] → ∀ fuel, sch.length ≤ fuel → ∃ j, j ∈ sch ∧
      (ScheduleTask_scan N s x fuel s.sch_last = .front j ∨
        ScheduleTask_scan N s x fuel s.sch_last = .after j)) := by
  constructor
  · intro hne fuel hf
    rw [QueueTask_scan_eq]
    exact scanBy_total N s _ _ _ _ q hq hne fuel hf
  · intro hne fuel hf
    rw [ScheduleTask_scan_eq]
    exact scanBy_total N s _ _ _ _ sch hs hne fuel hf

/-- Witness of `insertion_scan_terminates`: the scans for slot 3 in the pool of
four slots, with as many rounds as the lists have members. -/
theorem insertion_scan_terminates_witness :
    (∃ j, j ∈ [0, 1] ∧ (QueueTask_scan 4 smallPool 3 2 smallPool.last = .front j ∨
        QueueTask_scan 4 smallPool 3 2 smallPool.last = .after j)) ∧
    (∃ j, j ∈ [2] ∧ (ScheduleTask_scan 4 smallPool 3 1 smallPool.sch_last = .front j ∨
        ScheduleTask_scan 4 smallPool 3 1 smallPool.sch_last = .after j)) :=
  have h := insertion_scan_terminates 4 smallPool [0, 1] [2] 3 smallPool_lists.queue
    smallPool_lists.sched
  ⟨h.1 (by decide) 2 (by decide), h.2 (by decide) 1 (by decide)⟩

/-! ## Rolling the timer, and stale fields of a free slot -/

theorem modTask_time (s : Machine) (i : Nat) (f : task_t → task_t) (a : Nat) :
    ((modTask s i f).task a).time =
      if a = i then (f (s.task i)).time else (s.task a).time := by
  rw [modTask_task]
  split <;> rfl

theorem ite_time (s : Machine) (a i : Nat) :
    (if a = i then (s.task i).time else (s.task a).time) = (s.task a).time := by
  split
  · rename_i e; rw [e]
  · rfl

theorem ScheduleTask_insert_time (N : Nat) (i : Int) (s s' : Machine)
    (h : ScheduleTask_insert N i s = .ok s') :
    (∀ a, (s'.task a).time = (s.task a).time) ∧ s'.ms_time = s.ms_time ∧
      s'.rollover_time = s.rollover_time := by
  unfold ScheduleTask_insert at h
  dsimp only at h
  split at h
  · cases h
    refine ⟨fun a => ?_, rfl, rfl⟩
    dsimp only
    simp only [modTask_time, ite_time, if_true, ite_self]
  · split at h
    · cases h
    · cases h
    · cases h
      refine ⟨fun a => ?_, rfl, rfl⟩
      dsimp only [linkFront]
      simp only [modTask_time, ite_time, if_true, ite_self]
    · cases h
      refine ⟨fun a => ?_, ?_, ?_⟩
      · dsimp only
        repeat' split
        all_goals (try dsimp only [linkAfter])
        all_goals simp only [modTask_time, ite_time, if_true, ite_self]
      · dsimp only
        repeat' split
        all_goals rfl
      · dsimp only
        repeat' split
        all_goals rfl

theorem RollTimer_time (N : Nat) (s : Machine) (a : Nat) (ha : a < N)
    (hu : (s.task a).priority ≠ TASK_DONE) :
    ((RollTimer N s).task a).time =
      if (s.task a).time > TimeNow s then (s.task a).time - TimeNow s
      else (s.task a).time := by
  have h := (rollAll_spec (TimeNow s) N 0 s).2 a
  have e : (RollTimer N s).task a = (rollAll (TimeNow s) N 0 s).task a := rfl
  rw [e, h]
  by_cases c : (s.task a).time > TimeNow s
  · rw [if_pos ⟨Nat.zero_le _, by omega, hu, c⟩, if_pos c]
  · rw [if_neg (fun h => c h.2.2.2), if_neg c]

theorem RollTimer_clock (N : Nat) (s : Machine) :
    TimeNow (RollTimer N s) = 0 ∧ (RollTimer N s).rollover_time = TimeNow s := by
  have h := (rollAll_spec (TimeNow s) N 0 s).1
  have e : (rollAll (TimeNow s) N 0 s).ms_time = s.ms_time := by rw [h]
  exact ⟨rfl, e⟩

/-- C36 (counterexample): at clock reading `n = 2^31` a slot with due time
`t = 10` enters the rollover branch of `ScheduleTask`; the branch first moves
the due time to `t + (TIME_MAX - n) = 2147483657`, which lies after `n`, so
`RollTimer` subtracts `n` from it again: the slot ends with due time 9, not
`t + (TIME_MAX - n)`. And where the formula does hold the slot becomes due
earlier than it was scheduled: at clock reading `2^32 - 101` a slot with due
time 10 is due in 111 ms; after the branch the clock reads 0 and the due time
is 110, and the promotion loop moves the slot to the Ready Queue at clock
reading 110, that is after 110 ms. -/
theorem ScheduleTask_rollover_rolls_moved_time :
    (lateClock.task 0).time = 10 ∧ TimeNow lateClock = 2147483648 ∧
    (lateClock.task 0).time < TIME_MAX / 2 ∧ TimeNow lateClock > TIME_MAX / 2 ∧
    (lateClock.task 0).time + (TIME_MAX - TimeNow lateClock) = 2147483657 ∧
    (ScheduleTask 4 0 lateClock).map
      (fun s => ((s.task 0).time, TimeNow s, scheduleList 4 s)) = .ok (9, 0, [0]) ∧
    (lateClockNear.task 0).time = 10 ∧ TimeNow lateClockNear = 4294967195 ∧
    sub32 (lateClockNear.task 0).time (TimeNow lateClockNear) = 111 ∧
    (ScheduleTask 4 0 lateClockNear).map
      (fun s => ((s.task 0).time, TimeNow s, scheduleList 4 s)) = .ok (110, 0, [0]) ∧
    ((ScheduleTask 4 0 lateClockNear).bind (fun s => promote 4 5 { s with ms_time := 110 })).map
      (fun s => (TimeNow s, queueList 4 s, scheduleList 4 s)) = .ok (110, [0], []) :=
  ⟨rfl, rfl, by decide, by decide, rfl, rfl, rfl, rfl, rfl, rfl, rfl⟩

/-- C36 (amended): when `ScheduleTask(i)` is called for an in-use slot outside
a well-formed Schedule with due time `t < TIME_MAX/2` at clock reading
`n > TIME_MAX/2`, and the moved due time `t + (TIME_MAX - n)` does not lie after
`n`, it returns with the clock reading 0, the rollover time `n`, the slot linked
into the Schedule and its due time equal to `t + (TIME_MAX - n)`. -/
theorem ScheduleTask_rollover (N : Nat) (s : Machine) (sch : List Nat) (x : Nat)
    (hq : IsList N s.task s.sch_first s.sch_last s.sch_length sch) (hx : x < N)
    (hxq : x ∉ sch) (hused : (s.task x).priority ≠ TASK_DONE) (hcap : N ≤ 32767)
    (ht : (s.task x).time < TIME_MAX / 2) (hn : TimeNow s > TIME_MAX / 2)
    (hfit : (s.task x).time + (TIME_MAX - TimeNow s) ≤ TimeNow s) :
    ∃ s', ScheduleTask N (x : Int) s = .ok s' ∧ TimeNow s' = 0 ∧
      s'.rollover_time = TimeNow s ∧
      (s'.task x).time = (s.task x).time + (TIME_MAX - TimeNow s) ∧
      x ∈ scheduleList N s' := by
  obtain ⟨s', A, B, hok, -, -, -, hl, -⟩ := ScheduleTask_spec N s sch x hq hx hxq hused hcap
  refine ⟨s', hok, ?_⟩
  have hmem : x ∈ scheduleList N s' := by rw [hl.scheduleList_eq]; simp
  have hv : validIdx N (x : Int) := ⟨by omega, by exact_mod_cast hx⟩
  have h := hok
  unfold ScheduleTask at h
  rw [if_pos hv] at h
  simp only [Int.toNat_ofNat] at h
  rw [if_neg hused] at h
  have key : ∀ sf : Machine, (sf.task x).time = (s.task x).time → TimeNow sf = TimeNow s →
      (sf.task x).priority ≠ TASK_DONE →
      ScheduleTask_insert N (x : Int)
        (if (sf.task x).time < TIME_MAX / 2 ∧ TimeNow sf > TIME_MAX / 2 then
          RollTimer N (modTask sf x
            (fun t => { t with time := add32 t.time (TIME_MAX - TimeNow sf) }))
        else sf) = .ok s' →
      TimeNow s' = 0 ∧ s'.rollover_time = TimeNow s ∧
        (s'.task x).time = (s.task x).time + (TIME_MAX - TimeNow s) := by
    intro sf h1 h2 h3 hi
    rw [if_pos ⟨by rw [h1]; exact ht, by rw [h2]; exact hn⟩] at hi
    obtain ⟨g1, g2, g3⟩ := ScheduleTask_insert_time N _ _ _ hi
    have hm : ((modTask sf x
        (fun t => { t with time := add32 t.time (TIME_MAX - TimeNow sf) })).task x).time =
        (s.task x).time + (TIME_MAX - TimeNow s) := by
      rw [modTask_task, if_pos rfl]
      show add32 (sf.task x).time (TIME_MAX - TimeNow sf) = _
      rw [h1, h2]
      unfold add32
      unfold TIME_MAX at ht ⊢
      omega
    have hp : ((modTask sf x
        (fun t => { t with time := add32 t.time (TIME_MAX - TimeNow sf) })).task x).priority ≠
        TASK_DONE := by
      rw [modTask_task, if_pos rfl]
      exact h3
    have hc := RollTimer_clock N (modTask sf x
        (fun t => { t with time := add32 t.time (TIME_MAX - TimeNow sf) }))
    have hr := RollTimer_time N (modTask sf x
        (fun t => { t with time := add32 t.time (TIME_MAX - TimeNow sf) })) x hx hp
    have hnow : TimeNow (modTask sf x
        (fun t => { t with time := add32 t.time (TIME_MAX - TimeNow sf) })) = TimeNow s := h2
    rw [hm, hnow, if_neg (by omega)] at hr
    rw [hnow] at hc
    exact ⟨g2.trans hc.1, g3.trans hc.2, (g1 x).trans hr⟩
  have := key (if (s.task x).next < -1 then modTask s x (fun t => { t with next := -1 }) else s)
    (by split
        · rw [modTask_task, if_pos rfl]
        · rfl)
    (by split <;> rfl)
    (by split
        · rw [modTask_task, if_pos rfl]; exact hused
        · exact hused) h
  obtain ⟨k1, k2, k3⟩ := this
  exact ⟨k1, k2, k3, hmem⟩

/-- Witness of `ScheduleTask_rollover`: slot 0 with due time 10 at clock
reading `2^32 - 101`. -/
theorem ScheduleTask_rollover_witness :
    ∃ s', ScheduleTask 4 ((0 : Nat) : Int) lateClockNear = .ok s' ∧ TimeNow s' = 0 ∧
      s'.rollover_time = TimeNow lateClockNear ∧
      (s'.task 0).time = (lateClockNear.task 0).time + (TIME_MAX - TimeNow lateClockNear) ∧
      0 ∈ scheduleList 4 s' :=
  ScheduleTask_rollover 4 lateClockNear [] 0
    ⟨by decide, by decide, by decide, by decide, by decide, by decide⟩
    (by decide) (by decide) (by decide) (by decide) (by decide) (by decide) (by decide)

/-- C37 (counterexample): at clock reading 100 the Schedule of `overdueFirst`
is slot 0 (due at 90) followed by slot 1 (due at 110), a well-formed list sorted
by ascending due time. `RollTimer` leaves the overdue time 90 as it is and
rebases 110 to 10: the Schedule is still slot 0 followed by slot 1, now with due
times 90 and 10, which is not ascending. -/
theorem RollTimer_unsorts_schedule :
    IsList 4 overdueFirst.task overdueFirst.sch_first overdueFirst.sch_last
      overdueFirst.sch_length [0, 1] ∧
    scheduleList 4 overdueFirst = [0, 1] ∧
    (scheduleList 4 overdueFirst).Pairwise
      (fun a b => (overdueFirst.task a).time ≤ (overdueFirst.task b).time) ∧
    scheduleList 4 (RollTimer 4 overdueFirst) = [0, 1] ∧
    ((RollTimer 4 overdueFirst).task 0).time = 90 ∧
    ((RollTimer 4 overdueFirst).task 1).time = 10 ∧
    ¬ (scheduleList 4 (RollTimer 4 overdueFirst)).Pairwise
      (fun a b => ((RollTimer 4 overdueFirst).task a).time ≤
        ((RollTimer 4 overdueFirst).task b).time) :=
  ⟨⟨by decide, by decide, by decide, by decide, by decide, by decide⟩, by decide, by decide,
    by decide, by decide, by decide, by decide⟩

/-- C37 (amended): on a well-formed state whose Schedule `sch` is sorted by
ascending due time, `RollTimer` at clock reading `n` leaves the Schedule the
same well-formed list of slots, subtracts `n` from the due times after `n` and
keeps the others; the Schedule is sorted by ascending due time afterwards
exactly when every member due at or before `n`, with due time `t`, and every
member due after `n`, with due time `u`, satisfy `t + n ≤ u` (in particular
when no member is due at or before `n`). -/
theorem RollTimer_sorted_iff (N : Nat) (s : Machine) (q sch : List Nat)
    (hL : Lists N s q sch)
    (hs : sch.Pairwise (fun a b => (s.task a).time ≤ (s.task b).time)) :
    IsList N (RollTimer N s).task (RollTimer N s).sch_first (RollTimer N s).sch_last
      (RollTimer N s).sch_length sch ∧
    scheduleList N (RollTimer N s) = sch ∧
    (∀ a, a ∈ sch → ((RollTimer N s).task a).time =
      if (s.task a).time > TimeNow s then (s.task a).time - TimeNow s
      else (s.task a).time) ∧
    ((scheduleList N (RollTimer N s)).Pairwise
        (fun a b => ((RollTimer N s).task a).time ≤ ((RollTimer N s).task b).time) ↔
      ∀ a, a ∈ sch → ∀ b, b ∈ sch → (s.task a).time ≤ TimeNow s →
        TimeNow s < (s.task b).time → (s.task a).time + TimeNow s ≤ (s.task b).time) := by
  obtain ⟨f1, -, -, -, -, f6, f7, f8⟩ := RollTimer_frame N s
  have hl : IsList N (RollTimer N s).task (RollTimer N s).sch_first (RollTimer N s).sch_last
      (RollTimer N s).sch_length sch :=
    hL.sched.congr (fun a _ => ⟨(f1 a).2.1, (f1 a).2.2⟩) f6 f7 f8
  have ht : ∀ a, a ∈ sch → ((RollTimer N s).task a).time =
      if (s.task a).time > TimeNow s then (s.task a).time - TimeNow s
      else (s.task a).time :=
    fun a ha => RollTimer_time N s a (hL.sched.lt a ha) (hL.used a (Or.inr ha))
  refine ⟨hl, hl.scheduleList_eq, ht, ?_⟩
  rw [hl.scheduleList_eq]
  constructor
  · intro hp a ha b hb h1 h2
    have hab : a ≠ b := by intro e; rw [e] at h1; omega
    have hsub : List.Sublist [a, b] sch := by
      rcases mem_order hL.sched.nodup ha hb hab with h | h
      · exact h
      · have := (List.pairwise_pair.1 (hs.sublist h))
        omega
    have := List.pairwise_pair.1 (hp.sublist hsub)
    rw [ht a ha, ht b hb, if_neg (by omega), if_pos h2] at this
    omega
  · intro hc
    refine hs.imp_of_mem ?_
    intro a b ha hb hab
    rw [ht a ha, ht b hb]
    have := hc a ha b hb
    split <;> split <;> omega

/-- Witness of `RollTimer_sorted_iff`: the Schedule of `dueTwo` (due times 5, 5
and 50 at clock reading 10) is still sorted after `RollTimer`. -/
theorem RollTimer_sorted_iff_witness :
    [0, 1, 3].Pairwise (fun a b => (dueTwo.task a).time ≤ (dueTwo.task b).time) ∧
    (scheduleList 4 (RollTimer 4 dueTwo)).Pairwise
      (fun a b => ((RollTimer 4 dueTwo).task a).time ≤ ((RollTimer 4 dueTwo).task b).time) :=
  ⟨by decide,
    (RollTimer_sorted_iff 4 dueTwo [2] [0, 1, 3] dueTwo_lists (by decide)).2.2.2.2 (by decide)⟩

/-- C38: a free slot named by `tasks.available` that still holds
`count = TASK_UNLINK_QUEUE` from its previous use loses the task registered
into it. After the run of `staleCount`, slot 0 is free, `tasks.available` names
it, both lists are empty and its `count` is still -6; `TaskQueueAdd(8, 5)` then
claims slot 0 and flags it for linking, and the queue-side resolution step of
the next `SystemTick` links it and removes it again: the Ready Queue is empty
and slot 0 is free, its callback reset to the default. -/
theorem TaskQueueAdd_stale_count_dropped :
    staleCount.map (fun s => (s.available, (s.task 0).priority, (s.task 0).count,
        queueList 4 s, scheduleList 4 s, s.to_link)) =
      .ok (0, TASK_DONE, TASK_UNLINK_QUEUE, [], [], TASK_DONE) ∧
    staleCount.map (fun s => ((TaskQueueAdd 4 8 5 s).to_link,
        ((TaskQueueAdd 4 8 5 s).task 0).void_fn, ((TaskQueueAdd 4 8 5 s).task 0).priority,
        ((TaskQueueAdd 4 8 5 s).task 0).next, ((TaskQueueAdd 4 8 5 s).task 0).period)) =
      .ok (0, 8, 5, TASK_LINK_QUEUE, 0) ∧
    ((staleCount.map (TaskQueueAdd 4 8 5)).bind (tickLinkQueue 4)).map
        (fun s => (queueList 4 s, (s.task 0).priority, (s.task 0).void_fn)) =
      .ok ([], TASK_DONE, DEFAULT_TASK) :=
  ⟨rfl, rfl, rfl⟩

/-- C8 (counterexample): in the state `staleAvailable` no slot of the pool is
free, the Ready-Queue tail (slot 3) has priority 4 and `tasks.available` names
slot 2, which is in use. `TaskQueueAdd(9, 1)`, whose priority 1 is below the
tail's, is not rejected: it takes the pre-located slot 2 without calling
`GetAvailableTask`, overwrites its callback and priority and flags it for
linking. -/
theorem TaskQueueAdd_takes_stale_available :
    staleAvailable.map (fun s => ((List.range 4).map (fun i => (s.task i).priority),
        s.last, (s.task 3).period, s.available, (s.task 2).void_fn, s.to_link)) =
      .ok ([1, 5, -2, 4], 3, 0, 2, 3, TASK_DONE) ∧
    staleAvailable.map (fun s => ((TaskQueueAdd 4 9 1 s).available,
        ((TaskQueueAdd 4 9 1 s).task 2).void_fn, ((TaskQueueAdd 4 9 1 s).task 2).priority,
        ((TaskQueueAdd 4 9 1 s).task 2).next, (TaskQueueAdd 4 9 1 s).to_link)) =
      .ok (-1, 9, 1, TASK_LINK_QUEUE, 2) :=
  ⟨rfl, rfl⟩

/-- C2: on a pool that has been used before the scenario of the specification
loses a task. After `TaskInit`, `TaskQueueAdd(9, 1)`, `RemoveTask(9)` and a
second `TaskInit`, every slot is free but slot 0 still holds
`count = TASK_UNLINK_QUEUE`; A(5), B(5) and C(10) are then registered into slots
0, 1 and 2, and three ticks run C and B only: the first tick links slot 0 and
removes it again, so A never runs, also not in later ticks. -/
theorem reinitialised_pool_drops_first_task :
    (RemoveTask 3 9 (TaskQueueAdd 3 9 1 (TaskInit 3 boot))).map
        (fun s => ((List.range 3).map (fun i => ((TaskInit 3 s).task i).priority),
          ((TaskInit 3 s).task 0).count, queueList 3 (TaskInit 3 s),
          scheduleList 3 (TaskInit 3 s))) =
      .ok ([TASK_DONE, TASK_DONE, TASK_DONE], TASK_UNLINK_QUEUE, [], []) ∧
    reinitRegs.map (fun s => (List.range 3).map (fun i => ((s.task i).void_fn,
        (s.task i).priority))) = .ok [(1, 5), (2, 5), (3, 10)] ∧
    (reinitRegs.bind (tickAll 3 [0, 0, 0])).map (fun s => s.trace) = .ok (callsOf [3, 2]) ∧
    (reinitRegs.bind (tickAll 3 [0, 0, 0, 10, 10])).map (fun s => s.trace) =
      .ok (callsOf [3, 2]) :=
  ⟨rfl, rfl, rfl, rfl⟩

/-- C9: in the state `evictedThenScheduled`, reached with priorities 1 and 5
only, no slot is free, `tasks.available` names none, the Schedule is slot 0
followed by slot 2 and `tasks.last` is slot 0 (priority 1, one-shot), left there
by the earlier evictions. `GetAvailableTask(9)` selects slot 0, a member of the
Schedule, and `TaskQueueAdd(8, 9)` overwrites it: callback 6 is lost and the
traversal of the Schedule ends at slot 0. -/
theorem GetAvailableTask_selects_scheduled :
    evictedThenScheduled.map (fun s => ((List.range 3).map (fun i => (s.task i).priority),
        s.available, scheduleList 3 s, s.first, s.last, (s.task 0).void_fn,
        (s.task 0).period)) = .ok ([1, 1, 5], -1, [0, 2], 2, 0, 6, 0) ∧
    evictedThenScheduled.map (fun s => (GetAvailableTask 3 9 s).available) = .ok 0 ∧
    evictedThenScheduled.map (fun s => (((TaskQueueAdd 3 8 9 s).task 0).void_fn,
        ((TaskQueueAdd 3 8 9 s).task 0).priority, scheduleList 3 (TaskQueueAdd 3 8 9 s))) =
      .ok (8, 9, [0]) :=
  ⟨rfl, rfl, rfl⟩

/-- C23 (amended): the operations that link and unlink slots keep the Ready
Queue ordered by descending priority. On a well-formed state whose Ready Queue
`q` is ordered by descending priority, `QueueTask` of an in-use slot in neither
list, `UnQueueTask` of a member, the run step of `SystemTick` (which pops the
head) and its promotion loop return, and the Ready Queue of the resulting state
(the old members with the new one, without the removed one, without the head,
with the promoted ones) is again ordered by descending priority. -/
theorem queue_order_preserved (N : Nat) (s : Machine) (q sch : List Nat) (x y : Nat)
    (hL : Lists N s q sch) (hcap : N ≤ 32767)
    (hs : q.Pairwise (fun a b => (s.task a).priority ≥ (s.task b).priority)) :
    (x < N → x ∉ q → x ∉ sch → (s.task x).priority ≠ TASK_DONE →
      ∃ s', QueueTask N (x : Int) s = .ok s' ∧
        (∀ a, a ∈ queueList N s' ↔ a = x ∨ a ∈ q) ∧
        (queueList N s').Pairwise
          (fun a b => (s'.task a).priority ≥ (s'.task b).priority)) ∧
    (y ∈ q → ∃ s', UnQueueTask N (y : Int) s = .ok s' ∧
        (∀ a, a ∈ queueList N s' ↔ a ∈ q ∧ a ≠ y) ∧
        (queueList N s').Pairwise
          (fun a b => (s'.task a).priority ≥ (s'.task b).priority)) ∧
    (∃ s', tickRun N s = .ok s' ∧ queueList N s' = q.tail ∧
        (queueList N s').Pairwise
          (fun a b => (s'.task a).priority ≥ (s'.task b).priority)) ∧
    (∃ s', promote N (N + 1) s = .ok s' ∧
        (∀ a, a ∈ queueList N s' ↔
          a ∈ q ∨ a ∈ sch ∧ a ∉ scheduleList N s') ∧
        (queueList N s').Pairwise
          (fun a b => (s'.task a).priority ≥ (s'.task b).priority)) := by
  have hD : q.Pairwise (NotAbove s q) := by
    refine hs.imp ?_
    intro a b h _
    exact h
  refine ⟨?_, ?_, ?_, ?_⟩
  · intro hx hxq hxs hu
    obtain ⟨s', q', e, L', hm, -, hd, -, hp⟩ :=
      QueueTask_notAbove N s q sch x q hL hx hxq hxs hu hcap hD
    refine ⟨s', e, ?_, ?_⟩
    · rw [L'.queue.queueList_eq]; exact hm
    · rw [L'.queue.queueList_eq]
      refine hp.imp_of_mem ?_
      intro a b ha _ hab
      have h1 : (s'.task a).priority = (s.task a).priority := (hd a).2.2.2.1
      have h2 : (s'.task b).priority = (s.task b).priority := (hd b).2.2.2.1
      rw [h1, h2]
      have : a ∈ x :: q := by
        rcases (hm a).1 ha with h | h
        · rw [h]; exact List.mem_cons_self _ _
        · exact List.mem_cons_of_mem _ h
      exact hab this
  · intro hy
    obtain ⟨A, B, hq⟩ := List.append_of_mem hy
    subst hq
    obtain ⟨s', e, l', -, -, -, -, -, hd, -⟩ :=
      UnQueueTask_spec N s A B y hL.queue (hL.used y (Or.inl hy)) hcap
    have hnd := hL.queue.nodup
    have hne : ∀ a, a ∈ A ++ B → a ≠ y := by
      intro a ha e
      subst e
      rw [List.nodup_append] at hnd
      obtain ⟨-, h2, h3⟩ := hnd
      rcases List.mem_append.1 ha with h | h
      · exact h3 h (List.mem_cons_self _ _)
      · exact (List.nodup_cons.1 h2).1 h
    refine ⟨s', e, ?_, ?_⟩
    · rw [l'.queueList_eq]
      intro a
      constructor
      · intro ha
        refine ⟨?_, hne a ha⟩
        rcases List.mem_append.1 ha with h | h
        · exact List.mem_append_left _ h
        · exact List.mem_append_right _ (List.mem_cons_of_mem _ h)
      · rintro ⟨ha, hay⟩
        rcases List.mem_append.1 ha with h | h
        · exact List.mem_append_left _ h
        · rcases List.mem_cons.1 h with h | h
          · exact absurd h hay
          · exact List.mem_append_right _ h
    · rw [l'.queueList_eq]
      have hsub : List.Sublist (A ++ B) (A ++ y :: B) :=
        List.Sublist.append_left (List.sublist_cons_self y B) A
      refine (hs.sublist hsub).imp_of_mem ?_
      intro a b ha hb hab
      have h1 : (s'.task a).priority = (s.task a).priority := (hd a (hne a ha)).2.2.2.1
      have h2 : (s'.task b).priority = (s.task b).priority := (hd b (hne b hb)).2.2.2.1
      rw [h1, h2]; exact hab
  · obtain ⟨s', sch', e, L', -, -, -, -, hi, -⟩ := tickRun_spec N s q sch hL hcap
    refine ⟨s', e, L'.queue.queueList_eq, ?_⟩
    rw [L'.queue.queueList_eq]
    have hne : ∀ a, a ∈ q.tail → q.head? ≠ some a := by
      intro a ha
      cases q with
      | nil => simp
      | cons h r =>
        intro e
        have : h = a := by simpa using e
        subst this
        exact (List.nodup_cons.1 hL.queue.nodup).1 ha
    refine (hs.sublist (List.tail_sublist q)).imp_of_mem ?_
    intro a b ha hb hab
    have h1 : (s'.task a).priority = (s.task a).priority := (hi a (hne a ha)).2.2.2.1
    have h2 : (s'.task b).priority = (s.task b).priority := (hi b (hne b hb)).2.2.2.1
    rw [h1, h2]; exact hab
  · have hlen := nodup_length_le N sch hL.sched.nodup hL.sched.lt
    obtain ⟨s', q', P, sch', e, L', hsp, -, hp, hm, hd, -⟩ :=
      promote_order N hcap sch s q (N + 1) q hL (by omega) hD
    refine ⟨s', e, ?_, ?_⟩
    · rw [L'.queue.queueList_eq, L'.sched.scheduleList_eq]
      intro a
      rw [hm a]
      have hnd := hL.sched.nodup
      rw [hsp, List.nodup_append] at hnd
      constructor
      · rintro (h | h)
        · exact Or.inl h
        · exact Or.inr ⟨by rw [hsp]; exact List.mem_append_left _ h, fun h' => hnd.2.2 h h'⟩
      · rintro (h | ⟨h, h'⟩)
        · exact Or.inl h
        · rw [hsp] at h
          rcases List.mem_append.1 h with g | g
          · exact Or.inr g
          · exact absurd g h'
    · rw [L'.queue.queueList_eq]
      refine hp.imp_of_mem ?_
      intro a b ha _ hab
      have h1 : (s'.task a).priority = (s.task a).priority := (hd a).2.2.2.1
      have h2 : (s'.task b).priority = (s.task b).priority := (hd b).2.2.2.1
      rw [h1, h2]
      have : a ∈ P ++ q := by
        rcases (hm a).1 ha with h | h
        · exact List.mem_append_right _ h
        · exact List.mem_append_left _ h
      exact hab this

/-- Witness of `queue_order_preserved`: the pool of four slots, whose Ready
Queue holds priorities 5 and 3, with slot 3 (priority 4) inserted and the head
removed. -/
theorem queue_order_preserved_witness :
    (∃ s', QueueTask 4 ((3 : Nat) : Int) smallPool = .ok s' ∧
        (∀ a, a ∈ queueList 4 s' ↔ a = 3 ∨ a ∈ [0, 1]) ∧
        (queueList 4 s').Pairwise
          (fun a b => (s'.task a).priority ≥ (s'.task b).priority)) ∧
    (∃ s', UnQueueTask 4 ((0 : Nat) : Int) smallPool = .ok s' ∧
        (∀ a, a ∈ queueList 4 s' ↔ a ∈ [0, 1] ∧ a ≠ 0) ∧
        (queueList 4 s').Pairwise
          (fun a b => (s'.task a).priority ≥ (s'.task b).priority)) ∧
    (∃ s', tickRun 4 smallPool = .ok s' ∧ queueList 4 s' = [1] ∧
        (queueList 4 s').Pairwise
          (fun a b => (s'.task a).priority ≥ (s'.task b).priority)) ∧
    (∃ s', promote 4 5 smallPool = .ok s' ∧
        (∀ a, a ∈ queueList 4 s' ↔ a ∈ [0, 1] ∨ a ∈ [2] ∧ a ∉ scheduleList 4 s') ∧
        (queueList 4 s').Pairwise
          (fun a b => (s'.task a).priority ≥ (s'.task b).priority)) :=
  have h := queue_order_preserved 4 smallPool [0, 1] [2] 3 0 smallPool_lists (by decide)
    (by decide)
  ⟨h.1 (by decide) (by decide) (by decide) (by decide), h.2.1 (by decide), h.2.2.1, h.2.2.2⟩

/-! ## A counted periodic task alone in the pool -/

theorem wrap16_ne_done (p0 b bmax : Int) (h0 : 0 ≤ p0) (hb0 : 0 ≤ b) (hb : b ≤ bmax)
    (hmax : p0 + bmax < 65535) : wrap16 (p0 + b) ≠ TASK_DONE := by
  unfold wrap16 TASK_DONE; omega

theorem Solo.used {N x fn P : Nat} {c p0 bmax : Int} {s : Machine} {q sch : List Nat}
    (h : Solo N x fn P c p0 bmax s q sch) (h0 : 0 ≤ p0) (hmax : p0 + bmax < 65535) :
    (s.task x).priority ≠ TASK_DONE := by
  obtain ⟨b, hb0, hb, e⟩ := h.raised
  rw [e]
  exact wrap16_ne_done p0 b bmax h0 hb0 hb hmax

end TaskFx
